import Mathlib

/-!
# CITRUS (cxxfoozz): a shallow embedding of the type model, the statement IR,
the sequence generator, the mutator and the feedback loop

Conventions of the embedding.

* `std::shared_ptr<T>` identity.  Interned objects (the primitive and container
  descriptors, `ClassType`, `EnumType`, `TemplateTypenameSpcType`) are
  represented structurally: two pointers are equal exactly when the values are
  equal.  Objects that are allocated afresh (`TemplateTypenameType`, every
  `Statement`) carry their address.
* `std::multiset<Modifier>` is the sorted list of its elements.
* The process-wide `Random` singleton is a stream of raw draws together with a
  read position; every library distribution consumes one raw draw.
* A failed `assert`, a dereferenced null pointer and an out-of-range index make
  the function return `none` (or `Except.error`).
-/

namespace cxxfoozz

/-! ## type.hpp -/

inductive TypeVariant
  | kPrimitive | kClass | kEnum | kTemplateTypename | kTemplateTypenameSpc | kSTL
  deriving DecidableEq, Repr

inductive PrimitiveTypeVariant
  | kVoid | kBoolean | kShort | kCharacter | kInteger | kLong | kLongLong
  | kFloat | kDouble | kWideCharacter | kNullptrType
  deriving DecidableEq, Repr

inductive STLTypeVariant
  | kRegContainer | kRegContainerWithSize | kKeyValueContainer | kPair | kTuple
  | kSmartPointer | kString
  deriving DecidableEq, Repr

/-- The static `STLType` descriptors of type.cpp. -/
inductive STLType
  | kVector | kDeque | kForwardList | kList | kStack | kQueue | kPriorityQueue
  | kSet | kMultiset | kUnorderedSet | kUnorderedMultiset
  | kMap | kMultimap | kUnorderedMap | kUnorderedMultimap
  | kArray | kPair | kTuple | kSharedPtr | kUniquePtr | kBasicString
  deriving DecidableEq, Repr

inductive Modifier
  | kConst | kConstOnPointer | kUnsigned | kPointer | kArray | kReference | kRValueReference
  deriving DecidableEq, Repr

inductive TemplateTypeParamVariant
  | kTypeParam | kNonTypeParam
  deriving DecidableEq, Repr

structure TemplateTypeParam where
  name_ : String
  pos_ : Int
  variant_ : TemplateTypeParamVariant
  deriving DecidableEq, Repr

inductive ClassTypeModelVariant
  | kClass | kStruct
  deriving DecidableEq, Repr

/-- The fields of `ClassTypeModel` read by the generator (the clang handles and
the field descriptors are left out). -/
structure ClassTypeModel where
  name_ : String
  qualified_name_ : String
  template_param_list_ : List TemplateTypeParam
  variant_ : ClassTypeModelVariant
  has_public_cctor_ : Bool
  has_class_template_decl_ : Bool
  deriving DecidableEq, Repr

structure EnumTypeModel where
  name_ : String
  qualified_name_ : String
  variants_ : List String
  deriving DecidableEq, Repr

mutual
/-- The object behind a `std::shared_ptr<Type>`. -/
inductive CxxType
  | primitive (v : PrimitiveTypeVariant)
  | cls (model_ : ClassTypeModel)
  | enum (model_ : EnumTypeModel)
  | templateTypename (addr : Nat) (name_ : String)
  | templateTypenameSpc (target_type_ : CxxType) (inst_list_ : InstList)
  | stl (t : STLType)
/-- The vector inside a `TemplateTypeInstList`. -/
inductive InstList
  | nil
  | cons (head : TemplateTypeInstantiation) (tail : InstList)
/-- The three shapes built by `ForType`, `ForIntegral` and `ForNullptr`; the
type of a `ForType` instantiation is never bottom (asserted by `From`). -/
inductive TemplateTypeInstantiation
  | ForType (type_ : CxxType) (modifiers_ : List Modifier)
  | ForIntegral (integral_ : Int)
  | ForNullptr
end

deriving instance DecidableEq for CxxType, InstList, TemplateTypeInstantiation
deriving instance Repr for CxxType, InstList, TemplateTypeInstantiation

/-- A `TypeWithModifier`; `type_ = none` is the null pointer, which only
`Bottom()` stores, so `bottom_type_` is the absence of the type. -/
structure TypeWithModifier where
  type_ : Option CxxType
  modifiers_ : List Modifier
  deriving DecidableEq, Repr

def Modifier.rank : Modifier → Nat
  | .kConst => 0
  | .kConstOnPointer => 1
  | .kUnsigned => 2
  | .kPointer => 3
  | .kArray => 4
  | .kReference => 5
  | .kRValueReference => 6

/-- The method std::multiset::insert on the sorted representation. -/
def multisetInsert (m : Modifier) : List Modifier → List Modifier
  | [] => [m]
  | x :: xs => if m.rank < x.rank then m :: x :: xs else x :: multisetInsert m xs

/-- A multiset built from an initializer list. -/
def multisetOf (l : List Modifier) : List Modifier :=
  l.foldl (fun acc m => multisetInsert m acc) []

def InstList.toList : InstList → List TemplateTypeInstantiation
  | .nil => []
  | .cons h t => h :: t.toList

def InstList.ofList : List TemplateTypeInstantiation → InstList
  | [] => .nil
  | h :: t => .cons h (InstList.ofList t)

def PrimitiveTypeVariant.name : PrimitiveTypeVariant → String
  | .kVoid => "void"
  | .kBoolean => "bool"
  | .kShort => "short"
  | .kCharacter => "char"
  | .kWideCharacter => "wchar_t"
  | .kInteger => "int"
  | .kLong => "long"
  | .kLongLong => "long long"
  | .kFloat => "float"
  | .kDouble => "double"
  | .kNullptrType => "std::nullptr_t"

def STLType.GetName : STLType → String
  | .kVector => "std::vector"
  | .kDeque => "std::deque"
  | .kForwardList => "std::forward_list"
  | .kList => "std::list"
  | .kStack => "std::stack"
  | .kQueue => "std::queue"
  | .kPriorityQueue => "std::priority_queue"
  | .kSet => "std::set"
  | .kMultiset => "std::multiset"
  | .kUnorderedSet => "std::unordered_set"
  | .kUnorderedMultiset => "std::unordered_multiset"
  | .kMap => "std::map"
  | .kMultimap => "std::multimap"
  | .kUnorderedMap => "std::unordered_map"
  | .kUnorderedMultimap => "std::unordered_multimap"
  | .kArray => "std::array"
  | .kPair => "std::pair"
  | .kTuple => "std::tuple"
  | .kSharedPtr => "std::shared_ptr"
  | .kUniquePtr => "std::unique_ptr"
  | .kBasicString => "std::basic_string"

def STLType.GetSTLTypeVariant : STLType → STLTypeVariant
  | .kVector | .kDeque | .kForwardList | .kList | .kStack | .kQueue | .kPriorityQueue
  | .kSet | .kMultiset | .kUnorderedSet | .kUnorderedMultiset => .kRegContainer
  | .kMap | .kMultimap | .kUnorderedMap | .kUnorderedMultimap => .kKeyValueContainer
  | .kArray => .kRegContainerWithSize
  | .kPair => .kPair
  | .kTuple => .kTuple
  | .kSharedPtr | .kUniquePtr => .kSmartPointer
  | .kBasicString => .kString

def CxxType.GetVariant : CxxType → TypeVariant
  | .primitive _ => .kPrimitive
  | .cls _ => .kClass
  | .enum _ => .kEnum
  | .templateTypename _ _ => .kTemplateTypename
  | .templateTypenameSpc _ _ => .kTemplateTypenameSpc
  | .stl _ => .kSTL

/-- The name of a type, `Type::GetName`: a `TemplateTypenameSpcType` takes the name of its target. -/
def CxxType.GetName : CxxType → String
  | .primitive v => v.name
  | .cls m => m.qualified_name_
  | .enum m => m.qualified_name_
  | .templateTypename _ n => n
  | .templateTypenameSpc t _ => t.GetName
  | .stl t => t.GetName

namespace TypeWithModifier

def Bottom : TypeWithModifier := ⟨none, []⟩

def IsBottomType (t : TypeWithModifier) : Bool := t.type_.isNone

def IsConst (t : TypeWithModifier) : Bool := decide (t.modifiers_.count Modifier.kConst > 0)
def IsUnsigned (t : TypeWithModifier) : Bool := decide (t.modifiers_.count Modifier.kUnsigned > 0)
def IsPointer (t : TypeWithModifier) : Bool := decide (t.modifiers_.count Modifier.kPointer > 0)
def IsArray (t : TypeWithModifier) : Bool := decide (t.modifiers_.count Modifier.kArray > 0)
def IsReference (t : TypeWithModifier) : Bool := decide (t.modifiers_.count Modifier.kReference > 0)
def IsRValueReference (t : TypeWithModifier) : Bool :=
  decide (t.modifiers_.count Modifier.kRValueReference > 0)
def IsPointerOrArray (t : TypeWithModifier) : Bool := t.IsPointer || t.IsArray
def IsConstOnPointer (t : TypeWithModifier) : Bool :=
  decide (t.modifiers_.count Modifier.kConstOnPointer = 1)

/-- The comparison `type_ == PrimitiveType::kVoid && IsPointer()`; comparing a null `type_` is defined. -/
def IsVoidPtr (t : TypeWithModifier) : Bool :=
  decide (t.type_ = some (.primitive .kVoid)) && t.IsPointer

def StripAllModifiers (t : TypeWithModifier) : TypeWithModifier := ⟨t.type_, []⟩

def StripParticularModifiers (t : TypeWithModifier) (mods : List Modifier) : TypeWithModifier :=
  ⟨t.type_, t.modifiers_.filter (fun m => mods.count m = 0)⟩

end TypeWithModifier

def AllowMultimods : Modifier → Bool
  | .kConst | .kConstOnPointer | .kUnsigned | .kRValueReference | .kReference => false
  | .kPointer | .kArray => true

def TypeWithModifier.WithAdditionalModifiers (t : TypeWithModifier) (mods : List Modifier) :
    TypeWithModifier :=
  ⟨t.type_, (multisetOf mods).foldl
      (fun new_mods item =>
        if AllowMultimods item then multisetInsert item new_mods
        else if new_mods.count item = 0 then multisetInsert item new_mods
        else new_mods)
      t.modifiers_⟩

/-! ## random.hpp -/

/-- The `Random` singleton: the raw outcomes of the engine and the number of
draws consumed so far.  Reseeding after `kMaxUses` draws only changes which
raw outcomes follow, so it is part of the stream. -/
structure Random where
  draws : Nat → Nat
  pos : Nat

namespace Random

def raw (r : Random) : Nat := r.draws r.pos
def advance (r : Random) : Random := ⟨r.draws, r.pos + 1⟩

/-- The call `NextInt(bound)`: `assert(bound > 0)`, then uniform over `[0, bound - 1]`. -/
def NextInt (r : Random) (bound : Int) : Option (Int × Random) :=
  if bound > 0 then some (((r.raw : Int) % bound), r.advance) else none

/-- The call `NextInt(start, exclusiveMax)`. -/
def NextIntRange (r : Random) (start exclusiveMax : Int) : Option (Int × Random) :=
  if exclusiveMax > start then some (start + ((r.raw : Int) % (exclusiveMax - start)), r.advance)
  else none

def NextBoolean (r : Random) : Bool × Random := (decide (r.raw % 2 = 1), r.advance)

/-- The call `NextGaussian()`, a uniform real of `[0, 1)`, in thousandths: the
callers only compare it with the thresholds 0.02 and 0.1. -/
def NextGaussian (r : Random) : Nat × Random := (r.raw % 1000, r.advance)

end Random

/-! ## Template type context (type.hpp) -/

/-- A value stored in a template context.  Every writer of the map
(`CreateTemplateTypeContext`, the default resolver, the instantiation types that
`TemplateTypenameSpcType::From` asserts to be non-bottom) stores a type that is
not bottom, so the stored values carry a type. -/
structure BoundType where
  type_ : CxxType
  modifiers_ : List Modifier
  deriving DecidableEq, Repr

def BoundType.toTWM (b : BoundType) : TypeWithModifier := ⟨some b.type_, b.modifiers_⟩

/-- The map `inst_mapping_` of `TemplateTypeInstMapping`; `TemplateTypeContext` only wraps it. -/
structure TemplateTypeContext where
  inst_mapping_ : List (String × BoundType)
  deriving DecidableEq, Repr

namespace TemplateTypeContext

def New : TemplateTypeContext := ⟨[]⟩

def find (c : TemplateTypeContext) (name : String) : Option BoundType :=
  (c.inst_mapping_.find? (fun kv => kv.1 == name)).map Prod.snd

/-- The member `std::map::emplace`: no effect when the key is present. -/
def emplace (c : TemplateTypeContext) (name : String) (t : BoundType) : TemplateTypeContext :=
  match c.find name with
  | some _ => c
  | none => ⟨c.inst_mapping_ ++ [(name, t)]⟩

def Bind (c : TemplateTypeContext) (ttp : TemplateTypeParam) (t : BoundType) :
    TemplateTypeContext :=
  c.emplace ttp.name_ t

end TemplateTypeContext

/-- The resolver `DefaultTTResolverForType`: a fair coin between `int` and `double`. -/
def DefaultTTResolverForType (r : Random) : BoundType × Random :=
  let (should_int, r1) := r.NextBoolean
  (⟨.primitive (if should_int then .kInteger else .kDouble), []⟩, r1)

/-- The method `TemplateTypeContext::LookupOrResolve` with the hard-coded default resolver. -/
def TemplateTypeContext.LookupOrResolve (c : TemplateTypeContext) (template_typename : String)
    (r : Random) : TypeWithModifier × TemplateTypeContext × Random :=
  match c.find template_typename with
  | none =>
    let (resolved_type, r1) := DefaultTTResolverForType r
    (resolved_type.toTWM, c.emplace template_typename resolved_type, r1)
  | some t => (t.toTWM, c, r)

/-- The method `TypeWithModifier::ResolveTemplateType`; `none` when a null `type_` is dereferenced. -/
def TypeWithModifier.ResolveTemplateType (t : TypeWithModifier) (tt_ctx : TemplateTypeContext)
    (r : Random) : Option (TypeWithModifier × TemplateTypeContext × Random) :=
  match t.type_ with
  | none => none
  | some ty =>
    if ty.GetVariant = .kTemplateTypename then
      let (resolved_twm, c1, r1) := tt_ctx.LookupOrResolve ty.GetName r
      some (resolved_twm.WithAdditionalModifiers t.modifiers_, c1, r1)
    else some (t, tt_ctx, r)

/-! ## Inheritance model (model.hpp) -/

/-- The maps `parent_classes_` and `subclasses_` (the memo of `LookupSubClasses`). -/
structure InheritanceTreeModel where
  parent_classes_ : List (ClassTypeModel × List ClassTypeModel)
  subclasses_ : List (ClassTypeModel × List ClassTypeModel)
  deriving DecidableEq, Repr

namespace InheritanceTreeModel

def LookupBaseClasses (itm : InheritanceTreeModel) (tgt : ClassTypeModel) : List ClassTypeModel :=
  match itm.parent_classes_.find? (fun kv => kv.1 == tgt) with
  | none => []
  | some kv => kv.2

/-- The method `LookupSubClasses`: the memo entry when there is one, else the
children whose parent set contains `tgt`, which are then memoised. -/
def LookupSubClasses (itm : InheritanceTreeModel) (tgt : ClassTypeModel) :
    List ClassTypeModel × InheritanceTreeModel :=
  match itm.subclasses_.find? (fun kv => kv.1 == tgt) with
  | none =>
    let subclasses := (itm.parent_classes_.filter (fun kv => kv.2.count tgt > 0)).map Prod.fst
    (subclasses, { itm with subclasses_ := itm.subclasses_ ++ [(tgt, subclasses)] })
  | some kv => (kv.2, itm)

end InheritanceTreeModel

/-- The free function `IsSubclassOf` of type.cpp on two `ClassType` objects. -/
def IsSubclassOf (parent_cls candidate_subclass_cls : ClassTypeModel)
    (itm : Option InheritanceTreeModel) : Bool × Option InheritanceTreeModel :=
  if parent_cls = candidate_subclass_cls then (true, itm)
  else match itm with
    | some i =>
      let (subclasses, i1) := i.LookupSubClasses parent_cls
      if subclasses.count candidate_subclass_cls > 0 then (true, some i1) else (false, some i1)
    | none => (false, none)

namespace TypeWithModifier

/-- The predicates `IsPrimitiveType`, `IsClassType`, ... on a non-null `type_`. -/
def variantIs (t : TypeWithModifier) (v : TypeVariant) : Option Bool :=
  t.type_.map (fun ty => decide (ty.GetVariant = v))

end TypeWithModifier

/-- What `IsAssignableFrom` returns and leaves behind: the verdict, the template
context (unbound parameters are bound by the lookup), the random source and
the inheritance model (its memo). -/
structure AssignResult where
  value : Bool
  tt_ctx : TemplateTypeContext
  random : Random
  itm : Option InheritanceTreeModel

/-- The method `TypeWithModifier::IsAssignableFrom` (`self` is the sink, `other`
the source); `none` when a null `type_` is dereferenced. -/
def TypeWithModifier.IsAssignableFrom (self other : TypeWithModifier)
    (tt_ctx : TemplateTypeContext) (r : Random) (itm : Option InheritanceTreeModel) :
    Option AssignResult :=
  match self.ResolveTemplateType tt_ctx r with
  | none => none
  | some (sink_twm, c1, r1) =>
  match other.ResolveTemplateType c1 r1 with
  | none => none
  | some (src_twm, c2, r2) =>
  match sink_twm.type_, src_twm.type_, self.type_, other.type_ with
  | some sink_type, some src_type, some self_type, some other_type =>
    let is_both_primitives :=
      decide (sink_type.GetVariant = .kPrimitive) && decide (src_type.GetVariant = .kPrimitive)
    let is_copy_value := !sink_twm.IsReference && !sink_twm.IsPointerOrArray
    if !is_both_primitives && decide (src_type = sink_type) then
      let sink_const := sink_twm.IsConst
      let src_const := src_twm.IsConst
      if sink_const && src_const then some ⟨true, c2, r2, itm⟩
      else if !sink_const && src_const && !is_copy_value then some ⟨false, c2, r2, itm⟩
      else some ⟨true, c2, r2, itm⟩
    else
      -- class / class
      let step1 : Bool × Option InheritanceTreeModel :=
        match self_type, other_type with
        | .cls sink_cls, .cls src_cls => IsSubclassOf sink_cls src_cls itm
        | _, _ => (false, itm)
      if step1.1 then some ⟨true, c2, r2, step1.2⟩
      else
        -- class / template specialisation, or two template specialisations
        let step2 : Bool × Option InheritanceTreeModel :=
          match self_type, other_type with
          | .cls sink_cls, .templateTypenameSpc target_type _ =>
            (match target_type with
             | .cls src_cls => IsSubclassOf sink_cls src_cls step1.2
             | _ => (false, step1.2))
          | .templateTypenameSpc sink_target _, .templateTypenameSpc src_target _ =>
            (decide (sink_target.GetName = src_target.GetName), step1.2)
          | _, _ => (false, step1.2)
        if step2.1 then some ⟨true, c2, r2, step2.2⟩
        else if is_both_primitives then
          if sink_type = src_type then
            let both_unsigned := sink_twm.IsUnsigned == src_twm.IsUnsigned
            if both_unsigned then
              if sink_twm.IsConst && !src_twm.IsConst then some ⟨true, c2, r2, step2.2⟩
              else some ⟨sink_twm.IsConst == src_twm.IsConst, c2, r2, step2.2⟩
            else some ⟨false, c2, r2, step2.2⟩
          else
            let one_is_void_ptr := sink_twm.IsVoidPtr || src_twm.IsVoidPtr
            if one_is_void_ptr then some ⟨true, c2, r2, step2.2⟩
            else some ⟨false, c2, r2, step2.2⟩
        else some ⟨false, c2, r2, step2.2⟩
  | _, _, _, _ => none

/-! ## model.hpp -/

def ClassTypeModel.IsTemplatedClass (m : ClassTypeModel) : Bool :=
  m.has_class_template_decl_ && !m.template_param_list_.isEmpty

inductive ExecutableVariant
  | kMethod | kConstructor
  deriving DecidableEq, Repr

inductive CreatorVariant
  | kConstructor | kStaticFactory | kMethodWithReferenceArg
  deriving DecidableEq, Repr

/-- A `clang::QualType`: its identity for clang and the value that
`TypeWithModifier::FromSpec(TWMSpec::ByClangType(q, _))` computes from it (the
translation reads the clang AST, which is outside the repository). -/
structure QualType where
  id : Nat
  twm : TypeWithModifier
  deriving DecidableEq, Repr

/-- The call `TypeWithModifier::FromSpec(TWMSpec::ByClangType(q, tt_ctx))`. -/
def TypeWithModifier.FromSpecByClangType (q : QualType) : TypeWithModifier := q.twm

/-- The call `TypeWithModifier::FromSpec(TWMSpec::ByType(t, tt_ctx))` without additional modifiers. -/
def TypeWithModifier.FromSpecByType (t : CxxType) : TypeWithModifier := ⟨some t, []⟩

/-- An `Executable`; for a `Creator` the two extra fields are present. -/
structure Executable where
  name_ : String
  qualified_name_ : String
  executable_variant_ : ExecutableVariant
  owner_ : Option ClassTypeModel
  return_type_ : Option QualType
  arguments_ : List QualType
  is_creator_ : Bool
  is_not_require_invoking_obj_ : Bool
  template_param_list_ : List TemplateTypeParam
  is_conversion_decl_ : Bool
  excluded_ : Bool
  mangled_name_ : String
  deriving DecidableEq, Repr

structure Creator extends Executable where
  creator_variant_ : CreatorVariant
  target_class_ : ClassTypeModel
  deriving DecidableEq, Repr

/-- The `ProgramContext` tables together with the intern table `ClassType::kGlobalClassTypes`. -/
structure ProgramContext where
  executables_ : List Executable
  creators_ : List Creator
  enum_type_models_ : List EnumTypeModel
  kGlobalClassTypes : List (String × ClassTypeModel)

/-- The lookup `ClassType::GetTypeByQualName`, whose `assert` fails for an unknown name. -/
def ProgramContext.GetTypeByQualName (p : ProgramContext) (qual_name : String) :
    Option ClassTypeModel :=
  (p.kGlobalClassTypes.find? (fun kv => kv.1 == qual_name)).map Prod.snd

/-! ## statement.hpp -/

inductive StatementVariant
  | kPrimitiveAssignment | kCall | kSTLConstruction | kArrayInitialization
  deriving DecidableEq, Repr

inductive OperandType
  | kConstantOperand | kRefOperand
  deriving DecidableEq, Repr

/-- An `Operand`; `ref_` is the address of the statement it points to (`none` is the null pointer). -/
structure Operand where
  type_ : TypeWithModifier
  ref_ : Option Nat
  constant_literal_ : Option String
  deriving DecidableEq, Repr

inductive GeneralPrimitiveOp
  | kNop | kAdd | kSub | kMul | kDiv | kMod | kMinus
  deriving DecidableEq, Repr

inductive OpArity
  | kUnary | kBinary
  deriving DecidableEq, Repr

structure STLElement where
  reg_container_elmts_ : Option (List Operand)
  key_value_elmts_ : Option (List (Operand × Operand))
  deriving DecidableEq, Repr

/-- The members that the four subclasses of `Statement` add. -/
inductive StatementBody
  | PrimitiveAssignmentStatement (op_ : GeneralPrimitiveOp) (operands_ : List Operand)
  | CallStatement (target_ : Executable) (operands_ : List Operand)
      (invoking_obj_ : Option Operand) (template_type_context_ : TemplateTypeContext)
  | STLStatement (target_ : STLType) (elements_ : STLElement)
  | ArrayInitStatement (capacity_ : Option Int) (string_literal_ : Option Operand)
      (elements_ : Option (List Operand))
  deriving DecidableEq, Repr

/-- A `Statement` object at address `addr`. -/
structure Statement where
  addr : Nat
  type_ : TypeWithModifier
  var_name_ : Option String
  body : StatementBody
  deriving DecidableEq, Repr

namespace Operand

def MakeRefOperand (ref : Statement) : Operand := ⟨ref.type_, some ref.addr, none⟩
def MakeConstantOperand (type : TypeWithModifier) (literal : String) : Operand :=
  ⟨type, none, some literal⟩
def MakeBottom : Operand := ⟨TypeWithModifier.Bottom, none, none⟩

def GetOperandType (o : Operand) : OperandType :=
  if o.ref_ = none then .kConstantOperand else .kRefOperand

def IsNullPtr (o : Operand) : Bool :=
  decide (o.GetOperandType = .kConstantOperand) && o.type_.IsPointer
    && decide (o.constant_literal_.getD "" = "nullptr")

end Operand

def GetPrimitiveOperatorArity (op : GeneralPrimitiveOp) : OpArity :=
  if op = .kNop ∨ op = .kMinus then .kUnary else .kBinary

namespace Statement

/-- The constructor `Statement::Statement`, which asserts that the type is not a
template parameter (and dereferences the type for it). -/
def make (addr : Nat) (type : TypeWithModifier) (body : StatementBody) : Option Statement :=
  match type.type_ with
  | none => none
  | some ty => if ty.GetVariant = .kTemplateTypename then none else some ⟨addr, type, none, body⟩

def GetVariant (s : Statement) : StatementVariant :=
  match s.body with
  | .PrimitiveAssignmentStatement _ _ => .kPrimitiveAssignment
  | .CallStatement _ _ _ _ => .kCall
  | .STLStatement _ _ => .kSTLConstruction
  | .ArrayInitStatement _ _ _ => .kArrayInitialization

/-- The virtual `GetStatementOperands` of the four subclasses. -/
def GetStatementOperands (s : Statement) : List Operand :=
  match s.body with
  | .PrimitiveAssignmentStatement _ operands => operands
  | .CallStatement _ operands invoking_obj _ =>
    operands ++ (match invoking_obj with | some o => [o] | none => [])
  | .STLStatement _ elements =>
    (match elements.reg_container_elmts_ with | some ops => ops | none => [])
      ++ (match elements.key_value_elmts_ with
          | some kvs => kvs.flatMap (fun kv => [kv.1, kv.2])
          | none => [])
  | .ArrayInitStatement _ string_literal elements =>
    (match string_literal with | some o => [o] | none => [])
      ++ (match elements with | some ops => ops | none => [])

end Statement

/-- The factory `PrimitiveAssignmentStatement::MakeUnaryOpStatement` at a fresh address. -/
def MakeUnaryOpStatement (addr : Nat) (op : Operand) (o : GeneralPrimitiveOp) : Option Statement :=
  Statement.make addr op.type_ (.PrimitiveAssignmentStatement o [op])

def MakeBinOpStatement (addr : Nat) (op1 op2 : Operand) (o : GeneralPrimitiveOp) :
    Option Statement :=
  Statement.make addr op1.type_ (.PrimitiveAssignmentStatement o [op1, op2])

/-- The factory `ArrayInitStatement::MakeCString`. -/
def MakeCString (addr : Nat) (op : Operand) : Option Statement :=
  let twm : TypeWithModifier := ⟨some (.primitive .kCharacter), multisetOf [.kArray]⟩
  let is_unsigned := op.type_.IsUnsigned
  Statement.make addr (if is_unsigned then twm.WithAdditionalModifiers [.kUnsigned] else twm)
    (.ArrayInitStatement none (some op) none)

def MakeSTLStatement (addr : Nat) (type : TypeWithModifier) (target : STLType)
    (elements : STLElement) : Option Statement :=
  Statement.make addr type (.STLStatement target elements)

def STLElement.ForRegularContainer (operands : List Operand) : STLElement := ⟨some operands, none⟩
def STLElement.ForKeyValueContainer (operands : List (Operand × Operand)) : STLElement :=
  ⟨none, some operands⟩

/-! ## Typed samplers of random.hpp and random.cpp -/

namespace Random

def alphanum : List Char :=
  "0123456789ABCDEFGHIJKLMNOPQRSTUVWXYZabcdefghijklmnopqrstuvwxyz".toList

/-- The loop of `NextString` that appends `length` characters. -/
def nextChars : Nat → Random → List Char × Random
  | 0, r => ([], r)
  | n + 1, r =>
    let c := alphanum.getD (r.raw % 62) '0'
    let (rest, r1) := nextChars n r.advance
    (c :: rest, r1)

/-- The call `NextString()` with the default bounds 0 and 11. -/
def NextString (r : Random) : String × Random :=
  let length := r.raw % 11
  let (cs, r1) := nextChars length r.advance
  (String.mk cs, r1)

/-- The integer that the cast `(T) x` yields for an integer type of `bits` bits. -/
def castInt (is_unsigned : Bool) (bits : Nat) (x : Int) : Int :=
  if is_unsigned then x % (2 : Int) ^ bits
  else (x + (2 : Int) ^ (bits - 1)) % (2 : Int) ^ bits - (2 : Int) ^ (bits - 1)

/-- The array `special_values` of `GetSpecialValue<T>` for an integer type. -/
def specialValuesInt (is_unsigned : Bool) (bits : Nat) : List Int :=
  [ (if is_unsigned then 0 else -((2 : Int) ^ (bits - 1))),
    (if is_unsigned then (2 : Int) ^ bits - 1 else (2 : Int) ^ (bits - 1) - 1) ]
  ++ ([-5, -4, -3, -2, -1, 0, 1, 2, 3, 4, 5] : List Int).map (castInt is_unsigned bits)

/-- The template `NextIntGen<T>` for an integer type `T` of `bits` bits: the value drawn and its literal. -/
def NextIntGenValue (r : Random) (is_unsigned : Bool) (bits : Nat) : Int × Random :=
  let (gauss, r1) := r.NextGaussian
  if gauss < 20 then
    let choice := r1.raw % 13
    ((specialValuesInt is_unsigned bits).getD choice 0, r1.advance)
  else if is_unsigned then
    (((r1.raw % 256 : Nat) : Int), r1.advance)
  else
    (-128 + ((r1.raw % 256 : Nat) : Int), r1.advance)

def NextIntGen (r : Random) (is_unsigned : Bool) (bits : Nat) : String × Random :=
  let (v, r1) := NextIntGenValue r is_unsigned bits
  (toString v, r1)

/-- Six decimals of a number below one million, as `std::to_string` prints a real of `[0, 1)`. -/
def sixDigits (n : Nat) : String :=
  String.mk (List.replicate (6 - (toString n).length) '0') ++ toString n

/-- The text `std::to_string` prints for the special values of a real type:
the least positive normal value prints as zero, the largest as its integer
value, the small integers with six zero decimals. -/
def specialValuesReal (is_double : Bool) : List String :=
  [ "0.000000",
    toString (if is_double then (2 : Nat) ^ 1024 - 2 ^ 971 else (2 : Nat) ^ 128 - 2 ^ 104) ++ ".000000" ]
  ++ ([-5, -4, -3, -2, -1, 0, 1, 2, 3, 4, 5] : List Int).map (fun i => toString i ++ ".000000")

/-- The template `NextRealGen<T>`: the uniform real of `[0, 1)` is rendered from the raw draw in millionths. -/
def NextRealGen (r : Random) (is_double : Bool) : String × Random :=
  let (gauss, r1) := r.NextGaussian
  if gauss < 20 then
    let choice := r1.raw % 13
    ((specialValuesReal is_double).getD choice "0.000000", r1.advance)
  else
    ("0." ++ sixDigits (r1.raw % 1000000), r1.advance)

end Random

/-! ## mutator.cpp: OperandMutator::MutateConstantOperand -/

/-- The overload `OperandMutator::MutateConstantOperand(const TypeWithModifier &)`;
`none` when `assert(false)` is reached, `NextInt(0)` is called or a null type
is dereferenced. -/
def MutateConstantOperandOfType (type : TypeWithModifier) (r : Random) : Option (Operand × Random) :=
  match type.type_ with
  | none => none
  | some (.primitive v) =>
    let is_unsigned := decide (type.modifiers_.count Modifier.kUnsigned > 0)
    let is_ptr_or_array := type.IsPointerOrArray
    match v with
    | .kVoid | .kNullptrType =>
      some (Operand.MakeConstantOperand (type.WithAdditionalModifiers [.kPointer]) "nullptr", r)
    | .kBoolean =>
      let (next, r1) := r.NextBoolean
      some (Operand.MakeConstantOperand type (if next then "true" else "false"), r1)
    | .kShort =>
      let (next, r1) := r.NextIntGen is_unsigned 16
      some (Operand.MakeConstantOperand type next, r1)
    | .kCharacter =>
      if is_ptr_or_array then
        let (next_string, r1) := r.NextString
        some (Operand.MakeConstantOperand type next_string, r1)
      else
        let (next, r1) := r.NextIntGen is_unsigned 8
        some (Operand.MakeConstantOperand type next, r1)
    | .kInteger =>
      let (next, r1) := r.NextIntGen is_unsigned 32
      some (Operand.MakeConstantOperand type next, r1)
    | .kLong =>
      let (next, r1) := r.NextIntGen is_unsigned 64
      some (Operand.MakeConstantOperand type next, r1)
    | .kLongLong =>
      let (next, r1) := r.NextIntGen is_unsigned 64
      some (Operand.MakeConstantOperand type next, r1)
    | .kFloat =>
      let (next, r1) := r.NextRealGen false
      some (Operand.MakeConstantOperand type next, r1)
    | .kDouble =>
      let (next, r1) := r.NextRealGen true
      some (Operand.MakeConstantOperand type next, r1)
    | .kWideCharacter =>
      let (next, r1) := r.NextIntGen false 32
      some (Operand.MakeConstantOperand type next, r1)
  | some (.enum enum_tm) =>
    match r.NextInt (enum_tm.variants_.length : Int) with
    | none => none
    | some (choice, r1) =>
      let target_variant := enum_tm.variants_.getD choice.toNat ""
      some (Operand.MakeConstantOperand type (enum_tm.qualified_name_ ++ "::" ++ target_variant), r1)
  | some _ => none

/-- The overload `OperandMutator::MutateConstantOperand(const Operand &)`. -/
def MutateConstantOperand (op : Operand) (r : Random) : Option (Operand × Random) :=
  if op.GetOperandType ≠ .kConstantOperand then none
  else if op.IsNullPtr then some (op, r)
  else MutateConstantOperandOfType op.type_ r

/-! ## sequencegen.cpp -/

/-- How a call can fail to return: an `assert` or undefined behaviour, or the
recursion of the model ran out of its depth budget. -/
inductive Fault
  | abort | outOfFuel
  deriving DecidableEq, Repr

/-- The mutable process state that the generator reads and writes: the `Random`
singleton, the inheritance model of the program context (with its memo) and
the next free heap address. -/
structure GenState where
  random : Random
  inheritance_model_ : Option InheritanceTreeModel
  next_addr : Nat

/-- The instance method `IsAssignableFrom` run on the process state. -/
def assignable (sink src : TypeWithModifier) (tt_ctx : TemplateTypeContext) (st : GenState) :
    Except Fault (Bool × TemplateTypeContext × GenState) :=
  match sink.IsAssignableFrom src tt_ctx st.random st.inheritance_model_ with
  | none => .error .abort
  | some res => .ok (res.value, res.tt_ctx, { st with random := res.random, inheritance_model_ := res.itm })

/-- The method `TemplateTypeInstMapping::LookupFromTemplateTypeParamList`. -/
def LookupFromTemplateTypeParamList :
    List TemplateTypeParam → TemplateTypeContext → Random →
      List (Option TemplateTypeInstantiation) × TemplateTypeContext × Random
  | [], c, r => ([], c, r)
  | item :: rest, c, r =>
    if item.variant_ = .kTypeParam then
      let (resolved_type, c1, r1) := c.LookupOrResolve item.name_ r
      let inst := resolved_type.type_.map (fun ty => TemplateTypeInstantiation.ForType ty resolved_type.modifiers_)
      let (more, c2, r2) := LookupFromTemplateTypeParamList rest c1 r1
      (inst :: more, c2, r2)
    else
      let integral : Int := 1 + ((r.raw % 7 : Nat) : Int)
      let (more, c2, r2) := LookupFromTemplateTypeParamList rest c r.advance
      (some (TemplateTypeInstantiation.ForIntegral integral) :: more, c2, r2)

/-- The factory `TemplateTypenameSpcType::From`: the interned specialisation, or
`none` when an instantiation holds a bottom type (its `assert`). -/
def TemplateTypenameSpcType.From (target_type : CxxType)
    (inst_list : List (Option TemplateTypeInstantiation)) : Option CxxType :=
  if inst_list.all Option.isSome then
    some (.templateTypenameSpc target_type (InstList.ofList (inst_list.filterMap id)))
  else none

/-- The factory `CallStatement::MakeExecutableCall` at a fresh address.  The
statement stores a copy of the template context as it is after the lookups. -/
def MakeExecutableCall (p : ProgramContext) (addr : Nat) (target : Executable)
    (ops : List Operand) (invoking_obj : Option Operand) (tt_ctx : TemplateTypeContext)
    (r : Random) : Option (Statement × TemplateTypeContext × Random) :=
  if target.executable_variant_ = .kConstructor then
    match target.owner_ with
    | none => none
    | some owner =>
      match p.GetTypeByQualName owner.qualified_name_ with
      | none => none
      | some class_model =>
        if class_model.IsTemplatedClass then
          let (tt_inst_list, c1, r1) :=
            LookupFromTemplateTypeParamList class_model.template_param_list_ tt_ctx r
          match TemplateTypenameSpcType.From (.cls class_model) tt_inst_list with
          | none => none
          | some tt_spc_type =>
            (Statement.make addr (TypeWithModifier.FromSpecByType tt_spc_type)
              (.CallStatement target ops invoking_obj c1)).map (fun s => (s, c1, r1))
        else
          (Statement.make addr (TypeWithModifier.FromSpecByType (.cls class_model))
            (.CallStatement target ops invoking_obj tt_ctx)).map (fun s => (s, tt_ctx, r))
  else
    match target.return_type_ with
    | none => none
    | some return_type =>
      let twm := TypeWithModifier.FromSpecByClangType return_type
      match twm.type_ with
      | none => none
      | some ty =>
        let resolved : Option (TypeWithModifier × TemplateTypeContext × Random) :=
          if ty.GetVariant = .kTemplateTypename then twm.ResolveTemplateType tt_ctx r
          else some (twm, tt_ctx, r)
        match resolved with
        | none => none
        | some (resolved_twm0, c1, r1) =>
          let is_copy_value := !resolved_twm0.IsPointerOrArray && !resolved_twm0.IsReference
          let resolved_twm :=
            if is_copy_value then resolved_twm0.StripParticularModifiers [.kConst] else resolved_twm0
          match resolved_twm.type_ with
          | none => none
          | some inner_type =>
            let final_twm :=
              match inner_type with
              | .cls ctm =>
                if !ctm.has_public_cctor_ && !resolved_twm.IsReference && !resolved_twm.IsPointer
                then resolved_twm.WithAdditionalModifiers [.kConst, .kReference]
                else resolved_twm
              | _ => resolved_twm
            (Statement.make addr final_twm (.CallStatement target ops invoking_obj c1)).map
              (fun s => (s, c1, r1))

/-- The result of one operand resolution: the operand, the statement list (the
caller's vector, appended to in place), the caller's template context and the
process state. -/
structure Resolved where
  operand : Operand
  statements : List Statement
  tt_ctx : TemplateTypeContext
  state : GenState

/-- The signature of `OperandResolver::ResolveOperand` on the fields of a `ResolveOperandSpec`. -/
abbrev Resolver :=
  TypeWithModifier → List Statement → TemplateTypeContext → Bool → GenState → Except Fault Resolved

/-- The loop of `OperandResolver::GetAssignableStatements`; `op_stmt_ctx` is the
statement at which the scan stops (`none` is the null pointer). -/
def GetAssignableStatements (target_type : TypeWithModifier) (op_stmt_ctx : Option Nat) :
    List Statement → TemplateTypeContext → GenState →
      Except Fault (List Statement × TemplateTypeContext × GenState)
  | [], c, st => .ok ([], c, st)
  | stmt :: rest, c, st =>
    if op_stmt_ctx = some stmt.addr then .ok ([], c, st)
    else
      match assignable target_type stmt.type_ c st with
      | .error e => .error e
      | .ok (is_assignable, c1, st1) =>
        match GetAssignableStatements target_type op_stmt_ctx rest c1 st1 with
        | .error e => .error e
        | .ok (more, c2, st2) => .ok (if is_assignable then stmt :: more else more, c2, st2)

/-- The method `OperandResolver::ResolveUsingAssignableStatements`. -/
def ResolveUsingAssignableStatements (target_type : TypeWithModifier)
    (statements : List Statement) (tt_ctx : TemplateTypeContext) (st : GenState) :
    Except Fault (Option Operand × TemplateTypeContext × GenState) :=
  match GetAssignableStatements target_type none statements tt_ctx st with
  | .error e => .error e
  | .ok (assignable_stmts, c1, st1) =>
    match assignable_stmts with
    | [] => .ok (none, c1, st1)
    | first :: _ =>
      let choice := st1.random.raw % assignable_stmts.length
      .ok (some (Operand.MakeRefOperand (assignable_stmts.getD choice first)), c1,
        { st1 with random := st1.random.advance })

/-- Appends a freshly allocated statement and returns a reference to it. -/
def pushAndRef (mk : Nat → Option Statement) (statements : List Statement)
    (tt_ctx : TemplateTypeContext) (st : GenState) : Except Fault Resolved :=
  match mk st.next_addr with
  | none => .error .abort
  | some stmt =>
    .ok ⟨Operand.MakeRefOperand stmt, statements ++ [stmt], tt_ctx,
      { st with next_addr := st.next_addr + 1 }⟩

/-- The method `OperandResolver::ResolveOperandPrimitiveType`. -/
def ResolveOperandPrimitiveType (target_type : TypeWithModifier) (statements : List Statement)
    (tt_ctx : TemplateTypeContext) (st : GenState) : Except Fault Resolved :=
  if target_type.type_ = some (.primitive .kVoid) then
    .ok ⟨Operand.MakeConstantOperand target_type "nullptr", statements, tt_ctx, st⟩
  else
    let is_char := decide (target_type.type_ = some (.primitive .kCharacter))
    let is_ptr := target_type.IsPointer
    if is_char && is_ptr then
      let (random_string, r1) := st.random.NextString
      let const_char_twm := target_type.WithAdditionalModifiers [.kConst]
      let operand := Operand.MakeConstantOperand const_char_twm random_string
      pushAndRef (fun a => MakeCString a operand) statements tt_ctx { st with random := r1 }
    else
      let twm_no_mods := target_type.StripParticularModifiers
        [.kConst, .kConstOnPointer, .kPointer, .kArray, .kReference]
      match MutateConstantOperandOfType twm_no_mods st.random with
      | none => .error .abort
      | some (operand, r1) =>
        let is_reference := target_type.IsReference
        let is_array := target_type.IsArray
        if is_ptr || is_reference || is_array then
          pushAndRef (fun a => MakeUnaryOpStatement a operand .kNop) statements tt_ctx
            { st with random := r1 }
        else .ok ⟨operand, statements, tt_ctx, { st with random := r1 }⟩

/-- The method `OperandResolver::ResolveOperandEnumType`. -/
def ResolveOperandEnumType (type_with_modifier : TypeWithModifier) (statements : List Statement)
    (tt_ctx : TemplateTypeContext) (st : GenState) : Except Fault Resolved :=
  match type_with_modifier.type_ with
  | some (.enum _) =>
    match MutateConstantOperandOfType type_with_modifier st.random with
    | none => .error .abort
    | some (operand, r1) =>
      pushAndRef (fun a => MakeUnaryOpStatement a operand .kNop) statements tt_ctx
        { st with random := r1 }
  | _ => .error .abort

/-- Resolves one operand per required type, in order, on the growing statement list. -/
def resolveEach (resolve : Resolver) (force_avail_op : Bool) :
    List TypeWithModifier → List Statement → TemplateTypeContext → GenState →
      Except Fault (List Operand × List Statement × TemplateTypeContext × GenState)
  | [], stmts, c, st => .ok ([], stmts, c, st)
  | rq :: rest, stmts, c, st =>
    match resolve rq stmts c force_avail_op st with
    | .error e => .error e
    | .ok res =>
      match resolveEach resolve force_avail_op rest res.statements res.tt_ctx res.state with
      | .error e => .error e
      | .ok (ops, stmts2, c2, st2) => .ok (res.operand :: ops, stmts2, c2, st2)

/-- The loop of `ResolveOperandClassType` that collects the usable creators. -/
def collectTypeCreators (target_type : TypeWithModifier) (target_class_model : ClassTypeModel)
    (subclasses : List ClassTypeModel) :
    List Creator → TemplateTypeContext → GenState →
      Except Fault (List Creator × TemplateTypeContext × GenState)
  | [], c, st => .ok ([], c, st)
  | creator :: rest, c, st =>
    if creator.target_class_ = target_class_model ∨ subclasses.count creator.target_class_ > 0 then
      match creator.creator_variant_ with
      | .kConstructor =>
        match collectTypeCreators target_type target_class_model subclasses rest c st with
        | .error e => .error e
        | .ok (more, c2, st2) => .ok (creator :: more, c2, st2)
      | .kStaticFactory =>
        match creator.return_type_ with
        | none => .error .abort
        | some ret_type =>
          match assignable target_type (TypeWithModifier.FromSpecByClangType ret_type) c st with
          | .error e => .error e
          | .ok (ok, c1, st1) =>
            match collectTypeCreators target_type target_class_model subclasses rest c1 st1 with
            | .error e => .error e
            | .ok (more, c2, st2) => .ok (if ok then creator :: more else more, c2, st2)
      | .kMethodWithReferenceArg => .error .abort
    else collectTypeCreators target_type target_class_model subclasses rest c st

/-- The method `OperandResolver::ResolveOperandClassType`; `resolve` is the recursive `ResolveOperand`. -/
def ResolveOperandClassType (p : ProgramContext) (resolve : Resolver)
    (target_type : TypeWithModifier) (statements : List Statement)
    (tt_ctx : TemplateTypeContext) (force_avail_op : Bool) (st : GenState) :
    Except Fault Resolved :=
  match target_type.type_, st.inheritance_model_ with
  | some (.cls target_class_model), some itm =>
    let (subclasses, itm1) := itm.LookupSubClasses target_class_model
    let st0 := { st with inheritance_model_ := some itm1 }
    match collectTypeCreators target_type target_class_model subclasses p.creators_ tt_ctx st0 with
    | .error e => .error e
    | .ok (type_creators, c1, st1) =>
      match st1.random.NextInt (type_creators.length : Int), type_creators with
      | some (idx, r2), first :: _ =>
        let selected_creator := type_creators.getD idx.toNat first
        match resolveEach resolve force_avail_op
            (selected_creator.arguments_.map TypeWithModifier.FromSpecByClangType)
            statements c1 { st1 with random := r2 } with
        | .error e => .error e
        | .ok (operands, stmts2, c2, st2) =>
          match MakeExecutableCall p st2.next_addr selected_creator.toExecutable operands none c2
              st2.random with
          | none => .error .abort
          | some (statement, c3, r3) =>
            let result := Operand.MakeRefOperand statement
            let st3 := { st2 with random := r3, next_addr := st2.next_addr + 1 }
            match assignable target_type result.type_ c3 st3 with
            | .error e => .error e
            | .ok (is_assignable, c4, st4) =>
              if is_assignable then .ok ⟨result, stmts2 ++ [statement], c4, st4⟩
              else .error .abort
      | _, _ => .error .abort
  | _, _ => .error .abort

/-- The method `OperandResolver::ResolveOperandTemplateTypenameType`. -/
def ResolveOperandTemplateTypenameType (resolve : Resolver)
    (original_twm : TypeWithModifier) (statements : List Statement)
    (tt_ctx : TemplateTypeContext) (force_avail_op : Bool) (st : GenState) :
    Except Fault Resolved :=
  match original_twm.type_ with
  | none => .error .abort
  | some ty =>
    let (looked_up, c1, r1) := tt_ctx.LookupOrResolve ty.GetName st.random
    let target_twm := looked_up.WithAdditionalModifiers original_twm.modifiers_
    resolve target_twm statements c1 force_avail_op { st with random := r1 }

/-- The loop of `ResolveOperandTemplateTypenameSpcType` that binds the parameters of the cloned context. -/
def bindInstantiations :
    List TemplateTypeParam → List TemplateTypeInstantiation → TemplateTypeContext →
      Option TemplateTypeContext
  | [], [], c => some c
  | param_i :: ps, inst_i :: is, c =>
    match inst_i with
    | .ForType ty mods => bindInstantiations ps is (c.Bind param_i ⟨ty, mods⟩)
    | .ForIntegral _ => none
    | .ForNullptr => none
  | _, _, _ => none

/-- The type that `TemplateTypeInstantiation::GetType` returns (its `assert` fails otherwise). -/
def TemplateTypeInstantiation.GetType : TemplateTypeInstantiation → Option TypeWithModifier
  | .ForType ty mods => some ⟨some ty, mods⟩
  | _ => none

/-- The key/value loop of `STLOperandResolver::ResolveKeyValueContainer`, with its two assertions. -/
def resolvePairs (resolve : Resolver) (force_avail_op : Bool)
    (rq_type_key rq_type_value : TypeWithModifier) :
    Nat → List Statement → TemplateTypeContext → GenState →
      Except Fault (List (Operand × Operand) × List Statement × TemplateTypeContext × GenState)
  | 0, stmts, c, st => .ok ([], stmts, c, st)
  | n + 1, stmts, c, st =>
    match resolve rq_type_key stmts c force_avail_op st with
    | .error e => .error e
    | .ok rk =>
      match assignable rq_type_key rk.operand.type_ rk.tt_ctx rk.state with
      | .error e => .error e
      | .ok (okk, ck, stk) =>
        if !okk then .error .abort
        else
          match resolve rq_type_value rk.statements ck force_avail_op stk with
          | .error e => .error e
          | .ok rv =>
            match assignable rq_type_value rv.operand.type_ rv.tt_ctx rv.state with
            | .error e => .error e
            | .ok (okv, cv, stv) =>
              if !okv then .error .abort
              else
                match resolvePairs resolve force_avail_op rq_type_key rq_type_value n
                    rv.statements cv stv with
                | .error e => .error e
                | .ok (more, stmts2, c2, st2) => .ok ((rk.operand, rv.operand) :: more, stmts2, c2, st2)

/-- The tail shared by the container subroutines: build the `STLStatement` of
the stripped type, append it and return a reference to it. -/
def emitSTL (twm : TypeWithModifier) (target : STLType) (elements : STLElement)
    (statements : List Statement) (tt_ctx : TemplateTypeContext) (st : GenState) :
    Except Fault Resolved :=
  pushAndRef (fun a => MakeSTLStatement a twm.StripAllModifiers target elements) statements tt_ctx st

/-- The dispatcher `STLOperandResolver::Handle` with its seven subroutines. -/
def STLOperandResolver.Handle (resolve : Resolver) (twm : TypeWithModifier)
    (statements : List Statement) (tt_ctx : TemplateTypeContext) (force_avail_op : Bool)
    (st : GenState) : Except Fault Resolved :=
  match twm.type_ with
  | some (.templateTypenameSpc (.stl stl_type) inst_list) =>
    let tt_insts := inst_list.toList
    match stl_type.GetSTLTypeVariant with
    | .kRegContainer =>
      match tt_insts with
      | [inst] =>
        match inst.GetType with
        | none => .error .abort
        | some rq_type =>
          let num_elements := st.random.raw % 4
          match resolveEach resolve force_avail_op (List.replicate num_elements rq_type)
              statements tt_ctx { st with random := st.random.advance } with
          | .error e => .error e
          | .ok (operands, stmts1, c1, st1) =>
            emitSTL twm stl_type (STLElement.ForRegularContainer operands) stmts1 c1 st1
      | _ => .error .abort
    | .kRegContainerWithSize =>
      match tt_insts with
      | [inst_type, .ForIntegral num_elements] =>
        match inst_type.GetType with
        | none => .error .abort
        | some rq_type =>
          match resolveEach resolve force_avail_op (List.replicate num_elements.toNat rq_type)
              statements tt_ctx st with
          | .error e => .error e
          | .ok (operands, stmts1, c1, st1) =>
            emitSTL twm .kArray (STLElement.ForRegularContainer operands) stmts1 c1 st1
      | _ => .error .abort
    | .kKeyValueContainer =>
      match tt_insts with
      | [inst_key, inst_value] =>
        match inst_key.GetType, inst_value.GetType with
        | some rq_type_key, some rq_type_value =>
          let num_elements := st.random.raw % 4
          match resolvePairs resolve force_avail_op rq_type_key rq_type_value num_elements
              statements tt_ctx { st with random := st.random.advance } with
          | .error e => .error e
          | .ok (operands, stmts1, c1, st1) =>
            emitSTL twm stl_type (STLElement.ForKeyValueContainer operands) stmts1 c1 st1
        | _, _ => .error .abort
      | _ => .error .abort
    | .kPair =>
      match tt_insts with
      | [inst_key, inst_value] =>
        match inst_key.GetType, inst_value.GetType with
        | some rq_type_key, some rq_type_value =>
          match resolve rq_type_key statements tt_ctx force_avail_op st with
          | .error e => .error e
          | .ok r1 =>
            match resolve rq_type_value r1.statements r1.tt_ctx force_avail_op r1.state with
            | .error e => .error e
            | .ok r2 =>
              emitSTL twm .kPair (STLElement.ForKeyValueContainer [(r1.operand, r2.operand)])
                r2.statements r2.tt_ctx r2.state
        | _, _ => .error .abort
      | _ => .error .abort
    | .kTuple =>
      if tt_insts.all (fun i => i.GetType.isSome) then
        match resolveEach resolve force_avail_op (tt_insts.filterMap (fun i => i.GetType))
            statements tt_ctx st with
        | .error e => .error e
        | .ok (operands, stmts1, c1, st1) =>
          emitSTL twm .kTuple (STLElement.ForRegularContainer operands) stmts1 c1 st1
      else .error .abort
    | .kSmartPointer =>
      match tt_insts with
      | [instantiation] =>
        match instantiation.GetType with
        | none => .error .abort
        | some rq_type =>
          match resolve rq_type statements tt_ctx force_avail_op st with
          | .error e => .error e
          | .ok r1 =>
            emitSTL twm stl_type (STLElement.ForRegularContainer [r1.operand])
              r1.statements r1.tt_ctx r1.state
      | _ => .error .abort
    | .kString =>
      match tt_insts with
      | [inst] =>
        match inst.GetType with
        | none => .error .abort
        | some rq_type =>
          let num_elements := st.random.raw % 11
          match resolveEach resolve force_avail_op (List.replicate num_elements rq_type)
              statements tt_ctx { st with random := st.random.advance } with
          | .error e => .error e
          | .ok (operands, stmts1, c1, st1) =>
            emitSTL twm .kBasicString (STLElement.ForRegularContainer operands) stmts1 c1 st1
      | _ => .error .abort
  | _ => .error .abort

/-- The method `OperandResolver::ResolveOperandTemplateTypenameSpcType`. -/
def ResolveOperandTemplateTypenameSpcType (resolve : Resolver) (twm : TypeWithModifier)
    (statements : List Statement) (tt_ctx : TemplateTypeContext) (force_avail_op : Bool)
    (st : GenState) : Except Fault Resolved :=
  match twm.type_ with
  | some (.templateTypenameSpc (.stl _) _) =>
    STLOperandResolver.Handle resolve twm statements tt_ctx force_avail_op st
  | some (.templateTypenameSpc (.cls class_model) tt_inst_list) =>
    match bindInstantiations class_model.template_param_list_ tt_inst_list.toList tt_ctx with
    | none => .error .abort
    | some cloned_tt_ctx =>
      match resolve (TypeWithModifier.FromSpecByType (.cls class_model)) statements cloned_tt_ctx
          force_avail_op st with
      | .error e => .error e
      | .ok res => .ok ⟨res.operand, res.statements, tt_ctx, res.state⟩
  | _ => .error .abort

/-- The body of `OperandResolver::ResolveOperand`; `resolve` stands for its recursive calls. -/
def ResolveOperandBody (p : ProgramContext) (resolve : Resolver) : Resolver :=
  fun target_type statements tt_ctx force_avail_op st =>
  match target_type.type_ with
  | none => .error .abort
  | some ty =>
    if target_type.IsVoidPtr then
      .ok ⟨Operand.MakeConstantOperand target_type "nullptr", statements, tt_ctx, st⟩
    else if ty = .primitive .kVoid then .error .abort
    else
      let reuse : Except Fault (Option Operand × TemplateTypeContext × GenState) :=
        if force_avail_op then ResolveUsingAssignableStatements target_type statements tt_ctx st
        else .ok (none, tt_ctx, st)
      match reuse with
      | .error e => .error e
      | .ok (some operand, c1, st1) => .ok ⟨operand, statements, c1, st1⟩
      | .ok (none, c1, st1) =>
        let null_draw : Bool × GenState :=
          if target_type.IsPointer then
            let (prob, r2) := st1.random.NextGaussian
            (decide (prob < 100), { st1 with random := r2 })
          else (false, st1)
        if null_draw.1 then
          .ok ⟨Operand.MakeConstantOperand target_type "nullptr", statements, c1, null_draw.2⟩
        else
          match ty.GetVariant with
          | .kPrimitive => ResolveOperandPrimitiveType target_type statements c1 null_draw.2
          | .kClass =>
            ResolveOperandClassType p resolve target_type statements c1 force_avail_op null_draw.2
          | .kEnum => ResolveOperandEnumType target_type statements c1 null_draw.2
          | .kTemplateTypename =>
            ResolveOperandTemplateTypenameType resolve target_type statements c1 force_avail_op
              null_draw.2
          | .kTemplateTypenameSpc =>
            ResolveOperandTemplateTypenameSpcType resolve target_type statements c1 force_avail_op
              null_draw.2
          | .kSTL => .ok ⟨Operand.MakeBottom, statements, c1, null_draw.2⟩

/-- The method `OperandResolver::ResolveOperand`, unfolded to recursion depth `fuel`. -/
def ResolveOperand (p : ProgramContext) : Nat → Resolver
  | 0 => fun _ _ _ _ _ => .error .outOfFuel
  | fuel + 1 => ResolveOperandBody p (ResolveOperand p fuel)

/-- A `TestCase`: the statement vector and the template context it points to. -/
structure TestCase where
  statements_ : List Statement
  template_type_context_ : TemplateTypeContext
  deriving DecidableEq, Repr

/-- The loop of `GenForMethod` that appends `repeat` calls of the target. -/
def appendCalls (p : ProgramContext) (target : Executable) (operands : List Operand)
    (opt_invoking_obj : Option Operand) :
    Nat → List Statement → TemplateTypeContext → GenState →
      Except Fault (List Statement × TemplateTypeContext × GenState)
  | 0, stmts, c, st => .ok (stmts, c, st)
  | n + 1, stmts, c, st =>
    match MakeExecutableCall p st.next_addr target operands opt_invoking_obj c st.random with
    | none => .error .abort
    | some (statement, c1, r1) =>
      appendCalls p target operands opt_invoking_obj n (stmts ++ [statement]) c1
        { st with random := r1, next_addr := st.next_addr + 1 }

/-- The method `TestCaseGenerator::GenForMethod` on the fields of a `GenTCForMethodSpec`. -/
def GenForMethod (p : ProgramContext) (fuel : Nat) (target : Executable)
    (tt_ctx : TemplateTypeContext) (statement_ctx : List Statement) (placement_idx : Nat)
    (force_avail_op : Bool) (st : GenState) : Except Fault (TestCase × GenState) :=
  if placement_idx > statement_ctx.length then .error .abort
  else
    let statements := statement_ctx.take placement_idx
    match resolveEach (ResolveOperand p fuel) force_avail_op
        (target.arguments_.map TypeWithModifier.FromSpecByClangType) statements tt_ctx st with
    | .error e => .error e
    | .ok (operands, stmts1, c1, st1) =>
      let is_method_variant := decide (target.executable_variant_ = .kMethod)
      let require_invoking_object :=
        is_method_variant && target.owner_.isSome && !target.is_not_require_invoking_obj_
      let inv : Except Fault (Option Operand × List Statement × TemplateTypeContext × GenState) :=
        if require_invoking_object then
          match target.owner_.bind (fun o => p.GetTypeByQualName o.qualified_name_) with
          | none => .error .abort
          | some class_model =>
            match ResolveOperand p fuel (TypeWithModifier.FromSpecByType (.cls class_model))
                stmts1 c1 force_avail_op st1 with
            | .error e => .error e
            | .ok res => .ok (some res.operand, res.statements, res.tt_ctx, res.state)
        else .ok (none, stmts1, c1, st1)
      match inv with
      | .error e => .error e
      | .ok (opt_invoking_obj, stmts2, c2, st2) =>
        let repeat_ := 1 + st2.random.raw % 3
        match appendCalls p target operands opt_invoking_obj repeat_ stmts2 c2
            { st2 with random := st2.random.advance } with
        | .error e => .error e
        | .ok (stmts3, c3, st3) =>
          .ok (⟨stmts3 ++ statement_ctx.drop placement_idx, c3⟩, st3)

/-! ## TestCase::Verify (sequencegen.cpp) -/

/-- The helper `AssertRefOperandsValid`: every reference operand points into `recognized_stmt`. -/
def AssertRefOperandsValid (recognized_stmt : List Nat) (operands : List Operand) : Bool :=
  operands.all (fun operand =>
    match operand.ref_ with
    | some ref_stmt => decide (recognized_stmt.count ref_stmt ≠ 0)
    | none => true)

/-- The assertions that `Verify` makes on the arguments of a call statement. -/
def verifyCallArguments (rq_types : List QualType) (operands_no_inv_obj : List Operand) : Bool :=
  decide (rq_types.length = operands_no_inv_obj.length) &&
  (List.zip rq_types operands_no_inv_obj).all (fun x =>
    let rq_twm := TypeWithModifier.FromSpecByClangType x.1
    if rq_twm.IsPointerOrArray && decide (x.2.GetOperandType = .kConstantOperand) then
      decide (x.2.type_.type_ = some (.primitive .kCharacter)) || x.2.IsNullPtr
    else true)

/-- The loop of `TestCase::Verify`; `false` stands for a failed assertion. -/
def verifyFrom (recognized_stmt : List Nat) : List Statement → Bool
  | [] => true
  | statement :: rest =>
    decide (recognized_stmt.count statement.addr = 0) &&
    AssertRefOperandsValid recognized_stmt statement.GetStatementOperands &&
    (match statement.body with
     | .CallStatement target operands _ _ => verifyCallArguments target.arguments_ operands
     | _ => true) &&
    verifyFrom (recognized_stmt ++ [statement.addr]) rest

def TestCase.Verify (tc : TestCase) : Bool := verifyFrom [] tc.statements_

/-! ## statement.cpp: reference rewiring -/

/-- The map `repl_map` of the update mutation, from the address of a statement to its replacement. -/
abbrev ReplMap := List (Nat × Statement)

def ReplMap.find (m : ReplMap) (a : Nat) : Option Statement :=
  (List.find? (fun kv => kv.1 == a) m).map Prod.snd

/-- The member `std::map::emplace` on `repl_map`. -/
def ReplMap.emplace (m : ReplMap) (a : Nat) (s : Statement) : ReplMap :=
  match ReplMap.find m a with
  | some _ => m
  | none => m ++ [(a, s)]

/-- The free function `TryReplaceRefOperand`: the operand after the call and whether it was replaced. -/
def TryReplaceRefOperand (operand : Operand) (repl_map : ReplMap) : Operand × Bool :=
  match operand.ref_ with
  | none => (operand, false)
  | some ref_stmt =>
    match ReplMap.find repl_map ref_stmt with
    | none => (operand, false)
    | some target_stmt => (Operand.MakeRefOperand target_stmt, true)

/-- A loop that applies `TryReplaceRefOperand` to each operand of a vector and counts the replacements. -/
def replaceAll (repl_map : ReplMap) : List Operand → List Operand × Nat
  | [] => ([], 0)
  | o :: rest =>
    let (o1, b) := TryReplaceRefOperand o repl_map
    let (rest1, n) := replaceAll repl_map rest
    (o1 :: rest1, if b then n + 1 else n)

/-- The same loop over key/value pairs. -/
def replaceAllPairs (repl_map : ReplMap) : List (Operand × Operand) → List (Operand × Operand) × Nat
  | [] => ([], 0)
  | (fi, sc) :: rest =>
    let (fi1, b1) := TryReplaceRefOperand fi repl_map
    let (sc1, b2) := TryReplaceRefOperand sc repl_map
    let (rest1, n) := replaceAllPairs repl_map rest
    ((fi1, sc1) :: rest1, n + (if b1 then 1 else 0) + (if b2 then 1 else 0))

/-- The virtual `Clone`: a new object at `addr` with the same type and members and no variable name. -/
def Statement.Clone (s : Statement) (addr : Nat) : Statement := ⟨addr, s.type_, none, s.body⟩

/-- What `ReplaceRefOperand` returns and what it leaves in the object it was called on. -/
structure ReplaceResult where
  cloned : Statement
  replacement : Nat
  self_after : Statement

/-- The virtual `ReplaceRefOperand` of the four subclasses; `addr` is the address
of the clone.  `ArrayInitStatement` rewrites `elements_` of the object itself
and returns the clone as it was copied before. -/
def Statement.ReplaceRefOperand (s : Statement) (repl_map : ReplMap) (addr : Nat) : ReplaceResult :=
  let cloned := s.Clone addr
  match s.body with
  | .PrimitiveAssignmentStatement op operands =>
    let (ops1, n) := replaceAll repl_map operands
    ⟨{ cloned with body := .PrimitiveAssignmentStatement op ops1 }, n, s⟩
  | .CallStatement target operands invoking_obj c =>
    let (ops1, n) := replaceAll repl_map operands
    match invoking_obj with
    | some operand =>
      let (o1, b) := TryReplaceRefOperand operand repl_map
      ⟨{ cloned with body := .CallStatement target ops1 (some o1) c }, if b then n + 1 else n, s⟩
    | none => ⟨{ cloned with body := .CallStatement target ops1 none c }, n, s⟩
  | .STLStatement target elements =>
    let reg : Option (List Operand) × Nat :=
      match elements.reg_container_elmts_ with
      | some operands => let (ops1, n) := replaceAll repl_map operands; (some ops1, n)
      | none => (none, 0)
    let kv : Option (List (Operand × Operand)) × Nat :=
      match elements.key_value_elmts_ with
      | some operands => let (ops1, n) := replaceAllPairs repl_map operands; (some ops1, n)
      | none => (none, 0)
    ⟨{ cloned with body := .STLStatement target ⟨reg.1, kv.1⟩ }, reg.2 + kv.2, s⟩
  | .ArrayInitStatement capacity string_literal elements =>
    match string_literal with
    | some _ => ⟨cloned, 0, s⟩
    | none =>
      match elements with
      | some operands =>
        let (ops1, n) := replaceAll repl_map operands
        ⟨cloned, n, { s with body := .ArrayInitStatement capacity none (some ops1) }⟩
      | none => ⟨cloned, 0, s⟩

/-! ## mutator.cpp: TestCaseMutator -/

/-- The loop of `InplaceMutationByUpdate` over the statement vector: the vector
after the loop, the replacement map and the next free address. -/
def rewireLoop : List Statement → ReplMap → Nat → List Statement × ReplMap × Nat
  | [], repl_map, next_addr => ([], repl_map, next_addr)
  | item :: rest, repl_map, next_addr =>
    let repl_res := item.ReplaceRefOperand repl_map next_addr
    if repl_res.replacement > 0 then
      let (rest1, m1, a1) :=
        rewireLoop rest (ReplMap.emplace repl_map item.addr repl_res.cloned) (next_addr + 1)
      (repl_res.cloned :: rest1, m1, a1)
    else
      let (rest1, m1, a1) := rewireLoop rest repl_map (next_addr + 1)
      (repl_res.self_after :: rest1, m1, a1)

/-- The part of `InplaceMutationByUpdate` after the statement mutator returned
`next_stmt` for the victim at `idx`: the vector it leaves and the next free
address. -/
def InplaceMutationByUpdateRewire (statements : List Statement) (idx : Nat) (next_stmt : Statement)
    (next_addr : Nat) : Option (List Statement × Nat) :=
  match statements.get? idx with
  | none => none
  | some victim =>
    if victim.addr ≠ next_stmt.addr then
      let (stmts1, _, a1) := rewireLoop statements [(victim.addr, next_stmt)] next_addr
      some (stmts1.set idx next_stmt, a1)
    else some (statements, next_addr)

/-- The set `used_stmts` collected by `InplaceMutationByCleanup`. -/
def usedStmts (statements : List Statement) : List Nat :=
  statements.flatMap (fun stmt => stmt.GetStatementOperands.filterMap (fun op => op.ref_))

/-- The method `TestCaseMutator::InplaceMutationByCleanup` before its final `assert(tc.Verify())`. -/
def InplaceMutationByCleanup (statements : List Statement) : List Statement :=
  let used_stmts := usedStmts statements
  statements.filter (fun item =>
    let is_primitive := decide (item.GetVariant = .kPrimitiveAssignment)
    !(is_primitive && decide (used_stmts.count item.addr = 0)))

/-! ## mutator.cpp: OperandMutator -/

/-- Where an `Operand` object lives, for `std::addressof`: a slot of a
statement's operand vector, a statement's `invoking_obj_`, a slot of its
element vector, or a local variable. -/
inductive OperandLoc
  | operandSlot (stmt : Nat) (idx : Nat)
  | invokingObj (stmt : Nat)
  | elementSlot (stmt : Nat) (idx : Nat)
  | localCopy
  deriving DecidableEq, Repr

/-- The free function `IsRefPtrAndUsedAsInvokingObject`; `op_loc` is the address of `op`. -/
def IsRefPtrAndUsedAsInvokingObject (op : Operand) (op_loc : OperandLoc) (stmt : Statement) : Bool :=
  let is_ref := decide (op.GetOperandType = .kRefOperand)
  let is_ptr := op.type_.IsPointer
  match stmt.body with
  | .CallStatement _ _ opt_inv_obj _ =>
    if is_ref && is_ptr then
      match opt_inv_obj with
      | some _ => decide (op_loc = .invokingObj stmt.addr)
      | none => false
    else false
  | _ => false

/-- What a mutator step returns besides its value: the template context of the
test case and the process state. -/
structure Mutated (α : Type) where
  value : α
  tt_ctx : TemplateTypeContext
  state : GenState

/-- The method `OperandMutator::MutateRefOperand`. -/
def MutateRefOperand (op : Operand) (op_stmt_ctx : Statement) (tc_ctx : TestCase)
    (type_rq : Option TypeWithModifier) (st : GenState) : Except Fault (Mutated Operand) :=
  if op.GetOperandType ≠ .kRefOperand then .error .abort
  else
    let target_type := type_rq.getD op.type_
    match GetAssignableStatements target_type (some op_stmt_ctx.addr) tc_ctx.statements_
        tc_ctx.template_type_context_ st with
    | .error e => .error e
    | .ok (assignable_stmts, c1, st1) =>
      match assignable_stmts with
      | [] => .ok ⟨op, c1, st1⟩
      | [_] => .ok ⟨op, c1, st1⟩
      | first :: _ =>
        let choice := st1.random.raw % assignable_stmts.length
        let next := assignable_stmts.getD choice first
        match assignable target_type next.type_ c1 { st1 with random := st1.random.advance } with
        | .error e => .error e
        | .ok (ok, c2, st2) =>
          if ok then .ok ⟨Operand.MakeRefOperand next, c2, st2⟩ else .error .abort

/-- The statements before the first occurrence of `op_stmt_ctx`, or `none` when it does not occur. -/
def stmtsBefore (op_stmt_ctx : Nat) : List Statement → Option (List Statement)
  | [] => none
  | s :: rest =>
    if s.addr = op_stmt_ctx then some []
    else (stmtsBefore op_stmt_ctx rest).map (fun l => s :: l)

/-- The method `OperandMutator::MutateOperandCrossVariant`. -/
def MutateOperandCrossVariant (op : Operand) (op_loc : OperandLoc) (op_stmt_ctx : Statement)
    (tc_ctx : TestCase) (type_rq : Option TypeWithModifier) (st : GenState) :
    Except Fault (Mutated Operand) :=
  if op.GetOperandType = .kConstantOperand then
    match stmtsBefore op_stmt_ctx.addr tc_ctx.statements_ with
    | none => .error .abort
    | some earlier =>
      match GetAssignableStatements op.type_ none earlier tc_ctx.template_type_context_ st with
      | .error e => .error e
      | .ok (assignable_stmts, c1, st1) =>
        match assignable_stmts with
        | [] =>
          match MutateConstantOperand op st1.random with
          | none => .error .abort
          | some (o, r1) => .ok ⟨o, c1, { st1 with random := r1 }⟩
        | first :: _ =>
          let idx := st1.random.raw % assignable_stmts.length
          .ok ⟨Operand.MakeRefOperand (assignable_stmts.getD idx first), c1,
            { st1 with random := st1.random.advance }⟩
  else
    let target_type := op.type_
    let c := tc_ctx.template_type_context_
    match target_type.type_ with
    | none => .error .abort
    | some ty =>
      let is_primitive := decide (ty.GetVariant = .kPrimitive)
      let mutateConstant : Except Fault (Mutated Operand) :=
        match MutateConstantOperandOfType target_type st.random with
        | none => .error .abort
        | some (o, r1) => .ok ⟨o, c, { st with random := r1 }⟩
      if is_primitive && type_rq.isNone then mutateConstant
      else if is_primitive then
        match type_rq with
        | some rq => if !rq.IsPointerOrArray then mutateConstant else .ok ⟨op, c, st⟩
        | none => .ok ⟨op, c, st⟩
      else if target_type.IsPointer then
        let (prob, r1) := st.random.NextGaussian
        let is_mutating_inv_obj := IsRefPtrAndUsedAsInvokingObject op op_loc op_stmt_ctx
        if decide (prob < 100) && !is_mutating_inv_obj then
          .ok ⟨Operand.MakeConstantOperand target_type "nullptr", c, { st with random := r1 }⟩
        else .ok ⟨op, c, { st with random := r1 }⟩
      else .ok ⟨op, c, st⟩

/-- The method `OperandMutator::MutateOperand`. -/
def MutateOperand (op : Operand) (op_loc : OperandLoc) (op_stmt_ctx : Statement)
    (tc_ctx : TestCase) (type_rq : Option TypeWithModifier) (st : GenState) :
    Except Fault (Mutated Operand) :=
  let choice := st.random.raw % 2
  let st1 := { st with random := st.random.advance }
  if choice = 0 then
    if op.GetOperandType = .kConstantOperand then
      match MutateConstantOperand op st1.random with
      | none => .error .abort
      | some (o, r1) => .ok ⟨o, tc_ctx.template_type_context_, { st1 with random := r1 }⟩
    else MutateRefOperand op op_stmt_ctx tc_ctx type_rq st1
  else MutateOperandCrossVariant op op_loc op_stmt_ctx tc_ctx type_rq st1

/-! ## function-selector.cpp -/

/-- The counters of a `StatementVisitorResult` (func/api.hpp). -/
structure StatementVisitorResult where
  switch_cases_ : Int
  cond_expr_ : Int
  controls_ : Int
  short_cirs_ : Int
  calls_ : List String
  deriving DecidableEq, Repr

inductive FunctionSelectorMode
  | kRandom | kComplexityBased
  deriving DecidableEq, Repr

/-- The score that `NextExecutable` gives one executable. -/
def complexityScore (kGlobalSummary : List (String × StatementVisitorResult)) (item : Executable) : ℚ :=
  if item.mangled_name_.isEmpty then 1
  else match kGlobalSummary.find? (fun kv => kv.1 == item.mangled_name_) with
    | none => 1
    | some kv =>
      let fc := kv.2
      (((1 + (fc.calls_.length : Int) + fc.controls_ + fc.switch_cases_ + fc.cond_expr_
        + fc.short_cirs_ : Int) : ℚ))

/-- The running sums `cumm_score` of the first loop. -/
def cumulative : ℚ → List ℚ → List ℚ
  | _, [] => []
  | acc, x :: xs => (acc + x) :: cumulative (acc + x) xs

/-- The binary search of `NextExecutable`, at most `fuel` halvings. -/
def searchScore (scores : List ℚ) (target_prob : ℚ) : Nat → Nat → Nat → Nat × Nat
  | 0, lo, hi => (lo, hi)
  | fuel + 1, lo, hi =>
    if hi - lo > 1 then
      let mid := (hi + lo) / 2
      if scores.getD mid 0 < target_prob then searchScore scores target_prob fuel mid hi
      else searchScore scores target_prob fuel lo mid
    else (lo, hi)

/-- The method `FunctionSelector::NextExecutable`; the doubles are exact
rationals here.  `none` when `NextInt(0)` is asserted or the score vector is
indexed out of range. -/
def NextExecutable (executables_ : List Executable) (mode_ : FunctionSelectorMode)
    (kGlobalSummary : List (String × StatementVisitorResult)) (r : Random) :
    Option (Executable × Random) :=
  if mode_ = .kRandom ∨ kGlobalSummary.isEmpty then
    match r.NextInt (executables_.length : Int) with
    | none => none
    | some (idx, r1) => (executables_.get? idx.toNat).map (fun e => (e, r1))
  else
    let raw_scores := executables_.map (complexityScore kGlobalSummary)
    let cumm := cumulative 0 raw_scores
    let cumm_score := cumm.getLastD 0
    let scores := cumm.map (fun x => x / cumm_score)
    let (gauss, r1) := r.NextGaussian
    let target_prob : ℚ := (gauss : ℚ) / 1000
    let (lo, hi) := searchScore scores target_prob executables_.length 0 executables_.length
    match scores.get? lo with
    | none => none
    | some s_lo =>
      if s_lo > target_prob then (executables_.get? lo).map (fun e => (e, r1))
      else (executables_.get? hi).map (fun e => (e, r1))

/-- The predicate `IsMethodSameSignature` of mutator.cpp. -/
def IsMethodSameSignature (m1 m2 : Executable) : Bool :=
  let is_ctor1 := decide (m1.executable_variant_ = .kConstructor)
  let is_ctor2 := decide (m2.executable_variant_ = .kConstructor)
  if is_ctor1 && is_ctor2 then false
  else if m1.arguments_.length ≠ m2.arguments_.length then false
  else if (List.zip m1.arguments_ m2.arguments_).any (fun x => x.1.id ≠ x.2.id) then false
  else if m1.owner_.isNone && m2.owner_.isNone then true
  else if m1.owner_ = m2.owner_ then
    m1.is_not_require_invoking_obj_ == m2.is_not_require_invoking_obj_
  else m1.is_not_require_invoking_obj_ && m2.is_not_require_invoking_obj_

/-! ## mutator.cpp: StatementMutator -/

def kBinaryOperators : List GeneralPrimitiveOp := [.kAdd, .kSub, .kMul, .kMod]
def kUnaryOperators : List GeneralPrimitiveOp := [.kNop, .kMinus]

/-- The method `StatementMutator::MutatePrimitiveAssignment`. -/
def MutatePrimitiveAssignment (stmt : Statement) (tc_ctx : TestCase) (st : GenState) :
    Except Fault (Mutated Statement) :=
  match stmt.body, stmt.type_.type_ with
  | .PrimitiveAssignmentStatement op operands, some ty =>
    let cloned := stmt.Clone st.next_addr
    let st0 := { st with next_addr := st.next_addr + 1 }
    let choice0 := st0.random.raw % 2
    let st1 := { st0 with random := st0.random.advance }
    let is_enum := decide (ty.GetVariant = .kEnum)
    let choice := if is_enum then 1 else choice0
    if choice = 0 then
      let table := if GetPrimitiveOperatorArity op = .kUnary then kUnaryOperators else kBinaryOperators
      let idx := st1.random.raw % table.length
      let newOp := table.getD idx .kNop
      .ok ⟨{ cloned with body := .PrimitiveAssignmentStatement newOp operands },
        tc_ctx.template_type_context_, { st1 with random := st1.random.advance }⟩
    else
      match st1.random.NextInt (operands.length : Int) with
      | none => .error .abort
      | some (idx, r2) =>
        match operands.get? idx.toNat with
        | none => .error .abort
        | some operand =>
          match MutateOperand operand (.operandSlot cloned.addr idx.toNat) stmt tc_ctx none
              { st1 with random := r2 } with
          | .error e => .error e
          | .ok m =>
            .ok ⟨{ cloned with body := .PrimitiveAssignmentStatement op (operands.set idx.toNat m.value) },
              m.tt_ctx, m.state⟩
  | _, _ => .error .abort

/-- The method `StatementMutator::MutateCall`. -/
def MutateCall (p : ProgramContext) (kGlobalSummary : List (String × StatementVisitorResult))
    (stmt : Statement) (tc_ctx : TestCase) (st : GenState) : Except Fault (Mutated Statement) :=
  match stmt.body with
  | .CallStatement target operands opt_invoking_obj c =>
    let cloned := stmt.Clone st.next_addr
    let st0 := { st with next_addr := st.next_addr + 1 }
    let choice := st0.random.raw % 2
    let st1 := { st0 with random := st0.random.advance }
    if choice = 0 then
      if operands.length > 0 then
        let idx := st1.random.raw % operands.length
        match operands.get? idx, target.arguments_.get? idx with
        | some operand, some arg =>
          let type_rq := TypeWithModifier.FromSpecByClangType arg
          match MutateOperand operand (.operandSlot cloned.addr idx) stmt tc_ctx (some type_rq)
              { st1 with random := st1.random.advance } with
          | .error e => .error e
          | .ok m =>
            .ok ⟨{ cloned with body := .CallStatement target (operands.set idx m.value) opt_invoking_obj c },
              m.tt_ctx, m.state⟩
        | _, _ => .error .abort
      else .ok ⟨cloned, tc_ctx.template_type_context_, st1⟩
    else if choice = 1 then
      match opt_invoking_obj with
      | some curr_operand =>
        match MutateOperand curr_operand (.invokingObj cloned.addr) stmt tc_ctx
            (some curr_operand.type_) st1 with
        | .error e => .error e
        | .ok m =>
          .ok ⟨{ cloned with body := .CallStatement target operands (some m.value) c }, m.tt_ctx, m.state⟩
      | none => .ok ⟨cloned, tc_ctx.template_type_context_, st1⟩
    else
      let morphing_forms := p.executables_.filter (fun i => IsMethodSameSignature target i)
      if morphing_forms.length > 0 then
        match NextExecutable morphing_forms .kComplexityBased kGlobalSummary st1.random with
        | none => .error .abort
        | some (selected_form, r2) =>
          .ok ⟨{ cloned with body := .CallStatement selected_form operands opt_invoking_obj c },
            tc_ctx.template_type_context_, { st1 with random := r2 }⟩
      else .ok ⟨cloned, tc_ctx.template_type_context_, st1⟩
  | _ => .error .abort

/-- The method `StatementMutator::MutateSTLConstruction`. -/
def MutateSTLConstruction (stmt : Statement) (tc_ctx : TestCase) (st : GenState) :
    Except Fault (Mutated Statement) :=
  match stmt.body, stmt.type_.type_ with
  | .STLStatement target elmts, some (.templateTypenameSpc _ inst_list) =>
    let cloned := stmt.Clone st.next_addr
    let st0 := { st with next_addr := st.next_addr + 1 }
    let tt_inst_list := inst_list.toList
    if tt_inst_list.isEmpty then .error .abort
    else
      match elmts.reg_container_elmts_ with
      | some operands =>
        if operands.isEmpty then .ok ⟨stmt, tc_ctx.template_type_context_, st0⟩
        else
          let choice_idx := st0.random.raw % operands.length
          match operands.get? choice_idx, (tt_inst_list.get? 0).bind (fun i => i.GetType) with
          | some tgt_operand, some type_rq =>
            match MutateOperand tgt_operand (.elementSlot cloned.addr choice_idx) stmt tc_ctx
                (some type_rq) { st0 with random := st0.random.advance } with
            | .error e => .error e
            | .ok m =>
              let elems := STLElement.ForRegularContainer (operands.set choice_idx m.value)
              .ok ⟨{ cloned with body := .STLStatement target elems }, m.tt_ctx, m.state⟩
          | _, _ => .error .abort
      | none =>
        match elmts.key_value_elmts_ with
        | none => .error .abort
        | some kv_operands =>
          if tt_inst_list.length < 2 then .error .abort
          else if kv_operands.isEmpty then .ok ⟨stmt, tc_ctx.template_type_context_, st0⟩
          else
            let choice_idx := st0.random.raw % kv_operands.length
            let r1 := st0.random.advance
            let kv_idx := r1.raw % 2
            match kv_operands.get? choice_idx, (tt_inst_list.get? kv_idx).bind (fun i => i.GetType) with
            | some kv_mutable, some type_rq =>
              let tgt_operand := if kv_idx = 0 then kv_mutable.1 else kv_mutable.2
              match MutateOperand tgt_operand .localCopy stmt tc_ctx (some type_rq)
                  { st0 with random := r1.advance } with
              | .error e => .error e
              | .ok m =>
                let kv1 := if kv_idx = 0 then (m.value, kv_mutable.2) else (kv_mutable.1, m.value)
                let elems := STLElement.ForKeyValueContainer (kv_operands.set choice_idx kv1)
                .ok ⟨{ cloned with body := .STLStatement target elems }, m.tt_ctx, m.state⟩
            | _, _ => .error .abort
  | _, _ => .error .abort

/-- The method `StatementMutator::MutateArrayInit`. -/
def MutateArrayInit (stmt : Statement) (tc_ctx : TestCase) (st : GenState) :
    Except Fault (Mutated Statement) :=
  match stmt.body with
  | .ArrayInitStatement capacity string_literal elements =>
    let cloned := stmt.Clone st.next_addr
    let st0 := { st with next_addr := st.next_addr + 1 }
    let type_rq := stmt.type_
    match string_literal with
    | some _ =>
      let (next_string, r1) := st0.random.NextString
      let const_char_twm := type_rq.WithAdditionalModifiers [.kConst, .kPointer]
      let operand := Operand.MakeConstantOperand const_char_twm next_string
      .ok ⟨{ cloned with body := .ArrayInitStatement capacity (some operand) elements },
        tc_ctx.template_type_context_, { st0 with random := r1 }⟩
    | none =>
      match elements with
      | none => .error .abort
      | some operands =>
        if operands.isEmpty then .ok ⟨stmt, tc_ctx.template_type_context_, st0⟩
        else
          let choice_idx := st0.random.raw % operands.length
          match operands.get? choice_idx with
          | none => .error .abort
          | some tgt_operand =>
            match MutateOperand tgt_operand (.elementSlot cloned.addr choice_idx) stmt tc_ctx
                (some type_rq) { st0 with random := st0.random.advance } with
            | .error e => .error e
            | .ok m =>
              let elems := operands.set choice_idx m.value
              .ok ⟨{ cloned with body := .ArrayInitStatement capacity none (some elems) },
                m.tt_ctx, m.state⟩
  | _ => .error .abort

/-- The dispatcher `StatementMutator::MutateStatement`. -/
def MutateStatement (p : ProgramContext) (kGlobalSummary : List (String × StatementVisitorResult))
    (stmt : Statement) (tc_ctx : TestCase) (st : GenState) : Except Fault (Mutated Statement) :=
  match stmt.GetVariant with
  | .kPrimitiveAssignment => MutatePrimitiveAssignment stmt tc_ctx st
  | .kCall => MutateCall p kGlobalSummary stmt tc_ctx st
  | .kSTLConstruction => MutateSTLConstruction stmt tc_ctx st
  | .kArrayInitialization => MutateArrayInit stmt tc_ctx st

/-! ## mutator.cpp: TestCaseMutator, continued -/

/-- The method `TestCaseMutator::InplaceMutationByInsertion`. -/
def InplaceMutationByInsertion (p : ProgramContext)
    (kGlobalSummary : List (String × StatementVisitorResult)) (fuel : Nat) (tc : TestCase)
    (st : GenState) : Except Fault (TestCase × GenState) :=
  match NextExecutable p.executables_ .kComplexityBased kGlobalSummary st.random with
  | none => .error .abort
  | some (target_method, r1) =>
    let tt_ctx := TemplateTypeContext.New
    let length := tc.statements_.length
    let ins_pos := r1.raw % (length + 1)
    let (should_force_reuse_op, r3) := r1.advance.NextBoolean
    match GenForMethod p fuel target_method tt_ctx tc.statements_ ins_pos should_force_reuse_op
        { st with random := r3 } with
    | .error e => .error e
    | .ok (res, st1) => if res.Verify then .ok (res, st1) else .error .abort

/-- The method `TestCaseMutator::InplaceMutationByUpdate`. -/
def InplaceMutationByUpdate (p : ProgramContext)
    (kGlobalSummary : List (String × StatementVisitorResult)) (tc : TestCase) (st : GenState) :
    Except Fault (TestCase × GenState) :=
  match st.random.NextInt (tc.statements_.length : Int) with
  | none => .error .abort
  | some (idx, r1) =>
    match tc.statements_.get? idx.toNat with
    | none => .error .abort
    | some victim =>
      match MutateStatement p kGlobalSummary victim tc { st with random := r1 } with
      | .error e => .error e
      | .ok m =>
        if !tc.Verify then .error .abort
        else
          match InplaceMutationByUpdateRewire tc.statements_ idx.toNat m.value m.state.next_addr with
          | none => .error .abort
          | some (stmts1, a1) =>
            let tc1 : TestCase := ⟨stmts1, m.tt_ctx⟩
            if victim.addr ≠ m.value.addr ∧ !tc1.Verify then .error .abort
            else .ok (tc1, { m.state with next_addr := a1 })

/-- The loop of `TestCaseMutator::MutateTestCase`. -/
def havocLoop (p : ProgramContext) (kGlobalSummary : List (String × StatementVisitorResult))
    (fuel : Nat) : Nat → TestCase → GenState → Except Fault (TestCase × GenState)
  | 0, tc, st => .ok (tc, st)
  | n + 1, tc, st =>
    let choice := st.random.raw % 3
    let st1 := { st with random := st.random.advance }
    let step : Except Fault (TestCase × GenState) :=
      if choice = 0 then InplaceMutationByInsertion p kGlobalSummary fuel tc st1
      else if choice = 1 then InplaceMutationByUpdate p kGlobalSummary tc st1
      else
        let cleaned : TestCase := ⟨InplaceMutationByCleanup tc.statements_, tc.template_type_context_⟩
        if cleaned.Verify then .ok (cleaned, st1) else .error .abort
    match step with
    | .error e => .error e
    | .ok (tc1, st2) => havocLoop p kGlobalSummary fuel n tc1 st2

/-- The method `TestCaseMutator::MutateTestCase`. -/
def MutateTestCase (p : ProgramContext) (kGlobalSummary : List (String × StatementVisitorResult))
    (fuel : Nat) (tc : TestCase) (maxHavoc : Int) (st : GenState) :
    Except Fault (TestCase × GenState) :=
  if !tc.Verify then .error .abort
  else
    match st.random.NextInt maxHavoc with
    | none => .error .abort
    | some (havoc_stack, r1) =>
      havocLoop p kGlobalSummary fuel havoc_stack.toNat tc { st with random := r1 }

/-! ## util.cpp -/

/-- The member `std::string::find`: the first position at which `needle` occurs. -/
def findSub (needle : List Char) : List Char → Option Nat
  | [] => if needle.isEmpty then some 0 else none
  | c :: cs =>
    if needle.isPrefixOf (c :: cs) then some 0 else (findSub needle cs).map (fun i => i + 1)

/-- The test `s.find(needle) != std::string::npos`. -/
def containsSub (hay : String) (needle : String) : Bool := (findSub needle.toList hay.toList).isSome

/-- The loop of `SplitStringIntoVector`, at most `fuel` rounds. -/
def splitLoop (delimiter : List Char) : Nat → List Char → Option (List (List Char))
  | 0, _ => none
  | fuel + 1, target =>
    match findSub delimiter target with
    | none => some [target]
    | some pos =>
      (splitLoop delimiter fuel (target.drop (pos + delimiter.length))).map
        (fun rest => target.take pos :: rest)

/-- The function `SplitStringIntoVector`; `none` when the loop does not end (an empty delimiter). -/
def SplitStringIntoVector (target : String) (delimiter : String) : Option (List String) :=
  (splitLoop delimiter.toList (target.length + 1) target.toList).map (fun l => l.map String.mk)

/-- The predicate `std::isspace` in the C locale. -/
def isspace (c : Char) : Bool :=
  c = ' ' || c = '\t' || c = '\n' || c = '\x0b' || c = '\x0c' || c = '\r'

/-- The function `StringStrip`; `none` when its second loop runs over the front
of the string, which happens exactly when a non-empty string holds white space
only. -/
def StringStrip (input_string : String) : Option String :=
  if input_string.isEmpty then some input_string
  else if input_string.toList.all isspace then none
  else some (String.mk
    ((input_string.toList.dropWhile isspace).reverse.dropWhile isspace).reverse)

/-! ## execution.cpp -/

inductive CompilationResult
  | kSuccess | kCompileFailed | kLinkingFailed
  deriving DecidableEq, Repr

structure CoverageReport where
  line_cov_ : Int
  branch_cov_ : Int
  line_tot_ : Int
  branch_tot_ : Int
  func_cov_ : Int
  func_tot_ : Int
  deriving DecidableEq, Repr

/-- The default constructor `CoverageReport()`. -/
def CoverageReport.zero : CoverageReport := ⟨0, 0, 0, 0, 0, 0⟩

structure ExecutionResult where
  return_code_ : Int
  cov_report_ : Option CoverageReport
  interesting_ : Bool
  deriving DecidableEq, Repr

def ExecutionResult.kExceptionReturnCode : Int := 180
def ExecutionResult.IsSuccessful (e : ExecutionResult) : Bool := decide (e.return_code_ = 0)
def ExecutionResult.HasCaughtException (e : ExecutionResult) : Bool :=
  decide (e.return_code_ = ExecutionResult.kExceptionReturnCode)

/-- The member `prev_success_` of `CoverageObserver`. -/
structure CoverageObserver where
  prev_success_ : CoverageReport
  deriving DecidableEq, Repr

/-- The method `CoverageObserver::ExecuteAndMeasureCov`; `rc` is what `Execute`
returned and `report` what `MeasureCoverage` returns when it is called. -/
def CoverageObserver.ExecuteAndMeasureCov (o : CoverageObserver) (rc : Int)
    (report : CoverageReport) : ExecutionResult × CoverageObserver :=
  if rc ≠ 0 ∧ rc ≠ ExecutionResult.kExceptionReturnCode then (⟨rc, none, false⟩, o)
  else
    let is_interesting :=
      decide (report.line_cov_ > o.prev_success_.line_cov_) ||
      decide (report.branch_cov_ > o.prev_success_.branch_cov_) ||
      decide (report.func_cov_ > o.prev_success_.func_cov_)
    (⟨rc, some report, is_interesting⟩, if is_interesting then ⟨report⟩ else o)

structure TCMemo where
  valid_crash_ : Bool
  fingerprint_ : Option String
  gdb_output_ : Option String
  location_ : Option String
  crash_line_num_ : Option Int
  compilation_output_ : Option String
  deriving DecidableEq, Repr

/-- The default constructor `TCMemo()`. -/
def TCMemo.new : TCMemo := ⟨true, none, none, none, none, none⟩

def kTmpDriverCppFilename : String := "tmp.cpp"

def IsStartOfStackTrace (line : String) : Bool :=
  !line.isEmpty && decide (line.toList.get? 0 = some '#') && decide (line.toList.get? 1 = some '0')

def IsEndOfStackTrace (line : String) : Bool := line.isEmpty

/-- The token after the last token `at`, as `ParseLocation` reads it through the
reverse iterator; `none` when `at` is the last token (the iterator leaves the
vector) or the split does not end. -/
def locationAfterLastAt : List String → Option String
  | [] => some ""
  | t :: rest =>
    if rest.any (fun x => x == "at") then locationAfterLastAt rest
    else if t == "at" then rest.head?
    else some ""

def ParseLocation (line : String) : Option String :=
  (SplitStringIntoVector line " ").bind locationAfterLastAt

/-- The function `InvokingOnNullptrCheck` on the lines of the debugger output. -/
def InvokingOnNullptrCheck (gdb_output_ss : List String) : Bool :=
  let temp_vc := gdb_output_ss.reverse
  let is_main_line := fun (item : String) =>
    containsSub item "main" && containsSub item kTmpDriverCppFilename
  match temp_vc.dropWhile (fun item => !is_main_line item) with
  | _ :: invoke :: _ => containsSub invoke "this=0x0"
  | _ => false

def SquashStackTrace (stack_trace_ids : List String) : String :=
  match stack_trace_ids with
  | [] => ""
  | first :: rest => rest.foldl (fun joined trace_id => joined ++ " " ++ trace_id) first

/-- The locals of the scanning loop of `ExecuteInGDBEnv`. -/
structure TraceScan where
  first_location : String
  main_location : String
  final_stack_trace : List String
  found_first_tgt_loc : Bool
  is_stack_trace : Bool

/-- The scanning loop of `ExecuteInGDBEnv` over the lines of the debugger output. -/
def scanTrace (src_dir : String) : List String → TraceScan → Option TraceScan
  | [], acc => some acc
  | gdb_line :: rest, acc =>
    match StringStrip gdb_line with
    | none => none
    | some stripped =>
      if !IsStartOfStackTrace stripped && acc.is_stack_trace && IsEndOfStackTrace stripped then
        some { acc with is_stack_trace := false }
      else
        let acc1 := if IsStartOfStackTrace stripped then { acc with is_stack_trace := true } else acc
        if acc1.is_stack_trace then
          match ParseLocation stripped with
          | none => none
          | some loc =>
            let acc2 :=
              if src_dir.toList.isPrefixOf loc.toList then
                { acc1 with
                  final_stack_trace := acc1.final_stack_trace ++ [loc]
                  first_location := if !acc1.found_first_tgt_loc then loc else acc1.first_location
                  found_first_tgt_loc := true }
              else acc1
            scanTrace src_dir rest { acc2 with main_location := loc }
        else scanTrace src_dir rest acc1

/-- The conversion `std::stoi`: leading white space, an optional sign, then
digits; `none` when it throws (no digit, or a value outside `int`). -/
def stoi (s : String) : Option Int :=
  let body := s.toList.dropWhile isspace
  let (neg, rest) :=
    match body with
    | '-' :: r => (true, r)
    | '+' :: r => (false, r)
    | r => (false, r)
  let digits := rest.takeWhile Char.isDigit
  if digits.isEmpty then none
  else
    let n : Nat := digits.foldl (fun acc c => acc * 10 + (c.toNat - '0'.toNat)) 0
    let v : Int := if neg then -(n : Int) else (n : Int)
    if -(2 : Int) ^ 31 ≤ v ∧ v < (2 : Int) ^ 31 then some v else none

/-- The method `CrashTCHandler::ExecuteInGDBEnv` on the text that the debugger
printed; `none` when a helper runs out of its string or `std::stoi` throws. -/
def ExecuteInGDBEnv (gdb_output : String) (src_dir : String) : Option TCMemo :=
  match SplitStringIntoVector gdb_output "\n" with
  | none => none
  | some gdb_output_ss =>
    if InvokingOnNullptrCheck gdb_output_ss then
      some { TCMemo.new with valid_crash_ := false, gdb_output_ := some gdb_output }
    else
      match scanTrace src_dir gdb_output_ss ⟨"", "", [], false, false⟩ with
      | none => none
      | some scan =>
        let memo0 : TCMemo :=
          { TCMemo.new with
            fingerprint_ := some (SquashStackTrace scan.final_stack_trace)
            gdb_output_ := some gdb_output }
        let memo1 : TCMemo :=
          if scan.found_first_tgt_loc then { memo0 with location_ := some scan.first_location }
          else { memo0 with valid_crash_ := false }
        if !scan.main_location.isEmpty && containsSub scan.main_location ":" then
          match (SplitStringIntoVector scan.main_location ":").bind (fun locs => locs.get? 1) with
          | none => none
          | some l1 =>
            match stoi l1 with
            | none => none
            | some line_num => some { memo1 with crash_line_num_ := some line_num }
        else some memo1

/-- The set `unique_crashes_` of `CrashTCHandler`. -/
structure CrashTCHandler where
  unique_crashes_ : List String
  deriving DecidableEq, Repr

def CrashTCHandler.IsNewCrash (h : CrashTCHandler) (squashed_stack_trace : String) : Bool :=
  decide (h.unique_crashes_.count squashed_stack_trace = 0)

/-- The method `CrashTCHandler::RegisterIfNewCrash`. -/
def CrashTCHandler.RegisterIfNewCrash (h : CrashTCHandler) (squashed_stack_trace : String) :
    Bool × CrashTCHandler :=
  if h.IsNewCrash squashed_stack_trace then (true, ⟨h.unique_crashes_ ++ [squashed_stack_trace]⟩)
  else (false, h)

/-! ## fuzzer.cpp -/

structure FlushableTestCase where
  id_ : Int
  timestamp_ : Int
  flushed_ : Bool
  tc_ : TestCase
  memo_ : TCMemo
  return_code_ : Int
  deriving DecidableEq, Repr

structure TestCaseQueue where
  valid_ : List FlushableTestCase
  crashes_ : List FlushableTestCase
  incompilable_ : List FlushableTestCase
  deriving DecidableEq, Repr

/-- One row of the coverage logger, in the argument order of `AppendEntry`. -/
structure CoverageLoggingEntry where
  timestamp : Int
  line_cov : Int
  branch_cov : Int
  line_tot : Int
  branch_tot : Int
  func_cov : Int
  func_tot : Int
  deriving DecidableEq, Repr

/-- The state that `MainFuzzer::MainLoop` keeps between iterations: the members
of `MainFuzzer`, the loop's locals and the globals of fuzzer.cpp. -/
structure FuzzerState where
  queue_ : TestCaseQueue
  seed_scheduling_counter_ : Nat
  observer : CoverageObserver
  crash_tc_handler : CrashTCHandler
  cov_logger : List CoverageLoggingEntry
  kGlobalTCId : Int
  deterministic_mode : Bool
  det_queue : List Executable
  gen : GenState

/-- The state at the first iteration: `MainFuzzer()`, `CleanCovInfo()` and the fresh handlers. -/
def FuzzerState.init (gen : GenState) : FuzzerState :=
  ⟨⟨[], [], []⟩, 0, ⟨CoverageReport.zero⟩, ⟨[]⟩, [], 0, false, [], gen⟩

/-- The constructor `FlushableTestCase(tc)` with the pre-incremented global id. -/
def FlushableTestCase.make (kGlobalTCId : Int) (tc : TestCase) (memo : TCMemo) : FlushableTestCase :=
  ⟨kGlobalTCId + 1, 0, false, tc, memo, 0⟩

/-- The method `MainFuzzer::LoadTestCaseDeterministically`. -/
def LoadTestCaseDeterministically (p : ProgramContext) (fuel : Nat) (executables : List Executable)
    (s : FuzzerState) : Except Fault (Option TestCase × FuzzerState) :=
  let det_queue0 :=
    if s.deterministic_mode && s.det_queue.isEmpty then executables else s.det_queue
  match det_queue0 with
  | curr_executable :: rest =>
    match GenForMethod p fuel curr_executable TemplateTypeContext.New [] 0 false s.gen with
    | .error e => .error e
    | .ok (tc, g) => .ok (some tc, { s with det_queue := rest, gen := g })
  | [] => .ok (none, { s with det_queue := [], deterministic_mode := false })

/-- The method `MainFuzzer::LoadTestCase`; the cursor is an `unsigned int`. -/
def LoadTestCase (p : ProgramContext) (kGlobalSummary : List (String × StatementVisitorResult))
    (fuel : Nat) (class_methods : List Executable) (s : FuzzerState) :
    Except Fault (TestCase × FuzzerState) :=
  let det : Except Fault (Option TestCase × FuzzerState) :=
    if s.deterministic_mode then LoadTestCaseDeterministically p fuel class_methods s
    else .ok (none, s)
  match det with
  | .error e => .error e
  | .ok (some tc, s1) => .ok (tc, s1)
  | .ok (none, s1) =>
    let valid_seeds := s1.queue_.valid_
    let valid_size := valid_seeds.length
    let coin : Bool × Random :=
      if valid_size = 0 then (true, s1.gen.random) else s1.gen.random.NextBoolean
    if coin.1 then
      let tt_ctx := TemplateTypeContext.New
      let (should_force_reuse_op, r2) := coin.2.NextBoolean
      match NextExecutable class_methods .kComplexityBased kGlobalSummary r2 with
      | none => .error .abort
      | some (selected_method, r3) =>
        match GenForMethod p fuel selected_method tt_ctx [] 0 should_force_reuse_op
            { s1.gen with random := r3 } with
        | .error e => .error e
        | .ok (tc, g) => .ok (tc, { s1 with gen := g })
    else
      let cursor := (s1.seed_scheduling_counter_ % valid_size) % 2 ^ 32
      match valid_seeds.get? cursor with
      | none => .error .abort
      | some choosen =>
        .ok (choosen.tc_,
          { s1 with seed_scheduling_counter_ := (cursor + 1) % 2 ^ 32,
                    gen := { s1.gen with random := coin.2 } })

/-- What the external collaborators answer during one iteration: the compiler,
the driver's exit code, the coverage tool, the debugger and the wall clock. -/
structure Collaborators where
  build_result : CompilationResult × String
  return_code : Int
  report : CoverageReport
  gdb_output : String
  src_dir_abs : String
  elapsed_at_admission : Int
  curr_elapsed : Int

def kDiscardUncompilableTCsAfter : Int := 3600000

/-- The `switch` of one iteration of `MainFuzzer::MainLoop` on the mutated driver.
A failed assertion, `value()` on an empty optional and the dereference of an
empty optional end the run with a fault. -/
def classify (mutation : TestCase) (x : Collaborators) (s : FuzzerState) : Except Fault FuzzerState :=
  match x.build_result.1 with
  | .kSuccess =>
    let (exec_result, observer1) := s.observer.ExecuteAndMeasureCov x.return_code x.report
    let s1 := { s with observer := observer1 }
    if exec_result.IsSuccessful || exec_result.HasCaughtException then
      if exec_result.interesting_ then
        match exec_result.cov_report_ with
        | none => .error .abort
        | some cov_report =>
          if !mutation.Verify then .error .abort
          else
            let timestamp := x.elapsed_at_admission / 1000
            let ftc : FlushableTestCase :=
              { FlushableTestCase.make s1.kGlobalTCId mutation TCMemo.new with
                return_code_ := exec_result.return_code_, timestamp_ := timestamp }
            .ok { s1 with
              queue_ := { s1.queue_ with valid_ := s1.queue_.valid_ ++ [ftc] }
              kGlobalTCId := s1.kGlobalTCId + 1
              cov_logger := s1.cov_logger ++
                [⟨timestamp, cov_report.line_cov_, cov_report.branch_cov_, cov_report.line_tot_,
                  cov_report.branch_tot_, cov_report.func_cov_, cov_report.func_tot_⟩] }
      else .ok s1
    else
      match ExecuteInGDBEnv x.gdb_output x.src_dir_abs with
      | none => .error .abort
      | some memo =>
        -- `*memo.GetFingerprint()` is evaluated first, whatever the memo holds
        match memo.fingerprint_ with
        | none => .error .abort
        | some fingerprint =>
          let crash_in_source := memo.valid_crash_ && memo.location_.isSome
          if crash_in_source then
            let (is_new_unique_crash, h1) := s1.crash_tc_handler.RegisterIfNewCrash fingerprint
            if is_new_unique_crash then
              .ok { s1 with
                crash_tc_handler := h1
                queue_ := { s1.queue_ with
                  crashes_ := s1.queue_.crashes_ ++ [FlushableTestCase.make s1.kGlobalTCId mutation memo] }
                kGlobalTCId := s1.kGlobalTCId + 1 }
            else .ok { s1 with crash_tc_handler := h1 }
          else .ok s1
  | .kCompileFailed =>
    if x.curr_elapsed < kDiscardUncompilableTCsAfter then
      let memo : TCMemo := { TCMemo.new with compilation_output_ := some x.build_result.2 }
      .ok { s with
        queue_ := { s.queue_ with
          incompilable_ := s.queue_.incompilable_ ++ [FlushableTestCase.make s.kGlobalTCId mutation memo] }
        kGlobalTCId := s.kGlobalTCId + 1 }
    else .ok s
  | .kLinkingFailed => .ok s

/-- One iteration of the `while` loop of `MainFuzzer::MainLoop`. -/
def iteration (p : ProgramContext) (kGlobalSummary : List (String × StatementVisitorResult))
    (fuel : Nat) (base_executables : List Executable) (x : Collaborators) (s : FuzzerState) :
    Except Fault FuzzerState :=
  match LoadTestCase p kGlobalSummary fuel base_executables s with
  | .error e => .error e
  | .ok (tc, s1) =>
    match MutateTestCase p kGlobalSummary fuel tc 20 s1.gen with
    | .error e => .error e
    | .ok (mutation, g) => classify mutation x { s1 with gen := g }

/-- The iterations that the loop runs before the deadline or an interrupt, one per element of `xs`. -/
def MainLoop (p : ProgramContext) (kGlobalSummary : List (String × StatementVisitorResult))
    (fuel : Nat) (base_executables : List Executable) :
    List Collaborators → FuzzerState → Except Fault FuzzerState
  | [], s => .ok s
  | x :: xs, s =>
    match iteration p kGlobalSummary fuel base_executables x s with
    | .error e => .error e
    | .ok s1 => MainLoop p kGlobalSummary fuel base_executables xs s1

/-- The executables the loop draws from: `base_executables` of `MainLoop`. -/
def baseExecutables (p : ProgramContext) (target_class_type : Option ClassTypeModel) : List Executable :=
  match target_class_type with
  | none => p.executables_.filter (fun i => !i.is_creator_)
  | some cls => p.executables_.filter (fun i => decide (i.owner_ = some cls) && !i.is_creator_)

/-! ## Predicates used in the statements -/

/-- The row without coverage, with which the first admission is compared. -/
def CoverageLoggingEntry.zero : CoverageLoggingEntry := ⟨0, 0, 0, 0, 0, 0, 0⟩

/-- The covered counts of `cur` exceed those of `prev` in the line, branch or function dimension. -/
def CoverageLoggingEntry.Exceeds (prev cur : CoverageLoggingEntry) : Prop :=
  cur.line_cov > prev.line_cov ∨ cur.branch_cov > prev.branch_cov ∨ cur.func_cov > prev.func_cov

/-- The fingerprints of the entries of the crashes partition, in order. -/
def TestCaseQueue.crashFingerprints (q : TestCaseQueue) : List (Option String) :=
  q.crashes_.map (fun e => e.memo_.fingerprint_)

/-- The seeds that `m` consecutive calls of `MainFuzzer::LoadTestCase` return. -/
def loadSeeds (p : ProgramContext) (kGlobalSummary : List (String × StatementVisitorResult))
    (fuel : Nat) (class_methods : List Executable) :
    Nat → FuzzerState → Except Fault (List TestCase × FuzzerState)
  | 0, s => .ok ([], s)
  | m + 1, s =>
    match LoadTestCase p kGlobalSummary fuel class_methods s with
    | .error e => .error e
    | .ok (tc, s1) =>
      match loadSeeds p kGlobalSummary fuel class_methods m s1 with
      | .error e => .error e
      | .ok (tcs, s2) => .ok (tc :: tcs, s2)

/-- Single assignment of a driver: no statement occurs twice, and every reference
operand of the statement at index `i` points to a statement at an index `j < i`. -/
def SingleAssignment (d : List Statement) : Prop :=
  (d.map (fun s => s.addr)).Nodup ∧
  ∀ i s, d.get? i = some s → ∀ op ∈ s.GetStatementOperands, ∀ a, op.ref_ = some a →
    ∃ j t, j < i ∧ d.get? j = some t ∧ t.addr = a

/-- Single assignment after the statements at the addresses `seen`, in the order
in which `TestCase::Verify` walks the driver. -/
def SSAFrom (seen : List Nat) : List Statement → Prop
  | [] => True
  | s :: rest =>
    s.addr ∉ seen ∧ (∀ op ∈ s.GetStatementOperands, ∀ a, op.ref_ = some a → a ∈ seen) ∧
    SSAFrom (seen ++ [s.addr]) rest

/-- A statement is the referent of a reference operand of some statement of `d`. -/
def IsReferencedIn (d : List Statement) (s : Statement) : Prop :=
  ∃ t ∈ d, ∃ op ∈ t.GetStatementOperands, op.ref_ = some s.addr

/-- The effect of a generation step on the statement vector `stmts` and the next
free address `n`: statements at fresh addresses are appended, single
assignment is kept, and the references `refs` that the step returns point into
the vector it leaves. -/
def StepOK (stmts : List Statement) (n : Nat) (stmts1 : List Statement) (n1 : Nat)
    (refs : List Nat) : Prop :=
  ∃ new, stmts1 = stmts ++ new ∧ n ≤ n1 ∧ (∀ s ∈ new, n ≤ s.addr ∧ s.addr < n1) ∧
    ((SSAFrom [] stmts ∧ ∀ s ∈ stmts, s.addr < n) → SSAFrom [] stmts1) ∧
    (∀ a ∈ refs, a ∈ stmts1.map (fun s => s.addr))

/-- Every call of `resolve` that returns is a generation step. -/
def ResolverOK (resolve : Resolver) : Prop :=
  ∀ (T : TypeWithModifier) (stmts : List Statement) (c : TemplateTypeContext) (force : Bool)
    (st : GenState) (res : Resolved), resolve T stmts c force st = .ok res →
    StepOK stmts st.next_addr res.statements res.state.next_addr res.operand.ref_.toList

/-! ## type.cpp: the registry of template specialisations -/

/-- The method `TemplateTypeInstList::Equals`: the length test and the loop over the indices. -/
def TemplateTypeInstList.Equals (insts_ other : List TemplateTypeInstantiation) : Bool :=
  if insts_.length ≠ other.length then false
  else (List.zip insts_ other).all (fun x => !(x.1 != x.2))

/-- A `TemplateTypenameSpcType` object at address `addr`. -/
structure SpcObject where
  addr : Nat
  target_type_ : CxxType
  inst_list_ : List TemplateTypeInstantiation
  deriving DecidableEq, Repr

/-- The static map `TemplateTypenameSpcType::kGlobalExistingSpcTypes`, keyed by the target type. -/
abbrev SpcRegistry := List (CxxType × List SpcObject)

/-- The vector stored for `target`, empty when there is none. -/
def SpcRegistry.existing (reg : SpcRegistry) (target : CxxType) : List SpcObject :=
  ((reg.find? (fun kv => kv.1 == target)).map Prod.snd).getD []

/-- The method `LookupExistingByTargetType`: the vector for `target`, created empty when absent. -/
def LookupExistingByTargetType (reg : SpcRegistry) (target : CxxType) :
    List SpcObject × SpcRegistry :=
  match reg.find? (fun kv => kv.1 == target) with
  | none => ([], reg ++ [(target, [])])
  | some kv => (kv.2, reg)

/-- The factory `TemplateTypenameSpcType::From` on the registry: the object it
returns, the registry and the next free address afterwards. -/
def TemplateTypenameSpcType.FromRegistry (reg : SpcRegistry) (next_addr : Nat)
    (target_type : CxxType) (inst_list : List TemplateTypeInstantiation) :
    SpcObject × SpcRegistry × Nat :=
  let (existing_types, reg1) := LookupExistingByTargetType reg target_type
  match existing_types.find? (fun it => TemplateTypeInstList.Equals inst_list it.inst_list_) with
  | none =>
    let new_spc_type : SpcObject := ⟨next_addr, target_type, inst_list⟩
    (new_spc_type,
      reg1.map (fun kv => if kv.1 = target_type then (kv.1, kv.2 ++ [new_spc_type]) else kv),
      next_addr + 1)
  | some it => (it, reg1, next_addr)

/-- A sequence of calls of `TemplateTypenameSpcType::From`, results dropped. -/
def fromSeq : List (CxxType × List TemplateTypeInstantiation) → SpcRegistry × Nat → SpcRegistry × Nat
  | [], s => s
  | (t, l) :: rest, s =>
    let r := TemplateTypenameSpcType.FromRegistry s.1 s.2 t l
    fromSeq rest (r.2.1, r.2.2)

/-- The invariant of the registry: one vector per target, and in each vector
objects of that target, allocated before `n`, with different addresses and
different instantiation lists. -/
def RegistryOK (reg : SpcRegistry) (n : Nat) : Prop :=
  (reg.map Prod.fst).Nodup ∧
  ∀ kv ∈ reg, (kv.2.map (fun o => o.inst_list_)).Nodup ∧ (kv.2.map (fun o => o.addr)).Nodup ∧
    ∀ o ∈ kv.2, o.target_type_ = kv.1 ∧ o.addr < n

/-! ## The selection of `NextExecutable` as a function of the draw -/

/-- The complexity-based branch of `FunctionSelector::NextExecutable` from the
value `target_prob` of the draw on: the index into `executables_` that it
returns, `none` when the score vector is indexed out of range. -/
def NextExecutableIndex (executables_ : List Executable)
    (kGlobalSummary : List (String × StatementVisitorResult)) (target_prob : ℚ) : Option Nat :=
  let raw_scores := executables_.map (complexityScore kGlobalSummary)
  let cumm := cumulative 0 raw_scores
  let cumm_score := cumm.getLastD 0
  let scores := cumm.map (fun x => x / cumm_score)
  let (lo, hi) := searchScore scores target_prob executables_.length 0 executables_.length
  match scores.get? lo with
  | none => none
  | some s_lo => if s_lo > target_prob then some lo else some hi

/-! ## analyzer.cpp: the filtering of unsatisfiable executables -/

def STLType.name_aliases_ : STLType → List String
  | .kList => ["std::__cxx11::list"]
  | .kBasicString => ["std::__cxx11::basic_string"]
  | _ => []

/-- The vector `STLType::kInstalledSTLTypes`. -/
def STLType.kInstalledSTLTypes : List STLType :=
  [.kVector, .kDeque, .kForwardList, .kList, .kStack, .kQueue, .kPriorityQueue, .kSet, .kMultiset,
   .kUnorderedSet, .kUnorderedMultiset, .kMap, .kMultimap, .kUnorderedMap, .kUnorderedMultimap,
   .kArray, .kPair, .kTuple, .kBasicString]

/-- The lookup `STLType::IsInstalledSTLType`, `none` for `nullptr`. -/
def STLType.IsInstalledSTLType (name : String) : Option STLType :=
  STLType.kInstalledSTLTypes.find? (fun it => it.GetName == name || it.name_aliases_.contains name)

/-- The lambda `is_unsatisfiable_cls` of `executable_filter`. -/
def is_unsatisfiable_cls (has_creators : List ClassTypeModel) (ignored_cls : List String)
    (class_model : ClassTypeModel) : Bool :=
  let no_creator := decide (has_creators.count class_model = 0)
  let is_ignored := decide (ignored_cls.count class_model.qualified_name_ > 0)
  no_creator || is_ignored

mutual
/-- The lambda `is_unsatisfiable_twm` on a type that is not bottom, with its modifiers. -/
def is_unsatisfiable_type_mods (has_creators : List ClassTypeModel) (ignored_cls : List String) :
    CxxType → List Modifier → Bool
  | ty, mods =>
    let ptr_cnt := mods.count Modifier.kPointer
    let arr_cnt := mods.count Modifier.kArray
    let is_multidim_ptr := decide (ptr_cnt + arr_cnt > 1)
    let is_nullptr := decide (ty = .primitive .kNullptrType)
    if is_nullptr || is_multidim_ptr then true
    else
      match ty with
      | .cls class_model => is_unsatisfiable_cls has_creators ignored_cls class_model
      | .templateTypenameSpc tgt_type inst_list =>
        if (STLType.IsInstalledSTLType tgt_type.GetName).isSome then
          is_unsatisfiable_insts has_creators ignored_cls inst_list
        else
          match tgt_type with
          | .cls class_model => is_unsatisfiable_cls has_creators ignored_cls class_model
          | _ => false
      | .primitive v => decide (v = .kVoid)
      | _ => false
/-- The loop of `is_unsatisfiable_twm` over the instantiations of an installed STL type. -/
def is_unsatisfiable_insts (has_creators : List ClassTypeModel) (ignored_cls : List String) :
    InstList → Bool
  | .nil => false
  | .cons item rest =>
    (match item with
     | .ForType ty mods => is_unsatisfiable_type_mods has_creators ignored_cls ty mods
     | _ => false) || is_unsatisfiable_insts has_creators ignored_cls rest
end

/-- The lambda `is_unsatisfiable_twm` of `executable_filter`. -/
def is_unsatisfiable_twm (has_creators : List ClassTypeModel) (ignored_cls : List String)
    (type_wm : TypeWithModifier) : Bool :=
  match type_wm.type_ with
  | none => true
  | some ty => is_unsatisfiable_type_mods has_creators ignored_cls ty type_wm.modifiers_

/-- The insertion of the base classes of one class into `has_creators`, with the
flag `has_update`. -/
def insertBases (bases : List ClassTypeModel) (acc : List ClassTypeModel × Bool) :
    List ClassTypeModel × Bool :=
  bases.foldl (fun a item => if a.1.count item > 0 then a else (a.1 ++ [item], true)) acc

/-- One round of the `do ... while (has_update)` loop over the classes that
`has_creators` holds when the round starts.  (The C++ round also visits some of
the classes it inserts; the set that the loop ends with is the same.) -/
def hasCreatorsRound (inheritance_model : InheritanceTreeModel) (has_creators : List ClassTypeModel) :
    List ClassTypeModel × Bool :=
  has_creators.foldl
    (fun a class_model => insertBases (inheritance_model.LookupBaseClasses class_model) a)
    (has_creators, false)

/-- The `do ... while (has_update)` loop, at most `fuel` rounds. -/
def hasCreatorsLoop (inheritance_model : InheritanceTreeModel) :
    Nat → List ClassTypeModel → Option (List ClassTypeModel)
  | 0, _ => none
  | fuel + 1, has_creators =>
    let (next, has_update) := hasCreatorsRound inheritance_model has_creators
    if has_update then hasCreatorsLoop inheritance_model fuel next else some next

/-- The set `has_creators` before the loop: the target class of every creator. -/
def creatorTargets (all_creators : List Creator) : List ClassTypeModel :=
  all_creators.foldl
    (fun acc creator => if acc.count creator.target_class_ > 0 then acc else acc ++ [creator.target_class_])
    []

/-- The lambda `executable_filter`; `.error .abort` when the owner of an
executable that requires an invoking object is `nullptr` and is dereferenced. -/
def executable_filter (has_creators : List ClassTypeModel) (ignored_cls : List String)
    (e : Executable) : Except Fault Bool :=
  let has_unsatisfiable_arg := e.arguments_.any
    (fun arg => is_unsatisfiable_twm has_creators ignored_cls (TypeWithModifier.FromSpecByClangType arg))
  if has_unsatisfiable_arg then .ok true
  else
    let owner_check : Except Fault Bool :=
      if !e.is_not_require_invoking_obj_ then
        match e.owner_ with
        | none => .error .abort
        | some class_owner =>
          let no_creator := decide (has_creators.count class_owner = 0)
          let is_ignored := decide (ignored_cls.count class_owner.qualified_name_ > 0)
          .ok (no_creator || is_ignored)
      else .ok false
    match owner_check with
    | .error f => .error f
    | .ok true => .ok true
    | .ok false =>
      match e.return_type_ with
      | some return_type =>
        let type_wm := TypeWithModifier.FromSpecByClangType return_type
        let is_bottom := type_wm.IsBottomType
        match type_wm.type_ with
        | some (.cls ctm) =>
          if ignored_cls.count ctm.qualified_name_ > 0 then .ok true else .ok is_bottom
        | _ => .ok is_bottom
      | none => .ok false

/-- The call `std::remove_if` with `executable_filter` and the `erase` after it:
the elements that stay, in their order. -/
def removeUnsatisfiable {α : Type} (has_creators : List ClassTypeModel) (ignored_cls : List String)
    (toExecutable : α → Executable) : List α → Except Fault (List α)
  | [] => .ok []
  | e :: rest =>
    match executable_filter has_creators ignored_cls (toExecutable e) with
    | .error f => .error f
    | .ok should_remove =>
      match removeUnsatisfiable has_creators ignored_cls toExecutable rest with
      | .error f => .error f
      | .ok kept => .ok (if should_remove then kept else e :: kept)

/-- The result of one call of `FilterOutUnsatisfiableExecutables`: the value
returned, the two vectors and the global set `ignored_cls` after the call. -/
structure FilterResult where
  returned : Int
  all_executables : List Executable
  all_creators : List Creator
  ignored_cls : List String

/-- The function `FilterOutUnsatisfiableExecutables`.  The loop over
`has_creators` gets one round per class that the inheritance model lists as a
base, and one more. -/
def FilterOutUnsatisfiableExecutables (all_executables : List Executable)
    (all_creators : List Creator) (inheritance_model : InheritanceTreeModel)
    (ignored_cls : List String) : Except Fault FilterResult :=
  let ignored_cls1 :=
    if ignored_cls.count "_Z3_config" > 0 then ignored_cls else ignored_cls ++ ["_Z3_config"]
  let fuel := (inheritance_model.parent_classes_.flatMap (fun kv => kv.2)).length + 1
  match hasCreatorsLoop inheritance_model fuel (creatorTargets all_creators) with
  | none => .error .outOfFuel
  | some has_creators =>
    match removeUnsatisfiable has_creators ignored_cls1 id all_executables with
    | .error f => .error f
    | .ok executables1 =>
      let has_removal1 : Int := (all_executables.length : Int) - (executables1.length : Int)
      match removeUnsatisfiable has_creators ignored_cls1 Creator.toExecutable all_creators with
      | .error f => .error f
      | .ok creators1 =>
        let has_removal2 : Bool := decide (all_creators.length - creators1.length ≠ 0)
        .ok ⟨has_removal1 + (if has_removal2 then 1 else 0), executables1, creators1, ignored_cls1⟩

/-- The loop `do { curr_removed = FilterOutUnsatisfiableExecutables(...); } while (curr_removed > 0)`
of `ProgramAnalyzer::Analyze`, at most `fuel` passes: the two vectors and
`ignored_cls` after the loop, and `total_removed`. -/
def filterLoop (inheritance_model : InheritanceTreeModel) :
    Nat → List Executable → List Creator → List String → Int →
      Except Fault (List Executable × List Creator × List String × Int)
  | 0, _, _, _, _ => .error .outOfFuel
  | fuel + 1, all_executables, all_creators, ignored_cls, total_removed =>
    match FilterOutUnsatisfiableExecutables all_executables all_creators inheritance_model
        ignored_cls with
    | .error f => .error f
    | .ok res =>
      if res.returned > 0 then
        filterLoop inheritance_model fuel res.all_executables res.all_creators res.ignored_cls
          (total_removed + res.returned)
      else
        .ok (res.all_executables, res.all_creators, res.ignored_cls, total_removed + res.returned)

/-- A class `d` is `b` or derives from `b` through the base classes that the
inheritance model records. -/
def Derives (inheritance_model : InheritanceTreeModel) (d b : ClassTypeModel) : Prop :=
  Relation.ReflTransGen (fun x y => y ∈ inheritance_model.LookupBaseClasses x) d b

/-! ## util.cpp: `StringStrip` by its iterators -/

/-- The loop `while (std::isspace(*start_it)) ++start_it` on the characters from
`start_it` on: the number of increments.  At the end of the string the loop
reads the terminating null character and stops. -/
def StringStrip.startLoop : List Char → Nat
  | [] => 0
  | c :: rest => if isspace c then StringStrip.startLoop rest + 1 else 0

/-- The loop `while (std::isspace(*end_it)) ++end_it` on the characters from
`end_it` on, in reverse order: the number of increments, or `none` when the
reverse iterator reaches `rend()` and is dereferenced, which reads the position
before the first character. -/
def StringStrip.endLoop : List Char → Option Nat
  | [] => none
  | c :: rest => if isspace c then (StringStrip.endLoop rest).map (fun n => n + 1) else some 0

/-- The function `StringStrip` step by step: both loops, then the constructor
`std::string(start_it, end_it.base())`, whose range must not be reversed. -/
def StringStrip.byIterators (input_string : String) : Option String :=
  if input_string.isEmpty then some input_string
  else
    let start := StringStrip.startLoop input_string.toList
    match StringStrip.endLoop input_string.toList.reverse with
    | none => none
    | some back =>
      let stop := input_string.toList.length - back
      if start ≤ stop then some (String.mk ((input_string.toList.take stop).drop start)) else none

/-- A driver holds at least one Call statement. -/
def HasCall (d : List Statement) : Prop := ∃ s ∈ d, s.GetVariant = .kCall

/-! ## writer.cpp: text inside a block comment -/

/-- The call `subject.find(search, pos)`. -/
def findFrom (search subject : List Char) (pos : Nat) : Option Nat :=
  if pos > subject.length then none
  else (findSub search (subject.drop pos)).map (fun i => i + pos)

/-- The loop of `ReplaceString`, at most `fuel` rounds. -/
def ReplaceString.loop (search replace : List Char) : Nat → List Char → Nat → Option (List Char)
  | 0, _, _ => none
  | fuel + 1, subject, pos =>
    match findFrom search subject pos with
    | none => some subject
    | some p =>
      ReplaceString.loop search replace fuel
        (subject.take p ++ replace ++ subject.drop (p + search.length)) (p + replace.length)

/-- The function `ReplaceString`; `none` when the loop does not end within
`subject.length + 1` rounds. -/
def ReplaceString (subject search replace : String) : Option String :=
  (ReplaceString.loop search.toList replace.toList (subject.length + 1) subject.toList 0).map
    String.mk

/-- The function `SanitizeCxxBlockComment`. -/
def SanitizeCxxBlockComment (to_sanitize : String) : Option String :=
  match ReplaceString to_sanitize "/*" "/-*" with
  | none => none
  | some tmp => ReplaceString tmp "*/" "*-/"

/-- One left-to-right pass that puts a dash into every pair `a b` it meets and
goes on behind the pair: what the loop of `ReplaceString` computes for the
search string `ab` and the replacement `a-b`. -/
def replacePairs (a b : Char) : List Char → List Char
  | [] => []
  | [x] => [x]
  | x :: y :: rest =>
    if x = a ∧ y = b then a :: '-' :: b :: replacePairs a b rest
    else x :: replacePairs a b (y :: rest)

/-- The block comment that `WriteToFile` emits for a sanitized debugger output. -/
def gdbOutputComment (gdb_san : String) : String := "/* gdb output:\n" ++ gdb_san ++ "*/"

/-- The block comment that `WriteToFile` emits for a sanitized compiler output. -/
def compilationOutputComment (cmp_san : String) : String :=
  "/* compilation output:\n" ++ cmp_san ++ "*/"

/-! ## The fingerprint as the specification describes it -/

/-- The stripped lines from the first line that starts with `#0` up to the next
empty line, as the specification words them. -/
def spec_stackTraceLines (lines : List String) : List String :=
  ((lines.filterMap StringStrip).dropWhile (fun l => !IsStartOfStackTrace l)).takeWhile
    (fun l => !l.isEmpty)

/-- The locations of the lines of the stack trace that start with the source
directory, in stack order, as the specification words them. -/
def spec_inSourceLocations (src_dir : String) (lines : List String) : List String :=
  ((spec_stackTraceLines lines).filterMap ParseLocation).filter
    (fun loc => src_dir.toList.isPrefixOf loc.toList)

/-! ## type.cpp and statement.cpp: the names of the variables -/

/-- The member `find_last_of(c)` of `std::string`; `none` is `npos`. -/
def find_last_of (c : Char) : List Char → Option Nat
  | [] => none
  | x :: rest =>
    match find_last_of c rest with
    | some i => some (i + 1)
    | none => if x = c then some 0 else none

/-- The function `ToLower`, with `std::tolower` of the C locale. -/
def ToLower (str : String) : String := String.mk (str.toList.map Char.toLower)

/-- The test `is_alphabet` inside `Sanitize`. -/
def is_alphabet (i : Char) : Bool :=
  (decide ('a' ≤ i) && decide (i ≤ 'z')) || (decide ('A' ≤ i) && decide (i ≤ 'Z'))

/-- The function `Sanitize`, which erases what is not a letter. -/
def Sanitize (str : String) : String := String.mk (str.toList.filter is_alphabet)

/-- The method `TypeWithModifier::GetDefaultVarName`; `none` when the assertion
on the type fails. -/
def TypeWithModifier.GetDefaultVarName (t : TypeWithModifier) : Option String :=
  match t.type_ with
  | none => none
  | some type_ =>
    let type_name := type_.GetName
    let result :=
      match find_last_of ':' type_name.toList with
      | none => type_name
      | some last_colon_pos => String.mk (type_name.toList.drop (last_colon_pos + 1))
    some (Sanitize (ToLower result))

/-- The variable name that `StatementWriter::StmtAsString` computes for the
statement `stmt` under the index `stmt_id`: `none` when an assertion on the
way to the name fails, `some none` when the statement declares no variable (a
call that returns `void`). -/
def StmtAsString.var_name (stmt : Statement) (stmt_id : Nat) : Option (Option String) :=
  let default_name : Option (Option String) :=
    stmt.type_.GetDefaultVarName.map (fun n => some (n ++ toString stmt_id))
  match stmt.body with
  | .PrimitiveAssignmentStatement _ _ => default_name
  | .CallStatement _ _ _ _ =>
    let is_void := decide (stmt.type_.type_ = some (.primitive .kVoid))
    let is_void_ptr := is_void && stmt.type_.IsPointer
    if is_void_ptr || !is_void then default_name else some none
  | .STLStatement _ _ =>
    match stmt.type_.type_ with
    | some (.templateTypenameSpc target_type _) =>
      if target_type.GetVariant = .kSTL then default_name else none
    | _ => none
  | .ArrayInitStatement capacity string_literal elements =>
    if !stmt.type_.IsArray then none
    else
      match string_literal with
      | some str_operand =>
        if str_operand.constant_literal_.isSome then default_name else none
      | none =>
        if elements.isSome then default_name
        else if capacity.isSome then default_name else none

/-- The loop of `PrintStatements` with its counter `idx`, an `int`: the variable
names of the statements in the order of the driver; `none` when a statement
fails an assertion or the counter leaves its range. -/
def PrintStatements.loop : List Statement → Nat → Option (List (Option String))
  | [], _ => some []
  | statement :: rest, idx =>
    match StmtAsString.var_name statement idx with
    | none => none
    | some name =>
      if idx + 1 ≥ 2 ^ 31 then none
      else (PrintStatements.loop rest (idx + 1)).map (fun names => name :: names)

/-- The variable names that `PrintStatements` emits for a driver. -/
def PrintStatements.var_names (tc : TestCase) : Option (List (Option String)) :=
  PrintStatements.loop tc.statements_ 0

/-! ## Reference rewiring as the specification describes it -/

/-- The operand `o` after the rewiring by the map `m`, as the specification
words it: a reference whose referent is a key of `m` points to the mapped
statement, every other operand is unchanged. -/
def spec_retarget (m : ReplMap) (o : Operand) : Operand :=
  match o.ref_.bind (ReplMap.find m) with
  | some target_stmt => Operand.MakeRefOperand target_stmt
  | none => o

/-- The members of a statement with `f` applied to each of its operands. -/
def spec_mapOperands (f : Operand → Operand) : StatementBody → StatementBody
  | .PrimitiveAssignmentStatement op operands => .PrimitiveAssignmentStatement op (operands.map f)
  | .CallStatement target operands invoking_obj c =>
    .CallStatement target (operands.map f) (invoking_obj.map f) c
  | .STLStatement target elements =>
    .STLStatement target
      ⟨elements.reg_container_elmts_.map (fun ops => ops.map f),
       elements.key_value_elmts_.map (fun kvs => kvs.map (fun kv => (f kv.1, f kv.2)))⟩
  | .ArrayInitStatement capacity string_literal elements =>
    .ArrayInitStatement capacity (string_literal.map f) (elements.map (fun ops => ops.map f))

/-- The operand `o` refers to a key of the map `m`. -/
def spec_refersToKey (m : ReplMap) (o : Operand) : Bool := (o.ref_.bind (ReplMap.find m)).isSome

/-! ## Array statements of the drivers -/

/-- The statement is no array statement, or it is an array statement as
`MakeCString` builds it: a constant string literal and no element operand. -/
def Statement.IsStringArrayOrOther (s : Statement) : Prop :=
  ∀ capacity string_literal elements,
    s.body = .ArrayInitStatement capacity string_literal elements →
    elements = none ∧ ∃ lit, string_literal = some lit ∧ lit.ref_ = none

/-- Every array statement of the driver holds a constant string literal and
no element operand. -/
def StringArrays (d : List Statement) : Prop := ∀ s ∈ d, s.IsStringArrayOrOther

/-- A step of the generator appends statements, and the array statements it
appends hold a constant string literal only. -/
def StepArr (stmts stmts1 : List Statement) : Prop :=
  ∃ new, stmts1 = stmts ++ new ∧ StringArrays new

/-- Every call of `resolve` that returns is such a step. -/
def ResolverArr (resolve : Resolver) : Prop :=
  ∀ (T : TypeWithModifier) (stmts : List Statement) (c : TemplateTypeContext) (force : Bool)
    (st : GenState) (res : Resolved), resolve T stmts c force st = .ok res →
    StepArr stmts res.statements

end cxxfoozz

/-! # Concrete inputs -/

namespace cxxfoozz
namespace Examples

def kInt : TypeWithModifier := ⟨some (.primitive .kInteger), []⟩
def kDoubleT : TypeWithModifier := ⟨some (.primitive .kDouble), []⟩
def kVoidPtr : TypeWithModifier := ⟨some (.primitive .kVoid), [.kPointer]⟩
def zeroRandom : Random := ⟨fun _ => 0, 0⟩

def clsA : ClassTypeModel := ⟨"A", "A", [], .kClass, true, false⟩
def clsB : ClassTypeModel := ⟨"B", "B", [], .kClass, true, false⟩
def clsC : ClassTypeModel := ⟨"C", "C", [], .kClass, true, false⟩
def tA : TypeWithModifier := ⟨some (.cls clsA), []⟩
def tB : TypeWithModifier := ⟨some (.cls clsB), []⟩
def tC : TypeWithModifier := ⟨some (.cls clsC), []⟩

/-- The inheritance `B : A`, `C : B`. -/
def itmChain : InheritanceTreeModel := ⟨[(clsB, [clsA]), (clsC, [clsB])], []⟩

/-- The inheritance `B : A`, `C : B, A` with every base class recorded. -/
def itmFlat : InheritanceTreeModel := ⟨[(clsB, [clsA]), (clsC, [clsB, clsA])], []⟩

def emptyMutation : TestCase := ⟨[], TemplateTypeContext.New⟩
def gen0 : GenState := ⟨zeroRandom, some ⟨[], []⟩, 0⟩

def kConstIntRef : TypeWithModifier := ⟨some (.primitive .kInteger), [.kConst, .kReference]⟩
def kConstA : TypeWithModifier := ⟨some (.cls clsA), [.kConst]⟩

/-- A free function `int f()`. -/
def fExe : Executable :=
  ⟨"f", "f", .kMethod, none, some ⟨0, kInt⟩, [], false, true, [], false, false, ""⟩

/-- A program whose only executable is `f`. -/
def pF : ProgramContext := ⟨[fExe], [], [], []⟩

/-- A run that builds, exits with 0 and measures the covered counts `l`, `b`, `f`. -/
def xOk (l b f : Int) : Collaborators :=
  ⟨(.kSuccess, ""), 0, ⟨l, b, 100, 100, f, 100⟩, "", "/src", 0, 0⟩

/-- A run whose build fails in the compiler after `elapsed` milliseconds. -/
def xCompileFailed (elapsed : Int) : Collaborators :=
  ⟨(.kCompileFailed, "error: expected a semicolon"), 0, CoverageReport.zero, "", "/src", 0, elapsed⟩

/-- A run that builds and is killed by a signal; the debugger prints `gdb`. -/
def xCrash (gdb : String) : Collaborators :=
  ⟨(.kSuccess, ""), 139, CoverageReport.zero, gdb, "/src", 0, 0⟩

/-- A stack trace that ends in the target's source. -/
def gdbCrash : String :=
  "#0  0x01 in foo () at /src/a.cpp:3\n#1  0x02 in main () at tmp.cpp:5\n"

/-- A stack trace of a method invoked on a null object from the driver's `main`. -/
def gdbNullThis : String :=
  "#0  0x01 in A::foo (this=0x0) at /src/a.cpp:3\n#1  0x02 in main () at tmp.cpp:5\n"

/-- A driver without statements that is told apart by the name bound in its context. -/
def seedTc (name : String) : TestCase := ⟨[], ⟨[(name, ⟨.primitive .kInteger, []⟩)]⟩⟩

/-- A state whose valid partition holds three seeds and whose cursor is 4. -/
def sSeeds : FuzzerState :=
  ⟨⟨[FlushableTestCase.make 0 (seedTc "a") TCMemo.new,
      FlushableTestCase.make 1 (seedTc "b") TCMemo.new,
      FlushableTestCase.make 2 (seedTc "c") TCMemo.new], [], []⟩,
   4, ⟨CoverageReport.zero⟩, ⟨[]⟩, [], 3, false, [], gen0⟩

/-- The statement `int v = lit;` at address `addr`. -/
def sInt (addr : Nat) (lit : String) : Statement :=
  ⟨addr, kInt, none, .PrimitiveAssignmentStatement .kNop [Operand.MakeConstantOperand kInt lit]⟩

/-- A free function `int g(int)`. -/
def gExe : Executable :=
  ⟨"g", "g", .kMethod, none, some ⟨0, kInt⟩, [⟨0, kInt⟩], false, true, [], false, false, ""⟩

/-- The statement `int v = g(ref);` at address `addr` on the statement `ref`. -/
def sCallG (addr : Nat) (ref : Statement) : Statement :=
  ⟨addr, kInt, none, .CallStatement gExe [Operand.MakeRefOperand ref] none TemplateTypeContext.New⟩

/-- The driver `s0 = 1; s1 = 2; s2 = g(s0)`. -/
def dCleanup : List Statement := [sInt 0 "1", sInt 1 "2", sCallG 2 (sInt 0 "1")]

/-- The constructor `A::A(B)`. -/
def ctorA : Creator :=
  ⟨⟨"A", "A::A", .kConstructor, some clsA, none, [⟨0, tB⟩], true, false, [], false, false, ""⟩,
    .kConstructor, clsA⟩

/-- The constructor `B::B(A)`. -/
def ctorB : Creator :=
  ⟨⟨"B", "B::B", .kConstructor, some clsB, none, [⟨1, tA⟩], true, false, [], false, false, ""⟩,
    .kConstructor, clsB⟩

/-- A program with the classes `A` and `B`, each constructible from the other only. -/
def pCyc : ProgramContext :=
  ⟨[ctorA.toExecutable, ctorB.toExecutable], [ctorA, ctorB], [], [("A", clsA), ("B", clsB)]⟩

def tAptr : TypeWithModifier := ⟨some (.cls clsA), [.kPointer]⟩

/-- The static factory `static A* A::make()`. -/
def makeExe : Executable :=
  ⟨"make", "A::make", .kMethod, some clsA, some ⟨0, tAptr⟩, [], false, true, [], false, false, ""⟩

/-- The member function `int A::m()`. -/
def mExe : Executable :=
  ⟨"m", "A::m", .kMethod, some clsA, some ⟨1, kInt⟩, [], false, false, [], false, false, ""⟩

def pM : ProgramContext := ⟨[makeExe, mExe], [], [], [("A", clsA)]⟩

/-- The statement `A* v0 = A::make();`. -/
def sMake : Statement := ⟨0, tAptr, none, .CallStatement makeExe [] none TemplateTypeContext.New⟩

/-- The statement `int v1 = v0->m();`. -/
def sCallM : Statement :=
  ⟨1, kInt, none, .CallStatement mExe [] (some (Operand.MakeRefOperand sMake)) TemplateTypeContext.New⟩

def tcM : TestCase := ⟨[sMake, sCallM], TemplateTypeContext.New⟩

/-- Draws 1, 1 and then 0: `MutateCall` takes the invoking object, `MutateOperand`
the cross-variant mutation, and the Gaussian draw is below the null probability. -/
def rndNull : Random := ⟨fun n => if n < 2 then 1 else 0, 0⟩

def ttT : TemplateTypeParam := ⟨"T", 0, .kTypeParam⟩

/-- The class template `template <class T> class X`. -/
def clsX : ClassTypeModel := ⟨"X", "X", [ttT], .kClass, true, true⟩

/-- The template parameter `T` as a type. -/
def tT : TypeWithModifier := ⟨some (.templateTypename 100 "T"), []⟩

/-- The specialisation `X<int>` of the class template `X<T>`. -/
def tXInt : TypeWithModifier :=
  ⟨some (.templateTypenameSpc (.cls clsX) (InstList.ofList [.ForType (.primitive .kInteger) []])), []⟩

/-- The constructor `X<T>::X(T)`. -/
def ctorX : Creator :=
  ⟨⟨"X", "X::X", .kConstructor, some clsX, none, [⟨0, tT⟩], true, false, [], false, false, ""⟩,
    .kConstructor, clsX⟩

/-- The function template `template <class T> int h(T, X<int>)`. -/
def hExe : Executable :=
  ⟨"h", "h", .kMethod, none, some ⟨1, kInt⟩, [⟨2, tT⟩, ⟨3, tXInt⟩], false, true, [ttT], false, false, ""⟩

def pX : ProgramContext := ⟨[ctorX.toExecutable, hExe], [ctorX], [], [("X", clsX)]⟩

/-- The type `std::vector<int>`. -/
def tVecInt : TypeWithModifier :=
  ⟨some (.templateTypenameSpc (.stl .kVector) (InstList.ofList [.ForType (.primitive .kInteger) []])), []⟩

/-- The first draw is 2 and every other draw is 0. -/
def rndTwo : Random := ⟨fun n => if n = 0 then 2 else 0, 0⟩

/-- The instantiation list `<int>`. -/
def instInt : List TemplateTypeInstantiation := [.ForType (.primitive .kInteger) []]

/-- The instantiation list `<double>`. -/
def instDouble : List TemplateTypeInstantiation := [.ForType (.primitive .kDouble) []]

/-- A free function `int f2()`, with the signature of `f`. -/
def f2Exe : Executable :=
  ⟨"f2", "f2", .kMethod, none, some ⟨0, kInt⟩, [], false, true, [], false, false, ""⟩

/-- A program with the two free functions `f` and `f2`. -/
def pFF : ProgramContext := ⟨[fExe, f2Exe], [], [], []⟩

/-- The statement `int v0 = f();`. -/
def sCallF : Statement := ⟨0, kInt, none, .CallStatement fExe [] none TemplateTypeContext.New⟩

/-- The driver `int v0 = f();`. -/
def tcF : TestCase := ⟨[sCallF], TemplateTypeContext.New⟩

/-- The statement `int v1 = v0;` on the statement `int v0 = 1;` at address 0. -/
def sCopy : Statement :=
  ⟨1, kInt, none, .PrimitiveAssignmentStatement .kNop [Operand.MakeRefOperand (sInt 0 "1")]⟩

/-- The driver `int v0 = 1; int v1 = v0;`. -/
def dChain : List Statement := [sInt 0 "1", sCopy]

/-- A program whose only executable is `g`, the function `int g(int)`. -/
def pG : ProgramContext := ⟨[gExe], [], [], []⟩

/-- The statement `int v = g(-2147483648);` at address `addr`. -/
def sCallGMin (addr : Nat) : Statement :=
  ⟨addr, kInt, none,
    .CallStatement gExe [Operand.MakeConstantOperand kInt "-2147483648"] none TemplateTypeContext.New⟩

/-- The type `char[]`: the character type with the array modifier only. -/
def kCharArr : TypeWithModifier := ⟨some (.primitive .kCharacter), [.kArray]⟩

/-- The type `char*`. -/
def kCharPtr : TypeWithModifier := ⟨some (.primitive .kCharacter), [.kPointer]⟩

/-- Draws for which the null draw of a pointer type does not apply: the first is 500, the others are 0. -/
def rndNoNull : Random := ⟨fun n => if n = 0 then 500 else 0, 0⟩

/-- The function `int f()` with the mangled name `_Z1fv`. -/
def fMangled : Executable :=
  ⟨"f", "f", .kMethod, none, some ⟨0, kInt⟩, [], false, true, [], false, false, "_Z1fv"⟩

/-- A summary whose entry for `_Z1fv` counts two calls, one control, no switch
case, one conditional expression and no short circuit. -/
def summaryF : List (String × StatementVisitorResult) := [("_Z1fv", ⟨0, 1, 1, 0, ["a", "b"]⟩)]

/-- A free function `int h(A)`, which needs no invoking object. -/
def hOnA : Executable :=
  ⟨"h", "h", .kMethod, none, some ⟨0, kInt⟩, [⟨1, tA⟩], false, true, [], false, false, "_Z1h1A"⟩

/-- An inheritance model without base classes. -/
def itmNone : InheritanceTreeModel := ⟨[], []⟩

/-- The default constructor `C::C()`. -/
def ctorC : Creator :=
  ⟨⟨"C", "C::C", .kConstructor, some clsC, none, [], true, false, [], false, false, ""⟩,
    .kConstructor, clsC⟩

/-- The classes `A`, `B : A` and `C : B`, of which only `C` has a creator, and the
function `int h(A)`. -/
def pChain : ProgramContext :=
  ⟨[ctorC.toExecutable, hOnA], [ctorC], [], [("A", clsA), ("B", clsB), ("C", clsC)]⟩

/-- The specialisation `X<double>`. -/
def tXDouble : TypeWithModifier :=
  ⟨some (.templateTypenameSpc (.cls clsX) (InstList.ofList [.ForType (.primitive .kDouble) []])), []⟩

/-- A template context that binds `T` to `double`. -/
def ctxTDouble : TemplateTypeContext := ⟨[("T", ⟨.primitive .kDouble, []⟩)]⟩

/-- The statement `int v1 = 5;`. -/
def sCopyConst : Statement :=
  ⟨1, kInt, none, .PrimitiveAssignmentStatement .kNop [Operand.MakeConstantOperand kInt "5"]⟩

/-- The driver `int v0 = 1; int v1 = 5;`. -/
def tcCopyConst : TestCase := ⟨[sInt 0 "1", sCopyConst], TemplateTypeContext.New⟩

/-- A stack trace with two frames in the target's source, followed by an empty
line and more output. -/
def gdbTwoFrames : String :=
  "Program received signal SIGSEGV\n#0  0x01 in foo () at /src/a.cpp:3\n#1  0x02 in bar () at /src/b.cpp:7\n#2  0x03 in main () at tmp.cpp:5\n\n#3  0x04 in baz () at /src/c.cpp:9"

/-- The lines of `gdbTwoFrames`. -/
def gdbTwoFramesLines : List String :=
  ["Program received signal SIGSEGV", "#0  0x01 in foo () at /src/a.cpp:3",
    "#1  0x02 in bar () at /src/b.cpp:7", "#2  0x03 in main () at tmp.cpp:5", "",
    "#3  0x04 in baz () at /src/c.cpp:9"]

/-- The constructor `A::A()`. -/
def ctorA0 : Creator :=
  ⟨⟨"A", "A", .kConstructor, some clsA, none, [], true, false, [], false, false, ""⟩,
    .kConstructor, clsA⟩

/-- The constructor `B::B()` of the class `B : A`. -/
def ctorB0 : Creator :=
  ⟨⟨"B", "B", .kConstructor, some clsB, none, [], true, false, [], false, false, ""⟩,
    .kConstructor, clsB⟩

/-- The specialisation `X<A>` of the class template `X<T>`. -/
def tXA : TypeWithModifier :=
  ⟨some (.templateTypenameSpc (.cls clsX) (InstList.ofList [.ForType (.cls clsA) []])), []⟩

/-- The function `int h(X<A>)`. -/
def hXA : Executable :=
  ⟨"h", "h", .kMethod, none, some ⟨1, kInt⟩, [⟨2, tXA⟩], false, true, [], false, false, ""⟩

/-- The classes `A` and `B : A`, both with a default constructor, the class
template `X<T>` with the constructor `X(T)`, and the function `int h(X<A>)`. -/
def pXA : ProgramContext :=
  ⟨[ctorA0.toExecutable, ctorB0.toExecutable, ctorX.toExecutable, hXA], [ctorA0, ctorB0, ctorX], [],
    [("A", clsA), ("B", clsB), ("X", clsX)]⟩

/-- The inheritance `B : A`. -/
def itmBA : InheritanceTreeModel := ⟨[(clsB, [clsA])], []⟩

/-- The template context that binds `T` to the class `A`. -/
def ctxTA : TemplateTypeContext := ⟨[("T", ⟨.cls clsA, []⟩)]⟩

/-- The statement `B v0 = B();` as generated under the context `T ↦ A`. -/
def sNewB : Statement := ⟨0, tB, none, .CallStatement ctorB0.toExecutable [] none ctxTA⟩

/-- The statement `X<A> v1 = X<A>(v0);`, whose argument is the `B` object. -/
def sXofB : Statement :=
  ⟨1, tXA, none, .CallStatement ctorX.toExecutable [Operand.MakeRefOperand sNewB] none ctxTA⟩

/-- Every draw is 1. -/
def rndOnes : Random := ⟨fun _ => 1, 0⟩

/-- The process state with the draws of `rndNull`, an empty inheritance model and
the next free address 2. -/
def genNull : GenState := ⟨rndNull, some ⟨[], []⟩, 2⟩

/-- The statement `char v1[] = "ab";`, as `MakeCString` builds it. -/
def sStr : Statement :=
  ⟨1, kCharArr, none, .ArrayInitStatement none (some (Operand.MakeConstantOperand kCharPtr "ab")) none⟩

/-- The driver `int v0 = 1; char v1[] = "ab"; int v2 = g(v0); int v3 = g(v2);`. -/
def dUpdate : List Statement :=
  [sInt 0 "1", sStr, sCallG 2 (sInt 0 "1"), sCallG 3 (sCallG 2 (sInt 0 "1"))]

end Examples
end cxxfoozz

/-! # Theorems -/

namespace cxxfoozz

/-! ## Assignability -/

theorem TemplateTypeContext.find_emplace_of_none (c : TemplateTypeContext) (name : String)
    (t : BoundType) (h : c.find name = none) : (c.emplace name t).find name = some t := by
  unfold TemplateTypeContext.emplace
  rw [h]
  unfold TemplateTypeContext.find at h ⊢
  simp only [Option.map_eq_none'] at h
  simp [List.find?_append, h]

theorem LookupOrResolve_again (c : TemplateTypeContext) (name : String) (r : Random) :
    (c.LookupOrResolve name r).2.1.LookupOrResolve name (c.LookupOrResolve name r).2.2
      = c.LookupOrResolve name r := by
  unfold TemplateTypeContext.LookupOrResolve
  cases h : c.find name with
  | none =>
    simp only [DefaultTTResolverForType, Random.NextBoolean]
    rw [TemplateTypeContext.find_emplace_of_none c name _ h]
  | some t => simp [h]

theorem ResolveTemplateType_again (T : TypeWithModifier) (c : TemplateTypeContext) (r : Random)
    (x : TypeWithModifier × TemplateTypeContext × Random)
    (h : T.ResolveTemplateType c r = some x) : T.ResolveTemplateType x.2.1 x.2.2 = some x := by
  unfold TypeWithModifier.ResolveTemplateType at h ⊢
  cases hty : T.type_ with
  | none => simp [hty] at h
  | some ty =>
    simp only [hty] at h ⊢
    by_cases hv : ty.GetVariant = .kTemplateTypename
    · simp only [hv, if_true] at h ⊢
      have h2 := LookupOrResolve_again c ty.GetName r
      simp only [Option.some.injEq] at h
      subst h
      simp only [h2]
    · simp only [hv, if_false] at h ⊢
      simp only [Option.some.injEq] at h
      subst h
      rfl

theorem ResolveTemplateType_type (T : TypeWithModifier) (c : TemplateTypeContext) (r : Random)
    (x : TypeWithModifier × TemplateTypeContext × Random)
    (h : T.ResolveTemplateType c r = some x) : x.1.type_ ≠ none := by
  unfold TypeWithModifier.ResolveTemplateType at h
  cases hty : T.type_ with
  | none => simp [hty] at h
  | some ty =>
    simp only [hty] at h
    by_cases hv : ty.GetVariant = .kTemplateTypename
    · simp only [hv, if_true, Option.some.injEq] at h
      subst h
      unfold TemplateTypeContext.LookupOrResolve
      cases c.find ty.GetName <;>
        simp [TypeWithModifier.WithAdditionalModifiers, BoundType.toTWM, DefaultTTResolverForType,
          Random.NextBoolean]
    · simp only [hv, if_false, Option.some.injEq] at h
      subst h
      simp [hty]

theorem ResolveTemplateType_isSome (T : TypeWithModifier) (c : TemplateTypeContext) (r : Random)
    (h : T.type_ ≠ none) : ∃ x, T.ResolveTemplateType c r = some x := by
  unfold TypeWithModifier.ResolveTemplateType
  cases hty : T.type_ with
  | none => exact absurd hty h
  | some ty =>
    by_cases hv : ty.GetVariant = .kTemplateTypename
    · simp [hv]
    · simp [hv]

/-- C5. For every non-bottom type-with-modifier `T`, every template context, every
state of the random source and every inheritance model, `T.IsAssignableFrom(T)`
returns true. -/
theorem C5_IsAssignableFrom_refl (T : TypeWithModifier) (tt_ctx : TemplateTypeContext)
    (r : Random) (itm : Option InheritanceTreeModel) (hT : T.IsBottomType = false) :
    (T.IsAssignableFrom T tt_ctx r itm).map (fun res => res.value) = some true := by
  have hne : T.type_ ≠ none := by
    intro h; simp [TypeWithModifier.IsBottomType, h] at hT
  obtain ⟨x, hx⟩ := ResolveTemplateType_isSome T tt_ctx r hne
  have hx2 := ResolveTemplateType_again T tt_ctx r x hx
  have hxt := ResolveTemplateType_type T tt_ctx r x hx
  obtain ⟨sink, c1, r1⟩ := x
  unfold TypeWithModifier.IsAssignableFrom
  simp only [hx, hx2]
  cases hs : sink.type_ with
  | none => exact absurd hs hxt
  | some sty =>
    cases hty : T.type_ with
    | none => exact absurd hty hne
    | some ty =>
      simp only []
      by_cases hp : sty.GetVariant = .kPrimitive
      · have hself : ty.GetVariant = .kPrimitive ∨ ty.GetVariant = .kTemplateTypename := by
          unfold TypeWithModifier.ResolveTemplateType at hx
          simp only [hty] at hx
          by_cases hv : ty.GetVariant = .kTemplateTypename
          · exact Or.inr hv
          · simp only [hv, if_false, Option.some.injEq, Prod.mk.injEq] at hx
            left
            have : T.type_ = some sty := by rw [hx.1]; exact hs
            rw [hty] at this
            cases this
            exact hp
        cases ty <;> simp [CxxType.GetVariant] at hself <;> simp [hp]
      · simp [hp]

theorem C5_IsAssignableFrom_refl_witness :
    Examples.kInt.IsBottomType = false ∧
    (Examples.kInt.IsAssignableFrom Examples.kInt TemplateTypeContext.New Examples.zeroRandom none).map
      (fun res => res.value) = some true :=
  ⟨by decide, C5_IsAssignableFrom_refl _ _ _ _ (by decide)⟩

theorem ResolveTemplateType_primitive (v : PrimitiveTypeVariant) (m : List Modifier)
    (c : TemplateTypeContext) (r : Random) :
    (⟨some (.primitive v), m⟩ : TypeWithModifier).ResolveTemplateType c r
      = some (⟨some (.primitive v), m⟩, c, r) := by
  simp [TypeWithModifier.ResolveTemplateType, CxxType.GetVariant]

theorem ResolveTemplateType_cls (k : ClassTypeModel) (m : List Modifier)
    (c : TemplateTypeContext) (r : Random) :
    (⟨some (.cls k), m⟩ : TypeWithModifier).ResolveTemplateType c r
      = some (⟨some (.cls k), m⟩, c, r) := by
  simp [TypeWithModifier.ResolveTemplateType, CxxType.GetVariant]

/-- C8. For two primitive types-with-modifier: with the same primitive kind and
different signedness `IsAssignableFrom` rejects; with different primitive kinds
it accepts exactly when the sink or the source is `void` with a pointer
modifier. -/
theorem C8_IsAssignableFrom_primitives (vs vo : PrimitiveTypeVariant) (ms mo : List Modifier)
    (tt_ctx : TemplateTypeContext) (r : Random) (itm : Option InheritanceTreeModel) :
    ((vs = vo ∧ (⟨some (.primitive vs), ms⟩ : TypeWithModifier).IsUnsigned
          ≠ (⟨some (.primitive vo), mo⟩ : TypeWithModifier).IsUnsigned) →
      ((⟨some (.primitive vs), ms⟩ : TypeWithModifier).IsAssignableFrom
          ⟨some (.primitive vo), mo⟩ tt_ctx r itm).map (fun res => res.value) = some false) ∧
    (vs ≠ vo →
      ((⟨some (.primitive vs), ms⟩ : TypeWithModifier).IsAssignableFrom
          ⟨some (.primitive vo), mo⟩ tt_ctx r itm).map (fun res => res.value)
        = some ((⟨some (.primitive vs), ms⟩ : TypeWithModifier).IsVoidPtr
            || (⟨some (.primitive vo), mo⟩ : TypeWithModifier).IsVoidPtr)) := by
  constructor
  · rintro ⟨rfl, hu⟩
    unfold TypeWithModifier.IsAssignableFrom
    simp only [ResolveTemplateType_primitive]
    simp [CxxType.GetVariant, hu]
  · intro hne
    unfold TypeWithModifier.IsAssignableFrom
    simp only [ResolveTemplateType_primitive]
    have h1 : (CxxType.primitive vs = CxxType.primitive vo) = False := by
      simp [hne]
    simp [CxxType.GetVariant, hne]
    by_cases hv : (⟨some (.primitive vs), ms⟩ : TypeWithModifier).IsVoidPtr = true
    · simp [hv]
    · by_cases hw : (⟨some (.primitive vo), mo⟩ : TypeWithModifier).IsVoidPtr = true
      · simp [hv, hw]
      · simp [hv, hw]

theorem C8_IsAssignableFrom_primitives_witness :
    (PrimitiveTypeVariant.kInteger ≠ PrimitiveTypeVariant.kVoid) ∧
    ((⟨some (.primitive .kInteger), []⟩ : TypeWithModifier).IsAssignableFrom
        ⟨some (.primitive .kVoid), [.kPointer]⟩ TemplateTypeContext.New Examples.zeroRandom none).map
        (fun res => res.value)
      = some ((⟨some (.primitive .kInteger), []⟩ : TypeWithModifier).IsVoidPtr
          || (⟨some (.primitive .kVoid), [.kPointer]⟩ : TypeWithModifier).IsVoidPtr) :=
  ⟨by decide, (C8_IsAssignableFrom_primitives _ _ _ _ _ _ _).2 (by decide)⟩

/-- C9. For two distinct class types (with any modifiers) and an inheritance model
`I`, `sink.IsAssignableFrom(src)` holds exactly when the class of `src` is a
member of `I.LookupSubClasses` of the class of `sink`; without an inheritance
model it is rejected. -/
theorem C9_IsAssignableFrom_classes (sink_cls src_cls : ClassTypeModel) (ms mo : List Modifier)
    (tt_ctx : TemplateTypeContext) (r : Random) (h : sink_cls ≠ src_cls) :
    (∀ I : InheritanceTreeModel,
      (((⟨some (.cls sink_cls), ms⟩ : TypeWithModifier).IsAssignableFrom
          ⟨some (.cls src_cls), mo⟩ tt_ctx r (some I)).map (fun res => res.value) = some true
        ↔ src_cls ∈ (I.LookupSubClasses sink_cls).1) ∧
      (((⟨some (.cls sink_cls), ms⟩ : TypeWithModifier).IsAssignableFrom
          ⟨some (.cls src_cls), mo⟩ tt_ctx r (some I)).map (fun res => res.value)).isSome = true) ∧
    ((⟨some (.cls sink_cls), ms⟩ : TypeWithModifier).IsAssignableFrom
        ⟨some (.cls src_cls), mo⟩ tt_ctx r none).map (fun res => res.value) = some false := by
  have hne : (CxxType.cls src_cls = CxxType.cls sink_cls) = False := by
    simp; exact fun e => h e.symm
  constructor
  · intro I
    unfold TypeWithModifier.IsAssignableFrom
    simp only [ResolveTemplateType_cls]
    simp only [CxxType.GetVariant, hne, IsSubclassOf, h]
    by_cases hm : src_cls ∈ (I.LookupSubClasses sink_cls).1
    · have hc : List.count src_cls (I.LookupSubClasses sink_cls).1 > 0 := List.count_pos_iff.mpr hm
      simp [hc, hm]
    · have hc : ¬ List.count src_cls (I.LookupSubClasses sink_cls).1 > 0 := by
        intro hpos
        exact hm (List.count_pos_iff.mp hpos)
      simp [hc, hm]
  · unfold TypeWithModifier.IsAssignableFrom
    simp only [ResolveTemplateType_cls]
    simp [CxxType.GetVariant, hne, IsSubclassOf, h]

theorem C9_IsAssignableFrom_classes_witness :
    Examples.clsA ≠ Examples.clsB ∧
    (Examples.tA.IsAssignableFrom Examples.tB TemplateTypeContext.New Examples.zeroRandom
        (some Examples.itmChain)).map (fun res => res.value) = some true ∧
    (Examples.tA.IsAssignableFrom Examples.tB TemplateTypeContext.New Examples.zeroRandom
        none).map (fun res => res.value) = some false :=
  ⟨by decide,
   ((C9_IsAssignableFrom_classes Examples.clsA Examples.clsB [] [] TemplateTypeContext.New
      Examples.zeroRandom (by decide)).1 Examples.itmChain).1.mpr (by decide),
   (C9_IsAssignableFrom_classes Examples.clsA Examples.clsB [] [] TemplateTypeContext.New
      Examples.zeroRandom (by decide)).2⟩

/-! ## Coverage observer -/

/-- C10. For a run with return code 0 or 180, `ExecuteAndMeasureCov` reports the
run as interesting exactly when the measured line, branch or function count is
strictly greater than the stored one, carries the measured report, and
replaces the stored report by the measured one when the run is interesting and
keeps it otherwise; for any other return code it reports not interesting,
carries no report and leaves the stored report unchanged. -/
theorem C10_ExecuteAndMeasureCov (o : CoverageObserver) (rc : Int) (report : CoverageReport) :
    ((rc = 0 ∨ rc = 180) →
      (((o.ExecuteAndMeasureCov rc report).1.interesting_ = true ↔
          (report.line_cov_ > o.prev_success_.line_cov_ ∨
           report.branch_cov_ > o.prev_success_.branch_cov_ ∨
           report.func_cov_ > o.prev_success_.func_cov_)) ∧
        (o.ExecuteAndMeasureCov rc report).1.cov_report_ = some report ∧
        (o.ExecuteAndMeasureCov rc report).1.return_code_ = rc ∧
        ((o.ExecuteAndMeasureCov rc report).1.interesting_ = true →
          (o.ExecuteAndMeasureCov rc report).2.prev_success_ = report) ∧
        ((o.ExecuteAndMeasureCov rc report).1.interesting_ = false →
          (o.ExecuteAndMeasureCov rc report).2 = o))) ∧
    ((rc ≠ 0 ∧ rc ≠ 180) →
      (o.ExecuteAndMeasureCov rc report).1.interesting_ = false ∧
      (o.ExecuteAndMeasureCov rc report).1.cov_report_ = none ∧
      (o.ExecuteAndMeasureCov rc report).2 = o) := by
  constructor
  · intro hrc
    have h0 : ¬ (rc ≠ 0 ∧ rc ≠ ExecutionResult.kExceptionReturnCode) := by
      unfold ExecutionResult.kExceptionReturnCode
      rcases hrc with h | h <;> simp [h]
    unfold CoverageObserver.ExecuteAndMeasureCov
    rw [if_neg h0]
    simp only [Bool.or_eq_true, decide_eq_true_eq, or_assoc]
    refine ⟨trivial, trivial, trivial, ?_, ?_⟩
    · intro h; rw [if_pos h]
    · intro h
      have : ¬ ((report.line_cov_ > o.prev_success_.line_cov_ ∨
           report.branch_cov_ > o.prev_success_.branch_cov_ ∨
           report.func_cov_ > o.prev_success_.func_cov_)) := by
        intro hh
        simp only [Bool.or_eq_false_iff, decide_eq_false_iff_not] at h
        rcases hh with a | a | a
        · exact h.1.1 a
        · exact h.1.2 a
        · exact h.2 a
      rw [if_neg this]
  · intro hrc
    have h0 : rc ≠ 0 ∧ rc ≠ ExecutionResult.kExceptionReturnCode := hrc
    unfold CoverageObserver.ExecuteAndMeasureCov
    rw [if_pos h0]
    exact ⟨rfl, rfl, rfl⟩

theorem C10_ExecuteAndMeasureCov_witness :
    ((0 : Int) = 0 ∨ (0 : Int) = 180) ∧
    ((⟨CoverageReport.zero⟩ : CoverageObserver).ExecuteAndMeasureCov 0 ⟨1, 0, 5, 5, 0, 1⟩).1.cov_report_
      = some ⟨1, 0, 5, 5, 0, 1⟩ :=
  ⟨Or.inl rfl, ((C10_ExecuteAndMeasureCov ⟨CoverageReport.zero⟩ 0 ⟨1, 0, 5, 5, 0, 1⟩).1 (Or.inl rfl)).2.1⟩

/-! ## The const discipline of `IsAssignableFrom` -/

/-- C7, counterexample. The sink `const int&` and the source `int` denote the same
primitive with the same signedness and differ in const; the sink carries a
reference modifier, so the claim wants a rejection, and `IsAssignableFrom`
accepts. -/
theorem C7_counterexample :
    Examples.kConstIntRef.type_ = Examples.kInt.type_ ∧
    Examples.kConstIntRef.IsUnsigned = Examples.kInt.IsUnsigned ∧
    Examples.kConstIntRef.IsConst = true ∧ Examples.kInt.IsConst = false ∧
    Examples.kConstIntRef.IsReference = true ∧
    (Examples.kConstIntRef.IsAssignableFrom Examples.kInt TemplateTypeContext.New
        Examples.zeroRandom none).map (fun res => res.value) = some true := by
  decide

/-- C7, amended. When sink and source resolve to the same underlying type with the
same signedness and differ in the const modifier: for a primitive type
`IsAssignableFrom` accepts exactly when the sink is const (and the source is
not), whatever pointer, array or reference modifiers the sink carries; for any
other type it rejects exactly when the sink is not const (the source is) and
the sink carries a pointer, array or reference modifier. -/
theorem C7_const_discipline (sink src : TypeWithModifier) (tt_ctx : TemplateTypeContext)
    (r : Random) (itm : Option InheritanceTreeModel)
    (sink_twm src_twm : TypeWithModifier) (c1 c2 : TemplateTypeContext) (r1 r2 : Random)
    (ty : CxxType)
    (hsink : sink.ResolveTemplateType tt_ctx r = some (sink_twm, c1, r1))
    (hsrc : src.ResolveTemplateType c1 r1 = some (src_twm, c2, r2))
    (hty1 : sink_twm.type_ = some ty) (hty2 : src_twm.type_ = some ty)
    (hsign : sink_twm.IsUnsigned = src_twm.IsUnsigned)
    (hconst : sink_twm.IsConst ≠ src_twm.IsConst) :
    (sink.IsAssignableFrom src tt_ctx r itm).map (fun res => res.value) =
      some (if ty.GetVariant = .kPrimitive then sink_twm.IsConst
            else (sink_twm.IsConst || (!sink_twm.IsReference && !sink_twm.IsPointerOrArray))) := by
  have hs : sink.type_ ≠ none := by
    intro h; simp [TypeWithModifier.ResolveTemplateType, h] at hsink
  have ho : src.type_ ≠ none := by
    intro h; simp [TypeWithModifier.ResolveTemplateType, h] at hsrc
  obtain ⟨sty, hsty⟩ := Option.ne_none_iff_exists'.mp hs
  obtain ⟨oty, hoty⟩ := Option.ne_none_iff_exists'.mp ho
  have hself : ty.GetVariant = .kPrimitive →
      (sty.GetVariant = .kPrimitive ∨ sty.GetVariant = .kTemplateTypename) := by
    intro hp
    unfold TypeWithModifier.ResolveTemplateType at hsink
    simp only [hsty] at hsink
    by_cases hv : sty.GetVariant = .kTemplateTypename
    · exact Or.inr hv
    · simp only [hv, if_false, Option.some.injEq, Prod.mk.injEq] at hsink
      left
      have : sink.type_ = some ty := by rw [hsink.1]; exact hty1
      rw [hsty] at this
      cases this
      exact hp
  unfold TypeWithModifier.IsAssignableFrom
  simp only [hsink, hsrc, hty1, hty2, hsty, hoty]
  by_cases hp : ty.GetVariant = .kPrimitive
  · have hsv := hself hp
    cases hcs : sink_twm.IsConst <;> cases hco : src_twm.IsConst <;>
      simp [hcs, hco] at hconst <;>
      cases sty <;> simp [CxxType.GetVariant] at hsv <;> simp [hp, hsign, hcs, hco]
  · cases hcs : sink_twm.IsConst <;> cases hco : src_twm.IsConst <;>
      simp [hcs, hco] at hconst <;>
      cases hr : sink_twm.IsReference <;> cases hpa : sink_twm.IsPointerOrArray <;>
      simp [hp, hcs, hco, hr, hpa]

theorem C7_const_discipline_witness :
    Examples.kConstA.ResolveTemplateType TemplateTypeContext.New Examples.zeroRandom
      = some (Examples.kConstA, TemplateTypeContext.New, Examples.zeroRandom) ∧
    (Examples.kConstA.IsAssignableFrom Examples.tA TemplateTypeContext.New Examples.zeroRandom
        none).map (fun res => res.value) =
      some (if (CxxType.cls Examples.clsA).GetVariant = .kPrimitive then Examples.kConstA.IsConst
            else (Examples.kConstA.IsConst ||
              (!Examples.kConstA.IsReference && !Examples.kConstA.IsPointerOrArray))) :=
  ⟨rfl, C7_const_discipline Examples.kConstA Examples.tA TemplateTypeContext.New
      Examples.zeroRandom none Examples.kConstA Examples.tA TemplateTypeContext.New
      TemplateTypeContext.New Examples.zeroRandom Examples.zeroRandom (.cls Examples.clsA)
      rfl rfl rfl rfl (by decide) (by decide)⟩

/-! ## Transitivity of `IsAssignableFrom` -/

theorem ResolveTemplateType_id (T : TypeWithModifier) (ty : CxxType) (c : TemplateTypeContext)
    (r : Random) (h : T.type_ = some ty) (hv : ty.GetVariant ≠ .kTemplateTypename) :
    T.ResolveTemplateType c r = some (T, c, r) := by
  simp [TypeWithModifier.ResolveTemplateType, h, hv]

theorem IsSubclassOf_true_iff (a b : ClassTypeModel) (itm : Option InheritanceTreeModel) :
    (IsSubclassOf a b itm).1 = true ↔
      (a = b ∨ ∃ i, itm = some i ∧ b ∈ (i.LookupSubClasses a).1) := by
  unfold IsSubclassOf
  by_cases h : a = b
  · simp [h]
  · cases itm with
    | none => simp [h]
    | some i =>
      by_cases hm : b ∈ (i.LookupSubClasses a).1
      · have hc : List.count b (i.LookupSubClasses a).1 > 0 := List.count_pos_iff.mpr hm
        simp [h, hc, hm]
      · have hc : ¬ List.count b (i.LookupSubClasses a).1 > 0 := fun hp => hm (List.count_pos_iff.mp hp)
        simp [h, hc, hm]

theorem assign_cls_iff (A B : TypeWithModifier) (a : ClassTypeModel) (b : CxxType)
    (c : TemplateTypeContext) (r : Random) (itm : Option InheritanceTreeModel)
    (hA : A.type_ = some (.cls a)) (hB : B.type_ = some b)
    (hb : b.GetVariant ≠ .kTemplateTypename) (hcB : B.IsConst = false) :
    (A.IsAssignableFrom B c r itm).map (fun res => res.value) = some true ↔
    ((∃ b', b = .cls b' ∧ (IsSubclassOf a b' itm).1 = true) ∨
     (∃ b' ib, b = .templateTypenameSpc (.cls b') ib ∧ (IsSubclassOf a b' itm).1 = true)) := by
  unfold TypeWithModifier.IsAssignableFrom
  simp only [ResolveTemplateType_id A _ c r hA (by simp [CxxType.GetVariant]),
    ResolveTemplateType_id B _ c r hB hb]
  simp only [hA, hB]
  cases b with
  | primitive v => simp [CxxType.GetVariant]
  | cls b' =>
    by_cases e : b' = a
    · subst e; simp [IsSubclassOf, CxxType.GetVariant, hcB]
    · by_cases hs : (IsSubclassOf a b' itm).1 = true <;> simp [CxxType.GetVariant, e, hs]
  | enum m => simp [CxxType.GetVariant]
  | templateTypename _ _ => simp [CxxType.GetVariant] at hb
  | templateTypenameSpc t ib =>
    cases t with
    | cls b' =>
      by_cases hs : (IsSubclassOf a b' itm).1 = true <;> simp [CxxType.GetVariant, hs]
    | _ => simp [CxxType.GetVariant]
  | stl t => simp [CxxType.GetVariant]

theorem assign_spc_iff (A B : TypeWithModifier) (ta : CxxType) (ia : InstList) (b : CxxType)
    (c : TemplateTypeContext) (r : Random) (itm : Option InheritanceTreeModel)
    (hA : A.type_ = some (.templateTypenameSpc ta ia)) (hB : B.type_ = some b)
    (hb : b.GetVariant ≠ .kTemplateTypename) (hcB : B.IsConst = false) :
    (A.IsAssignableFrom B c r itm).map (fun res => res.value) = some true ↔
    (∃ tb ib, b = .templateTypenameSpc tb ib ∧ ta.GetName = tb.GetName) := by
  unfold TypeWithModifier.IsAssignableFrom
  simp only [ResolveTemplateType_id A _ c r hA (by simp [CxxType.GetVariant]),
    ResolveTemplateType_id B _ c r hB hb]
  simp only [hA, hB]
  cases b with
  | templateTypename _ _ => simp [CxxType.GetVariant] at hb
  | templateTypenameSpc tb ib =>
    by_cases e : CxxType.templateTypenameSpc tb ib = CxxType.templateTypenameSpc ta ia
    · have e2 := e
      simp only [CxxType.templateTypenameSpc.injEq] at e2
      simp [CxxType.GetVariant, e, hcB, e2.1]
    · by_cases hn : ta.GetName = tb.GetName <;> simp [CxxType.GetVariant, e, hn]
  | _ => simp [CxxType.GetVariant]

theorem assign_prim_iff (A B : TypeWithModifier) (va : PrimitiveTypeVariant) (b : CxxType)
    (c : TemplateTypeContext) (r : Random) (itm : Option InheritanceTreeModel)
    (hA : A.type_ = some (.primitive va)) (hB : B.type_ = some b)
    (hb : b.GetVariant ≠ .kTemplateTypename) (hcA : A.IsConst = false) (hcB : B.IsConst = false) :
    (A.IsAssignableFrom B c r itm).map (fun res => res.value) = some true ↔
    (∃ vb, b = .primitive vb ∧
      ((va = vb ∧ A.IsUnsigned = B.IsUnsigned) ∨ (va ≠ vb ∧ (A.IsVoidPtr = true ∨ B.IsVoidPtr = true)))) := by
  unfold TypeWithModifier.IsAssignableFrom
  simp only [ResolveTemplateType_id A _ c r hA (by simp [CxxType.GetVariant]),
    ResolveTemplateType_id B _ c r hB hb]
  simp only [hA, hB]
  cases b with
  | templateTypename _ _ => simp [CxxType.GetVariant] at hb
  | primitive vb =>
    by_cases e : va = vb
    · subst e
      by_cases hu : A.IsUnsigned = B.IsUnsigned <;> simp [CxxType.GetVariant, hu, hcA, hcB]
    · by_cases h1 : A.IsVoidPtr = true <;> by_cases h2 : B.IsVoidPtr = true <;>
        simp [CxxType.GetVariant, e, h1, h2]
  | _ => simp [CxxType.GetVariant]

theorem assign_other_iff (A B : TypeWithModifier) (a b : CxxType)
    (c : TemplateTypeContext) (r : Random) (itm : Option InheritanceTreeModel)
    (hA : A.type_ = some a) (hB : B.type_ = some b)
    (ha : a.GetVariant = .kEnum ∨ a.GetVariant = .kSTL)
    (hb : b.GetVariant ≠ .kTemplateTypename) (hcB : B.IsConst = false) :
    (A.IsAssignableFrom B c r itm).map (fun res => res.value) = some true ↔ b = a := by
  unfold TypeWithModifier.IsAssignableFrom
  simp only [ResolveTemplateType_id A _ c r hA (by rcases ha with h | h <;> simp [h]),
    ResolveTemplateType_id B _ c r hB hb]
  simp only [hA, hB]
  by_cases e : b = a
  · subst e
    rcases ha with h | h <;> simp [h, hcB]
  · cases a <;> simp [CxxType.GetVariant] at ha <;>
      cases b <;> simp [CxxType.GetVariant] at hb <;> simp [CxxType.GetVariant, e]

theorem Examples.itmFlat_lookup (x : ClassTypeModel) :
    (Examples.itmFlat.LookupSubClasses x).1 =
      if Examples.clsA = x then [Examples.clsB, Examples.clsC]
      else if Examples.clsB = x then [Examples.clsC] else [] := by
  simp only [InheritanceTreeModel.LookupSubClasses, Examples.itmFlat, List.find?_nil]
  by_cases e1 : Examples.clsA = x
  · subst e1; decide
  · by_cases e2 : Examples.clsB = x
    · subst e2; decide
    · have e1' : ¬ x = Examples.clsA := fun h => e1 h.symm
      have e2' : ¬ x = Examples.clsB := fun h => e2 h.symm
      simp [List.filter_cons, List.count_cons, e1, e2, e1', e2']

theorem Examples.itmFlat_trans : ∀ i x y z, some Examples.itmFlat = some i →
    y ∈ (i.LookupSubClasses x).1 → z ∈ (i.LookupSubClasses y).1 →
    z ∈ (i.LookupSubClasses x).1 := by
  intro i x y z hi
  cases hi
  simp only [Examples.itmFlat_lookup]
  intro h1 h2
  by_cases e1 : Examples.clsA = x
  · simp only [e1, if_true] at h1 ⊢
    rcases List.mem_cons.mp h1 with rfl | h1
    · simp [Examples.clsA, Examples.clsB] at h2
      simp [h2, Examples.clsC]
    · simp at h1; subst h1
      simp [Examples.clsA, Examples.clsB, Examples.clsC] at h2
  · by_cases e2 : Examples.clsB = x
    · simp only [e1, e2, if_true, if_false] at h1 ⊢
      simp at h1; subst h1
      simp [Examples.clsA, Examples.clsB, Examples.clsC] at h2
    · simp [e1, e2] at h1

/-- C6, counterexample. `int`, `void*` and `double` carry no const modifier;
`int` accepts `void*` and `void*` accepts `double` through the `void*` bridge,
and `int` does not accept `double`. -/
theorem C6_counterexample :
    Examples.kInt.IsBottomType = false ∧ Examples.kVoidPtr.IsBottomType = false ∧
    Examples.kDoubleT.IsBottomType = false ∧
    Examples.kInt.IsConst = false ∧ Examples.kVoidPtr.IsConst = false ∧
    Examples.kDoubleT.IsConst = false ∧
    (Examples.kInt.IsAssignableFrom Examples.kVoidPtr TemplateTypeContext.New
        Examples.zeroRandom none).map (fun res => res.value) = some true ∧
    (Examples.kVoidPtr.IsAssignableFrom Examples.kDoubleT TemplateTypeContext.New
        Examples.zeroRandom none).map (fun res => res.value) = some true ∧
    (Examples.kInt.IsAssignableFrom Examples.kDoubleT TemplateTypeContext.New
        Examples.zeroRandom none).map (fun res => res.value) = some false := by
  decide

/-- C6, amended. For non-bottom types `A`, `B`, `C` that carry no const modifier,
none of which is `void*` or a template type parameter, under an inheritance
model whose recorded subclass lookup is transitive, and when template
specialisations of equally named targets have the same target: if
`A.IsAssignableFrom(B)` and `B.IsAssignableFrom(C)` then `A.IsAssignableFrom(C)`. -/
theorem C6_IsAssignableFrom_trans (A B C : TypeWithModifier) (a b c : CxxType)
    (ctx : TemplateTypeContext) (r : Random) (itm : Option InheritanceTreeModel)
    (hA : A.type_ = some a) (hB : B.type_ = some b) (hC : C.type_ = some c)
    (hcA : A.IsConst = false) (hcB : B.IsConst = false) (hcC : C.IsConst = false)
    (hvA : A.IsVoidPtr = false) (hvB : B.IsVoidPtr = false) (hvC : C.IsVoidPtr = false)
    (htA : a.GetVariant ≠ .kTemplateTypename) (htB : b.GetVariant ≠ .kTemplateTypename)
    (htC : c.GetVariant ≠ .kTemplateTypename)
    (hitm : ∀ i x y z, itm = some i → y ∈ (i.LookupSubClasses x).1 →
      z ∈ (i.LookupSubClasses y).1 → z ∈ (i.LookupSubClasses x).1)
    (hspc : ∀ t1 i1 t2 i2, b = .templateTypenameSpc t1 i1 → c = .templateTypenameSpc t2 i2 →
      t1.GetName = t2.GetName → t1 = t2)
    (hAB : (A.IsAssignableFrom B ctx r itm).map (fun res => res.value) = some true)
    (hBC : (B.IsAssignableFrom C ctx r itm).map (fun res => res.value) = some true) :
    (A.IsAssignableFrom C ctx r itm).map (fun res => res.value) = some true := by
  have subTrans : ∀ x y z : ClassTypeModel, (IsSubclassOf x y itm).1 = true →
      (IsSubclassOf y z itm).1 = true → (IsSubclassOf x z itm).1 = true := by
    intro x y z h1 h2
    rw [IsSubclassOf_true_iff] at h1 h2 ⊢
    rcases h1 with e | ⟨i, hi, hm⟩
    · subst e; exact h2
    · rcases h2 with e | ⟨j, hj, hm2⟩
      · subst e; exact Or.inr ⟨i, hi, hm⟩
      · have : i = j := by rw [hi] at hj; exact Option.some.inj hj
        subst this
        exact Or.inr ⟨i, hi, hitm i x y z hi hm hm2⟩
  cases a with
  | templateTypename _ _ => simp [CxxType.GetVariant] at htA
  | primitive va =>
    rw [assign_prim_iff A B va b ctx r itm hA hB htB hcA hcB] at hAB
    obtain ⟨vb, hb, h1⟩ := hAB
    subst hb
    rw [assign_prim_iff B C vb c ctx r itm hB hC htC hcB hcC] at hBC
    obtain ⟨vc, hc, h2⟩ := hBC
    subst hc
    rw [assign_prim_iff A C va _ ctx r itm hA hC htC hcA hcC]
    refine ⟨vc, rfl, Or.inl ?_⟩
    rcases h1 with ⟨e1, u1⟩ | ⟨_, h | h⟩
    · rcases h2 with ⟨e2, u2⟩ | ⟨_, h | h⟩
      · exact ⟨e1.trans e2, u1.trans u2⟩
      · simp [hvB] at h
      · simp [hvC] at h
    · simp [hvA] at h
    · simp [hvB] at h
  | cls ca =>
    rw [assign_cls_iff A B ca b ctx r itm hA hB htB hcB] at hAB
    rw [assign_cls_iff A C ca c ctx r itm hA hC htC hcC]
    rcases hAB with ⟨b1, hb, s1⟩ | ⟨b1, ib, hb, s1⟩
    · subst hb
      rw [assign_cls_iff B C b1 c ctx r itm hB hC htC hcC] at hBC
      rcases hBC with ⟨c1, hc, s2⟩ | ⟨c1, ic, hc, s2⟩
      · exact Or.inl ⟨c1, hc, subTrans _ _ _ s1 s2⟩
      · exact Or.inr ⟨c1, ic, hc, subTrans _ _ _ s1 s2⟩
    · subst hb
      rw [assign_spc_iff B C (.cls b1) ib c ctx r itm hB hC htC hcC] at hBC
      obtain ⟨tc, ic, hc, hn⟩ := hBC
      have e := hspc (.cls b1) ib tc ic rfl hc hn
      subst e
      exact Or.inr ⟨b1, ic, hc, s1⟩
  | enum m =>
    rw [assign_other_iff A B _ b ctx r itm hA hB (Or.inl rfl) htB hcB] at hAB
    subst hAB
    rw [assign_other_iff B C _ c ctx r itm hB hC (Or.inl rfl) htC hcC] at hBC
    subst hBC
    rw [assign_other_iff A C _ _ ctx r itm hA hC (Or.inl rfl) htC hcC]
  | stl t =>
    rw [assign_other_iff A B _ b ctx r itm hA hB (Or.inr rfl) htB hcB] at hAB
    subst hAB
    rw [assign_other_iff B C _ c ctx r itm hB hC (Or.inr rfl) htC hcC] at hBC
    subst hBC
    rw [assign_other_iff A C _ _ ctx r itm hA hC (Or.inr rfl) htC hcC]
  | templateTypenameSpc ta ia =>
    rw [assign_spc_iff A B ta ia b ctx r itm hA hB htB hcB] at hAB
    obtain ⟨tb, ib, hb, n1⟩ := hAB
    subst hb
    rw [assign_spc_iff B C tb ib c ctx r itm hB hC htC hcC] at hBC
    obtain ⟨tc, ic, hc, n2⟩ := hBC
    rw [assign_spc_iff A C ta ia c ctx r itm hA hC htC hcC]
    exact ⟨tc, ic, hc, n1.trans n2⟩

theorem C6_IsAssignableFrom_trans_witness :
    (Examples.tA.IsAssignableFrom Examples.tB TemplateTypeContext.New Examples.zeroRandom
        (some Examples.itmFlat)).map (fun res => res.value) = some true ∧
    (Examples.tB.IsAssignableFrom Examples.tC TemplateTypeContext.New Examples.zeroRandom
        (some Examples.itmFlat)).map (fun res => res.value) = some true ∧
    (Examples.tA.IsAssignableFrom Examples.tC TemplateTypeContext.New Examples.zeroRandom
        (some Examples.itmFlat)).map (fun res => res.value) = some true :=
  ⟨by decide, by decide,
   C6_IsAssignableFrom_trans Examples.tA Examples.tB Examples.tC _ _ _ TemplateTypeContext.New
    Examples.zeroRandom (some Examples.itmFlat) rfl rfl rfl (by decide) (by decide) (by decide)
    (by decide) (by decide) (by decide) (by decide) (by decide) (by decide)
    Examples.itmFlat_trans
    (by intro t1 i1 t2 i2 h; cases h)
    (by decide) (by decide)⟩

/-! ## The feedback loop -/

theorem LoadTestCaseDeterministically_frame (p : ProgramContext) (fuel : Nat)
    (cm : List Executable) (s s2 : FuzzerState) (o : Option TestCase)
    (h : LoadTestCaseDeterministically p fuel cm s = .ok (o, s2)) :
    s2.queue_ = s.queue_ ∧ s2.observer = s.observer ∧
    s2.crash_tc_handler = s.crash_tc_handler ∧ s2.cov_logger = s.cov_logger := by
  unfold LoadTestCaseDeterministically at h
  simp only at h
  generalize (if (s.deterministic_mode && s.det_queue.isEmpty) = true then cm else s.det_queue) = q at h
  cases q with
  | nil => cases h; exact ⟨rfl, rfl, rfl, rfl⟩
  | cons e rest =>
    simp only at h
    cases hg : GenForMethod p fuel e TemplateTypeContext.New [] 0 false s.gen with
    | error err => rw [hg] at h; cases h
    | ok v => rw [hg] at h; cases h; exact ⟨rfl, rfl, rfl, rfl⟩

theorem LoadTestCase_frame (p : ProgramContext) (k : List (String × StatementVisitorResult))
    (fuel : Nat) (cm : List Executable) (s s1 : FuzzerState) (tc : TestCase)
    (h : LoadTestCase p k fuel cm s = .ok (tc, s1)) :
    s1.queue_ = s.queue_ ∧ s1.observer = s.observer ∧
    s1.crash_tc_handler = s.crash_tc_handler ∧ s1.cov_logger = s.cov_logger := by
  have hdet : ∀ (o : Option TestCase) (s2 : FuzzerState),
      (if s.deterministic_mode then LoadTestCaseDeterministically p fuel cm s
        else (.ok (none, s) : Except Fault (Option TestCase × FuzzerState))) = .ok (o, s2) →
      s2.queue_ = s.queue_ ∧ s2.observer = s.observer ∧
      s2.crash_tc_handler = s.crash_tc_handler ∧ s2.cov_logger = s.cov_logger := by
    intro o s2 h2
    split at h2
    · exact LoadTestCaseDeterministically_frame p fuel cm s s2 o h2
    · cases h2; exact ⟨rfl, rfl, rfl, rfl⟩
  unfold LoadTestCase at h
  simp only at h
  split at h
  · cases h
  · rename_i tc1 s2 heq
    cases h
    exact hdet _ _ heq
  · rename_i s2 heq
    have hf := hdet _ _ heq
    repeat' (first | (cases h <;> exact hf) | split at h)

theorem MainLoop_induct (p : ProgramContext) (k : List (String × StatementVisitorResult))
    (fuel : Nat) (base : List Executable)
    (I : TestCaseQueue → CoverageObserver → CrashTCHandler → List CoverageLoggingEntry → Prop)
    (hstep : ∀ (mutation : TestCase) (x : Collaborators) (s s1 : FuzzerState),
      I s.queue_ s.observer s.crash_tc_handler s.cov_logger → classify mutation x s = .ok s1 →
      I s1.queue_ s1.observer s1.crash_tc_handler s1.cov_logger) :
    ∀ (xs : List Collaborators) (s0 s : FuzzerState),
      I s0.queue_ s0.observer s0.crash_tc_handler s0.cov_logger →
      MainLoop p k fuel base xs s0 = .ok s →
      I s.queue_ s.observer s.crash_tc_handler s.cov_logger := by
  intro xs
  induction xs with
  | nil =>
    intro s0 s h0 h
    simp only [MainLoop] at h
    cases h
    exact h0
  | cons x xs ih =>
    intro s0 s h0 h
    simp only [MainLoop] at h
    cases hit : iteration p k fuel base x s0 with
    | error e => rw [hit] at h; cases h
    | ok s1 =>
      rw [hit] at h
      refine ih s1 s ?_ h
      unfold iteration at hit
      cases hl : LoadTestCase p k fuel base s0 with
      | error e => rw [hl] at hit; cases hit
      | ok v =>
        obtain ⟨tc, s2⟩ := v
        rw [hl] at hit
        simp only at hit
        obtain ⟨f1, f2, f3, f4⟩ := LoadTestCase_frame p k fuel base s0 s2 tc hl
        cases hm : MutateTestCase p k fuel tc 20 s2.gen with
        | error e => rw [hm] at hit; cases hit
        | ok w =>
          obtain ⟨mutation, g⟩ := w
          rw [hm] at hit
          simp only at hit
          refine hstep mutation x _ s1 ?_ hit
          simp only [f1, f2, f3, f4]
          exact h0

theorem ExecuteAndMeasureCov_cases (o : CoverageObserver) (rc : Int) (report : CoverageReport) :
    ((rc ≠ 0 ∧ rc ≠ 180) ∧ o.ExecuteAndMeasureCov rc report = (⟨rc, none, false⟩, o)) ∨
    ((rc = 0 ∨ rc = 180) ∧ o.ExecuteAndMeasureCov rc report = (⟨rc, some report, false⟩, o)) ∨
    ((rc = 0 ∨ rc = 180) ∧ o.ExecuteAndMeasureCov rc report = (⟨rc, some report, true⟩, ⟨report⟩) ∧
      (report.line_cov_ > o.prev_success_.line_cov_ ∨
       report.branch_cov_ > o.prev_success_.branch_cov_ ∨
       report.func_cov_ > o.prev_success_.func_cov_)) := by
  unfold CoverageObserver.ExecuteAndMeasureCov ExecutionResult.kExceptionReturnCode
  by_cases h0 : rc ≠ 0 ∧ rc ≠ 180
  · left; exact ⟨h0, by rw [if_pos h0]⟩
  · right
    have hrc : rc = 0 ∨ rc = 180 := by
      by_cases h : rc = 0
      · exact Or.inl h
      · right; by_contra h2; exact h0 ⟨h, h2⟩
    rw [if_neg h0]
    by_cases hi : (report.line_cov_ > o.prev_success_.line_cov_ ∨
       report.branch_cov_ > o.prev_success_.branch_cov_ ∨
       report.func_cov_ > o.prev_success_.func_cov_)
    · right
      refine ⟨hrc, ?_, hi⟩
      have : (decide (report.line_cov_ > o.prev_success_.line_cov_) ||
        decide (report.branch_cov_ > o.prev_success_.branch_cov_) ||
        decide (report.func_cov_ > o.prev_success_.func_cov_)) = true := by
        simpa [or_assoc] using hi
      simp only [this, if_true]
    · left
      refine ⟨hrc, ?_⟩
      have : (decide (report.line_cov_ > o.prev_success_.line_cov_) ||
        decide (report.branch_cov_ > o.prev_success_.branch_cov_) ||
        decide (report.func_cov_ > o.prev_success_.func_cov_)) = false := by
        simpa [or_assoc, and_assoc] using hi
      simp only [this]
      rfl

/-- The outcomes of `classify`, one disjunct per path that returns. -/
theorem classify_cases (mutation : TestCase) (x : Collaborators) (s s1 : FuzzerState)
    (h : classify mutation x s = .ok s1) :
    -- nothing changes
    (s1.queue_ = s.queue_ ∧ s1.observer = s.observer ∧
      s1.crash_tc_handler = s.crash_tc_handler ∧ s1.cov_logger = s.cov_logger) ∨
    -- admitted to valid
    (x.build_result.1 = .kSuccess ∧ (x.return_code = 0 ∨ x.return_code = 180) ∧
      (x.report.line_cov_ > s.observer.prev_success_.line_cov_ ∨
       x.report.branch_cov_ > s.observer.prev_success_.branch_cov_ ∨
       x.report.func_cov_ > s.observer.prev_success_.func_cov_) ∧
      (∃ ftc : FlushableTestCase, ftc.tc_ = mutation ∧
        s1.queue_ = { s.queue_ with valid_ := s.queue_.valid_ ++ [ftc] }) ∧
      s1.observer = ⟨x.report⟩ ∧ s1.crash_tc_handler = s.crash_tc_handler ∧
      s1.cov_logger = s.cov_logger ++
        [⟨x.elapsed_at_admission / 1000, x.report.line_cov_, x.report.branch_cov_,
          x.report.line_tot_, x.report.branch_tot_, x.report.func_cov_, x.report.func_tot_⟩]) ∨
    -- admitted to crashes
    (x.build_result.1 = .kSuccess ∧ (x.return_code ≠ 0 ∧ x.return_code ≠ 180) ∧
      (∃ memo fp, ExecuteInGDBEnv x.gdb_output x.src_dir_abs = some memo ∧
        memo.fingerprint_ = some fp ∧ fp ∉ s.crash_tc_handler.unique_crashes_ ∧
        s1.crash_tc_handler = ⟨s.crash_tc_handler.unique_crashes_ ++ [fp]⟩ ∧
        ∃ ftc : FlushableTestCase, ftc.tc_ = mutation ∧ ftc.memo_ = memo ∧
          s1.queue_ = { s.queue_ with crashes_ := s.queue_.crashes_ ++ [ftc] }) ∧
      s1.observer = s.observer ∧ s1.cov_logger = s.cov_logger) ∨
    -- admitted to uncompilable
    (x.build_result.1 = .kCompileFailed ∧ x.curr_elapsed < 3600000 ∧
      (∃ ftc : FlushableTestCase, ftc.tc_ = mutation ∧
        ftc.memo_.compilation_output_ = some x.build_result.2 ∧
        s1.queue_ = { s.queue_ with incompilable_ := s.queue_.incompilable_ ++ [ftc] }) ∧
      s1.observer = s.observer ∧ s1.crash_tc_handler = s.crash_tc_handler ∧
      s1.cov_logger = s.cov_logger) := by
  unfold classify at h
  cases hb : x.build_result.1 with
  | kLinkingFailed =>
    rw [hb] at h; simp only at h; cases h; exact Or.inl ⟨rfl, rfl, rfl, rfl⟩
  | kCompileFailed =>
    rw [hb] at h; simp only at h
    split at h
    · rename_i hlt
      cases h
      right; right; right
      exact ⟨rfl, hlt, ⟨_, rfl, rfl, rfl⟩, rfl, rfl, rfl⟩
    · cases h; exact Or.inl ⟨rfl, rfl, rfl, rfl⟩
  | kSuccess =>
    rw [hb] at h; simp only at h
    rcases ExecuteAndMeasureCov_cases s.observer x.return_code x.report with
      ⟨hrc, he⟩ | ⟨hrc, he⟩ | ⟨hrc, he, hex⟩
    · rw [he] at h
      have hn : (ExecutionResult.IsSuccessful ⟨x.return_code, none, false⟩ ||
          ExecutionResult.HasCaughtException ⟨x.return_code, none, false⟩) = false := by
        simp [ExecutionResult.IsSuccessful, ExecutionResult.HasCaughtException,
          ExecutionResult.kExceptionReturnCode, hrc.1, hrc.2]
      simp only [hn] at h
      cases hg : ExecuteInGDBEnv x.gdb_output x.src_dir_abs with
      | none => rw [hg] at h; simp at h
      | some memo =>
        rw [hg] at h
        simp only [Bool.false_eq_true, if_false] at h
        cases hf : memo.fingerprint_ with
        | none => rw [hf] at h; simp at h
        | some fp =>
          rw [hf] at h
          simp only at h
          split at h
          · simp only [CrashTCHandler.RegisterIfNewCrash, CrashTCHandler.IsNewCrash] at h
            by_cases hnew : List.count fp s.crash_tc_handler.unique_crashes_ = 0
            · simp only [hnew, decide_True, if_true] at h
              cases h
              right; right; left
              refine ⟨rfl, hrc, ⟨memo, fp, rfl, hf, ?_, rfl, ⟨_, rfl, rfl, rfl⟩⟩, rfl, rfl⟩
              exact List.count_eq_zero.mp hnew
            · simp only [hnew, decide_False] at h
              simp at h
              cases h
              exact Or.inl ⟨rfl, rfl, rfl, rfl⟩
          · cases h; exact Or.inl ⟨rfl, rfl, rfl, rfl⟩
    · rw [he] at h
      have hn : (ExecutionResult.IsSuccessful ⟨x.return_code, some x.report, false⟩ ||
          ExecutionResult.HasCaughtException ⟨x.return_code, some x.report, false⟩) = true := by
        simp [ExecutionResult.IsSuccessful, ExecutionResult.HasCaughtException,
          ExecutionResult.kExceptionReturnCode, hrc]
      simp only [hn, if_true] at h
      simp at h
      cases h
      exact Or.inl ⟨rfl, rfl, rfl, rfl⟩
    · rw [he] at h
      have hn : (ExecutionResult.IsSuccessful ⟨x.return_code, some x.report, true⟩ ||
          ExecutionResult.HasCaughtException ⟨x.return_code, some x.report, true⟩) = true := by
        simp [ExecutionResult.IsSuccessful, ExecutionResult.HasCaughtException,
          ExecutionResult.kExceptionReturnCode, hrc]
      simp only [hn, if_true] at h
      split at h
      · cases h
      · cases h
        right; left
        exact ⟨rfl, hrc, hex, ⟨_, rfl, rfl⟩, rfl, rfl, rfl⟩

/-! ## Admission to the valid partition -/

theorem admission_step (mutation : TestCase) (x : Collaborators) (s s1 : FuzzerState)
    (hI : s.cov_logger.length = s.queue_.valid_.length ∧
      List.Chain' CoverageLoggingEntry.Exceeds (CoverageLoggingEntry.zero :: s.cov_logger) ∧
      (s.observer.prev_success_.line_cov_ = (s.cov_logger.getLast?.getD .zero).line_cov ∧
       s.observer.prev_success_.branch_cov_ = (s.cov_logger.getLast?.getD .zero).branch_cov ∧
       s.observer.prev_success_.func_cov_ = (s.cov_logger.getLast?.getD .zero).func_cov))
    (h : classify mutation x s = .ok s1) :
    s1.cov_logger.length = s1.queue_.valid_.length ∧
      List.Chain' CoverageLoggingEntry.Exceeds (CoverageLoggingEntry.zero :: s1.cov_logger) ∧
      (s1.observer.prev_success_.line_cov_ = (s1.cov_logger.getLast?.getD .zero).line_cov ∧
       s1.observer.prev_success_.branch_cov_ = (s1.cov_logger.getLast?.getD .zero).branch_cov ∧
       s1.observer.prev_success_.func_cov_ = (s1.cov_logger.getLast?.getD .zero).func_cov) := by
  obtain ⟨hlen, hch, hl, hb, hf⟩ := hI
  rcases classify_cases mutation x s s1 h with
    ⟨q, o, _, l⟩ | ⟨_, _, hex, ⟨ftc, _, q⟩, o, _, l⟩ | ⟨_, _, ⟨memo, fp, _, _, _, _, ftc, _, _, q⟩, o, l⟩ |
    ⟨_, _, ⟨ftc, _, _, q⟩, o, _, l⟩
  · rw [q, o, l]; exact ⟨hlen, hch, hl, hb, hf⟩
  · rw [q, o, l]
    refine ⟨by simp [hlen], ?_, by simp⟩
    have e : CoverageLoggingEntry.zero :: (s.cov_logger ++ [⟨x.elapsed_at_admission / 1000,
        x.report.line_cov_, x.report.branch_cov_, x.report.line_tot_, x.report.branch_tot_,
        x.report.func_cov_, x.report.func_tot_⟩]) =
        (CoverageLoggingEntry.zero :: s.cov_logger) ++ [⟨x.elapsed_at_admission / 1000,
        x.report.line_cov_, x.report.branch_cov_, x.report.line_tot_, x.report.branch_tot_,
        x.report.func_cov_, x.report.func_tot_⟩] := rfl
    rw [e, List.chain'_append]
    refine ⟨hch, List.chain'_singleton _, ?_⟩
    intro a ha b hb2
    rw [List.getLast?_cons] at ha
    simp only [Option.mem_def, Option.some.injEq] at ha
    simp only [List.head?_cons, Option.mem_def, Option.some.injEq] at hb2
    subst ha; subst hb2
    unfold CoverageLoggingEntry.Exceeds
    simp only
    rw [← hl, ← hb, ← hf]
    exact hex
  · rw [q, o, l]; exact ⟨hlen, hch, hl, hb, hf⟩
  · rw [q, o, l]; exact ⟨hlen, hch, hl, hb, hf⟩

/-- C11, counterexample. Three runs exit with 0 and measure the covered counts
(10, 10, 10), (11, 0, 0) and (0, 1, 0): all three drivers are admitted to the
valid partition, and no count of the third exceeds the corresponding count of
the first. -/
theorem C11_counterexample :
    ∃ s, MainLoop Examples.pF [] 5 [Examples.fExe]
        [Examples.xOk 10 10 10, Examples.xOk 11 0 0, Examples.xOk 0 1 0]
        (FuzzerState.init Examples.gen0) = .ok s ∧
      s.queue_.valid_.length = 3 ∧
      s.cov_logger = [⟨0, 10, 10, 100, 100, 10, 100⟩, ⟨0, 11, 0, 100, 100, 0, 100⟩,
        ⟨0, 0, 1, 100, 100, 0, 100⟩] ∧
      ¬ CoverageLoggingEntry.Exceeds ⟨0, 10, 10, 100, 100, 10, 100⟩ ⟨0, 0, 1, 100, 100, 0, 100⟩ :=
  ⟨_, rfl, rfl, rfl, by simp [CoverageLoggingEntry.Exceeds]⟩

/-- C11, amended. Over every run of the loop from its initial state, one coverage
row is logged per entry of the valid partition, and the covered counts of each
admitted driver exceed, in the line, branch or function dimension, those of
the driver admitted immediately before it (those of the zero report for the
first admission). -/
theorem C11_admission_monotone (p : ProgramContext) (k : List (String × StatementVisitorResult))
    (fuel : Nat) (base : List Executable) (xs : List Collaborators) (gen : GenState)
    (s : FuzzerState)
    (h : MainLoop p k fuel base xs (FuzzerState.init gen) = .ok s) :
    s.cov_logger.length = s.queue_.valid_.length ∧
    List.Chain CoverageLoggingEntry.Exceeds CoverageLoggingEntry.zero s.cov_logger := by
  have hinv := MainLoop_induct p k fuel base
    (fun q o _ l => l.length = q.valid_.length ∧
      List.Chain' CoverageLoggingEntry.Exceeds (CoverageLoggingEntry.zero :: l) ∧
      (o.prev_success_.line_cov_ = (l.getLast?.getD .zero).line_cov ∧
       o.prev_success_.branch_cov_ = (l.getLast?.getD .zero).branch_cov ∧
       o.prev_success_.func_cov_ = (l.getLast?.getD .zero).func_cov))
    (fun mutation x s s1 hI hc => admission_step mutation x s s1 hI hc)
    xs (FuzzerState.init gen) s
    ⟨rfl, List.chain'_singleton _, rfl, rfl, rfl⟩ h
  exact ⟨hinv.1, hinv.2.1⟩

theorem C11_admission_monotone_witness :
    ∃ s, MainLoop Examples.pF [] 5 [Examples.fExe]
        [Examples.xOk 10 10 10, Examples.xOk 11 0 0, Examples.xOk 0 1 0]
        (FuzzerState.init Examples.gen0) = .ok s ∧
      s.cov_logger.length = 3 ∧
      List.Chain CoverageLoggingEntry.Exceeds CoverageLoggingEntry.zero s.cov_logger :=
  ⟨_, rfl, rfl, (C11_admission_monotone Examples.pF [] 5 [Examples.fExe]
        [Examples.xOk 10 10 10, Examples.xOk 11 0 0, Examples.xOk 0 1 0] Examples.gen0 _ rfl).2⟩

/-! ## Crash deduplication -/

theorem crash_step (mutation : TestCase) (x : Collaborators) (s s1 : FuzzerState)
    (hI : s.queue_.crashFingerprints = s.crash_tc_handler.unique_crashes_.map some ∧
      s.crash_tc_handler.unique_crashes_.Nodup)
    (h : classify mutation x s = .ok s1) :
    s1.queue_.crashFingerprints = s1.crash_tc_handler.unique_crashes_.map some ∧
      s1.crash_tc_handler.unique_crashes_.Nodup := by
  obtain ⟨hfp, hnd⟩ := hI
  rcases classify_cases mutation x s s1 h with
    ⟨q, _, c, _⟩ | ⟨_, _, _, ⟨ftc, _, q⟩, _, c, _⟩ |
    ⟨_, _, ⟨memo, fp, _, hm, hnew, c, ftc, _, hmemo, q⟩, _, _⟩ | ⟨_, _, ⟨ftc, _, _, q⟩, _, c, _⟩
  · rw [q, c]; exact ⟨hfp, hnd⟩
  · rw [q, c]; exact ⟨hfp, hnd⟩
  · rw [q, c]
    unfold TestCaseQueue.crashFingerprints at hfp ⊢
    refine ⟨by simp [hfp, hmemo, hm], ?_⟩
    exact List.Nodup.append hnd (List.nodup_singleton fp)
      (by intro a ha hb; simp at hb; subst hb; exact hnew ha)
  · rw [q, c]; exact ⟨hfp, hnd⟩

/-- C12. `RegisterIfNewCrash(fp)` returns true and records `fp` when `fp` was not
recorded, and returns false and leaves the recorded set unchanged otherwise.
In the loop, a crashing driver whose memo carries a fingerprint that is
already recorded leaves the whole queue unchanged; and over every run of the
loop from its initial state the fingerprints of the crashes partition are
exactly the recorded ones and pairwise different. -/
theorem C12_crash_dedup :
    (∀ (h : CrashTCHandler) (fp : String),
      (fp ∉ h.unique_crashes_ →
        h.RegisterIfNewCrash fp = (true, ⟨h.unique_crashes_ ++ [fp]⟩)) ∧
      (fp ∈ h.unique_crashes_ → h.RegisterIfNewCrash fp = (false, h))) ∧
    (∀ (mutation : TestCase) (x : Collaborators) (s : FuzzerState) (memo : TCMemo) (fp : String),
      x.build_result.1 = .kSuccess → (x.return_code ≠ 0 ∧ x.return_code ≠ 180) →
      ExecuteInGDBEnv x.gdb_output x.src_dir_abs = some memo →
      memo.fingerprint_ = some fp → fp ∈ s.crash_tc_handler.unique_crashes_ →
      ∃ s1, classify mutation x s = .ok s1 ∧ s1.queue_ = s.queue_ ∧
        s1.crash_tc_handler = s.crash_tc_handler) ∧
    (∀ (p : ProgramContext) (k : List (String × StatementVisitorResult)) (fuel : Nat)
      (base : List Executable) (xs : List Collaborators) (gen : GenState) (s : FuzzerState),
      MainLoop p k fuel base xs (FuzzerState.init gen) = .ok s →
      s.queue_.crashFingerprints = s.crash_tc_handler.unique_crashes_.map some ∧
      s.queue_.crashFingerprints.Nodup) := by
  refine ⟨?_, ?_, ?_⟩
  · intro h fp
    unfold CrashTCHandler.RegisterIfNewCrash CrashTCHandler.IsNewCrash
    constructor
    · intro hn
      have : List.count fp h.unique_crashes_ = 0 := List.count_eq_zero.mpr hn
      simp [this]
    · intro hm
      have : ¬ List.count fp h.unique_crashes_ = 0 := by
        intro h0; exact (List.count_eq_zero.mp h0) hm
      simp [this]
  · intro mutation x s memo fp hb hrc hg hf hm
    have hcount : ¬ List.count fp s.crash_tc_handler.unique_crashes_ = 0 := by
      intro h0; exact (List.count_eq_zero.mp h0) hm
    have he : s.observer.ExecuteAndMeasureCov x.return_code x.report =
        (⟨x.return_code, none, false⟩, s.observer) := by
      unfold CoverageObserver.ExecuteAndMeasureCov ExecutionResult.kExceptionReturnCode
      rw [if_pos hrc]
    have hn : (ExecutionResult.IsSuccessful ⟨x.return_code, none, false⟩ ||
        ExecutionResult.HasCaughtException ⟨x.return_code, none, false⟩) = false := by
      simp [ExecutionResult.IsSuccessful, ExecutionResult.HasCaughtException,
        ExecutionResult.kExceptionReturnCode, hrc.1, hrc.2]
    unfold classify
    rw [hb]
    simp only [he, hn, hg, hf, CrashTCHandler.RegisterIfNewCrash, CrashTCHandler.IsNewCrash,
      hcount, decide_False, Bool.false_eq_true, if_false]
    split
    · exact ⟨_, rfl, rfl, rfl⟩
    · exact ⟨_, rfl, rfl, rfl⟩
  · intro p k fuel base xs gen s h
    have hinv := MainLoop_induct p k fuel base
      (fun q _ c _ => q.crashFingerprints = c.unique_crashes_.map some ∧ c.unique_crashes_.Nodup)
      (fun mutation x s s1 hI hc => crash_step mutation x s s1 hI hc)
      xs (FuzzerState.init gen) s ⟨rfl, List.nodup_nil⟩ h
    refine ⟨hinv.1, ?_⟩
    rw [hinv.1]
    exact List.Nodup.map (fun a b hab => Option.some.inj hab) hinv.2

theorem C12_crash_dedup_witness :
    ∃ s, MainLoop Examples.pF [] 5 [Examples.fExe]
        [Examples.xCrash Examples.gdbCrash, Examples.xCrash Examples.gdbCrash]
        (FuzzerState.init Examples.gen0) = .ok s ∧
      s.queue_.crashes_.length = 1 ∧
      s.queue_.crashFingerprints = s.crash_tc_handler.unique_crashes_.map some ∧
      s.queue_.crashFingerprints.Nodup :=
  ⟨_, rfl, rfl, C12_crash_dedup.2.2 Examples.pF [] 5 [Examples.fExe]
        [Examples.xCrash Examples.gdbCrash, Examples.xCrash Examples.gdbCrash]
        Examples.gen0 _ rfl⟩

/-! ## Suppression of null invocations -/

theorem findSub_lt (needle : List Char) : ∀ (hay : List Char) (pos : Nat),
    findSub needle hay = some pos → pos + needle.length ≤ hay.length := by
  intro hay
  induction hay with
  | nil =>
    intro pos h
    simp only [findSub] at h
    split at h
    · rename_i he
      cases h
      simp only [List.isEmpty_eq_true] at he
      simp [he]
    · cases h
  | cons c cs ih =>
    intro pos h
    simp only [findSub] at h
    split at h
    · rename_i hp
      cases h
      have := List.IsPrefix.length_le (List.isPrefixOf_iff_prefix.mp hp)
      simpa using this
    · cases hf : findSub needle cs with
      | none => rw [hf] at h; cases h
      | some i =>
        rw [hf] at h
        simp only [Option.map_some', Option.some.injEq] at h
        subst h
        have := ih i hf
        simp only [List.length_cons]
        omega

theorem splitLoop_isSome (delimiter : List Char) (hd : 0 < delimiter.length) :
    ∀ (fuel : Nat) (target : List Char), target.length < fuel →
      (splitLoop delimiter fuel target).isSome = true := by
  intro fuel
  induction fuel with
  | zero => intro target h; omega
  | succ n ih =>
    intro target h
    simp only [splitLoop]
    cases hf : findSub delimiter target with
    | none => rfl
    | some pos =>
      simp only [Option.isSome_map']
      apply ih
      have := findSub_lt delimiter target pos hf
      simp only [List.length_drop]
      omega

/-- The split at line ends always returns. -/
theorem SplitStringIntoVector_lines (target : String) :
    ∃ lines, SplitStringIntoVector target "\n" = some lines := by
  unfold SplitStringIntoVector
  have h := splitLoop_isSome "\n".toList (by decide) (target.length + 1) target.toList
    (by cases target; exact Nat.lt_succ_self _)
  obtain ⟨l, hl⟩ := Option.isSome_iff_exists.mp h
  exact ⟨_, by rw [hl]; rfl⟩

theorem InvokingOnNullptrCheck_of_lines (pre post : List String) (inv mainl : String)
    (hmain : containsSub mainl "main" = true ∧ containsSub mainl "tmp.cpp" = true)
    (hlast : ∀ l ∈ post, ¬ (containsSub l "main" = true ∧ containsSub l "tmp.cpp" = true))
    (hthis : containsSub inv "this=0x0" = true) :
    InvokingOnNullptrCheck (pre ++ [inv, mainl] ++ post) = true := by
  unfold InvokingOnNullptrCheck kTmpDriverCppFilename
  simp only [List.reverse_append, List.reverse_cons, List.reverse_nil, List.nil_append,
    List.cons_append, List.append_assoc]
  have h1 : List.dropWhile (fun item => !(containsSub item "main" && containsSub item "tmp.cpp"))
      post.reverse = [] := by
    rw [List.dropWhile_eq_nil_iff]
    intro l hl
    have := hlast l (List.mem_reverse.mp hl)
    simp only [Bool.not_eq_true', Bool.and_eq_false_imp, Bool.not_eq_eq_eq_not, Bool.not_true,
      Bool.and_eq_false_imp]
    intro hm
    cases hc : containsSub l "tmp.cpp"
    · rfl
    · exact absurd ⟨hm, hc⟩ this
  rw [List.dropWhile_append, h1]
  simp only [List.isEmpty_nil, if_true]
  rw [List.dropWhile_cons]
  simp [hmain.1, hmain.2, hthis]
/-- C13. When the lines of the debugger output are `pre`, `inv`, `mainl`, `post`,
where `mainl` is the last line that mentions both `main` and `tmp.cpp` and the
line `inv` just before it contains `this=0x0`, `ExecuteInGDBEnv` returns a
memo that is not a valid crash and carries no fingerprint. An iteration of the
loop whose driver exits abnormally with this debugger output evaluates
`*memo.GetFingerprint()` on that memo before it tests whether the crash is in
the source: it reads an empty optional, and the run ends with a fault instead
of going on with the queue unchanged. -/
theorem C13_null_invocation_reads_empty_fingerprint (gdb_output src_dir : String)
    (pre post : List String) (inv mainl : String)
    (hsplit : SplitStringIntoVector gdb_output "\n" = some (pre ++ [inv, mainl] ++ post))
    (hmain : containsSub mainl "main" = true ∧ containsSub mainl "tmp.cpp" = true)
    (hlast : ∀ l ∈ post, ¬ (containsSub l "main" = true ∧ containsSub l "tmp.cpp" = true))
    (hthis : containsSub inv "this=0x0" = true) :
    (∃ memo, ExecuteInGDBEnv gdb_output src_dir = some memo ∧
      memo.valid_crash_ = false ∧ memo.fingerprint_ = none) ∧
    (∀ (mutation : TestCase) (x : Collaborators) (s : FuzzerState),
      x.build_result.1 = .kSuccess → (x.return_code ≠ 0 ∧ x.return_code ≠ 180) →
      x.gdb_output = gdb_output → x.src_dir_abs = src_dir →
      classify mutation x s = .error .abort) := by
  have hg : ExecuteInGDBEnv gdb_output src_dir =
      some { TCMemo.new with valid_crash_ := false, gdb_output_ := some gdb_output } := by
    unfold ExecuteInGDBEnv
    rw [hsplit]
    simp only [InvokingOnNullptrCheck_of_lines pre post inv mainl hmain hlast hthis, if_true]
  refine ⟨⟨_, hg, rfl, rfl⟩, ?_⟩
  intro mutation x s hb hrc hgo hsd
  have he : s.observer.ExecuteAndMeasureCov x.return_code x.report =
      (⟨x.return_code, none, false⟩, s.observer) := by
    unfold CoverageObserver.ExecuteAndMeasureCov ExecutionResult.kExceptionReturnCode
    rw [if_pos hrc]
  have hn : (ExecutionResult.IsSuccessful ⟨x.return_code, none, false⟩ ||
      ExecutionResult.HasCaughtException ⟨x.return_code, none, false⟩) = false := by
    simp [ExecutionResult.IsSuccessful, ExecutionResult.HasCaughtException,
      ExecutionResult.kExceptionReturnCode, hrc.1, hrc.2]
  unfold classify
  rw [hb, hgo, hsd]
  simp only [he, hn, hg, TCMemo.new, Bool.false_eq_true, if_false]

theorem C13_null_invocation_reads_empty_fingerprint_witness :
    (∃ memo, ExecuteInGDBEnv Examples.gdbNullThis "/src" = some memo ∧
      memo.valid_crash_ = false ∧ memo.fingerprint_ = none) ∧
    classify Examples.tcF (Examples.xCrash Examples.gdbNullThis)
      (FuzzerState.init Examples.gen0) = .error .abort ∧
    MainLoop Examples.pF [] 5 [Examples.fExe] [Examples.xCrash Examples.gdbNullThis]
      (FuzzerState.init Examples.gen0) = .error .abort :=
  have h := C13_null_invocation_reads_empty_fingerprint Examples.gdbNullThis "/src" [] [""]
    "#0  0x01 in A::foo (this=0x0) at /src/a.cpp:3" "#1  0x02 in main () at tmp.cpp:5"
    (by rfl) (by decide) (by decide) (by decide)
  ⟨h.1, h.2 Examples.tcF (Examples.xCrash Examples.gdbNullThis) (FuzzerState.init Examples.gen0)
    rfl (by decide) rfl rfl, rfl⟩

/-! ## Build failures -/

/-- C14. In one iteration of the loop in which the seed is loaded and mutated and
the build fails in the compiler: before 3 600 000 ms have elapsed, exactly one
entry that holds the mutated driver and the compiler's error text is appended
to the uncompilable partition and the valid and crashes partitions are
unchanged; from then on the queue is unchanged. When the build fails in the
linker the queue is unchanged at any elapsed time. -/
theorem C14_build_failure (p : ProgramContext) (k : List (String × StatementVisitorResult))
    (fuel : Nat) (base : List Executable) (x : Collaborators) (s s1 : FuzzerState)
    (tc mutation : TestCase) (g : GenState)
    (hload : LoadTestCase p k fuel base s = .ok (tc, s1))
    (hmut : MutateTestCase p k fuel tc 20 s1.gen = .ok (mutation, g)) :
    (x.build_result.1 = .kCompileFailed → x.curr_elapsed < 3600000 →
      ∃ s2 ftc, iteration p k fuel base x s = .ok s2 ∧
        s2.queue_.incompilable_ = s.queue_.incompilable_ ++ [ftc] ∧
        ftc.tc_ = mutation ∧ ftc.memo_.compilation_output_ = some x.build_result.2 ∧
        s2.queue_.valid_ = s.queue_.valid_ ∧ s2.queue_.crashes_ = s.queue_.crashes_) ∧
    (x.build_result.1 = .kCompileFailed → ¬ x.curr_elapsed < 3600000 →
      ∃ s2, iteration p k fuel base x s = .ok s2 ∧ s2.queue_ = s.queue_) ∧
    (x.build_result.1 = .kLinkingFailed →
      ∃ s2, iteration p k fuel base x s = .ok s2 ∧ s2.queue_ = s.queue_) := by
  obtain ⟨f1, _, _, _⟩ := LoadTestCase_frame p k fuel base s s1 tc hload
  have hit : iteration p k fuel base x s = classify mutation x { s1 with gen := g } := by
    unfold iteration
    rw [hload]
    simp only [hmut]
  rw [hit]
  refine ⟨?_, ?_, ?_⟩
  · intro hb hlt
    have hlt2 : x.curr_elapsed < kDiscardUncompilableTCsAfter := hlt
    unfold classify
    rw [hb]
    simp only [hlt2, if_true]
    exact ⟨_, _, rfl, by rw [← f1], rfl, rfl, by rw [← f1], by rw [← f1]⟩
  · intro hb hge
    have hge2 : ¬ x.curr_elapsed < kDiscardUncompilableTCsAfter := hge
    unfold classify
    rw [hb]
    simp only [hge2, if_false]
    exact ⟨_, rfl, f1⟩
  · intro hb
    unfold classify
    rw [hb]
    exact ⟨_, rfl, f1⟩

theorem C14_build_failure_witness :
    ∃ s2 ftc, iteration Examples.pF [] 5 [Examples.fExe] (Examples.xCompileFailed 1000)
        (FuzzerState.init Examples.gen0) = .ok s2 ∧
      s2.queue_.incompilable_ = (FuzzerState.init Examples.gen0).queue_.incompilable_ ++ [ftc] ∧
      ftc.memo_.compilation_output_ = some "error: expected a semicolon" ∧
      s2.queue_.valid_ = [] ∧ s2.queue_.crashes_ = [] := by
  obtain ⟨s2, ftc, h1, h2, _, h4, h5, h6⟩ :=
    (C14_build_failure Examples.pF [] 5 [Examples.fExe] (Examples.xCompileFailed 1000)
      (FuzzerState.init Examples.gen0) _ _ _ _ rfl rfl).1 rfl (by decide)
  exact ⟨s2, ftc, h1, h2, h4, h5, h6⟩

/-! ## Seed scheduling -/

theorem LoadTestCase_pick (p : ProgramContext) (k : List (String × StatementVisitorResult))
    (fuel : Nat) (cm : List Executable) (s : FuzzerState)
    (hdet : s.deterministic_mode = false) (hne : 0 < s.queue_.valid_.length)
    (hcoin : s.gen.random.NextBoolean.1 = false)
    (hn : s.queue_.valid_.length < 2 ^ 32) :
    ∃ e, s.queue_.valid_.get? (s.seed_scheduling_counter_ % s.queue_.valid_.length) = some e ∧
      LoadTestCase p k fuel cm s = .ok (e.tc_,
        { s with
          seed_scheduling_counter_ := s.seed_scheduling_counter_ % s.queue_.valid_.length + 1
          gen := { s.gen with random := s.gen.random.NextBoolean.2 } }) := by
  have hlt : s.seed_scheduling_counter_ % s.queue_.valid_.length < s.queue_.valid_.length :=
    Nat.mod_lt _ hne
  have hle : s.seed_scheduling_counter_ % s.queue_.valid_.length ≤ s.seed_scheduling_counter_ :=
    Nat.mod_le _ _
  have h1 : s.seed_scheduling_counter_ % s.queue_.valid_.length % 2 ^ 32 =
      s.seed_scheduling_counter_ % s.queue_.valid_.length := Nat.mod_eq_of_lt (by omega)
  have h2 : (s.seed_scheduling_counter_ % s.queue_.valid_.length + 1) % 2 ^ 32 =
      s.seed_scheduling_counter_ % s.queue_.valid_.length + 1 := Nat.mod_eq_of_lt (by omega)
  obtain ⟨e, he⟩ : ∃ e, s.queue_.valid_.get? (s.seed_scheduling_counter_ % s.queue_.valid_.length)
      = some e := ⟨_, List.get?_eq_get hlt⟩
  refine ⟨e, he, ?_⟩
  unfold LoadTestCase
  have hne2 : ¬ s.queue_.valid_.length = 0 := by omega
  simp only [hdet, Bool.false_eq_true, if_false, hne2, hcoin, h1, h2, he]

/-- C15. When `LoadTestCase` takes its seed from a non-empty valid partition of
size `n` (a size that the `unsigned int` cursor can hold) with cursor value `c`,
it returns the entry at index `c mod n`, which exists, sets the cursor to
`(c mod n) + 1` and leaves the queue unchanged; and `n` consecutive picks from
the corpus return the entries of the partition once each, in corpus order
rotated by `c mod n`. -/
theorem C15_seed_cursor (p : ProgramContext) (k : List (String × StatementVisitorResult))
    (fuel : Nat) (cm : List Executable) (s : FuzzerState)
    (hdet : s.deterministic_mode = false) (hne : 0 < s.queue_.valid_.length)
    (hn : s.queue_.valid_.length < 2 ^ 32) :
    (s.gen.random.NextBoolean.1 = false →
      ∃ e s1, s.queue_.valid_.get? (s.seed_scheduling_counter_ % s.queue_.valid_.length) = some e ∧
        LoadTestCase p k fuel cm s = .ok (e.tc_, s1) ∧
        s1.seed_scheduling_counter_ = s.seed_scheduling_counter_ % s.queue_.valid_.length + 1 ∧
        s1.queue_ = s.queue_) ∧
    ((∀ i, i < s.queue_.valid_.length →
        s.gen.random.draws (s.gen.random.pos + i) % 2 = 0) →
      ∃ s1, loadSeeds p k fuel cm s.queue_.valid_.length s =
        .ok ((s.queue_.valid_.map (fun e => e.tc_)).rotate
          (s.seed_scheduling_counter_ % s.queue_.valid_.length), s1) ∧
        s1.queue_ = s.queue_) := by
  constructor
  · intro hcoin
    obtain ⟨e, he, hl⟩ := LoadTestCase_pick p k fuel cm s hdet hne hcoin hn
    exact ⟨e, _, he, hl, rfl, rfl⟩
  · intro hdraws
    -- m picks from cursor c return the entries at (c + i) mod n, i < m
    have key : ∀ (m : Nat) (s0 : FuzzerState), s0.deterministic_mode = false →
        s0.queue_ = s.queue_ →
        s0.gen.random.draws = s.gen.random.draws →
        (∀ i, i < m → s0.gen.random.draws (s0.gen.random.pos + i) % 2 = 0) →
        ∃ tcs s1, loadSeeds p k fuel cm m s0 = .ok (tcs, s1) ∧ s1.queue_ = s.queue_ ∧
          tcs.length = m ∧
          ∀ i, i < m → tcs.get? i = (s.queue_.valid_.map (fun e => e.tc_)).get?
            ((s0.seed_scheduling_counter_ + i) % s.queue_.valid_.length) := by
      intro m
      induction m with
      | zero =>
        intro s0 _ hq _ _
        exact ⟨[], s0, rfl, hq, rfl, by intro i hi; omega⟩
      | succ m ih =>
        intro s0 hd0 hq hdr hcoins
        have hcoin0 : s0.gen.random.NextBoolean.1 = false := by
          have := hcoins 0 (by omega)
          simp only [Random.NextBoolean, Random.raw, Nat.add_zero] at this ⊢
          simp [this]
        have hne0 : 0 < s0.queue_.valid_.length := by rw [hq]; exact hne
        have hn0 : s0.queue_.valid_.length < 2 ^ 32 := by rw [hq]; exact hn
        obtain ⟨e, he, hl⟩ := LoadTestCase_pick p k fuel cm s0 hd0 hne0 hcoin0 hn0
        have hlt : s0.seed_scheduling_counter_ % s0.queue_.valid_.length <
            s0.queue_.valid_.length := Nat.mod_lt _ hne0
        obtain ⟨tcs, s1, hrun, hq1, hlen, hget⟩ := ih
          { s0 with
            seed_scheduling_counter_ := s0.seed_scheduling_counter_ % s0.queue_.valid_.length + 1
            gen := { s0.gen with random := s0.gen.random.NextBoolean.2 } }
          hd0 hq hdr
          (by
            intro i hi
            have := hcoins (i + 1) (by omega)
            simp only [Random.NextBoolean, Random.advance]
            rw [Nat.add_assoc, Nat.add_comm 1 i]
            exact this)
        refine ⟨e.tc_ :: tcs, s1, ?_, hq1, by simp [hlen], ?_⟩
        · simp only [loadSeeds, hl, hrun]
        · intro i hi
          cases i with
          | zero =>
            rw [hq] at he
            simp only [List.get?_cons_zero, Nat.add_zero, List.get?_eq_getElem?, List.getElem?_map]
            rw [List.get?_eq_getElem?] at he
            rw [he]
            simp
          | succ j =>
            simp only [List.get?_cons_succ]
            rw [hget j (by omega)]
            simp only
            rw [hq]
            congr 1
            rw [Nat.add_assoc, Nat.add_comm 1 j]
            exact Nat.mod_add_mod _ _ _
    obtain ⟨tcs, s1, hrun, hq1, hlen, hget⟩ :=
      key s.queue_.valid_.length s hdet rfl rfl hdraws
    refine ⟨s1, ?_, hq1⟩
    rw [hrun]
    congr 2
    apply List.ext_get?
    intro i
    by_cases hi : i < s.queue_.valid_.length
    · rw [hget i hi, List.get?_rotate (by simpa using hi)]
      simp only [List.length_map]
      congr 1
      rw [Nat.add_comm i]
      exact (Nat.mod_add_mod _ _ _).symm
    · rw [List.get?_eq_none.mpr (by omega), List.get?_eq_none.mpr (by simp; omega)]
theorem C15_seed_cursor_witness :
    ∃ s1, loadSeeds Examples.pF [] 5 [Examples.fExe] 3 Examples.sSeeds =
      .ok ([Examples.seedTc "b", Examples.seedTc "c", Examples.seedTc "a"], s1) ∧
      s1.queue_ = Examples.sSeeds.queue_ :=
  (C15_seed_cursor Examples.pF [] 5 [Examples.fExe] Examples.sSeeds rfl (by decide)
    (by decide)).2 (fun _ _ => rfl)

/-! ## The empty model -/

/-- C16. With no executable to draw from, `NextExecutable` fails for every summary
and every random draw, and so do seed loading, the first iteration of the loop
and every run of the loop that makes an iteration: the loop does not end with
three empty partitions, it aborts. -/
theorem C16_empty_model_aborts (p : ProgramContext)
    (k : List (String × StatementVisitorResult)) (fuel : Nat) (gen : GenState)
    (x : Collaborators) (xs : List Collaborators) :
    NextExecutable [] .kComplexityBased k gen.random = none ∧
    (∃ e, LoadTestCase p k fuel [] (FuzzerState.init gen) = .error e) ∧
    iteration p k fuel [] x (FuzzerState.init gen) = .error .abort ∧
    MainLoop p k fuel [] (x :: xs) (FuzzerState.init gen) = .error .abort := by
  have hne : ∀ r : Random, NextExecutable [] .kComplexityBased k r = none := by
    intro r
    unfold NextExecutable
    split
    · simp [Random.NextInt]
    · simp [cumulative]
  have hl : LoadTestCase p k fuel [] (FuzzerState.init gen) = .error .abort := by
    unfold LoadTestCase
    simp [FuzzerState.init, hne]
  have hi : iteration p k fuel [] x (FuzzerState.init gen) = .error .abort := by
    unfold iteration
    rw [hl]
  refine ⟨hne _, ⟨_, hl⟩, hi, ?_⟩
  simp only [MainLoop, hi]

/-! ## Single assignment -/

theorem SSAFrom_iff : ∀ (d : List Statement) (seen : List Nat),
    SSAFrom seen d ↔
      ((∀ s ∈ d, s.addr ∉ seen) ∧ (d.map (fun s => s.addr)).Nodup ∧
       ∀ i s, d.get? i = some s → ∀ op ∈ s.GetStatementOperands, ∀ a, op.ref_ = some a →
         a ∈ seen ∨ ∃ j t, j < i ∧ d.get? j = some t ∧ t.addr = a) := by
  intro d
  induction d with
  | nil =>
    intro seen
    simp [SSAFrom]
  | cons s rest ih =>
    intro seen
    simp only [SSAFrom, ih (seen ++ [s.addr])]
    constructor
    · rintro ⟨hs, hrefs, hfresh, hnd, hidx⟩
      refine ⟨?_, ?_, ?_⟩
      · intro t ht
        rcases List.mem_cons.mp ht with rfl | ht
        · exact hs
        · intro h; exact hfresh t ht (List.mem_append_left _ h)
      · simp only [List.map_cons, List.nodup_cons]
        refine ⟨?_, hnd⟩
        intro hm
        obtain ⟨t, ht, hta⟩ := List.mem_map.mp hm
        exact hfresh t ht (by rw [hta]; simp)
      · intro i t hget op hop a ha
        cases i with
        | zero =>
          simp only [List.get?_cons_zero, Option.some.injEq] at hget
          subst hget
          exact Or.inl (hrefs op hop a ha)
        | succ k =>
          simp only [List.get?_cons_succ] at hget
          rcases hidx k t hget op hop a ha with h | ⟨j, u, hj, hu, hua⟩
          · rcases List.mem_append.mp h with h | h
            · exact Or.inl h
            · simp only [List.mem_singleton] at h
              exact Or.inr ⟨0, s, by omega, rfl, h.symm⟩
          · exact Or.inr ⟨j + 1, u, by omega, by simpa using hu, hua⟩
    · rintro ⟨hfresh, hnd, hidx⟩
      simp only [List.map_cons, List.nodup_cons] at hnd
      refine ⟨hfresh s (List.mem_cons_self _ _), ?_, ?_, hnd.2, ?_⟩
      · intro op hop a ha
        rcases hidx 0 s rfl op hop a ha with h | ⟨j, u, hj, _, _⟩
        · exact h
        · omega
      · intro t ht h
        rcases List.mem_append.mp h with h | h
        · exact hfresh t (List.mem_cons_of_mem _ ht) h
        · simp only [List.mem_singleton] at h
          exact hnd.1 (List.mem_map.mpr ⟨t, ht, h⟩)
      · intro i t hget op hop a ha
        rcases hidx (i + 1) t (by simpa using hget) op hop a ha with h | ⟨j, u, hj, hu, hua⟩
        · exact Or.inl (List.mem_append_left _ h)
        · cases j with
          | zero =>
            simp only [List.get?_cons_zero, Option.some.injEq] at hu
            subst hu
            exact Or.inl (List.mem_append_right _ (by simp [hua]))
          | succ j =>
            exact Or.inr ⟨j, u, by omega, by simpa using hu, hua⟩

theorem SingleAssignment_iff (d : List Statement) : SingleAssignment d ↔ SSAFrom [] d := by
  rw [SSAFrom_iff]
  unfold SingleAssignment
  simp

/-- The loop of `TestCase::Verify` checks single assignment and the arguments of every call. -/
theorem verifyFrom_iff : ∀ (d : List Statement) (seen : List Nat),
    verifyFrom seen d = true ↔
      (SSAFrom seen d ∧ ∀ s ∈ d,
        (match s.body with
         | .CallStatement target operands _ _ => verifyCallArguments target.arguments_ operands
         | _ => true) = true) := by
  intro d
  induction d with
  | nil => intro seen; simp [verifyFrom, SSAFrom]
  | cons s rest ih =>
    intro seen
    simp only [verifyFrom, SSAFrom, Bool.and_eq_true, decide_eq_true_eq, ih (seen ++ [s.addr]),
      List.mem_cons, forall_eq_or_imp, List.count_eq_zero]
    have hrefs : AssertRefOperandsValid seen s.GetStatementOperands = true ↔
        ∀ op ∈ s.GetStatementOperands, ∀ a, op.ref_ = some a → a ∈ seen := by
      unfold AssertRefOperandsValid
      simp only [List.all_eq_true]
      constructor
      · intro h op hop a ha
        have := h op hop
        rw [ha] at this
        simp only [ne_eq, decide_not, Bool.not_eq_true', decide_eq_false_iff_not] at this
        by_contra hn
        exact this (List.count_eq_zero.mpr hn)
      · intro h op hop
        cases ha : op.ref_ with
        | none => rfl
        | some a =>
          have := h op hop a ha
          simp only [ne_eq, decide_not, Bool.not_eq_true', decide_eq_false_iff_not]
          intro h0
          exact (List.count_eq_zero.mp h0) this
    rw [hrefs]
    tauto

/-! ## Cleanup -/

theorem mem_usedStmts (d : List Statement) (a : Nat) :
    a ∈ usedStmts d ↔ ∃ t ∈ d, ∃ op ∈ t.GetStatementOperands, op.ref_ = some a := by
  unfold usedStmts
  simp only [List.mem_flatMap, List.mem_filterMap]

theorem SSAFrom_filter (U : List Nat) (keep : Statement → Bool) :
    ∀ (d : List Statement) (seen seen1 : List Nat),
      (∀ a ∈ seen1, a ∈ seen) → (∀ a ∈ seen, a ∈ U → a ∈ seen1) →
      (∀ s ∈ d, ∀ op ∈ s.GetStatementOperands, ∀ a, op.ref_ = some a → a ∈ U) →
      (∀ s ∈ d, s.addr ∈ U → keep s = true) →
      SSAFrom seen d → SSAFrom seen1 (d.filter keep) := by
  intro d
  induction d with
  | nil => intro _ _ _ _ _ _ _; simp [SSAFrom]
  | cons s rest ih =>
    intro seen seen1 hsub hU hrefs hkeep hssa
    obtain ⟨hfresh, hback, hrest⟩ := hssa
    have hrefs1 : ∀ t ∈ rest, ∀ op ∈ t.GetStatementOperands, ∀ a, op.ref_ = some a → a ∈ U :=
      fun t ht => hrefs t (List.mem_cons_of_mem _ ht)
    have hkeep1 : ∀ t ∈ rest, t.addr ∈ U → keep t = true :=
      fun t ht => hkeep t (List.mem_cons_of_mem _ ht)
    by_cases hk : keep s = true
    · rw [List.filter_cons_of_pos hk]
      refine ⟨fun h => hfresh (hsub _ h), ?_, ?_⟩
      · intro op hop a ha
        exact hU a (hback op hop a ha) (hrefs s (List.mem_cons_self _ _) op hop a ha)
      · refine ih (seen ++ [s.addr]) (seen1 ++ [s.addr]) ?_ ?_ hrefs1 hkeep1 hrest
        · intro a ha
          rcases List.mem_append.mp ha with h | h
          · exact List.mem_append_left _ (hsub a h)
          · exact List.mem_append_right _ h
        · intro a ha hau
          rcases List.mem_append.mp ha with h | h
          · exact List.mem_append_left _ (hU a h hau)
          · exact List.mem_append_right _ h
    · rw [List.filter_cons_of_neg hk]
      refine ih (seen ++ [s.addr]) seen1 ?_ ?_ hrefs1 hkeep1 hrest
      · intro a ha; exact List.mem_append_left _ (hsub a ha)
      · intro a ha hau
        rcases List.mem_append.mp ha with h | h
        · exact hU a h hau
        · simp only [List.mem_singleton] at h
          subst h
          exact absurd (hkeep s (List.mem_cons_self _ _) hau) hk

/-- C4. On a single-assignment driver `d`, `InplaceMutationByCleanup` keeps exactly
the statements of `d` that are not PrimitiveAssignment statements or that are
the referent of a reference operand of some statement of `d`, in their
original order; the result satisfies single assignment, and it passes
`Verify`, the method's closing assertion, when `d` does. -/
theorem C4_cleanup (d : List Statement) (h : SingleAssignment d) :
    (∀ s, s ∈ InplaceMutationByCleanup d ↔
      (s ∈ d ∧ (s.GetVariant ≠ .kPrimitiveAssignment ∨ IsReferencedIn d s))) ∧
    (InplaceMutationByCleanup d).Sublist d ∧
    (∀ s ∈ d, s.GetVariant ≠ .kPrimitiveAssignment → s ∈ InplaceMutationByCleanup d) ∧
    SingleAssignment (InplaceMutationByCleanup d) ∧
    (∀ c, TestCase.Verify ⟨d, c⟩ = true →
      TestCase.Verify ⟨InplaceMutationByCleanup d, c⟩ = true) := by
  have hmem : ∀ s, s ∈ InplaceMutationByCleanup d ↔
      (s ∈ d ∧ (s.GetVariant ≠ .kPrimitiveAssignment ∨ IsReferencedIn d s)) := by
    intro s
    unfold InplaceMutationByCleanup IsReferencedIn
    simp only [List.mem_filter, Bool.not_eq_true', Bool.and_eq_false_imp, decide_eq_true_eq,
      decide_eq_false_iff_not, List.count_eq_zero, not_not, mem_usedStmts]
    constructor
    · rintro ⟨hs, hk⟩
      refine ⟨hs, ?_⟩
      by_cases hp : s.GetVariant = .kPrimitiveAssignment
      · exact Or.inr (hk hp)
      · exact Or.inl hp
    · rintro ⟨hs, hk⟩
      refine ⟨hs, ?_⟩
      intro hp
      rcases hk with hk | hk
      · exact absurd hp hk
      · exact hk
  have hssa : SSAFrom [] (InplaceMutationByCleanup d) := by
    unfold InplaceMutationByCleanup
    refine SSAFrom_filter (usedStmts d) _ d [] [] (fun _ h => h) (fun _ h _ => h) ?_ ?_
      ((SingleAssignment_iff d).mp h)
    · intro s hs op hop a ha
      exact (mem_usedStmts d a).mpr ⟨s, hs, op, hop, ha⟩
    · intro s _ hu
      have : ¬ List.count s.addr (usedStmts d) = 0 := by
        intro h0; exact (List.count_eq_zero.mp h0) hu
      simp [this]
  refine ⟨hmem, ?_, ?_, (SingleAssignment_iff _).mpr hssa, ?_⟩
  · unfold InplaceMutationByCleanup
    exact List.filter_sublist _
  · intro s hs hv
    exact (hmem s).mpr ⟨hs, Or.inl hv⟩
  · intro c hv
    unfold TestCase.Verify at hv ⊢
    simp only at hv ⊢
    rw [verifyFrom_iff] at hv ⊢
    refine ⟨hssa, ?_⟩
    intro s hs
    exact hv.2 s ((hmem s).mp hs).1

theorem C4_cleanup_witness :
    SingleAssignment Examples.dCleanup ∧
    InplaceMutationByCleanup Examples.dCleanup =
      [Examples.sInt 0 "1", Examples.sCallG 2 (Examples.sInt 0 "1")] ∧
    SingleAssignment (InplaceMutationByCleanup Examples.dCleanup) :=
  have h : SingleAssignment Examples.dCleanup :=
    (SingleAssignment_iff _).mpr (by simp [SSAFrom, Examples.dCleanup, Examples.sInt,
      Examples.sCallG, Statement.GetStatementOperands, Operand.MakeRefOperand,
      Operand.MakeConstantOperand])
  ⟨h, by decide, (C4_cleanup Examples.dCleanup h).2.2.2.1⟩

/-! ## Mutually recursive constructors -/

theorem LookupSubClasses_of_no_parents (i : InheritanceTreeModel) (t : ClassTypeModel)
    (hp : i.parent_classes_ = []) (hm : ∀ kv ∈ i.subclasses_, kv.2 = []) :
    (i.LookupSubClasses t).1 = [] ∧ (i.LookupSubClasses t).2.parent_classes_ = [] ∧
      ∀ kv ∈ (i.LookupSubClasses t).2.subclasses_, kv.2 = [] := by
  unfold InheritanceTreeModel.LookupSubClasses
  cases hf : i.subclasses_.find? (fun kv => kv.1 == t) with
  | none =>
    simp only [hp, List.filter_nil, List.map_nil]
    refine ⟨trivial, trivial, ?_⟩
    intro kv hkv
    rcases List.mem_append.mp hkv with h | h
    · exact hm kv h
    · simp only [List.mem_singleton] at h
      rw [h]
  | some kv =>
    simp only
    exact ⟨hm kv (List.mem_of_find?_eq_some hf), hp, hm⟩

theorem ResolveOperandClassType_single (p : ProgramContext) (resolve : Resolver)
    (T X : TypeWithModifier) (m : ClassTypeModel) (stmts : List Statement)
    (c : TemplateTypeContext) (st : GenState) (i : InheritanceTreeModel) (cr : Creator)
    (e : Fault)
    (hT : T.type_ = some (.cls m)) (hi : st.inheritance_model_ = some i)
    (hcoll : ∀ (c1 : TemplateTypeContext) (st1 : GenState),
      collectTypeCreators T m (i.LookupSubClasses m).1 p.creators_ c1 st1 = .ok ([cr], c1, st1))
    (hargs : cr.arguments_.map TypeWithModifier.FromSpecByClangType = [X])
    (hres : resolve X stmts c false
      { random := st.random.advance, inheritance_model_ := some (i.LookupSubClasses m).2,
        next_addr := st.next_addr } = .error e) :
    ResolveOperandClassType p resolve T stmts c false st = .error e := by
  unfold ResolveOperandClassType
  simp only [hT, hi, hcoll, Random.NextInt, List.length_singleton, Nat.cast_one, gt_iff_lt,
    zero_lt_one, if_true, Int.emod_one, Int.toNat_zero, List.getD_cons_zero, hargs, resolveEach,
    hres]

theorem ResolveOperandBody_cls (p : ProgramContext) (resolve : Resolver)
    (T : TypeWithModifier) (m : ClassTypeModel) (stmts : List Statement)
    (c : TemplateTypeContext) (st : GenState)
    (hT : T.type_ = some (.cls m)) (hmods : T.modifiers_ = []) :
    ResolveOperandBody p resolve T stmts c false st =
      ResolveOperandClassType p resolve T stmts c false st := by
  unfold ResolveOperandBody
  simp [hT, TypeWithModifier.IsVoidPtr, TypeWithModifier.IsPointer, hmods, CxxType.GetVariant]

theorem ResolveOperand_cyclic (fuel : Nat) :
    ∀ (statements : List Statement) (tt_ctx : TemplateTypeContext) (st : GenState)
      (i : InheritanceTreeModel), st.inheritance_model_ = some i → i.parent_classes_ = [] →
      (∀ kv ∈ i.subclasses_, kv.2 = []) →
      ResolveOperand Examples.pCyc fuel Examples.tA statements tt_ctx false st
        = .error .outOfFuel ∧
      ResolveOperand Examples.pCyc fuel Examples.tB statements tt_ctx false st
        = .error .outOfFuel := by
  induction fuel with
  | zero => intro _ _ _ _ _ _ _; exact ⟨rfl, rfl⟩
  | succ n ih =>
    intro statements tt_ctx st i hi hp hm
    obtain ⟨h1, h2, h3⟩ := LookupSubClasses_of_no_parents i Examples.clsA hp hm
    obtain ⟨g1, g2, g3⟩ := LookupSubClasses_of_no_parents i Examples.clsB hp hm
    constructor
    · simp only [ResolveOperand]
      rw [ResolveOperandBody_cls _ _ _ Examples.clsA _ _ _ rfl rfl]
      refine ResolveOperandClassType_single _ _ _ Examples.tB Examples.clsA _ _ _ i
        Examples.ctorA _ rfl hi ?_ rfl ?_
      · intro c1 st1; rw [h1]; rfl
      · exact (ih statements tt_ctx _ _ rfl h2 h3).2
    · simp only [ResolveOperand]
      rw [ResolveOperandBody_cls _ _ _ Examples.clsB _ _ _ rfl rfl]
      refine ResolveOperandClassType_single _ _ _ Examples.tA Examples.clsB _ _ _ i
        Examples.ctorB _ rfl hi ?_ rfl ?_
      · intro c1 st1; rw [g1]; rfl
      · exact (ih statements tt_ctx _ _ rfl g2 g3).1

/-- C19. In the model with the constructors `A::A(B)` and `B::B(A)` only, resolving
an operand of type `A` does not return, for every outcome of the random draws
and every recursion depth: each level takes the only creator of the class it
needs and descends into the other class. -/
theorem C19_mutual_constructors_diverge (fuel : Nat) (r : Random) (next_addr : Nat)
    (statements : List Statement) (tt_ctx : TemplateTypeContext) :
    ResolveOperand Examples.pCyc fuel Examples.tA statements tt_ctx false
      ⟨r, some ⟨[], []⟩, next_addr⟩ = .error .outOfFuel :=
  (ResolveOperand_cyclic fuel statements tt_ctx ⟨r, some ⟨[], []⟩, next_addr⟩ ⟨[], []⟩ rfl rfl
    (by intro kv h; cases h)).1

/-! ## Mutation of the invoking object -/

/-- C20. In the driver `A* v0 = A::make(); int v1 = v0->m();` the invoking object
of the second statement is a reference operand of pointer type. With the
draws 1, 1, 0 `MutateCall` returns a clone of the call whose invoking object
is the constant `nullptr`: the check `IsRefPtrAndUsedAsInvokingObject`
compares the address of the clone's operand with the address of the
original statement's operand and answers false. -/
theorem C20_invoking_object_becomes_null :
    Examples.sCallM.GetVariant = .kCall ∧
    (Operand.MakeRefOperand Examples.sMake).GetOperandType = .kRefOperand ∧
    (Operand.MakeRefOperand Examples.sMake).type_.IsPointer = true ∧
    TestCase.Verify Examples.tcM = true ∧
    ∃ m, MutateCall Examples.pM [] Examples.sCallM Examples.tcM
        ⟨Examples.rndNull, some ⟨[], []⟩, 2⟩ = .ok m ∧
      m.value = ⟨2, Examples.kInt, none, .CallStatement Examples.mExe []
        (some (Operand.MakeConstantOperand Examples.tAptr "nullptr")) TemplateTypeContext.New⟩ ∧
      (Operand.MakeConstantOperand Examples.tAptr "nullptr").IsNullPtr = true :=
  ⟨rfl, rfl, rfl, rfl, _, rfl, rfl, rfl⟩

/-! ## Type soundness of generated calls -/

/-- C2. For the classes `A` and `B : A`, both with a default constructor, the
class template `X<T>` with the constructor `X(T)` and the function
`int h(X<A>)`, the filter of the analyser keeps every executable and every
creator, and `GenForMethod` returns the driver
`B v0 = B(); X<A> v1 = X<A>(v0); int v2 = h(v1); int v3 = h(v1);` when the
draw picks the creator `B::B()` for the required class `A`. The constructor
call declares the argument type `T`, carries an operand of type `B` and
records the template context `T ↦ A`. Under this context and the inheritance
model `A.IsAssignableFrom(B)` is true and `T.IsAssignableFrom(B)` is false:
the test for two classes reads the unresolved type of the sink, which is the
template parameter. -/
theorem C2_constructor_argument_not_assignable :
    ∃ g,
      filterLoop Examples.itmBA 5 Examples.pXA.executables_ Examples.pXA.creators_ [] 0 =
        .ok (Examples.pXA.executables_, Examples.pXA.creators_, ["_Z3_config"], 0) ∧
      GenForMethod Examples.pXA 10 Examples.hXA TemplateTypeContext.New [] 0 false
          ⟨Examples.rndOnes, some Examples.itmBA, 0⟩ =
        .ok (⟨[Examples.sNewB, Examples.sXofB,
            ⟨2, Examples.kInt, none, .CallStatement Examples.hXA
              [Operand.MakeRefOperand Examples.sXofB] none TemplateTypeContext.New⟩,
            ⟨3, Examples.kInt, none, .CallStatement Examples.hXA
              [Operand.MakeRefOperand Examples.sXofB] none TemplateTypeContext.New⟩],
          TemplateTypeContext.New⟩, g) ∧
      Examples.ctorX.arguments_.map TypeWithModifier.FromSpecByClangType = [Examples.tT] ∧
      (Operand.MakeRefOperand Examples.sNewB).type_ = Examples.tB ∧
      ((Examples.tA.IsAssignableFrom Examples.tB Examples.ctxTA g.random
          g.inheritance_model_).map (fun res => res.value)) = some true ∧
      ((Examples.tT.IsAssignableFrom Examples.tB Examples.ctxTA g.random
          g.inheritance_model_).map (fun res => res.value)) = some false :=
  ⟨_, rfl, rfl, rfl, rfl, rfl, rfl⟩

/-! ## Container construction -/

theorem resolveEach_length (resolve : Resolver) (force_avail_op : Bool) :
    ∀ (types : List TypeWithModifier) (stmts : List Statement) (c : TemplateTypeContext)
      (st : GenState) (ops : List Operand) (stmts1 : List Statement) (c1 : TemplateTypeContext)
      (st1 : GenState),
      resolveEach resolve force_avail_op types stmts c st = .ok (ops, stmts1, c1, st1) →
      ops.length = types.length := by
  intro types
  induction types with
  | nil =>
    intro stmts c st ops stmts1 c1 st1 h
    simp only [resolveEach] at h
    cases h
    rfl
  | cons t rest ih =>
    intro stmts c st ops stmts1 c1 st1 h
    simp only [resolveEach] at h
    split at h
    · cases h
    · rename_i res hres
      split at h
      · cases h
      · rename_i ops2 stmts2 c2 st2 hrest
        cases h
        simp [ih _ _ _ _ _ _ _ hrest]

theorem resolvePairs_length (resolve : Resolver) (force_avail_op : Bool)
    (k v : TypeWithModifier) :
    ∀ (n : Nat) (stmts : List Statement) (c : TemplateTypeContext)
      (st : GenState) (kvs : List (Operand × Operand)) (stmts1 : List Statement)
      (c1 : TemplateTypeContext) (st1 : GenState),
      resolvePairs resolve force_avail_op k v n stmts c st = .ok (kvs, stmts1, c1, st1) →
      kvs.length = n := by
  intro n
  induction n with
  | zero =>
    intro stmts c st kvs stmts1 c1 st1 h
    simp only [resolvePairs] at h
    cases h
    rfl
  | succ n ih =>
    intro stmts c st kvs stmts1 c1 st1 h
    simp only [resolvePairs] at h
    repeat' (first | (cases h; done) | split at h)
    rename_i hrest
    cases h
    simp [ih _ _ _ _ _ _ _ hrest]

theorem emitSTL_ok (twm : TypeWithModifier) (target : STLType) (elements : STLElement)
    (stmts : List Statement) (c : TemplateTypeContext) (st : GenState) (res : Resolved)
    (h : emitSTL twm target elements stmts c st = .ok res) :
    ∃ stmt, res.statements = stmts ++ [stmt] ∧ res.operand = Operand.MakeRefOperand stmt ∧
      stmt.body = .STLStatement target elements ∧ stmt.addr = st.next_addr ∧
      res.tt_ctx = c ∧ res.state = { st with next_addr := st.next_addr + 1 } := by
  unfold emitSTL pushAndRef MakeSTLStatement Statement.make at h
  repeat' (first | (cases h; done) | split at h)
  rename_i heq
  split at heq
  · cases heq
  · split at heq
    · cases heq
    · cases heq
      cases h
      exact ⟨_, rfl, rfl, rfl, rfl, rfl, rfl⟩
/-- C17. Every statement that `STLOperandResolver::Handle` returns a reference to
is a container construction appended last, and its element count obeys the
container kind: at most 3 operands for a sequence, adapter or (multi)set,
exactly `N` for `std::array<T, N>`, at most 3 key/value pairs for a
(multi)map, one key/value pair for a pair, one operand per instantiation
parameter for a tuple, one operand for a smart pointer and at most 10
operands for a string. -/
theorem C17_container_cardinality (resolve : Resolver) (twm : TypeWithModifier)
    (statements : List Statement) (tt_ctx : TemplateTypeContext) (force_avail_op : Bool)
    (st : GenState) (res : Resolved)
    (h : STLOperandResolver.Handle resolve twm statements tt_ctx force_avail_op st = .ok res) :
    ∃ stl_type inst_list, twm.type_ = some (.templateTypenameSpc (.stl stl_type) inst_list) ∧
    ∃ stmt target elements,
      res.statements.getLast? = some stmt ∧ res.operand = Operand.MakeRefOperand stmt ∧
      stmt.body = .STLStatement target elements ∧
      (match stl_type.GetSTLTypeVariant with
       | .kRegContainer =>
         ∃ ops, elements = STLElement.ForRegularContainer ops ∧ ops.length ≤ 3
       | .kRegContainerWithSize =>
         ∃ ops inst_type N, inst_list.toList = [inst_type, .ForIntegral N] ∧
           elements = STLElement.ForRegularContainer ops ∧ ops.length = N.toNat
       | .kKeyValueContainer =>
         ∃ kvs, elements = STLElement.ForKeyValueContainer kvs ∧ kvs.length ≤ 3
       | .kPair => ∃ k v, elements = STLElement.ForKeyValueContainer [(k, v)]
       | .kTuple =>
         ∃ ops, elements = STLElement.ForRegularContainer ops ∧
           ops.length = inst_list.toList.length
       | .kSmartPointer => ∃ o, elements = STLElement.ForRegularContainer [o]
       | .kString =>
         ∃ ops, elements = STLElement.ForRegularContainer ops ∧ ops.length ≤ 10) := by
  unfold STLOperandResolver.Handle at h
  split at h
  · rename_i stl_type inst_list htype
    refine ⟨stl_type, inst_list, htype, ?_⟩
    have fin : ∀ (target : STLType) (elements : STLElement) (stmts : List Statement)
        (c : TemplateTypeContext) (s0 : GenState),
        emitSTL twm target elements stmts c s0 = .ok res →
        ∃ stmt, res.statements.getLast? = some stmt ∧ res.operand = Operand.MakeRefOperand stmt ∧
          stmt.body = .STLStatement target elements := by
      intro target elements stmts c s0 he
      obtain ⟨stmt, h1, h2, h3, _⟩ := emitSTL_ok twm target elements stmts c s0 res he
      exact ⟨stmt, by rw [h1]; simp, h2, h3⟩
    cases hv : stl_type.GetSTLTypeVariant <;> simp only [hv] at h ⊢
    · -- kRegContainer
      split at h
      · split at h
        · cases h
        · split at h
          · cases h
          · rename_i ops stmts1 c1 st1 hres
            obtain ⟨stmt, h1, h2, h3⟩ := fin _ _ _ _ _ h
            refine ⟨stmt, _, _, h1, h2, h3, ops, rfl, ?_⟩
            rw [resolveEach_length _ _ _ _ _ _ _ _ _ _ hres, List.length_replicate]
            have := Nat.mod_lt st.random.raw (show 0 < 4 by decide)
            omega
      · cases h
    · -- kRegContainerWithSize
      split at h
      · rename_i inst_type N hl
        split at h
        · cases h
        · split at h
          · cases h
          · rename_i ops stmts1 c1 st1 hres
            obtain ⟨stmt, h1, h2, h3⟩ := fin _ _ _ _ _ h
            refine ⟨stmt, _, _, h1, h2, h3, ops, inst_type, N, hl, rfl, ?_⟩
            rw [resolveEach_length _ _ _ _ _ _ _ _ _ _ hres, List.length_replicate]
      · cases h
    · -- kKeyValueContainer
      split at h
      · split at h
        · split at h
          · cases h
          · rename_i kvs stmts1 c1 st1 hres
            obtain ⟨stmt, h1, h2, h3⟩ := fin _ _ _ _ _ h
            refine ⟨stmt, _, _, h1, h2, h3, kvs, rfl, ?_⟩
            rw [resolvePairs_length _ _ _ _ _ _ _ _ _ _ _ _ hres]
            have := Nat.mod_lt st.random.raw (show 0 < 4 by decide)
            omega
        · cases h
      · cases h
    · -- kPair
      split at h
      · split at h
        · split at h
          · cases h
          · split at h
            · cases h
            · obtain ⟨stmt, h1, h2, h3⟩ := fin _ _ _ _ _ h
              exact ⟨stmt, _, _, h1, h2, h3, _, _, rfl⟩
        · cases h
      · cases h
    · -- kTuple
      split at h
      · rename_i hall
        split at h
        · cases h
        · rename_i ops stmts1 c1 st1 hres
          obtain ⟨stmt, h1, h2, h3⟩ := fin _ _ _ _ _ h
          refine ⟨stmt, _, _, h1, h2, h3, ops, rfl, ?_⟩
          rw [resolveEach_length _ _ _ _ _ _ _ _ _ _ hres]
          have : ∀ l : List TemplateTypeInstantiation,
              l.all (fun i => i.GetType.isSome) = true →
              (l.filterMap (fun i => i.GetType)).length = l.length := by
            intro l
            induction l with
            | nil => intro _; rfl
            | cons a l ih =>
              intro ha
              simp only [List.all_cons, Bool.and_eq_true] at ha
              obtain ⟨t, ht⟩ := Option.isSome_iff_exists.mp ha.1
              simp [List.filterMap_cons, ht, ih ha.2]
          exact this _ hall
      · cases h
    · -- kSmartPointer
      split at h
      · split at h
        · cases h
        · split at h
          · cases h
          · obtain ⟨stmt, h1, h2, h3⟩ := fin _ _ _ _ _ h
            exact ⟨stmt, _, _, h1, h2, h3, _, rfl⟩
      · cases h
    · -- kString
      split at h
      · split at h
        · cases h
        · split at h
          · cases h
          · rename_i ops stmts1 c1 st1 hres
            obtain ⟨stmt, h1, h2, h3⟩ := fin _ _ _ _ _ h
            refine ⟨stmt, _, _, h1, h2, h3, ops, rfl, ?_⟩
            rw [resolveEach_length _ _ _ _ _ _ _ _ _ _ hres, List.length_replicate]
            have := Nat.mod_lt st.random.raw (show 0 < 11 by decide)
            omega
      · cases h
  · cases h
theorem C17_container_cardinality_witness :
    ∃ res, STLOperandResolver.Handle (ResolveOperand Examples.pF 5) Examples.tVecInt [] TemplateTypeContext.New
        false ⟨Examples.rndTwo, some ⟨[], []⟩, 0⟩ = .ok res ∧
      res.statements = [⟨0, Examples.tVecInt, none, .STLStatement .kVector
        (STLElement.ForRegularContainer [Operand.MakeConstantOperand Examples.kInt "-2147483648",
          Operand.MakeConstantOperand Examples.kInt "-2147483648"])⟩] ∧
      ∃ stl_type inst_list,
        Examples.tVecInt.type_ = some (.templateTypenameSpc (.stl stl_type) inst_list) := by
  refine ⟨_, rfl, rfl, ?_⟩
  obtain ⟨stl_type, inst_list, h, _⟩ := C17_container_cardinality (ResolveOperand Examples.pF 5)
    Examples.tVecInt [] TemplateTypeContext.New false ⟨Examples.rndTwo, some ⟨[], []⟩, 0⟩ _ rfl
  exact ⟨stl_type, inst_list, h⟩

/-! ## Generation steps -/

theorem SSAFrom_append : ∀ (l1 l2 : List Statement) (seen : List Nat),
    SSAFrom seen (l1 ++ l2) ↔
      (SSAFrom seen l1 ∧ SSAFrom (seen ++ l1.map (fun s => s.addr)) l2) := by
  intro l1
  induction l1 with
  | nil => intro l2 seen; simp [SSAFrom]
  | cons s rest ih =>
    intro l2 seen
    show (s.addr ∉ seen ∧ _ ∧ SSAFrom (seen ++ [s.addr]) (rest ++ l2)) ↔ _
    simp only [SSAFrom, ih, List.map_cons, List.append_assoc,
      List.singleton_append, and_assoc]

theorem SSAFrom_mono : ∀ (l : List Statement) (seen seen1 : List Nat),
    (∀ a ∈ seen, a ∈ seen1) → (∀ a ∈ seen1, a ∈ seen ∨ ∀ s ∈ l, s.addr ≠ a) →
    SSAFrom seen l → SSAFrom seen1 l := by
  intro l
  induction l with
  | nil => intro _ _ _ _ _; trivial
  | cons s rest ih =>
    intro seen seen1 hsub hfresh h
    obtain ⟨h1, h2, h3⟩ := h
    refine ⟨?_, fun op hop a ha => hsub a (h2 op hop a ha), ?_⟩
    · intro hm
      rcases hfresh _ hm with h | h
      · exact h1 h
      · exact h s (List.mem_cons_self _ _) rfl
    · refine ih (seen ++ [s.addr]) (seen1 ++ [s.addr]) ?_ ?_ h3
      · intro a ha
        rcases List.mem_append.mp ha with h | h
        · exact List.mem_append_left _ (hsub a h)
        · exact List.mem_append_right _ h
      · intro a ha
        rcases List.mem_append.mp ha with h | h
        · rcases hfresh a h with h | h
          · exact Or.inl (List.mem_append_left _ h)
          · exact Or.inr (fun t ht => h t (List.mem_cons_of_mem _ ht))
        · exact Or.inl (List.mem_append_right _ h)

theorem StepOK_refl (stmts : List Statement) (n : Nat) (refs : List Nat)
    (hrefs : ∀ a ∈ refs, a ∈ stmts.map (fun s => s.addr)) : StepOK stmts n stmts n refs := by
  refine ⟨[], by simp, le_refl _, ?_, fun h => h.1, hrefs⟩
  intro s hs
  cases hs

theorem StepOK_trans (s0 s1 s2 : List Statement) (n0 n1 n2 : Nat) (r1 r2 : List Nat)
    (h1 : StepOK s0 n0 s1 n1 r1) (h2 : StepOK s1 n1 s2 n2 r2) :
    StepOK s0 n0 s2 n2 (r1 ++ r2) := by
  obtain ⟨new1, e1, le1, f1, g1, p1⟩ := h1
  obtain ⟨new2, e2, le2, f2, g2, p2⟩ := h2
  refine ⟨new1 ++ new2, by rw [e2, e1, List.append_assoc], le_trans le1 le2, ?_, ?_, ?_⟩
  · intro s hs
    rcases List.mem_append.mp hs with h | h
    · have := f1 s h; omega
    · have := f2 s h; omega
  · intro hg
    apply g2
    refine ⟨g1 hg, ?_⟩
    intro s hs
    rw [e1] at hs
    rcases List.mem_append.mp hs with h | h
    · have := hg.2 s h; omega
    · exact (f1 s h).2
  · intro a ha
    rcases List.mem_append.mp ha with h | h
    · have := p1 a h
      rw [e2, List.map_append]
      exact List.mem_append_left _ this
    · exact p2 a h

theorem StepOK_refs (s0 s1 : List Statement) (n0 n1 : Nat) (r1 r2 : List Nat)
    (h : StepOK s0 n0 s1 n1 r1) (hr : ∀ a ∈ r2, a ∈ r1) : StepOK s0 n0 s1 n1 r2 := by
  obtain ⟨new1, e1, le1, f1, g1, p1⟩ := h
  exact ⟨new1, e1, le1, f1, g1, fun a ha => p1 a (hr a ha)⟩

theorem StepOK_push (stmts : List Statement) (n : Nat) (stmt : Statement)
    (haddr : stmt.addr = n)
    (hrefs : ∀ op ∈ stmt.GetStatementOperands, ∀ a, op.ref_ = some a →
      a ∈ stmts.map (fun s => s.addr)) :
    StepOK stmts n (stmts ++ [stmt]) (n + 1) [stmt.addr] := by
  refine ⟨[stmt], rfl, Nat.le_succ _, ?_, ?_, ?_⟩
  · intro s hs
    simp only [List.mem_singleton] at hs
    subst hs
    omega
  · intro hg
    rw [SSAFrom_append]
    refine ⟨hg.1, ?_, ?_, trivial⟩
    · simp only [List.nil_append]
      intro hm
      obtain ⟨t, ht, hta⟩ := List.mem_map.mp hm
      have := hg.2 t ht
      omega
    · simpa using hrefs
  · intro a ha
    simp only [List.mem_singleton] at ha
    subst ha
    simp

theorem assignable_next_addr (sink src : TypeWithModifier) (c c1 : TemplateTypeContext)
    (st st1 : GenState) (b : Bool) (h : assignable sink src c st = .ok (b, c1, st1)) :
    st1.next_addr = st.next_addr := by
  unfold assignable at h
  split at h
  · cases h
  · cases h; rfl

theorem GetAssignableStatements_ok (target_type : TypeWithModifier) (stop : Option Nat) :
    ∀ (stmts : List Statement) (c c1 : TemplateTypeContext) (st st1 : GenState)
      (l : List Statement),
      GetAssignableStatements target_type stop stmts c st = .ok (l, c1, st1) →
      st1.next_addr = st.next_addr ∧ ∀ s ∈ l, s ∈ stmts := by
  intro stmts
  induction stmts with
  | nil =>
    intro c c1 st st1 l h
    simp only [GetAssignableStatements] at h
    cases h
    exact ⟨rfl, fun _ hs => hs⟩
  | cons s rest ih =>
    intro c c1 st st1 l h
    simp only [GetAssignableStatements] at h
    split at h
    · cases h
      exact ⟨rfl, by intro _ hs; cases hs⟩
    · split at h
      · cases h
      · rename_i b c2 st2 ha
        split at h
        · cases h
        · rename_i more c3 st3 hr
          cases h
          obtain ⟨e, hm⟩ := ih _ _ _ _ _ hr
          refine ⟨by rw [e, assignable_next_addr _ _ _ _ _ _ _ ha], ?_⟩
          intro t ht
          split at ht
          · rcases List.mem_cons.mp ht with rfl | ht
            · exact List.mem_cons_self _ _
            · exact List.mem_cons_of_mem _ (hm t ht)
          · exact List.mem_cons_of_mem _ (hm t ht)

theorem ResolveUsingAssignableStatements_ok (target_type : TypeWithModifier)
    (stmts : List Statement) (c c1 : TemplateTypeContext) (st st1 : GenState)
    (o : Option Operand)
    (h : ResolveUsingAssignableStatements target_type stmts c st = .ok (o, c1, st1)) :
    st1.next_addr = st.next_addr ∧
      ∀ op, o = some op → ∀ a ∈ op.ref_.toList, a ∈ stmts.map (fun s => s.addr) := by
  unfold ResolveUsingAssignableStatements at h
  split at h
  · cases h
  · rename_i l c2 st2 hg
    obtain ⟨e, hm⟩ := GetAssignableStatements_ok _ _ _ _ _ _ _ _ hg
    split at h
    · cases h
      exact ⟨e, by intro op ho; cases ho⟩
    · rename_i first tl
      cases h
      refine ⟨e, ?_⟩
      intro op ho a ha
      cases ho
      simp only [Operand.MakeRefOperand, Option.toList, List.mem_singleton] at ha
      subst ha
      apply List.mem_map.mpr
      refine ⟨_, hm _ ?_, rfl⟩
      rw [List.getD_eq_getElem?_getD]
      cases hget : (first :: tl)[st2.random.raw % (first :: tl).length]? with
      | none => simp
      | some v =>
        simp only [Option.getD_some]
        exact List.getElem?_mem hget

theorem MutateConstantOperandOfType_ref (type : TypeWithModifier) (r r1 : Random) (op : Operand)
    (h : MutateConstantOperandOfType type r = some (op, r1)) : op.ref_ = none := by
  unfold MutateConstantOperandOfType at h
  repeat' (first | (cases h; done) | (cases h; rfl) | split at h | simp only at h)

theorem collectTypeCreators_next_addr (target_type : TypeWithModifier) (m : ClassTypeModel)
    (subclasses : List ClassTypeModel) :
    ∀ (creators : List Creator) (c c1 : TemplateTypeContext) (st st1 : GenState)
      (l : List Creator),
      collectTypeCreators target_type m subclasses creators c st = .ok (l, c1, st1) →
      st1.next_addr = st.next_addr := by
  intro creators
  induction creators with
  | nil =>
    intro c c1 st st1 l h
    simp only [collectTypeCreators] at h
    cases h
    rfl
  | cons cr rest ih =>
    intro c c1 st st1 l h
    simp only [collectTypeCreators] at h
    split at h
    · split at h
      · split at h
        · cases h
        · rename_i hr
          cases h
          exact ih _ _ _ _ _ hr
      · split at h
        · cases h
        · split at h
          · cases h
          · rename_i ha
            split at h
            · cases h
            · rename_i hr
              cases h
              rw [ih _ _ _ _ _ hr, assignable_next_addr _ _ _ _ _ _ _ ha]
      · cases h
    · exact ih _ _ _ _ _ h

theorem Statement_make_ok (addr : Nat) (type : TypeWithModifier) (body : StatementBody)
    (stmt : Statement) (h : Statement.make addr type body = some stmt) :
    stmt = ⟨addr, type, none, body⟩ := by
  unfold Statement.make at h
  split at h
  · cases h
  · split at h
    · cases h
    · cases h; rfl

theorem pushAndRef_step (mk : Nat → Option Statement) (stmts : List Statement)
    (c : TemplateTypeContext) (st : GenState) (res : Resolved)
    (hmk : ∀ stmt, mk st.next_addr = some stmt → stmt.addr = st.next_addr ∧
      ∀ op ∈ stmt.GetStatementOperands, ∀ a, op.ref_ = some a →
        a ∈ stmts.map (fun s => s.addr))
    (h : pushAndRef mk stmts c st = .ok res) :
    StepOK stmts st.next_addr res.statements res.state.next_addr res.operand.ref_.toList ∧
      res.tt_ctx = c := by
  unfold pushAndRef at h
  split at h
  · cases h
  · rename_i stmt hs
    cases h
    obtain ⟨ha, hr⟩ := hmk stmt hs
    exact ⟨StepOK_push stmts st.next_addr stmt ha hr, rfl⟩

theorem ResolveOperandPrimitiveType_step (T : TypeWithModifier) (stmts : List Statement)
    (c : TemplateTypeContext) (st : GenState) (res : Resolved)
    (h : ResolveOperandPrimitiveType T stmts c st = .ok res) :
    StepOK stmts st.next_addr res.statements res.state.next_addr res.operand.ref_.toList := by
  unfold ResolveOperandPrimitiveType at h
  split at h
  · cases h
    exact StepOK_refl _ _ _ (by intro a ha; cases ha)
  · simp only at h
    split at h
    · refine (pushAndRef_step _ _ _ _ _ ?_ h).1
      intro stmt hs
      have := Statement_make_ok _ _ _ _ hs
      subst this
      refine ⟨rfl, ?_⟩
      intro op hop a ha
      simp [Statement.GetStatementOperands, Operand.MakeConstantOperand] at hop
      subst hop
      cases ha
    · split at h
      · cases h
      · rename_i operand r1 hm
        have hnone := MutateConstantOperandOfType_ref _ _ _ _ hm
        split at h
        · refine (pushAndRef_step _ _ _ _ _ ?_ h).1
          intro stmt hs
          have := Statement_make_ok _ _ _ _ hs
          subst this
          refine ⟨rfl, ?_⟩
          intro op hop a ha
          simp [Statement.GetStatementOperands] at hop
          subst hop
          rw [hnone] at ha
          cases ha
        · cases h
          exact StepOK_refl _ _ _ (by intro a ha; simp [hnone] at ha)

theorem ResolveOperandEnumType_step (T : TypeWithModifier) (stmts : List Statement)
    (c : TemplateTypeContext) (st : GenState) (res : Resolved)
    (h : ResolveOperandEnumType T stmts c st = .ok res) :
    StepOK stmts st.next_addr res.statements res.state.next_addr res.operand.ref_.toList := by
  unfold ResolveOperandEnumType at h
  split at h
  · split at h
    · cases h
    · rename_i operand r1 hm
      have hnone := MutateConstantOperandOfType_ref _ _ _ _ hm
      refine (pushAndRef_step _ _ _ _ _ ?_ h).1
      intro stmt hs
      have := Statement_make_ok _ _ _ _ hs
      subst this
      refine ⟨rfl, ?_⟩
      intro op hop a ha
      simp [Statement.GetStatementOperands] at hop
      subst hop
      rw [hnone] at ha
      cases ha
  · cases h

theorem resolveEach_step (resolve : Resolver) (hr : ResolverOK resolve) (force : Bool) :
    ∀ (types : List TypeWithModifier) (stmts : List Statement) (c : TemplateTypeContext)
      (st : GenState) (ops : List Operand) (stmts1 : List Statement) (c1 : TemplateTypeContext)
      (st1 : GenState),
      resolveEach resolve force types stmts c st = .ok (ops, stmts1, c1, st1) →
      StepOK stmts st.next_addr stmts1 st1.next_addr (ops.flatMap (fun o => o.ref_.toList)) := by
  intro types
  induction types with
  | nil =>
    intro stmts c st ops stmts1 c1 st1 h
    simp only [resolveEach] at h
    cases h
    exact StepOK_refl _ _ _ (by intro a ha; simp at ha)
  | cons t rest ih =>
    intro stmts c st ops stmts1 c1 st1 h
    simp only [resolveEach] at h
    split at h
    · cases h
    · rename_i res hres
      split at h
      · cases h
      · rename_i ops2 stmts2 c2 st2 hrest
        cases h
        have := StepOK_trans _ _ _ _ _ _ _ _ (hr _ _ _ _ _ _ hres) (ih _ _ _ _ _ _ _ hrest)
        simpa [List.flatMap_cons] using this

theorem resolvePairs_step (resolve : Resolver) (hr : ResolverOK resolve) (force : Bool)
    (k v : TypeWithModifier) :
    ∀ (n : Nat) (stmts : List Statement) (c : TemplateTypeContext)
      (st : GenState) (kvs : List (Operand × Operand)) (stmts1 : List Statement)
      (c1 : TemplateTypeContext) (st1 : GenState),
      resolvePairs resolve force k v n stmts c st = .ok (kvs, stmts1, c1, st1) →
      StepOK stmts st.next_addr stmts1 st1.next_addr
        (kvs.flatMap (fun kv => kv.1.ref_.toList ++ kv.2.ref_.toList)) := by
  intro n
  induction n with
  | zero =>
    intro stmts c st kvs stmts1 c1 st1 h
    simp only [resolvePairs] at h
    cases h
    exact StepOK_refl _ _ _ (by intro a ha; simp at ha)
  | succ n ih =>
    intro stmts c st kvs stmts1 c1 st1 h
    simp only [resolvePairs] at h
    split at h
    · cases h
    · rename_i rk hk
      split at h
      · cases h
      · rename_i okk ck stk hak
        split at h
        · cases h
        · split at h
          · cases h
          · rename_i rv hv
            split at h
            · cases h
            · rename_i okv cv stv hav
              split at h
              · cases h
              · split at h
                · cases h
                · rename_i more stmts2 c2 st2 hrest
                  cases h
                  have s1 := hr _ _ _ _ _ _ hk
                  have s2 := hr _ _ _ _ _ _ hv
                  rw [assignable_next_addr _ _ _ _ _ _ _ hak] at s2
                  have s3 := ih _ _ _ _ _ _ _ hrest
                  rw [assignable_next_addr _ _ _ _ _ _ _ hav] at s3
                  have := StepOK_trans _ _ _ _ _ _ _ _ (StepOK_trans _ _ _ _ _ _ _ _ s1 s2) s3
                  simpa [List.flatMap_cons] using this

theorem MakeExecutableCall_ok (p : ProgramContext) (addr : Nat) (target : Executable)
    (ops : List Operand) (inv : Option Operand) (c c1 : TemplateTypeContext) (r r1 : Random)
    (stmt : Statement)
    (h : MakeExecutableCall p addr target ops inv c r = some (stmt, c1, r1)) :
    stmt.addr = addr ∧ stmt.body = .CallStatement target ops inv c1 := by
  unfold MakeExecutableCall at h
  have key : ∀ (ty : TypeWithModifier) (c2 : TemplateTypeContext) (r2 : Random),
      (Statement.make addr ty (.CallStatement target ops inv c2)).map (fun s => (s, c2, r2))
        = some (stmt, c1, r1) →
      stmt.addr = addr ∧ stmt.body = .CallStatement target ops inv c1 := by
    intro ty c2 r2 hm
    cases hs : Statement.make addr ty (.CallStatement target ops inv c2) with
    | none => rw [hs] at hm; cases hm
    | some s =>
      rw [hs] at hm
      simp only [Option.map_some', Option.some.injEq, Prod.mk.injEq] at hm
      obtain ⟨e1, e2, _⟩ := hm
      subst e1; subst e2
      have := Statement_make_ok _ _ _ _ hs
      subst this
      exact ⟨rfl, rfl⟩
  repeat' (first | (cases h; done) | exact key _ _ _ h | split at h | simp only at h)

theorem call_refs (target : Executable) (ops : List Operand) (inv : Option Operand)
    (c : TemplateTypeContext) (stmt : Statement) (hb : stmt.body = .CallStatement target ops inv c)
    (R : List Nat)
    (hops : ∀ a ∈ ops.flatMap (fun o => o.ref_.toList), a ∈ R)
    (hinv : ∀ o, inv = some o → ∀ a ∈ o.ref_.toList, a ∈ R) :
    ∀ op ∈ stmt.GetStatementOperands, ∀ a, op.ref_ = some a → a ∈ R := by
  intro op hop a ha
  unfold Statement.GetStatementOperands at hop
  rw [hb] at hop
  simp only at hop
  rcases List.mem_append.mp hop with h | h
  · apply hops
    simp only [List.mem_flatMap]
    exact ⟨op, h, by simp [ha]⟩
  · cases inv with
    | none => cases h
    | some o =>
      simp only [List.mem_singleton] at h
      subst h
      exact hinv _ rfl a (by simp [ha])

theorem ResolveOperandClassType_step (p : ProgramContext) (resolve : Resolver)
    (hr : ResolverOK resolve) (T : TypeWithModifier) (stmts : List Statement)
    (c : TemplateTypeContext) (force : Bool) (st : GenState) (res : Resolved)
    (h : ResolveOperandClassType p resolve T stmts c force st = .ok res) :
    StepOK stmts st.next_addr res.statements res.state.next_addr res.operand.ref_.toList := by
  unfold ResolveOperandClassType at h
  split at h
  · simp only at h
    split at h
    · cases h
    · rename_i type_creators c1 st1 hcoll
      have e1 := collectTypeCreators_next_addr _ _ _ _ _ _ _ _ _ hcoll
      try simp only at e1
      split at h
      · rename_i idx r2 first tl hn
        try simp only at h
        split at h
        · cases h
        · rename_i operands stmts2 c2 st2 heach
          have s1 := resolveEach_step resolve hr force _ _ _ _ _ _ _ _ heach
          try simp only at s1
          rw [e1] at s1
          split at h
          · cases h
          · rename_i statement c3 r3 hcall
            obtain ⟨ha, hb⟩ := MakeExecutableCall_ok _ _ _ _ _ _ _ _ _ _ hcall
            try simp only at h
            split at h
            · cases h
            · rename_i ok c4 st4 hass
              have e4 := assignable_next_addr _ _ _ _ _ _ _ hass
              try simp only at e4
              split at h
              · cases h
                simp only [e4]
                obtain ⟨new, en, le, f, g, pr⟩ := s1
                have s2 := StepOK_push stmts2 st2.next_addr statement ha
                  (call_refs _ _ _ _ _ hb _ pr (by intro o ho; cases ho))
                have := StepOK_trans _ _ _ _ _ _ _ _
                  (⟨new, en, le, f, g, pr⟩ : StepOK stmts st.next_addr stmts2 st2.next_addr _) s2
                refine StepOK_refs _ _ _ _ _ _ this ?_
                intro a ha2
                simp only [Operand.MakeRefOperand, Option.toList, List.mem_singleton] at ha2
                exact List.mem_append_right _ (by simp [ha2])
              · cases h
      · cases h
  · cases h

theorem step_then_emit (stmts stmts1 : List Statement) (n : Nat) (refs : List Nat)
    (twm : TypeWithModifier) (target : STLType) (elements : STLElement)
    (c : TemplateTypeContext) (st1 : GenState) (res : Resolved)
    (s1 : StepOK stmts n stmts1 st1.next_addr refs)
    (hel : ∀ stmt : Statement, stmt.body = .STLStatement target elements →
      ∀ op ∈ stmt.GetStatementOperands, ∀ a, op.ref_ = some a → a ∈ refs)
    (h : emitSTL twm target elements stmts1 c st1 = .ok res) :
    StepOK stmts n res.statements res.state.next_addr res.operand.ref_.toList := by
  unfold emitSTL at h
  have s2 := (pushAndRef_step _ _ _ _ _ (by
    intro stmt hs
    unfold MakeSTLStatement at hs
    have := Statement_make_ok _ _ _ _ hs
    subst this
    refine ⟨rfl, ?_⟩
    intro op hop a ha
    obtain ⟨_, _, _, _, _, pr⟩ := s1
    exact pr a (hel _ rfl op hop a ha)) h).1
  exact StepOK_refs _ _ _ _ _ _ (StepOK_trans _ _ _ _ _ _ _ _ s1 s2)
    (fun a ha => List.mem_append_right _ ha)

theorem reg_refs (target : STLType) (ops : List Operand) (stmt : Statement)
    (hb : stmt.body = .STLStatement target (STLElement.ForRegularContainer ops)) :
    ∀ op ∈ stmt.GetStatementOperands, ∀ a, op.ref_ = some a →
      a ∈ ops.flatMap (fun o => o.ref_.toList) := by
  intro op hop a ha
  unfold Statement.GetStatementOperands at hop
  rw [hb] at hop
  simp only [STLElement.ForRegularContainer, List.append_nil] at hop
  simp only [List.mem_flatMap]
  exact ⟨op, hop, by simp [ha]⟩

theorem kv_refs (target : STLType) (kvs : List (Operand × Operand)) (stmt : Statement)
    (hb : stmt.body = .STLStatement target (STLElement.ForKeyValueContainer kvs)) :
    ∀ op ∈ stmt.GetStatementOperands, ∀ a, op.ref_ = some a →
      a ∈ kvs.flatMap (fun kv => kv.1.ref_.toList ++ kv.2.ref_.toList) := by
  intro op hop a ha
  unfold Statement.GetStatementOperands at hop
  rw [hb] at hop
  simp only [STLElement.ForKeyValueContainer, List.nil_append, List.mem_flatMap] at hop
  obtain ⟨kv, hkv, hm⟩ := hop
  simp only [List.mem_flatMap]
  refine ⟨kv, hkv, ?_⟩
  simp only [List.mem_cons, List.mem_singleton, List.not_mem_nil, or_false] at hm
  rcases hm with rfl | rfl
  · exact List.mem_append_left _ (by simp [ha])
  · exact List.mem_append_right _ (by simp [ha])

theorem Handle_step (resolve : Resolver) (hr : ResolverOK resolve) (twm : TypeWithModifier)
    (stmts : List Statement) (c : TemplateTypeContext) (force : Bool) (st : GenState)
    (res : Resolved)
    (h : STLOperandResolver.Handle resolve twm stmts c force st = .ok res) :
    StepOK stmts st.next_addr res.statements res.state.next_addr res.operand.ref_.toList := by
  unfold STLOperandResolver.Handle at h
  split at h
  · rename_i stl_type inst_list htype
    cases hv : stl_type.GetSTLTypeVariant <;> simp only [hv] at h
    · -- kRegContainer
      split at h
      · split at h
        · cases h
        · split at h
          · cases h
          · rename_i ops stmts1 c1 st1 hres
            have s1 := resolveEach_step resolve hr force _ _ _ _ _ _ _ _ hres
            exact step_then_emit _ _ _ _ _ _ _ _ _ _ s1 (fun stmt hb => reg_refs _ _ stmt hb) h
      · cases h
    · -- kRegContainerWithSize
      split at h
      · split at h
        · cases h
        · split at h
          · cases h
          · rename_i ops stmts1 c1 st1 hres
            have s1 := resolveEach_step resolve hr force _ _ _ _ _ _ _ _ hres
            exact step_then_emit _ _ _ _ _ _ _ _ _ _ s1 (fun stmt hb => reg_refs _ _ stmt hb) h
      · cases h
    · -- kKeyValueContainer
      split at h
      · split at h
        · split at h
          · cases h
          · rename_i kvs stmts1 c1 st1 hres
            have s1 := resolvePairs_step resolve hr force _ _ _ _ _ _ _ _ _ _ hres
            exact step_then_emit _ _ _ _ _ _ _ _ _ _ s1 (fun stmt hb => kv_refs _ _ stmt hb) h
        · cases h
      · cases h
    · -- kPair
      split at h
      · split at h
        · split at h
          · cases h
          · rename_i r1 h1
            split at h
            · cases h
            · rename_i r2 h2
              have s1 := StepOK_trans _ _ _ _ _ _ _ _ (hr _ _ _ _ _ _ h1) (hr _ _ _ _ _ _ h2)
              refine step_then_emit _ _ _ _ _ _ _ _ _ _ s1 ?_ h
              intro stmt hb op hop a ha
              have := kv_refs _ _ stmt hb op hop a ha
              simpa using this
        · cases h
      · cases h
    · -- kTuple
      split at h
      · split at h
        · cases h
        · rename_i ops stmts1 c1 st1 hres
          have s1 := resolveEach_step resolve hr force _ _ _ _ _ _ _ _ hres
          exact step_then_emit _ _ _ _ _ _ _ _ _ _ s1 (fun stmt hb => reg_refs _ _ stmt hb) h
      · cases h
    · -- kSmartPointer
      split at h
      · split at h
        · cases h
        · split at h
          · cases h
          · rename_i r1 h1
            refine step_then_emit _ _ _ _ _ _ _ _ _ _ (hr _ _ _ _ _ _ h1) ?_ h
            intro stmt hb op hop a ha
            have := reg_refs _ _ stmt hb op hop a ha
            simpa using this
      · cases h
    · -- kString
      split at h
      · split at h
        · cases h
        · split at h
          · cases h
          · rename_i ops stmts1 c1 st1 hres
            have s1 := resolveEach_step resolve hr force _ _ _ _ _ _ _ _ hres
            exact step_then_emit _ _ _ _ _ _ _ _ _ _ s1 (fun stmt hb => reg_refs _ _ stmt hb) h
      · cases h
  · cases h

theorem dispatch_step (p : ProgramContext) (resolve : Resolver) (hr : ResolverOK resolve)
    (T : TypeWithModifier) (ty : CxxType) (stmts : List Statement) (c1 : TemplateTypeContext)
    (force : Bool) (n : Nat) (res : Resolved) (nd : Bool × GenState)
    (hn : nd.2.next_addr = n)
    (h : (if nd.1 = true then
        (.ok ⟨Operand.MakeConstantOperand T "nullptr", stmts, c1, nd.2⟩ : Except Fault Resolved)
      else
        match ty.GetVariant with
        | .kPrimitive => ResolveOperandPrimitiveType T stmts c1 nd.2
        | .kClass => ResolveOperandClassType p resolve T stmts c1 force nd.2
        | .kEnum => ResolveOperandEnumType T stmts c1 nd.2
        | .kTemplateTypename => ResolveOperandTemplateTypenameType resolve T stmts c1 force nd.2
        | .kTemplateTypenameSpc =>
          ResolveOperandTemplateTypenameSpcType resolve T stmts c1 force nd.2
        | .kSTL => .ok ⟨Operand.MakeBottom, stmts, c1, nd.2⟩) = .ok res) :
    StepOK stmts n res.statements res.state.next_addr res.operand.ref_.toList := by
  subst hn
  split at h
  · cases h
    exact StepOK_refl _ _ _ (by intro a ha; cases ha)
  · split at h
    · exact ResolveOperandPrimitiveType_step _ _ _ _ _ h
    · exact ResolveOperandClassType_step p resolve hr _ _ _ _ _ _ h
    · exact ResolveOperandEnumType_step _ _ _ _ _ h
    · unfold ResolveOperandTemplateTypenameType at h
      split at h
      · cases h
      · exact hr _ _ _ _
          { nd.2 with random := (c1.LookupOrResolve _ nd.2.random).2.2 } _ h
    · unfold ResolveOperandTemplateTypenameSpcType at h
      split at h
      · exact Handle_step resolve hr _ _ _ _ _ _ h
      · split at h
        · cases h
        · split at h
          · cases h
          · rename_i r1 h1
            cases h
            exact hr _ _ _ _ _ r1 h1
      · cases h
    · cases h
      exact StepOK_refl _ _ _ (by intro a ha; cases ha)

theorem ResolveOperandBody_step (p : ProgramContext) (resolve : Resolver)
    (hr : ResolverOK resolve) : ResolverOK (ResolveOperandBody p resolve) := by
  intro T stmts c force st res h
  unfold ResolveOperandBody at h
  split at h
  · cases h
  · rename_i ty hty
    split at h
    · cases h
      exact StepOK_refl _ _ _ (by intro a ha; cases ha)
    · split at h
      · cases h
      · simp only at h
        split at h
        · cases h
        · rename_i operand c1 st1 hreuse
          cases h
          split at hreuse
          · obtain ⟨e, hm⟩ := ResolveUsingAssignableStatements_ok _ _ _ _ _ _ _ hreuse
            simp only [e]
            exact StepOK_refl _ _ _ (hm operand rfl)
          · cases hreuse
        · rename_i c1 st1 hreuse
          have e : st1.next_addr = st.next_addr := by
            split at hreuse
            · exact (ResolveUsingAssignableStatements_ok _ _ _ _ _ _ _ hreuse).1
            · cases hreuse; rfl
          refine dispatch_step p resolve hr T ty stmts c1 force st.next_addr res
            (if T.IsPointer = true then
              (decide (st1.random.NextGaussian.1 < 100),
                ({ st1 with random := st1.random.NextGaussian.2 } : GenState))
              else (false, st1)) ?_ h
          split <;> exact e

theorem ResolveOperand_ok (p : ProgramContext) : ∀ fuel, ResolverOK (ResolveOperand p fuel) := by
  intro fuel
  induction fuel with
  | zero => intro T stmts c force st res h; cases h
  | succ n ih => exact ResolveOperandBody_step p _ ih

theorem appendCalls_ok (p : ProgramContext) (target : Executable) (operands : List Operand)
    (inv : Option Operand) (R : List Nat)
    (hops : ∀ a ∈ operands.flatMap (fun o => o.ref_.toList), a ∈ R)
    (hinv : ∀ o, inv = some o → ∀ a ∈ o.ref_.toList, a ∈ R) :
    ∀ (k : Nat) (stmts : List Statement) (c : TemplateTypeContext) (st : GenState)
      (stmts3 : List Statement) (c3 : TemplateTypeContext) (st3 : GenState),
      (∀ a ∈ R, a ∈ stmts.map (fun s => s.addr)) →
      appendCalls p target operands inv k stmts c st = .ok (stmts3, c3, st3) →
      ∃ calls, stmts3 = stmts ++ calls ∧ calls.length = k ∧
        (∀ s ∈ calls, ∃ c1, s.body = .CallStatement target operands inv c1) ∧
        StepOK stmts st.next_addr stmts3 st3.next_addr [] := by
  intro k
  induction k with
  | zero =>
    intro stmts c st stmts3 c3 st3 _ h
    simp only [appendCalls] at h
    cases h
    refine ⟨[], by simp, rfl, ?_, StepOK_refl _ _ _ (by intro a ha; cases ha)⟩
    intro s hs
    cases hs
  | succ k ih =>
    intro stmts c st stmts3 c3 st3 hR h
    simp only [appendCalls] at h
    split at h
    · cases h
    · rename_i statement c1 r1 hcall
      obtain ⟨ha, hb⟩ := MakeExecutableCall_ok _ _ _ _ _ _ _ _ _ _ hcall
      have s1 := StepOK_push stmts st.next_addr statement ha
        (call_refs _ _ _ _ _ hb _ (fun a h1 => hR a (hops a h1))
          (fun o ho a h1 => hR a (hinv o ho a h1)))
      obtain ⟨calls, e, hl, hbody, s2⟩ := ih (stmts ++ [statement]) c1 _ stmts3 c3 st3
        (by intro a h1; rw [List.map_append]; exact List.mem_append_left _ (hR a h1)) h
      refine ⟨statement :: calls, by rw [e]; simp, by simp [hl], ?_, ?_⟩
      · intro s hs
        rcases List.mem_cons.mp hs with rfl | hs
        · exact ⟨_, hb⟩
        · exact hbody s hs
      · have := StepOK_trans _ _ _ _ _ _ _ _ s1 s2
        exact StepOK_refs _ _ _ _ _ _ this (by intro a h1; cases h1)

/-- The shape of every driver that `GenForMethod` returns. -/
theorem GenForMethod_ok (p : ProgramContext) (fuel : Nat) (target : Executable)
    (tt_ctx : TemplateTypeContext) (ctx : List Statement) (idx : Nat) (force : Bool)
    (st st1 : GenState) (tc : TestCase)
    (h : GenForMethod p fuel target tt_ctx ctx idx force st = .ok (tc, st1)) :
    idx ≤ ctx.length ∧
    ∃ gen calls operands inv,
      tc.statements_ = ctx.take idx ++ gen ++ calls ++ ctx.drop idx ∧
      1 ≤ calls.length ∧ calls.length ≤ 3 ∧
      (∀ s ∈ calls, ∃ c1, s.body = .CallStatement target operands inv c1) ∧
      StepOK (ctx.take idx) st.next_addr (ctx.take idx ++ gen ++ calls) st1.next_addr [] := by
  unfold GenForMethod at h
  split at h
  · cases h
  · rename_i hidx
    refine ⟨by omega, ?_⟩
    simp only at h
    split at h
    · cases h
    · rename_i operands stmts1 c1 s1 heach
      have e1 := resolveEach_step _ (ResolveOperand_ok p fuel) force _ _ _ _ _ _ _ _ heach
      split at h
      · cases h
      · rename_i opt_inv stmts2 c2 s2 hinv
        have e2 : StepOK stmts1 s1.next_addr stmts2 s2.next_addr
            (opt_inv.toList.flatMap (fun o => o.ref_.toList)) := by
          by_cases hreq : (decide (target.executable_variant_ = ExecutableVariant.kMethod) &&
              target.owner_.isSome && !target.is_not_require_invoking_obj_) = true
          · rw [if_pos hreq] at hinv
            cases hown : (target.owner_.bind fun o => p.GetTypeByQualName o.qualified_name_) with
            | none => rw [hown] at hinv; cases hinv
            | some class_model =>
              rw [hown] at hinv
              simp only at hinv
              cases hres : ResolveOperand p fuel
                  (TypeWithModifier.FromSpecByType (CxxType.cls class_model)) stmts1 c1 force s1 with
              | error e => rw [hres] at hinv; cases hinv
              | ok res =>
                rw [hres] at hinv
                cases hinv
                have := ResolveOperand_ok p fuel _ _ _ _ _ _ hres
                simpa using this
          · rw [if_neg hreq] at hinv
            cases hinv
            exact StepOK_refl _ _ _ (by intro a ha; cases ha)
        have e12 := StepOK_trans _ _ _ _ _ _ _ _ e1 e2
        split at h
        · cases h
        · rename_i stmts3 c3 s3 hcalls
          cases h
          obtain ⟨new, en, le, f, g, pr⟩ := e12
          obtain ⟨calls, ec, hl, hbody, e3⟩ := appendCalls_ok p target operands opt_inv _
            (fun a ha => List.mem_append_left _ ha)
            (by intro o ho a ha; subst ho; exact List.mem_append_right _ (by simpa using ha))
            _ _ _ _ _ _ _ pr hcalls
          have hmod := Nat.mod_lt s2.random.raw (show 0 < 3 by decide)
          have e13 := StepOK_trans _ _ _ _ _ _ _ _
            (⟨new, en, le, f, g, pr⟩ : StepOK _ st.next_addr stmts2 s2.next_addr _) e3
          subst ec
          subst en
          exact ⟨new, calls, operands, opt_inv, rfl, by omega, by omega, hbody,
            StepOK_refs _ _ _ _ _ _ e13 (by intro a ha; cases ha)⟩

/-! ## The generator keeps the context and single assignment -/

/-- C18. A driver that `GenForMethod` returns for the statement context `ctx` and
the placement index `idx` (which is at most the length of `ctx`) starts with
the first `idx` statements of `ctx`, ends with the remaining statements of
`ctx`, and holds in between the generated statements followed by one to three
Call statements on the target, all with the same argument operands and the
same invoking object. -/
theorem C18_generation_frame (p : ProgramContext) (fuel : Nat) (target : Executable)
    (tt_ctx : TemplateTypeContext) (ctx : List Statement) (idx : Nat) (force : Bool)
    (st st1 : GenState) (tc : TestCase)
    (h : GenForMethod p fuel target tt_ctx ctx idx force st = .ok (tc, st1)) :
    idx ≤ ctx.length ∧
    ∃ gen calls operands inv,
      tc.statements_ = ctx.take idx ++ gen ++ calls ++ ctx.drop idx ∧
      1 ≤ calls.length ∧ calls.length ≤ 3 ∧
      ∀ s ∈ calls, s.GetVariant = .kCall ∧
        ∃ c1, s.body = .CallStatement target operands inv c1 := by
  obtain ⟨hidx, gen, calls, operands, inv, e, h1, h3, hbody, _⟩ :=
    GenForMethod_ok p fuel target tt_ctx ctx idx force st st1 tc h
  refine ⟨hidx, gen, calls, operands, inv, e, h1, h3, ?_⟩
  intro s hs
  obtain ⟨c1, hb⟩ := hbody s hs
  exact ⟨by simp [Statement.GetVariant, hb], c1, hb⟩

theorem C18_generation_frame_witness :
    ∃ tc st1, GenForMethod Examples.pF 5 Examples.gExe TemplateTypeContext.New
        [Examples.sInt 0 "1", Examples.sInt 1 "2"] 1 true
        ⟨Examples.zeroRandom, some ⟨[], []⟩, 2⟩ = .ok (tc, st1) ∧
      tc.statements_ = [Examples.sInt 0 "1", Examples.sCallG 2 (Examples.sInt 0 "1"),
        Examples.sInt 1 "2"] ∧
      1 ≤ [Examples.sInt 0 "1", Examples.sInt 1 "2"].length :=
  ⟨_, _, rfl, rfl,
    (C18_generation_frame Examples.pF 5 Examples.gExe TemplateTypeContext.New
      [Examples.sInt 0 "1", Examples.sInt 1 "2"] 1 true
      ⟨Examples.zeroRandom, some ⟨[], []⟩, 2⟩ _ _ rfl).1⟩

/-- C1. When the statement context satisfies single assignment and its statements
were allocated before the generator runs (their addresses are below the next
free address), every driver that `GenForMethod` returns satisfies single
assignment: no statement occurs twice and every reference operand of the
statement at index `i` refers to a statement at an index `j < i`. -/
theorem C1_generation_single_assignment (p : ProgramContext) (fuel : Nat) (target : Executable)
    (tt_ctx : TemplateTypeContext) (ctx : List Statement) (idx : Nat) (force : Bool)
    (st st1 : GenState) (tc : TestCase)
    (hssa : SingleAssignment ctx) (hfresh : ∀ s ∈ ctx, s.addr < st.next_addr)
    (h : GenForMethod p fuel target tt_ctx ctx idx force st = .ok (tc, st1)) :
    SingleAssignment tc.statements_ := by
  obtain ⟨_, gen, calls, operands, inv, e, _, _, _, new, en, _, f, g, _⟩ :=
    GenForMethod_ok p fuel target tt_ctx ctx idx force st st1 tc h
  rw [SingleAssignment_iff] at hssa ⊢
  rw [← List.take_append_drop idx ctx, SSAFrom_append] at hssa
  obtain ⟨htake, hdrop⟩ := hssa
  have hlt : ∀ s ∈ ctx.take idx, s.addr < st.next_addr :=
    fun s hs => hfresh s (List.mem_of_mem_take hs)
  rw [e, SSAFrom_append]
  refine ⟨g ⟨htake, hlt⟩, ?_⟩
  refine SSAFrom_mono _ _ _ ?_ ?_ hdrop
  · intro a ha
    simp only [List.nil_append] at ha ⊢
    rw [en, List.map_append]
    exact List.mem_append_left _ ha
  · intro a ha
    simp only [List.nil_append] at ha ⊢
    rw [en, List.map_append] at ha
    rcases List.mem_append.mp ha with h1 | h1
    · exact Or.inl h1
    · right
      intro s hs hsa
      obtain ⟨t, ht, hta⟩ := List.mem_map.mp h1
      have h2 := (f t ht).1
      have h3 := hfresh s (List.mem_of_mem_drop hs)
      omega

theorem C1_generation_single_assignment_witness :
    ∃ tc st1, GenForMethod Examples.pF 5 Examples.gExe TemplateTypeContext.New
        [Examples.sInt 0 "1", Examples.sInt 1 "2"] 1 true
        ⟨Examples.zeroRandom, some ⟨[], []⟩, 2⟩ = .ok (tc, st1) ∧
      SingleAssignment tc.statements_ := by
  have hs : SingleAssignment [Examples.sInt 0 "1", Examples.sInt 1 "2"] :=
    (SingleAssignment_iff _).mpr (by simp [SSAFrom, Examples.sInt,
      Statement.GetStatementOperands, Operand.MakeConstantOperand])
  exact ⟨_, _, rfl, C1_generation_single_assignment Examples.pF 5 Examples.gExe
    TemplateTypeContext.New [Examples.sInt 0 "1", Examples.sInt 1 "2"] 1 true
    ⟨Examples.zeroRandom, some ⟨[], []⟩, 2⟩ _ _ hs (by decide) rfl⟩

/-! ## Interning of template specialisations -/

theorem Equals_iff : ∀ (a b : List TemplateTypeInstantiation),
    TemplateTypeInstList.Equals a b = true ↔ a = b := by
  intro a
  induction a with
  | nil =>
    intro b
    cases b <;> simp [TemplateTypeInstList.Equals]
  | cons x xs ih =>
    intro b
    cases b with
    | nil => simp [TemplateTypeInstList.Equals]
    | cons y ys =>
      have := ih ys
      unfold TemplateTypeInstList.Equals at this ⊢
      by_cases hl : xs.length = ys.length
      · simp only [hl, ne_eq, not_true_eq_false, if_false] at this
        simp only [List.length_cons, hl, ne_eq, not_true_eq_false, if_false, List.zip_cons_cons,
          List.all_cons, Bool.and_eq_true, this, List.cons.injEq]
        simp
      · have hne : ¬ (x :: xs) = (y :: ys) := by
          intro h; cases h; exact hl rfl
        simp [hl, hne]

theorem find_key_of_mem : ∀ (reg : SpcRegistry),
    (reg.map Prod.fst).Nodup → ∀ kv ∈ reg, reg.find? (fun x => x.1 == kv.1) = some kv := by
  intro reg
  induction reg with
  | nil => intro _ kv h; cases h
  | cons a rest ih =>
    intro hnd kv hkv
    simp only [List.map_cons, List.nodup_cons] at hnd
    rcases List.mem_cons.mp hkv with rfl | hm
    · simp
    · have hne : ¬ a.1 = kv.1 := by
        intro he
        exact hnd.1 (by rw [he]; exact List.mem_map_of_mem _ hm)
      have hb : (a.1 == kv.1) = false := by simp [hne]
      simp only [List.find?_cons, hb]
      exact ih hnd.2 kv hm

theorem find_map_update (t : CxxType) (o : SpcObject) (t1 : CxxType) : ∀ (reg : SpcRegistry),
    (reg.map (fun kv => if kv.1 = t then (kv.1, kv.2 ++ [o]) else kv)).find?
        (fun x => x.1 == t1) =
      (reg.find? (fun x => x.1 == t1)).map
        (fun kv => if kv.1 = t then (kv.1, kv.2 ++ [o]) else kv) := by
  intro reg
  induction reg with
  | nil => rfl
  | cons a rest ih =>
    simp only [List.map_cons, List.find?_cons]
    by_cases h2 : a.1 = t
    · simp only [h2, if_true]
      rw [← h2]
      cases hb : (a.1 == t1)
      · simp only [Option.map]
        rw [h2]; exact ih
      · simp [h2]
    · simp only [h2, if_false]
      cases hb : (a.1 == t1)
      · exact ih
      · simp [h2]

theorem RegistryOK_update (reg : SpcRegistry) (n : Nat) (t : CxxType)
    (l : List TemplateTypeInstantiation) (h : RegistryOK reg n)
    (hnew : ∀ o ∈ reg.existing t, o.inst_list_ ≠ l) :
    RegistryOK (reg.map (fun kv => if kv.1 = t then (kv.1, kv.2 ++ [⟨n, t, l⟩]) else kv))
      (n + 1) := by
  obtain ⟨hk, hv⟩ := h
  constructor
  · have : (reg.map (fun kv => if kv.1 = t then (kv.1, kv.2 ++ [(⟨n, t, l⟩ : SpcObject)])
        else kv)).map Prod.fst = reg.map Prod.fst := by
      rw [List.map_map]
      apply List.map_congr_left
      intro kv _
      by_cases h2 : kv.1 = t <;> simp [h2]
    rw [this]; exact hk
  · intro kv1 hkv1
    obtain ⟨kv, hkv, rfl⟩ := List.mem_map.mp hkv1
    obtain ⟨h1, h2, h3⟩ := hv kv hkv
    by_cases he : kv.1 = t
    · simp only [he, if_true]
      have hex : reg.existing t = kv.2 := by
        unfold SpcRegistry.existing
        rw [← he, find_key_of_mem reg hk kv hkv]
        rfl
      refine ⟨?_, ?_, ?_⟩
      · rw [List.map_append, List.nodup_append]
        refine ⟨h1, by simp, ?_⟩
        intro a ha hb
        simp only [List.map_cons, List.map_nil, List.mem_singleton] at hb
        obtain ⟨o, ho, hoa⟩ := List.mem_map.mp ha
        exact hnew o (by rw [hex]; exact ho) (by rw [hoa, hb])
      · rw [List.map_append, List.nodup_append]
        refine ⟨h2, by simp, ?_⟩
        intro a ha hb
        simp only [List.map_cons, List.map_nil, List.mem_singleton] at hb
        obtain ⟨o, ho, hoa⟩ := List.mem_map.mp ha
        have := (h3 o ho).2
        omega
      · intro o ho
        rcases List.mem_append.mp ho with ho | ho
        · exact ⟨by rw [(h3 o ho).1, he], by have := (h3 o ho).2; omega⟩
        · simp only [List.mem_singleton] at ho
          subst ho
          exact ⟨rfl, Nat.lt_succ_self _⟩
    · simp only [he, if_false]
      exact ⟨h1, h2, fun o ho => ⟨(h3 o ho).1, by have := (h3 o ho).2; omega⟩⟩

theorem RegistryOK_add_key (reg : SpcRegistry) (n : Nat) (t : CxxType) (h : RegistryOK reg n)
    (hf : reg.find? (fun kv => kv.1 == t) = none) : RegistryOK (reg ++ [(t, [])]) n := by
  obtain ⟨hk, hv⟩ := h
  constructor
  · rw [List.map_append, List.nodup_append]
    refine ⟨hk, by simp, ?_⟩
    intro a ha hb
    simp only [List.map_cons, List.map_nil, List.mem_singleton] at hb
    obtain ⟨kv, hkv, hkva⟩ := List.mem_map.mp ha
    have := List.find?_eq_none.mp hf kv hkv
    simp only [beq_iff_eq] at this
    exact this (by rw [hkva, hb])
  · intro kv hkv
    rcases List.mem_append.mp hkv with hkv | hkv
    · exact hv kv hkv
    · simp only [List.mem_singleton] at hkv
      subst hkv
      exact ⟨by simp, by simp, by intro o ho; cases ho⟩

theorem existing_add_key (reg : SpcRegistry) (t t1 : CxxType) :
    (reg ++ [(t, [])]).existing t1 = reg.existing t1 := by
  unfold SpcRegistry.existing
  rw [List.find?_append]
  cases hf : reg.find? (fun kv => kv.1 == t1) with
  | some kv => simp
  | none =>
    by_cases h : t = t1 <;> simp [h]

theorem existing_update (reg : SpcRegistry) (t t1 : CxxType) (o : SpcObject) :
    SpcRegistry.existing (reg.map (fun kv => if kv.1 = t then (kv.1, kv.2 ++ [o]) else kv)) t1 =
      match reg.find? (fun kv => kv.1 == t1) with
      | none => []
      | some kv => if kv.1 = t then kv.2 ++ [o] else kv.2 := by
  unfold SpcRegistry.existing
  rw [find_map_update]
  cases hf : reg.find? (fun kv => kv.1 == t1) with
  | none => rfl
  | some kv =>
    by_cases h : kv.1 = t <;> simp [h]

theorem FromRegistry_spec (reg : SpcRegistry) (n : Nat) (t : CxxType)
    (l : List TemplateTypeInstantiation) (h : RegistryOK reg n) :
    RegistryOK (TemplateTypenameSpcType.FromRegistry reg n t l).2.1
      (TemplateTypenameSpcType.FromRegistry reg n t l).2.2 ∧
    (TemplateTypenameSpcType.FromRegistry reg n t l).1 ∈
      (TemplateTypenameSpcType.FromRegistry reg n t l).2.1.existing t ∧
    (TemplateTypenameSpcType.FromRegistry reg n t l).1.inst_list_ = l ∧
    (∀ t1 o, o ∈ reg.existing t1 →
      o ∈ (TemplateTypenameSpcType.FromRegistry reg n t l).2.1.existing t1) := by
  unfold TemplateTypenameSpcType.FromRegistry LookupExistingByTargetType
  cases hf : reg.find? (fun kv => kv.1 == t) with
  | none =>
    simp only [List.find?_nil]
    have hok := RegistryOK_add_key reg n t h hf
    have hex : (reg ++ [(t, ([] : List SpcObject))]).existing t = [] := by
      rw [existing_add_key]
      unfold SpcRegistry.existing
      rw [hf]; rfl
    refine ⟨RegistryOK_update _ n t l hok (by rw [hex]; intro o ho; cases ho), ?_, trivial, ?_⟩
    · rw [existing_update]
      have : (reg ++ [(t, ([] : List SpcObject))]).find? (fun kv => kv.1 == t) = some (t, []) := by
        rw [List.find?_append, hf]; simp
      rw [this]; simp
    · intro t1 o ho
      rw [existing_update]
      rw [← existing_add_key reg t t1] at ho
      unfold SpcRegistry.existing at ho
      cases hg : (reg ++ [(t, ([] : List SpcObject))]).find? (fun kv => kv.1 == t1) with
      | none => rw [hg] at ho; simp at ho
      | some kv =>
        rw [hg] at ho
        simp only [Option.map_some', Option.getD_some] at ho
        simp only
        split
        · exact List.mem_append_left _ ho
        · exact ho
  | some kv =>
    simp only
    have hex : reg.existing t = kv.2 := by
      unfold SpcRegistry.existing; rw [hf]; rfl
    cases hg : kv.2.find? (fun it => TemplateTypeInstList.Equals l it.inst_list_) with
    | some it =>
      simp only
      refine ⟨h, ?_, ?_, fun _ _ ho => ho⟩
      · rw [hex]; exact List.mem_of_find?_eq_some hg
      · have := List.find?_some hg
        exact ((Equals_iff _ _).mp this).symm
    | none =>
      simp only
      refine ⟨RegistryOK_update reg n t l h ?_, ?_, trivial, ?_⟩
      · intro o ho hl
        rw [hex] at ho
        have := List.find?_eq_none.mp hg o ho
        rw [hl] at this
        exact this ((Equals_iff _ _).mpr rfl)
      · rw [existing_update, hf]
        have hk : kv.1 = t := by
          have := List.find?_some hf
          simpa using this
        simp [hk]
      · intro t1 o ho
        rw [existing_update]
        unfold SpcRegistry.existing at ho
        cases hg2 : reg.find? (fun kv => kv.1 == t1) with
        | none => rw [hg2] at ho; simp at ho
        | some kv2 =>
          rw [hg2] at ho
          simp only [Option.map_some', Option.getD_some] at ho
          simp only
          split
          · exact List.mem_append_left _ ho
          · exact ho

theorem fromSeq_spec : ∀ (calls : List (CxxType × List TemplateTypeInstantiation))
    (s : SpcRegistry × Nat), RegistryOK s.1 s.2 →
    RegistryOK (fromSeq calls s).1 (fromSeq calls s).2 ∧
    ∀ t1 o, o ∈ s.1.existing t1 → o ∈ (fromSeq calls s).1.existing t1 := by
  intro calls
  induction calls with
  | nil => intro s h; exact ⟨h, fun _ _ ho => ho⟩
  | cons c rest ih =>
    intro s h
    obtain ⟨t, l⟩ := c
    simp only [fromSeq]
    obtain ⟨h1, _, _, h4⟩ := FromRegistry_spec s.1 s.2 t l h
    obtain ⟨g1, g2⟩ := ih (_, _) h1
    exact ⟨g1, fun t1 o ho => g2 t1 o (h4 t1 o ho)⟩

/-- C21. `TemplateTypeInstList::Equals` holds exactly for equal lists: same length
and, index by index, the same kind with the same type-with-modifier or the
same integer. After any calls of `From`, two calls for the same target with
the lists `l1` and `l2`, with any calls of `From` in between, return the same
object if and only if `l1 = l2`; and the registry holds one vector per target
and in it no two objects with equal instantiation lists. -/
theorem C21_interning (pre mid : List (CxxType × List TemplateTypeInstantiation))
    (t : CxxType) (l1 l2 : List TemplateTypeInstantiation)
    (o1 o2 : SpcObject) (reg1 reg2 : SpcRegistry) (n1 n2 : Nat)
    (h1 : TemplateTypenameSpcType.FromRegistry (fromSeq pre ([], 0)).1 (fromSeq pre ([], 0)).2
      t l1 = (o1, reg1, n1))
    (h2 : TemplateTypenameSpcType.FromRegistry (fromSeq mid (reg1, n1)).1
      (fromSeq mid (reg1, n1)).2 t l2 = (o2, reg2, n2)) :
    (TemplateTypeInstList.Equals l1 l2 = true ↔ l1 = l2) ∧
    (o1.addr = o2.addr ↔ l1 = l2) ∧
    (reg2.map Prod.fst).Nodup ∧
    (∀ kv ∈ reg2, (kv.2.map (fun o => o.inst_list_)).Nodup) := by
  have h0 : RegistryOK ([] : SpcRegistry) 0 :=
    ⟨List.nodup_nil, by intro kv hkv; cases hkv⟩
  obtain ⟨a1, _⟩ := fromSeq_spec pre ([], 0) h0
  obtain ⟨b1, b2, b3, _⟩ := FromRegistry_spec _ _ t l1 a1
  rw [h1] at b1 b2 b3
  simp only at b1 b2 b3
  obtain ⟨c1, c2⟩ := fromSeq_spec mid (reg1, n1) b1
  obtain ⟨d1, d2, d3, d4⟩ := FromRegistry_spec _ _ t l2 c1
  rw [h2] at d1 d2 d3 d4
  simp only at d1 d2 d3 d4
  have hin1 : o1 ∈ reg2.existing t := d4 t o1 (c2 t o1 b2)
  refine ⟨Equals_iff l1 l2, ?_, d1.1, fun kv hkv => (d1.2 kv hkv).1⟩
  -- both objects are in the vector of `t`
  unfold SpcRegistry.existing at hin1 d2
  cases hf : reg2.find? (fun kv => kv.1 == t) with
  | none => rw [hf] at d2; simp at d2
  | some kv =>
    rw [hf] at hin1 d2
    simp only [Option.map_some', Option.getD_some] at hin1 d2
    obtain ⟨e1, e2, _⟩ := d1.2 kv (List.mem_of_find?_eq_some hf)
    constructor
    · intro ha
      have : o1 = o2 := List.inj_on_of_nodup_map e2 hin1 d2 ha
      rw [← b3, ← d3, this]
    · intro hl
      have : o1 = o2 := List.inj_on_of_nodup_map e1 hin1 d2 (by rw [b3, d3, hl])
      rw [this]

theorem C21_interning_witness :
    (⟨0, CxxType.stl .kVector, Examples.instInt⟩ : SpcObject).addr =
        (⟨0, CxxType.stl .kVector, Examples.instInt⟩ : SpcObject).addr ↔
      Examples.instInt = Examples.instInt :=
  (C21_interning [] [(.stl .kVector, Examples.instDouble), (.stl .kList, Examples.instInt)]
    (.stl .kVector) Examples.instInt Examples.instInt
    ⟨0, .stl .kVector, Examples.instInt⟩ ⟨0, .stl .kVector, Examples.instInt⟩
    [(.stl .kVector, [⟨0, .stl .kVector, Examples.instInt⟩])]
    [(.stl .kVector, [⟨0, .stl .kVector, Examples.instInt⟩, ⟨1, .stl .kVector, Examples.instDouble⟩]),
     (.stl .kList, [⟨2, .stl .kList, Examples.instInt⟩])] 1 3
    (by decide) (by decide)).2.1

/-! ## Lazy binding of template parameters -/

theorem TemplateTypeContext.find_emplace_other (c : TemplateTypeContext) (n m : String)
    (t : BoundType) (h : m ≠ n) : (c.emplace n t).find m = c.find m := by
  unfold TemplateTypeContext.emplace
  cases hf : c.find n with
  | some _ => rfl
  | none =>
    simp only
    unfold TemplateTypeContext.find
    rw [List.find?_append]
    cases hg : c.inst_mapping_.find? (fun kv => kv.1 == m) with
    | some kv => simp
    | none =>
      have : ¬ n = m := fun e => h e.symm
      simp [this]

theorem LookupOrResolve_other (c : TemplateTypeContext) (n m : String) (r : Random)
    (h : m ≠ n) : (c.LookupOrResolve n r).2.1.find m = c.find m := by
  unfold TemplateTypeContext.LookupOrResolve
  cases hf : c.find n with
  | some t => rfl
  | none =>
    simp only [DefaultTTResolverForType, Random.NextBoolean]
    exact TemplateTypeContext.find_emplace_other c n m _ h

/-- C22. If the name `n` is bound, `LookupOrResolve(n)` returns the bound type and
leaves the context and the random state unchanged. If `n` is unbound, it
returns `int` or `double` without modifiers, binds `n` to it, and every later
`LookupOrResolve(n)` returns the same type and leaves the context unchanged.
The bindings of other names are unchanged, and a later lookup of any name
leaves the binding of `n` as it is. -/
theorem C22_LookupOrResolve (c : TemplateTypeContext) (n : String) (r : Random) :
    (∀ t, c.find n = some t → c.LookupOrResolve n r = (t.toTWM, c, r)) ∧
    (c.find n = none →
      ((c.LookupOrResolve n r).1 = ⟨some (.primitive .kInteger), []⟩ ∨
       (c.LookupOrResolve n r).1 = ⟨some (.primitive .kDouble), []⟩) ∧
      (∃ t, (c.LookupOrResolve n r).2.1.find n = some t ∧ t.toTWM = (c.LookupOrResolve n r).1) ∧
      ∀ r2, (c.LookupOrResolve n r).2.1.LookupOrResolve n r2 =
        ((c.LookupOrResolve n r).1, (c.LookupOrResolve n r).2.1, r2)) ∧
    (∀ m, m ≠ n → (c.LookupOrResolve n r).2.1.find m = c.find m) ∧
    (∀ m r2, ((c.LookupOrResolve n r).2.1.LookupOrResolve m r2).2.1.find n =
      (c.LookupOrResolve n r).2.1.find n) := by
  have ha : ∀ (c0 : TemplateTypeContext) (r0 : Random) t, c0.find n = some t →
      c0.LookupOrResolve n r0 = (t.toTWM, c0, r0) := by
    intro c0 r0 t ht
    unfold TemplateTypeContext.LookupOrResolve
    rw [ht]
  refine ⟨ha c r, ?_, fun m hm => LookupOrResolve_other c n m r hm, ?_⟩
  · intro hn
    have hb : ∃ t, (c.LookupOrResolve n r).2.1.find n = some t ∧
        t.toTWM = (c.LookupOrResolve n r).1 := by
      unfold TemplateTypeContext.LookupOrResolve
      rw [hn]
      simp only [DefaultTTResolverForType, Random.NextBoolean]
      exact ⟨_, TemplateTypeContext.find_emplace_of_none c n _ hn, rfl⟩
    refine ⟨?_, hb, ?_⟩
    · unfold TemplateTypeContext.LookupOrResolve
      rw [hn]
      simp only [DefaultTTResolverForType, Random.NextBoolean, BoundType.toTWM]
      by_cases h : r.raw % 2 = 1 <;> simp [h]
    · intro r2
      obtain ⟨t, ht, hte⟩ := hb
      rw [ha _ r2 t ht, hte]
  · intro m r2
    by_cases hm : m = n
    · subst hm
      have : ∃ t, (c.LookupOrResolve m r).2.1.find m = some t := by
        unfold TemplateTypeContext.LookupOrResolve
        cases hf : c.find m with
        | some t => exact ⟨t, hf⟩
        | none =>
          simp only [DefaultTTResolverForType, Random.NextBoolean]
          exact ⟨_, TemplateTypeContext.find_emplace_of_none c m _ hf⟩
      obtain ⟨t, ht⟩ := this
      rw [ha _ r2 t ht]
    · exact LookupOrResolve_other _ m n r2 (fun e => hm e.symm)

theorem C22_LookupOrResolve_witness :
    (TemplateTypeContext.New.LookupOrResolve "T" Examples.zeroRandom).1 =
        ⟨some (.primitive .kInteger), []⟩ ∨
      (TemplateTypeContext.New.LookupOrResolve "T" Examples.zeroRandom).1 =
        ⟨some (.primitive .kDouble), []⟩ :=
  ((C22_LookupOrResolve TemplateTypeContext.New "T" Examples.zeroRandom).2.1 rfl).1

/-! ## The edits of a call -/

/-- C28. Whatever the model, the summary, the driver and the random draws, the
statement returned by `MutateCall` for a call has the target of the call it
was given: the edit is drawn with `NextInt(2)`, so only the argument edit and
the invoking-object edit are taken and the retargeting branch is never
reached, even when the model holds a different signature-equivalent
executable. -/
theorem C28_MutateCall_keeps_target (p : ProgramContext)
    (k : List (String × StatementVisitorResult)) (stmt : Statement) (tc : TestCase)
    (st : GenState) (m : Mutated Statement) (target : Executable) (ops : List Operand)
    (inv : Option Operand) (c : TemplateTypeContext)
    (hb : stmt.body = .CallStatement target ops inv c)
    (h : MutateCall p k stmt tc st = .ok m) :
    ∃ ops1 inv1, m.value.body = .CallStatement target ops1 inv1 c := by
  unfold MutateCall at h
  rw [hb] at h
  simp only at h
  have h2 : st.random.raw % 2 < 2 := Nat.mod_lt _ (by decide)
  by_cases c0 : st.random.raw % 2 = 0
  · rw [if_pos c0] at h
    repeat' (first | (cases h; done) | split at h | simp only at h)
    all_goals (first | (cases h; exact ⟨_, _, rfl⟩) | (cases h; exact ⟨_, _, hb⟩))
  · have c1 : st.random.raw % 2 = 1 := by omega
    rw [if_neg c0, if_pos c1] at h
    repeat' (first | (cases h; done) | split at h | simp only at h)
    all_goals (first | (cases h; exact ⟨_, _, rfl⟩) | (cases h; exact ⟨_, _, hb⟩))

theorem C28_MutateCall_keeps_target_witness :
    (Examples.f2Exe ∈ Examples.pFF.executables_ ∧ Examples.f2Exe ≠ Examples.fExe ∧
      IsMethodSameSignature Examples.fExe Examples.f2Exe = true) ∧
    ∃ ops1 inv1, (⟨Examples.sCallF.Clone 1, TemplateTypeContext.New,
        ⟨Examples.zeroRandom.advance, some ⟨[], []⟩, 2⟩⟩ : Mutated Statement).value.body =
      .CallStatement Examples.fExe ops1 inv1 TemplateTypeContext.New :=
  ⟨⟨by decide, by decide, by decide⟩,
    C28_MutateCall_keeps_target Examples.pFF [] Examples.sCallF Examples.tcF
      ⟨Examples.zeroRandom, some ⟨[], []⟩, 1⟩ _ Examples.fExe [] none TemplateTypeContext.New rfl rfl⟩

/-! ## ReplaceRefOperand on an array statement -/

theorem TryReplaceRefOperand_eq (o : Operand) (m : ReplMap) :
    TryReplaceRefOperand o m = (spec_retarget m o, spec_refersToKey m o) := by
  unfold TryReplaceRefOperand spec_retarget spec_refersToKey
  cases hr : o.ref_ with
  | none => rfl
  | some a =>
    simp only [Option.some_bind]
    cases hf : ReplMap.find m a <;> rfl

theorem replaceAll_eq (m : ReplMap) : ∀ (ops : List Operand),
    replaceAll m ops = (ops.map (spec_retarget m), (ops.filter (spec_refersToKey m)).length) := by
  intro ops
  induction ops with
  | nil => rfl
  | cons o rest ih =>
    simp only [replaceAll, TryReplaceRefOperand_eq, ih, List.map_cons, List.filter_cons]
    cases spec_refersToKey m o <;> simp

theorem replaceAllPairs_eq (m : ReplMap) : ∀ (kvs : List (Operand × Operand)),
    replaceAllPairs m kvs =
      (kvs.map (fun kv => (spec_retarget m kv.1, spec_retarget m kv.2)),
       ((kvs.flatMap (fun kv => [kv.1, kv.2])).filter (spec_refersToKey m)).length) := by
  intro kvs
  induction kvs with
  | nil => rfl
  | cons kv rest ih =>
    obtain ⟨fi, sc⟩ := kv
    simp only [replaceAllPairs, TryReplaceRefOperand_eq, ih, List.map_cons, List.flatMap_cons,
      List.cons_append, List.nil_append, List.filter_cons]
    cases spec_refersToKey m fi <;> cases spec_refersToKey m sc <;> simp

theorem map_retarget_of_no_key (m : ReplMap) : ∀ (ops : List Operand),
    (∀ o ∈ ops, spec_refersToKey m o = false) → ops.map (spec_retarget m) = ops := by
  intro ops h
  induction ops with
  | nil => rfl
  | cons o rest ih =>
    have ho := h o (List.mem_cons_self _ _)
    have : spec_retarget m o = o := by
      unfold spec_retarget
      unfold spec_refersToKey at ho
      cases hb : o.ref_.bind (ReplMap.find m) with
      | none => rfl
      | some t => rw [hb] at ho; cases ho
    rw [List.map_cons, this, ih (fun x hx => h x (List.mem_cons_of_mem _ hx))]

theorem filter_of_no_key (m : ReplMap) (ops : List Operand)
    (h : ∀ o ∈ ops, spec_refersToKey m o = false) : ops.filter (spec_refersToKey m) = [] := by
  rw [List.filter_eq_nil_iff]
  intro o ho
  rw [h o ho]
  exact Bool.false_ne_true

/-- What `ReplaceRefOperand` returns and leaves behind, for a statement that is
not an array statement one of whose operands refers to a key of the map. -/
theorem ReplaceRefOperand_spec (s : Statement) (m : ReplMap) (addr : Nat)
    (h : s.GetVariant = .kArrayInitialization →
      ∀ o ∈ s.GetStatementOperands, spec_refersToKey m o = false) :
    (s.ReplaceRefOperand m addr).cloned =
      ⟨addr, s.type_, none, spec_mapOperands (spec_retarget m) s.body⟩ ∧
    (s.ReplaceRefOperand m addr).replacement =
      (s.GetStatementOperands.filter (spec_refersToKey m)).length ∧
    (s.ReplaceRefOperand m addr).self_after = s := by
  obtain ⟨a0, ty, vn, body⟩ := s
  cases body with
  | PrimitiveAssignmentStatement op operands =>
    simp only [Statement.ReplaceRefOperand, Statement.Clone, replaceAll_eq, spec_mapOperands,
      Statement.GetStatementOperands, and_self]
  | CallStatement target operands invoking_obj c =>
    cases invoking_obj with
    | none =>
      simp only [Statement.ReplaceRefOperand, Statement.Clone, replaceAll_eq, spec_mapOperands,
        Statement.GetStatementOperands, List.append_nil, Option.map_none', and_self]
    | some inv =>
      simp only [Statement.ReplaceRefOperand, Statement.Clone, replaceAll_eq, spec_mapOperands,
        Statement.GetStatementOperands, TryReplaceRefOperand_eq, Option.map_some',
        List.filter_append, List.length_append, true_and, and_true]
      cases hk : spec_refersToKey m inv <;> simp [hk, List.filter_cons]
  | STLStatement target elements =>
    obtain ⟨reg, kv⟩ := elements
    cases reg <;> cases kv <;>
      simp [Statement.ReplaceRefOperand, Statement.Clone, replaceAll_eq, replaceAllPairs_eq,
        spec_mapOperands, Statement.GetStatementOperands]
  | ArrayInitStatement capacity string_literal elements =>
    have h2 := h rfl
    simp only [Statement.GetStatementOperands] at h2
    cases string_literal with
    | some lit =>
      have hl : spec_refersToKey m lit = false := h2 lit (by simp)
      have hlit : spec_retarget m lit = lit := by
        have := map_retarget_of_no_key m [lit] (by simpa using hl)
        simpa using this
      cases elements with
      | none =>
        simp [Statement.ReplaceRefOperand, Statement.Clone, spec_mapOperands,
          Statement.GetStatementOperands, hl, hlit]
      | some ops =>
        have ho : ∀ o ∈ ops, spec_refersToKey m o = false := fun o ho => h2 o (by simp [ho])
        simp [Statement.ReplaceRefOperand, Statement.Clone, spec_mapOperands,
          Statement.GetStatementOperands, hl, hlit, map_retarget_of_no_key m ops ho,
          filter_of_no_key m ops ho]
    | none =>
      cases elements with
      | none =>
        simp [Statement.ReplaceRefOperand, Statement.Clone, spec_mapOperands,
          Statement.GetStatementOperands]
      | some ops =>
        have ho : ∀ o ∈ ops, spec_refersToKey m o = false := fun o ho => h2 o (by simp [ho])
        simp [Statement.ReplaceRefOperand, Statement.Clone, spec_mapOperands,
          Statement.GetStatementOperands, replaceAll_eq, map_retarget_of_no_key m ops ho,
          filter_of_no_key m ops ho]

theorem ops_mapOperands (f : Operand → Operand) (a b : Nat) (ty ty1 : TypeWithModifier)
    (vn vn1 : Option String) (body : StatementBody) :
    (⟨a, ty, vn, spec_mapOperands f body⟩ : Statement).GetStatementOperands =
      (⟨b, ty1, vn1, body⟩ : Statement).GetStatementOperands.map f := by
  cases body with
  | PrimitiveAssignmentStatement op operands =>
    simp [spec_mapOperands, Statement.GetStatementOperands]
  | CallStatement target operands invoking_obj c =>
    cases invoking_obj <;> simp [spec_mapOperands, Statement.GetStatementOperands]
  | STLStatement target elements =>
    obtain ⟨reg, kv⟩ := elements
    cases reg <;> cases kv <;>
      simp [spec_mapOperands, Statement.GetStatementOperands, List.flatMap_map, List.map_flatMap]
  | ArrayInitStatement capacity string_literal elements =>
    cases string_literal <;> cases elements <;>
      simp [spec_mapOperands, Statement.GetStatementOperands]

theorem variant_mapOperands (f : Operand → Operand) (a b : Nat) (ty ty1 : TypeWithModifier)
    (vn vn1 : Option String) (body : StatementBody) :
    (⟨a, ty, vn, spec_mapOperands f body⟩ : Statement).GetVariant =
      (⟨b, ty1, vn1, body⟩ : Statement).GetVariant := by
  cases body <;> rfl

theorem mem_Cleanup (d : List Statement) (s : Statement) :
    s ∈ InplaceMutationByCleanup d ↔
      (s ∈ d ∧ (s.GetVariant = .kPrimitiveAssignment → IsReferencedIn d s)) := by
  unfold InplaceMutationByCleanup IsReferencedIn
  simp only [List.mem_filter, Bool.not_eq_true', Bool.and_eq_false_imp, decide_eq_true_eq,
    decide_eq_false_iff_not, List.count_eq_zero, not_not, mem_usedStmts]

theorem Cleanup_SSA (d : List Statement) (h : SingleAssignment d) :
    SingleAssignment (InplaceMutationByCleanup d) := by
  rw [SingleAssignment_iff]
  unfold InplaceMutationByCleanup
  refine SSAFrom_filter (usedStmts d) _ d [] [] (fun _ h => h) (fun _ h _ => h) ?_ ?_
    ((SingleAssignment_iff d).mp h)
  · intro s hs op hop a ha
    exact (mem_usedStmts d a).mpr ⟨s, hs, op, hop, ha⟩
  · intro s _ hu
    have : ¬ List.count s.addr (usedStmts d) = 0 := by
      intro h0; exact (List.count_eq_zero.mp h0) hu
    simp [this]

theorem nodup_addr_index (d : List Statement) (hn : (d.map (fun s => s.addr)).Nodup) :
    ∀ i j s t, d.get? i = some s → d.get? j = some t → s.addr = t.addr → i = j := by
  induction d with
  | nil => intro i j s t hi; simp at hi
  | cons x rest ih =>
    intro i j s t hi hj he
    rw [List.map_cons, List.nodup_cons] at hn
    cases i with
    | zero =>
      cases j with
      | zero => rfl
      | succ j =>
        simp only [List.get?_cons_zero, Option.some.injEq] at hi
        simp only [List.get?_cons_succ] at hj
        subst hi
        exact absurd (List.mem_map.mpr ⟨t, List.get?_mem hj, he.symm⟩) hn.1
    | succ i =>
      cases j with
      | zero =>
        simp only [List.get?_cons_zero, Option.some.injEq] at hj
        simp only [List.get?_cons_succ] at hi
        subst hj
        exact absurd (List.mem_map.mpr ⟨s, List.get?_mem hi, he⟩) hn.1
      | succ j =>
        simp only [List.get?_cons_succ] at hi hj
        rw [ih hn.2 i j s t hi hj he]

theorem Cleanup_eq_self (c : List Statement)
    (h : ∀ s ∈ c, s.GetVariant = .kPrimitiveAssignment → IsReferencedIn c s) :
    InplaceMutationByCleanup c = c := by
  unfold InplaceMutationByCleanup
  show List.filter _ c = c
  rw [List.filter_eq_self]
  intro s hs
  have := (mem_Cleanup c s).mpr ⟨hs, h s hs⟩
  unfold InplaceMutationByCleanup at this
  exact (List.mem_filter.mp this).2

/-- C27. On a single-assignment driver `d` in which every PrimitiveAssignment
statement that no statement of `d` refers to has no reference operand,
applying `InplaceMutationByCleanup` a second time removes nothing, and every
PrimitiveAssignment statement of the cleaned driver is the referent of a
reference operand of a subsequent statement of the cleaned driver. -/
theorem C27_cleanup_twice (d : List Statement) (h : SingleAssignment d)
    (hrm : ∀ s ∈ d, s.GetVariant = .kPrimitiveAssignment → ¬ IsReferencedIn d s →
      ∀ op ∈ s.GetStatementOperands, op.ref_ = none) :
    InplaceMutationByCleanup (InplaceMutationByCleanup d) = InplaceMutationByCleanup d ∧
    ∀ i s, (InplaceMutationByCleanup d).get? i = some s → s.GetVariant = .kPrimitiveAssignment →
      ∃ j t, i < j ∧ (InplaceMutationByCleanup d).get? j = some t ∧
        ∃ op ∈ t.GetStatementOperands, op.ref_ = some s.addr := by
  have hkeep : ∀ s ∈ InplaceMutationByCleanup d, s.GetVariant = .kPrimitiveAssignment →
      ∃ t ∈ InplaceMutationByCleanup d, ∃ op ∈ t.GetStatementOperands, op.ref_ = some s.addr := by
    intro s hs hp
    obtain ⟨_, hr⟩ := (mem_Cleanup d s).mp hs
    obtain ⟨t, ht, op, hop, hre⟩ := hr hp
    refine ⟨t, (mem_Cleanup d t).mpr ⟨ht, ?_⟩, op, hop, hre⟩
    intro htp
    by_contra hnr
    have := hrm t ht htp hnr op hop
    rw [hre] at this
    cases this
  have hssa := Cleanup_SSA d h
  refine ⟨?_, ?_⟩
  · exact Cleanup_eq_self _ hkeep
  · intro i s hi hp
    obtain ⟨t, ht, op, hop, hre⟩ := hkeep s (List.get?_mem hi) hp
    obtain ⟨j, hj⟩ := List.get?_of_mem ht
    obtain ⟨j1, t1, hlt, hj1, hadd⟩ := hssa.2 j t hj op hop s.addr hre
    have : j1 = i := nodup_addr_index _ hssa.1 j1 i t1 s hj1 hi hadd
    subst this
    exact ⟨j, t, hlt, hj, op, hop, hre⟩

theorem C27_cleanup_twice_witness :
    InplaceMutationByCleanup (InplaceMutationByCleanup Examples.dCleanup) =
      InplaceMutationByCleanup Examples.dCleanup :=
  (C27_cleanup_twice Examples.dCleanup
    ((SingleAssignment_iff _).mpr (by simp [SSAFrom, Examples.dCleanup, Examples.sInt,
      Examples.sCallG, Statement.GetStatementOperands, Operand.MakeRefOperand,
      Operand.MakeConstantOperand]))
    (by
      intro s hs _ _ op hop
      simp only [Examples.dCleanup, List.mem_cons, List.mem_singleton, List.not_mem_nil,
        or_false] at hs
      rcases hs with rfl | rfl | rfl
      · simp only [Examples.sInt, Statement.GetStatementOperands, List.mem_singleton] at hop
        rw [hop]; rfl
      · simp only [Examples.sInt, Statement.GetStatementOperands, List.mem_singleton] at hop
        rw [hop]; rfl
      · rename_i hv _
        exact absurd hv (by decide))).1

/-- The driver `int v0 = 1; int v1 = v0;` satisfies single assignment. Cleanup
removes `v1`, which nothing refers to, and keeps `v0`, which `v1` referred to:
the cleaned driver holds a PrimitiveAssignment statement that no statement
of it refers to, and a second Cleanup removes it. -/
theorem C27_counterexample :
    SingleAssignment Examples.dChain ∧
    InplaceMutationByCleanup Examples.dChain = [Examples.sInt 0 "1"] ∧
    (Examples.sInt 0 "1").GetVariant = .kPrimitiveAssignment ∧
    ¬ IsReferencedIn (InplaceMutationByCleanup Examples.dChain) (Examples.sInt 0 "1") ∧
    InplaceMutationByCleanup (InplaceMutationByCleanup Examples.dChain) = [] ∧
    InplaceMutationByCleanup (InplaceMutationByCleanup Examples.dChain) ≠
      InplaceMutationByCleanup Examples.dChain := by
  refine ⟨?_, by decide, rfl, ?_, by decide, by decide⟩
  · rw [SingleAssignment_iff]
    simp [SSAFrom, Examples.dChain, Examples.sInt, Examples.sCopy, Statement.GetStatementOperands,
      Operand.MakeRefOperand, Operand.MakeConstantOperand]
  · have e : InplaceMutationByCleanup Examples.dChain = [Examples.sInt 0 "1"] := by decide
    rw [e]
    unfold IsReferencedIn
    simp [Examples.sInt, Statement.GetStatementOperands, Operand.MakeConstantOperand]

/-! ## A single integer argument -/

theorem NextIntGen_min (r : Random) (hg : r.NextGaussian.1 < 20) (hc : r.advance.raw % 13 = 0) :
    r.NextIntGen false 32 = ("-2147483648", r.advance.advance) := by
  unfold Random.NextIntGen Random.NextIntGenValue
  unfold Random.NextGaussian at hg ⊢
  simp only at hg ⊢
  rw [if_pos hg, hc]
  rfl

theorem appendCalls_g (ops : List Operand) :
    ∀ (k : Nat) (stmts : List Statement) (st : GenState),
      appendCalls Examples.pG Examples.gExe ops none k stmts TemplateTypeContext.New st =
        .ok (stmts ++ (List.range k).map (fun j => ⟨st.next_addr + j, Examples.kInt, none,
            .CallStatement Examples.gExe ops none TemplateTypeContext.New⟩),
          TemplateTypeContext.New, { st with next_addr := st.next_addr + k }) := by
  intro k
  induction k with
  | zero => intro stmts st; simp [appendCalls]
  | succ k ih =>
    intro stmts st
    have hm : MakeExecutableCall Examples.pG st.next_addr Examples.gExe ops none
        TemplateTypeContext.New st.random =
        some (⟨st.next_addr, Examples.kInt, none,
          .CallStatement Examples.gExe ops none TemplateTypeContext.New⟩,
          TemplateTypeContext.New, st.random) := rfl
    rw [appendCalls, hm]
    simp only
    rw [ih]
    simp only [List.append_assoc, List.singleton_append, List.range_succ_eq_map, List.map_cons,
      List.map_map, Nat.add_zero]
    refine congrArg Except.ok (Prod.ext ?_ (Prod.ext rfl ?_))
    · simp only
      congr 2
      apply List.map_congr_left
      intro j _
      simp only [Function.comp, Nat.add_assoc, Nat.add_comm 1 j]
    · simp only [Nat.add_assoc, Nat.add_comm 1 k]

theorem MutateConstantOperandOfType_int_min (r : Random) (hg : r.NextGaussian.1 < 20)
    (hc : r.advance.raw % 13 = 0) :
    MutateConstantOperandOfType Examples.kInt r =
      some (Operand.MakeConstantOperand Examples.kInt "-2147483648", r.advance.advance) := by
  have h := NextIntGen_min r hg hc
  unfold MutateConstantOperandOfType
  simp only [Examples.kInt, List.count_nil, gt_iff_lt, Nat.lt_irrefl, decide_False]
  rw [h]

theorem ResolveOperand_int_min (fuel : Nat) (r : Random) (i : Option InheritanceTreeModel)
    (n : Nat) (stmts : List Statement) (c : TemplateTypeContext)
    (hg : r.NextGaussian.1 < 20) (hc : r.advance.raw % 13 = 0) :
    ResolveOperand Examples.pG (fuel + 1) Examples.kInt stmts c false ⟨r, i, n⟩ =
      .ok ⟨Operand.MakeConstantOperand Examples.kInt "-2147483648", stmts, c,
        ⟨r.advance.advance, i, n⟩⟩ := by
  have h := MutateConstantOperandOfType_int_min r hg hc
  have hs : Examples.kInt.StripParticularModifiers
      [.kConst, .kConstOnPointer, .kPointer, .kArray, .kReference] = Examples.kInt := rfl
  have hp : ResolveOperandPrimitiveType Examples.kInt stmts c ⟨r, i, n⟩ =
      .ok ⟨Operand.MakeConstantOperand Examples.kInt "-2147483648", stmts, c,
        ⟨r.advance.advance, i, n⟩⟩ := by
    unfold ResolveOperandPrimitiveType
    rw [hs]
    simp only [h]
    rfl
  rw [ResolveOperand]
  unfold ResolveOperandBody
  simp only [Examples.kInt] at hp ⊢
  exact hp

/-- C29. For the model with the single executable `int g(int)`, an empty context and
random draws in which the sampler takes the special-value branch and picks
min, `GenForMethod` returns a driver of one to three Call statements on `g`
whose only argument is the constant `-2147483648`: the constant is passed
directly, and the driver holds no PrimitiveAssignment statement and no
reference operand. -/
theorem C29_single_integer_argument (fuel n : Nat) (r : Random)
    (i : Option InheritanceTreeModel)
    (hg : r.NextGaussian.1 < 20) (hc : r.advance.raw % 13 = 0) :
    ∃ tc st1, GenForMethod Examples.pG (fuel + 1) Examples.gExe TemplateTypeContext.New [] 0 false
        ⟨r, i, n⟩ = .ok (tc, st1) ∧
      tc.statements_ = (List.range (1 + r.advance.advance.raw % 3)).map
        (fun j => Examples.sCallGMin (n + j)) ∧
      1 ≤ tc.statements_.length ∧ tc.statements_.length ≤ 3 ∧
      ∀ s ∈ tc.statements_, s.GetVariant = .kCall ∧
        s.GetStatementOperands = [Operand.MakeConstantOperand Examples.kInt "-2147483648"] := by
  have hr := ResolveOperand_int_min fuel r i n [] TemplateTypeContext.New hg hc
  have he : resolveEach (ResolveOperand Examples.pG (fuel + 1)) false
      (Examples.gExe.arguments_.map TypeWithModifier.FromSpecByClangType) []
      TemplateTypeContext.New ⟨r, i, n⟩ =
      .ok ([Operand.MakeConstantOperand Examples.kInt "-2147483648"], [],
        TemplateTypeContext.New, ⟨r.advance.advance, i, n⟩) := by
    show resolveEach _ false [Examples.kInt] [] _ _ = _
    simp only [resolveEach, hr]
  have hlen : ((List.range (1 + r.advance.advance.raw % 3)).map
      (fun j => Examples.sCallGMin (n + j))).length = 1 + r.advance.advance.raw % 3 := by simp
  have hk : r.advance.advance.raw % 3 < 3 := Nat.mod_lt _ (by decide)
  refine ⟨⟨(List.range (1 + r.advance.advance.raw % 3)).map
      (fun j => Examples.sCallGMin (n + j)), TemplateTypeContext.New⟩,
    ⟨r.advance.advance.advance, i, n + (1 + r.advance.advance.raw % 3)⟩, ?_, rfl, ?_, ?_, ?_⟩
  · unfold GenForMethod
    simp only [List.length_nil, Nat.lt_irrefl, if_false, List.take_nil, he, List.drop_nil,
      List.append_nil, gt_iff_lt]
    simp only [Examples.gExe, Option.isSome_none, Bool.and_false, Bool.false_and, if_false,
      Bool.false_eq_true]
    have ha := appendCalls_g [Operand.MakeConstantOperand Examples.kInt "-2147483648"]
      (1 + r.advance.advance.raw % 3) [] ⟨r.advance.advance.advance, i, n⟩
    simp only [Examples.gExe] at ha
    rw [ha]
    rfl
  · rw [hlen]; omega
  · rw [hlen]; omega
  · intro s hs
    obtain ⟨j, _, rfl⟩ := List.mem_map.mp hs
    exact ⟨rfl, rfl⟩

theorem C29_single_integer_argument_witness :
    ∃ tc st1, GenForMethod Examples.pG 1 Examples.gExe TemplateTypeContext.New [] 0 false
        Examples.gen0 = .ok (tc, st1) ∧
      tc.statements_ = (List.range (1 + Examples.zeroRandom.advance.advance.raw % 3)).map
        (fun j => Examples.sCallGMin (0 + j)) ∧
      1 ≤ tc.statements_.length ∧ tc.statements_.length ≤ 3 ∧
      ∀ s ∈ tc.statements_, s.GetVariant = .kCall ∧
        s.GetStatementOperands = [Operand.MakeConstantOperand Examples.kInt "-2147483648"] :=
  C29_single_integer_argument 0 0 Examples.zeroRandom (some ⟨[], []⟩) (by decide) (by decide)

/-- With every draw equal to 0 the sampler takes the special-value branch and picks
min. The driver that `GenForMethod` returns for `int g(int)` on an empty
context is the single statement `int v0 = g(-2147483648);`: it does not begin
with a PrimitiveAssignment statement, and the argument of the call is a
constant operand, not a reference. -/
theorem C29_counterexample :
    Examples.zeroRandom.NextGaussian.1 < 20 ∧ Examples.zeroRandom.advance.raw % 13 = 0 ∧
    ∃ g, GenForMethod Examples.pG 1 Examples.gExe TemplateTypeContext.New [] 0 false
        Examples.gen0 = .ok (⟨[Examples.sCallGMin 0], TemplateTypeContext.New⟩, g) ∧
      (Examples.sCallGMin 0).GetVariant = .kCall ∧
      (Examples.sCallGMin 0).GetStatementOperands.map Operand.GetOperandType =
        [.kConstantOperand] :=
  ⟨by decide, by decide, _, rfl, rfl, rfl⟩

/-! ## The integer sampler -/

theorem castInt_signed_small (k : Nat) (x : Int) (h1 : -128 ≤ x) (h2 : x ≤ 127) :
    Random.castInt false (k + 8) x = x := by
  unfold Random.castInt
  simp only [Bool.false_eq_true, if_false]
  have e1 : ((2 : Int) ^ (k + 8 - 1)) = 128 * (2 : Int) ^ k := by
    have : k + 8 - 1 = k + 7 := by omega
    rw [this, pow_add]; norm_num; ring
  have e2 : ((2 : Int) ^ (k + 8)) = 256 * (2 : Int) ^ k := by
    rw [pow_add]; norm_num; ring
  have hp : (1 : Int) ≤ (2 : Int) ^ k := one_le_pow₀ (by norm_num)
  rw [e1, e2]
  generalize (2 : Int) ^ k = P at hp
  rw [Int.emod_eq_of_lt (by omega) (by omega)]
  omega

theorem castInt_unsigned_neg (k : Nat) (x : Int) (h1 : -256 ≤ x) (h2 : x < 0) :
    Random.castInt true (k + 8) x = (2 : Int) ^ (k + 8) + x := by
  unfold Random.castInt
  simp only [if_true]
  have e2 : ((2 : Int) ^ (k + 8)) = 256 * (2 : Int) ^ k := by
    rw [pow_add]; norm_num; ring
  have hp : (1 : Int) ≤ (2 : Int) ^ k := one_le_pow₀ (by norm_num)
  rw [e2]
  generalize (2 : Int) ^ k = P at hp
  have : x % (256 * P) = (x + 256 * P) % (256 * P) := by simp
  rw [this, Int.emod_eq_of_lt (by omega) (by omega)]
  omega

theorem castInt_unsigned_small (k : Nat) (x : Int) (h1 : 0 ≤ x) (h2 : x ≤ 255) :
    Random.castInt true (k + 8) x = x := by
  unfold Random.castInt
  simp only [if_true]
  have e2 : ((2 : Int) ^ (k + 8)) = 256 * (2 : Int) ^ k := by
    rw [pow_add]; norm_num; ring
  have hp : (1 : Int) ≤ (2 : Int) ^ k := one_le_pow₀ (by norm_num)
  rw [e2]
  generalize (2 : Int) ^ k = P at hp
  exact Int.emod_eq_of_lt (by omega) (by omega)

theorem specialValuesInt_signed (k : Nat) :
    Random.specialValuesInt false (k + 8) =
      [-((2 : Int) ^ (k + 7)), (2 : Int) ^ (k + 7) - 1, -5, -4, -3, -2, -1, 0, 1, 2, 3, 4, 5] := by
  unfold Random.specialValuesInt
  have : k + 8 - 1 = k + 7 := by omega
  simp only [Bool.false_eq_true, if_false, this, List.map_cons, List.map_nil, List.cons_append,
    List.nil_append]
  rw [castInt_signed_small k (-5) (by norm_num) (by norm_num),
    castInt_signed_small k (-4) (by norm_num) (by norm_num),
    castInt_signed_small k (-3) (by norm_num) (by norm_num),
    castInt_signed_small k (-2) (by norm_num) (by norm_num),
    castInt_signed_small k (-1) (by norm_num) (by norm_num),
    castInt_signed_small k 0 (by norm_num) (by norm_num),
    castInt_signed_small k 1 (by norm_num) (by norm_num),
    castInt_signed_small k 2 (by norm_num) (by norm_num),
    castInt_signed_small k 3 (by norm_num) (by norm_num),
    castInt_signed_small k 4 (by norm_num) (by norm_num),
    castInt_signed_small k 5 (by norm_num) (by norm_num)]

theorem specialValuesInt_unsigned (k : Nat) :
    Random.specialValuesInt true (k + 8) =
      [0, (2 : Int) ^ (k + 8) - 1, (2 : Int) ^ (k + 8) - 5, (2 : Int) ^ (k + 8) - 4,
        (2 : Int) ^ (k + 8) - 3, (2 : Int) ^ (k + 8) - 2, (2 : Int) ^ (k + 8) - 1,
        0, 1, 2, 3, 4, 5] := by
  unfold Random.specialValuesInt
  simp only [if_true, List.map_cons, List.map_nil, List.cons_append, List.nil_append]
  rw [castInt_unsigned_neg k (-5) (by norm_num) (by norm_num),
    castInt_unsigned_neg k (-4) (by norm_num) (by norm_num),
    castInt_unsigned_neg k (-3) (by norm_num) (by norm_num),
    castInt_unsigned_neg k (-2) (by norm_num) (by norm_num),
    castInt_unsigned_neg k (-1) (by norm_num) (by norm_num),
    castInt_unsigned_small k 0 (by norm_num) (by norm_num),
    castInt_unsigned_small k 1 (by norm_num) (by norm_num),
    castInt_unsigned_small k 2 (by norm_num) (by norm_num),
    castInt_unsigned_small k 3 (by norm_num) (by norm_num),
    castInt_unsigned_small k 4 (by norm_num) (by norm_num),
    castInt_unsigned_small k 5 (by norm_num) (by norm_num)]
  rfl

theorem getD_mem_of_lt {α : Type} (l : List α) (i : Nat) (d : α) (h : i < l.length) :
    l.getD i d ∈ l := by
  rw [List.getD_eq_getElem l d h]
  exact List.getElem_mem h

/-- C25. For an integer type of `bits ≥ 8` bits, signed or unsigned, and every
outcome of the draws, the literal of `NextIntGen` is the decimal form of the
value drawn, and that value is representable in the type. When the
special-value branch is not taken it lies in [-128, 127] for a signed type
and in [0, 255] for an unsigned type. When it is taken it is one of the 13
values min, max, -5, ..., 5 converted to the type: for an unsigned type the
negative value -k has become 2^bits - k. -/
theorem C25_NextIntGen (r : Random) (u : Bool) (bits : Nat) (hb : 8 ≤ bits) :
    (r.NextIntGen u bits).1 = toString (r.NextIntGenValue u bits).1 ∧
    (u = false → -((2 : Int) ^ (bits - 1)) ≤ (r.NextIntGenValue u bits).1 ∧
      (r.NextIntGenValue u bits).1 ≤ (2 : Int) ^ (bits - 1) - 1) ∧
    (u = true → 0 ≤ (r.NextIntGenValue u bits).1 ∧
      (r.NextIntGenValue u bits).1 ≤ (2 : Int) ^ bits - 1) ∧
    (20 ≤ r.NextGaussian.1 →
      (u = false → -128 ≤ (r.NextIntGenValue u bits).1 ∧ (r.NextIntGenValue u bits).1 ≤ 127) ∧
      (u = true → 0 ≤ (r.NextIntGenValue u bits).1 ∧ (r.NextIntGenValue u bits).1 ≤ 255)) ∧
    (r.NextGaussian.1 < 20 →
      (u = false → (r.NextIntGenValue u bits).1 ∈
        [-((2 : Int) ^ (bits - 1)), (2 : Int) ^ (bits - 1) - 1,
          -5, -4, -3, -2, -1, 0, 1, 2, 3, 4, 5]) ∧
      (u = true → (r.NextIntGenValue u bits).1 ∈
        [0, (2 : Int) ^ bits - 1, (2 : Int) ^ bits - 5, (2 : Int) ^ bits - 4, (2 : Int) ^ bits - 3,
          (2 : Int) ^ bits - 2, (2 : Int) ^ bits - 1, 0, 1, 2, 3, 4, 5])) := by
  obtain ⟨k, rfl⟩ : ∃ k, bits = k + 8 := ⟨bits - 8, by omega⟩
  have e7 : k + 8 - 1 = k + 7 := by omega
  have e1 : ((2 : Int) ^ (k + 7)) = 128 * (2 : Int) ^ k := by
    rw [pow_add]; norm_num; ring
  have e2 : ((2 : Int) ^ (k + 8)) = 256 * (2 : Int) ^ k := by
    rw [pow_add]; norm_num; ring
  have hp : (1 : Int) ≤ (2 : Int) ^ k := one_le_pow₀ (by norm_num)
  have hlenS : (Random.specialValuesInt false (k + 8)).length = 13 := by
    rw [specialValuesInt_signed]; rfl
  have hlenU : (Random.specialValuesInt true (k + 8)).length = 13 := by
    rw [specialValuesInt_unsigned]; rfl
  have h13 : r.advance.raw % 13 < 13 := Nat.mod_lt _ (by decide)
  have h256 : r.advance.raw % 256 < 256 := Nat.mod_lt _ (by decide)
  have hspS : r.NextGaussian.1 < 20 → (r.NextIntGenValue false (k + 8)).1 ∈
      [-((2 : Int) ^ (k + 7)), (2 : Int) ^ (k + 7) - 1, -5, -4, -3, -2, -1, 0, 1, 2, 3, 4, 5] := by
    intro hg
    rw [← specialValuesInt_signed]
    unfold Random.NextIntGenValue
    unfold Random.NextGaussian at hg ⊢
    simp only at hg ⊢
    rw [if_pos hg]
    exact getD_mem_of_lt _ _ _ (by rw [hlenS]; exact h13)
  have hspU : r.NextGaussian.1 < 20 → (r.NextIntGenValue true (k + 8)).1 ∈
      [0, (2 : Int) ^ (k + 8) - 1, (2 : Int) ^ (k + 8) - 5, (2 : Int) ^ (k + 8) - 4,
        (2 : Int) ^ (k + 8) - 3, (2 : Int) ^ (k + 8) - 2, (2 : Int) ^ (k + 8) - 1,
        0, 1, 2, 3, 4, 5] := by
    intro hg
    rw [← specialValuesInt_unsigned]
    unfold Random.NextIntGenValue
    unfold Random.NextGaussian at hg ⊢
    simp only at hg ⊢
    rw [if_pos hg]
    exact getD_mem_of_lt _ _ _ (by rw [hlenU]; exact h13)
  have hbyS : 20 ≤ r.NextGaussian.1 → -128 ≤ (r.NextIntGenValue false (k + 8)).1 ∧
      (r.NextIntGenValue false (k + 8)).1 ≤ 127 := by
    intro hg
    unfold Random.NextIntGenValue
    unfold Random.NextGaussian at hg ⊢
    simp only at hg ⊢
    rw [if_neg (by omega)]
    simp only [Bool.false_eq_true, if_false]
    omega
  have hbyU : 20 ≤ r.NextGaussian.1 → 0 ≤ (r.NextIntGenValue true (k + 8)).1 ∧
      (r.NextIntGenValue true (k + 8)).1 ≤ 255 := by
    intro hg
    unfold Random.NextIntGenValue
    unfold Random.NextGaussian at hg ⊢
    simp only at hg ⊢
    rw [if_neg (by omega)]
    simp only [if_true]
    omega
  refine ⟨rfl, ?_, ?_, ?_, ?_⟩
  · intro hu
    subst hu
    rw [e7]
    by_cases hg : r.NextGaussian.1 < 20
    · have := hspS hg
      rw [e1] at this ⊢
      generalize (2 : Int) ^ k = P at hp this
      simp only [List.mem_cons, List.mem_singleton, List.not_mem_nil, or_false] at this
      omega
    · have := hbyS (by omega)
      rw [e1]
      omega
  · intro hu
    subst hu
    by_cases hg : r.NextGaussian.1 < 20
    · have := hspU hg
      rw [e2] at this ⊢
      generalize (2 : Int) ^ k = P at hp this
      simp only [List.mem_cons, List.mem_singleton, List.not_mem_nil, or_false] at this
      omega
    · have := hbyU (by omega)
      rw [e2]
      omega
  · intro hg
    exact ⟨fun hu => by subst hu; exact hbyS hg, fun hu => by subst hu; exact hbyU hg⟩
  · intro hg
    refine ⟨fun hu => ?_, fun hu => ?_⟩
    · subst hu; rw [e7]; exact hspS hg
    · subst hu; exact hspU hg

theorem C25_NextIntGen_witness :
    (Examples.zeroRandom.NextIntGen true 8).1 =
      toString (Examples.zeroRandom.NextIntGenValue true 8).1 :=
  (C25_NextIntGen Examples.zeroRandom true 8 (by decide)).1

/-! ## Character pointers and character arrays -/

theorem nextChars_spec : ∀ (n : Nat) (r : Random),
    (Random.nextChars n r).1.length = n ∧ ∀ ch ∈ (Random.nextChars n r).1, ch ∈ Random.alphanum := by
  intro n
  induction n with
  | zero => intro r; simp [Random.nextChars]
  | succ n ih =>
    intro r
    obtain ⟨h1, h2⟩ := ih r.advance
    simp only [Random.nextChars, List.length_cons, h1, List.mem_cons, true_and]
    intro ch hch
    rcases hch with rfl | hch
    · exact getD_mem_of_lt _ _ _ (Nat.mod_lt _ (by decide))
    · exact h2 ch hch

theorem alphanum_chars : ∀ ch ∈ Random.alphanum, (ch.isDigit || ch.isAlpha) = true := by decide

theorem NextString_spec (r : Random) :
    r.NextString.1.length ≤ 10 ∧ r.NextString.1.length = r.raw % 11 ∧
      ∀ ch ∈ r.NextString.1.toList, (ch.isDigit || ch.isAlpha) = true := by
  obtain ⟨h1, h2⟩ := nextChars_spec (r.raw % 11) r.advance
  have h11 : r.raw % 11 < 11 := Nat.mod_lt _ (by decide)
  unfold Random.NextString
  simp only [String.length, h1]
  exact ⟨by omega, trivial, fun ch hch => alphanum_chars ch (h2 ch hch)⟩

theorem ResolveOperandBody_char (p : ProgramContext) (resolve : Resolver) (T : TypeWithModifier)
    (stmts : List Statement) (c c1 : TemplateTypeContext) (force : Bool) (st st1 : GenState)
    (hT : T.type_ = some (.primitive .kCharacter))
    (hre : (if force = true then ResolveUsingAssignableStatements T stmts c st
      else .ok (none, c, st)) = .ok (none, c1, st1)) :
    ResolveOperandBody p resolve T stmts c force st =
      if (if T.IsPointer = true then
            (decide (st1.random.NextGaussian.1 < 100), { st1 with random := st1.random.NextGaussian.2 })
          else (false, st1)).1 = true then
        .ok ⟨Operand.MakeConstantOperand T "nullptr", stmts, c1,
          (if T.IsPointer = true then
            (decide (st1.random.NextGaussian.1 < 100), { st1 with random := st1.random.NextGaussian.2 })
          else (false, st1)).2⟩
      else ResolveOperandPrimitiveType T stmts c1
        (if T.IsPointer = true then
            (decide (st1.random.NextGaussian.1 < 100), { st1 with random := st1.random.NextGaussian.2 })
          else (false, st1)).2 := by
  have hv : T.IsVoidPtr = false := by simp [TypeWithModifier.IsVoidPtr, hT]
  unfold ResolveOperandBody
  simp only [hT, hv, Bool.false_eq_true, if_false]
  rw [if_neg (by decide)]
  simp only [hre]
  rfl

theorem strip_not_ptr_or_array (T : TypeWithModifier) :
    (T.StripParticularModifiers
      [.kConst, .kConstOnPointer, .kPointer, .kArray, .kReference]).IsPointerOrArray = false := by
  unfold TypeWithModifier.IsPointerOrArray TypeWithModifier.IsPointer TypeWithModifier.IsArray
    TypeWithModifier.StripParticularModifiers
  have h1 : List.count Modifier.kPointer (T.modifiers_.filter (fun m =>
      ([.kConst, .kConstOnPointer, .kPointer, .kArray, .kReference] : List Modifier).count m = 0)) = 0 := by
    rw [List.count_eq_zero]
    intro h
    have := (List.mem_filter.mp h).2
    revert this
    decide
  have h2 : List.count Modifier.kArray (T.modifiers_.filter (fun m =>
      ([.kConst, .kConstOnPointer, .kPointer, .kArray, .kReference] : List Modifier).count m = 0)) = 0 := by
    rw [List.count_eq_zero]
    intro h
    have := (List.mem_filter.mp h).2
    revert this
    decide
  simp only [h1, h2]
  decide

theorem MakeCString_some (addr : Nat) (op : Operand) :
    ∃ ty, MakeCString addr op = some ⟨addr, ty, none, .ArrayInitStatement none (some op) none⟩ := by
  unfold MakeCString
  by_cases hu : op.type_.IsUnsigned = true
  · simp only [hu, if_true]
    exact ⟨_, rfl⟩
  · simp only [hu, if_false]
    exact ⟨_, rfl⟩

/-- C30. Let the required type be the character type and let statement reuse not
apply. With a pointer modifier (`char*`) and a null draw of at least 0.1,
`ResolveOperand` appends exactly one ArrayLiteral statement whose string
literal has 0 to 10 characters, each a digit or an ASCII letter, and returns
a reference to that statement. With an array modifier and no pointer modifier
(`char[]`) it appends exactly one PrimitiveAssignment(nop) statement whose
operand is the integer literal of the 8-bit sampler, and returns a reference
to that statement. -/
theorem C30_character_operand (p : ProgramContext) (fuel : Nat) (T : TypeWithModifier)
    (stmts : List Statement) (c c1 : TemplateTypeContext) (force : Bool) (st st1 : GenState)
    (hT : T.type_ = some (.primitive .kCharacter))
    (hre : (if force = true then ResolveUsingAssignableStatements T stmts c st
      else .ok (none, c, st)) = .ok (none, c1, st1)) :
    (T.IsPointer = true → 100 ≤ st1.random.NextGaussian.1 →
      ∃ res s str, ResolveOperand p (fuel + 1) T stmts c force st = .ok res ∧
        res.statements = stmts ++ [s] ∧ res.operand = Operand.MakeRefOperand s ∧
        s.addr = st1.next_addr ∧ s.GetVariant = .kArrayInitialization ∧
        s.body = .ArrayInitStatement none
          (some (Operand.MakeConstantOperand (T.WithAdditionalModifiers [.kConst]) str)) none ∧
        str.length ≤ 10 ∧ ∀ ch ∈ str.toList, (ch.isDigit || ch.isAlpha) = true) ∧
    (T.IsPointer = false → T.IsArray = true →
      ∃ res s, ResolveOperand p (fuel + 1) T stmts c force st = .ok res ∧
        res.statements = stmts ++ [s] ∧ res.operand = Operand.MakeRefOperand s ∧
        s.addr = st1.next_addr ∧ s.GetVariant = .kPrimitiveAssignment ∧
        s.body = .PrimitiveAssignmentStatement .kNop
          [Operand.MakeConstantOperand
            (T.StripParticularModifiers [.kConst, .kConstOnPointer, .kPointer, .kArray, .kReference])
            (st1.random.NextIntGen
              (decide ((T.StripParticularModifiers
                [.kConst, .kConstOnPointer, .kPointer, .kArray, .kReference]).modifiers_.count
                  Modifier.kUnsigned > 0)) 8).1]) := by
  have hbody := ResolveOperandBody_char p (ResolveOperand p fuel) T stmts c c1 force st st1 hT hre
  have hnv : ¬ T.type_ = some (.primitive .kVoid) := by rw [hT]; decide
  refine ⟨?_, ?_⟩
  · intro hp hn
    have hd : decide (st1.random.NextGaussian.1 < 100) = false := by
      simp only [decide_eq_false_iff_not]; omega
    obtain ⟨hl, _, hch⟩ := NextString_spec st1.random.NextGaussian.2
    rw [ResolveOperand, hbody]
    simp only [hp, if_true, hd, Bool.false_eq_true, if_false]
    unfold ResolveOperandPrimitiveType
    rw [if_neg hnv]
    simp only [hT, hp, decide_True, Bool.and_self, if_true, pushAndRef]
    obtain ⟨ty, hmk⟩ := MakeCString_some st1.next_addr
      (Operand.MakeConstantOperand (T.WithAdditionalModifiers [.kConst])
        st1.random.NextGaussian.2.NextString.1)
    rw [hmk]
    exact ⟨_, _, _, rfl, rfl, rfl, rfl, rfl, rfl, hl, hch⟩
  · intro hp ha
    have hs := strip_not_ptr_or_array T
    rw [ResolveOperand, hbody]
    simp only [hp, Bool.false_eq_true, if_false]
    unfold ResolveOperandPrimitiveType
    rw [if_neg hnv]
    simp only [hT, hp, decide_True, Bool.and_false, Bool.false_eq_true, if_false]
    have hm : MutateConstantOperandOfType
        (T.StripParticularModifiers [.kConst, .kConstOnPointer, .kPointer, .kArray, .kReference])
        st1.random =
        some (Operand.MakeConstantOperand
          (T.StripParticularModifiers [.kConst, .kConstOnPointer, .kPointer, .kArray, .kReference])
          (st1.random.NextIntGen
            (decide ((T.StripParticularModifiers
              [.kConst, .kConstOnPointer, .kPointer, .kArray, .kReference]).modifiers_.count
                Modifier.kUnsigned > 0)) 8).1,
          (st1.random.NextIntGen
            (decide ((T.StripParticularModifiers
              [.kConst, .kConstOnPointer, .kPointer, .kArray, .kReference]).modifiers_.count
                Modifier.kUnsigned > 0)) 8).2) := by
      unfold MutateConstantOperandOfType
      have ht : (T.StripParticularModifiers
          [.kConst, .kConstOnPointer, .kPointer, .kArray, .kReference]).type_ =
          some (.primitive .kCharacter) := hT
      rw [ht]
      simp only [hs, Bool.false_eq_true, if_false]
    rw [hm]
    simp only [ha, Bool.or_true, Bool.true_or, if_true, pushAndRef, MakeUnaryOpStatement,
      Statement.make, Operand.MakeConstantOperand, TypeWithModifier.StripParticularModifiers, hT]
    rw [if_neg (by decide)]
    exact ⟨_, _, rfl, rfl, rfl, rfl, rfl, rfl⟩

theorem C30_character_operand_witness :
    ∃ res s str, ResolveOperand Examples.pF 1 Examples.kCharPtr [] TemplateTypeContext.New false
        ⟨Examples.rndNoNull, some ⟨[], []⟩, 0⟩ = .ok res ∧
      res.statements = [] ++ [s] ∧ res.operand = Operand.MakeRefOperand s ∧
      s.addr = 0 ∧ s.GetVariant = .kArrayInitialization ∧
      s.body = .ArrayInitStatement none
        (some (Operand.MakeConstantOperand
          (Examples.kCharPtr.WithAdditionalModifiers [.kConst]) str)) none ∧
      str.length ≤ 10 ∧ ∀ ch ∈ str.toList, (ch.isDigit || ch.isAlpha) = true :=
  (C30_character_operand Examples.pF 0 Examples.kCharPtr [] TemplateTypeContext.New
    TemplateTypeContext.New false ⟨Examples.rndNoNull, some ⟨[], []⟩, 0⟩
    ⟨Examples.rndNoNull, some ⟨[], []⟩, 0⟩ rfl rfl).1 rfl (by decide)

/-- The required type `char[]` is the character type with an array modifier and no
pointer modifier; with `force_avail_op = false` statement reuse does not
apply, and the null draw is made for pointer types only. `ResolveOperand`
appends the PrimitiveAssignment statement `char v0 = -128;` and returns a
reference to it: no ArrayLiteral statement is appended. -/
theorem C30_counterexample :
    Examples.kCharArr.type_ = some (.primitive .kCharacter) ∧
    Examples.kCharArr.IsArray = true ∧ Examples.kCharArr.IsPointer = false ∧
    ∃ g, ResolveOperand Examples.pF 1 Examples.kCharArr [] TemplateTypeContext.New false
        Examples.gen0 =
      .ok ⟨Operand.MakeRefOperand ⟨0, ⟨some (.primitive .kCharacter), []⟩, none,
            .PrimitiveAssignmentStatement .kNop
              [Operand.MakeConstantOperand ⟨some (.primitive .kCharacter), []⟩ "-128"]⟩,
          [⟨0, ⟨some (.primitive .kCharacter), []⟩, none,
            .PrimitiveAssignmentStatement .kNop
              [Operand.MakeConstantOperand ⟨some (.primitive .kCharacter), []⟩ "-128"]⟩],
          TemplateTypeContext.New, g⟩ ∧
      (⟨0, ⟨some (.primitive .kCharacter), []⟩, none,
        .PrimitiveAssignmentStatement .kNop
          [Operand.MakeConstantOperand ⟨some (.primitive .kCharacter), []⟩ "-128"]⟩ :
        Statement).GetVariant ≠ .kArrayInitialization :=
  ⟨rfl, rfl, rfl, _, rfl, by decide⟩

/-! ## Complexity-weighted selection -/

theorem NextExecutable_eq_index (ex : List Executable) (mode : FunctionSelectorMode)
    (k : List (String × StatementVisitorResult)) (r : Random)
    (h : ¬ (mode = .kRandom ∨ k.isEmpty = true)) :
    NextExecutable ex mode k r =
      (NextExecutableIndex ex k ((r.NextGaussian.1 : ℚ) / 1000)).bind
        (fun i => (ex.get? i).map (fun e => (e, r.advance))) := by
  unfold NextExecutable NextExecutableIndex
  rw [if_neg h]
  simp only [Random.NextGaussian]
  split
  · rfl
  · split <;> rfl

theorem cumulative_length : ∀ (xs : List ℚ) (acc : ℚ), (cumulative acc xs).length = xs.length := by
  intro xs
  induction xs with
  | nil => intro acc; rfl
  | cons x xs ih => intro acc; simp [cumulative, ih]

theorem cumulative_get : ∀ (xs : List ℚ) (acc : ℚ) (j : Nat), j < xs.length →
    (cumulative acc xs).get? j = some (acc + (xs.take (j + 1)).sum) := by
  intro xs
  induction xs with
  | nil => intro acc j hj; simp at hj
  | cons x xs ih =>
    intro acc j hj
    cases j with
    | zero => simp [cumulative]
    | succ j =>
      simp only [cumulative, List.get?_cons_succ, List.take_succ_cons, List.sum_cons]
      rw [ih (acc + x) j (by simpa using hj)]
      congr 1
      ring

theorem cumulative_last (xs : List ℚ) (acc : ℚ) (h : 0 < xs.length) :
    (cumulative acc xs).getLastD 0 = acc + xs.sum := by
  rw [List.getLastD_eq_getLast?, List.getLast?_eq_getElem?, cumulative_length]
  have := cumulative_get xs acc (xs.length - 1) (by omega)
  rw [List.get?_eq_getElem?] at this
  rw [this]
  have e : xs.length - 1 + 1 = xs.length := by omega
  simp [e]

theorem searchScore_spec (scores : List ℚ) (p : ℚ) (n : Nat) :
    ∀ (fuel lo hi : Nat), lo < hi → hi ≤ n → (lo = 0 ∨ scores.getD lo 0 < p) →
      (hi = n ∨ p ≤ scores.getD hi 0) → hi - lo ≤ fuel + 1 →
      (searchScore scores p fuel lo hi).1 + 1 = (searchScore scores p fuel lo hi).2 ∧
      (searchScore scores p fuel lo hi).2 ≤ n ∧
      ((searchScore scores p fuel lo hi).1 = 0 ∨
        scores.getD (searchScore scores p fuel lo hi).1 0 < p) ∧
      ((searchScore scores p fuel lo hi).2 = n ∨
        p ≤ scores.getD (searchScore scores p fuel lo hi).2 0) := by
  intro fuel
  induction fuel with
  | zero =>
    intro lo hi h1 h2 h3 h4 h5
    simp only [searchScore]
    exact ⟨by omega, h2, h3, h4⟩
  | succ fuel ih =>
    intro lo hi h1 h2 h3 h4 h5
    simp only [searchScore]
    by_cases hgap : hi - lo > 1
    · rw [if_pos hgap]
      have hm1 : lo < (hi + lo) / 2 := by omega
      have hm2 : (hi + lo) / 2 < hi := by omega
      by_cases hc : scores.getD ((hi + lo) / 2) 0 < p
      · rw [if_pos hc]
        exact ih _ _ hm2 h2 (Or.inr hc) h4 (by omega)
      · rw [if_neg hc]
        exact ih _ _ hm1 (by omega) h3 (Or.inr (not_lt.mp hc)) (by omega)
    · rw [if_neg hgap]
      exact ⟨by omega, h2, h3, h4⟩

theorem complexityScore_pos (k : List (String × StatementVisitorResult))
    (hk : ∀ kv ∈ k, 0 ≤ kv.2.controls_ ∧ 0 ≤ kv.2.switch_cases_ ∧ 0 ≤ kv.2.cond_expr_ ∧
      0 ≤ kv.2.short_cirs_) (e : Executable) : 1 ≤ complexityScore k e := by
  unfold complexityScore
  split
  · exact le_refl _
  · split
    · exact le_refl _
    · rename_i kv hf
      obtain ⟨h1, h2, h3, h4⟩ := hk kv (List.mem_of_find?_eq_some hf)
      simp only
      have : (1 : Int) ≤ 1 + (kv.2.calls_.length : Int) + kv.2.controls_ + kv.2.switch_cases_ +
          kv.2.cond_expr_ + kv.2.short_cirs_ := by omega
      exact_mod_cast this

theorem sum_pos_of_one_le : ∀ (w : List ℚ), (∀ x ∈ w, 1 ≤ x) → w ≠ [] → 0 < w.sum := by
  intro w
  induction w with
  | nil => intro _ h; exact absurd rfl h
  | cons x xs ih =>
    intro h _
    rw [List.sum_cons]
    have hx : (1 : ℚ) ≤ x := h x (List.mem_cons_self _ _)
    have hs : 0 ≤ xs.sum := by
      cases xs with
      | nil => simp
      | cons y ys =>
        exact le_of_lt (ih (fun z hz => h z (List.mem_cons_of_mem _ hz)) (by simp))
    linarith

theorem NextExecutableIndex_spec (ex : List Executable)
    (k : List (String × StatementVisitorResult)) (p : ℚ) (hne : ex ≠ [])
    (hW : (ex.map (complexityScore k)).sum ≠ 0) (hp0 : 0 ≤ p) (hp1 : p < 1) :
    ∃ i, i < ex.length ∧ NextExecutableIndex ex k p = some i ∧
      ((ex.map (complexityScore k)).take i).sum / (ex.map (complexityScore k)).sum ≤ p ∧
      p ≤ ((ex.map (complexityScore k)).take (i + 1)).sum / (ex.map (complexityScore k)).sum := by
  have hn : 0 < ex.length := List.length_pos.mpr hne
  generalize hw : ex.map (complexityScore k) = w at hW ⊢
  have hwl : w.length = ex.length := by rw [← hw, List.length_map]
  have hlast : (cumulative 0 w).getLastD 0 = w.sum := by
    rw [cumulative_last w 0 (by omega)]; simp
  have hget : ∀ j, j < ex.length →
      ((cumulative 0 w).map (fun x => x / w.sum)).get? j = some ((w.take (j + 1)).sum / w.sum) := by
    intro j hj
    rw [List.get?_eq_getElem?, List.getElem?_map, ← List.get?_eq_getElem?,
      cumulative_get w 0 j (by omega)]
    simp
  have hgetD : ∀ j, j < ex.length →
      ((cumulative 0 w).map (fun x => x / w.sum)).getD j 0 = (w.take (j + 1)).sum / w.sum := by
    intro j hj
    have := hget j hj
    rw [List.get?_eq_getElem?] at this
    rw [List.getD_eq_getElem?_getD, this]
    rfl
  obtain ⟨s1, s2, s3, s4⟩ := searchScore_spec ((cumulative 0 w).map (fun x => x / w.sum)) p
    ex.length ex.length 0 ex.length hn (le_refl _) (Or.inl rfl) (Or.inl rfl) (by omega)
  unfold NextExecutableIndex
  simp only [hw, hlast]
  generalize searchScore ((cumulative 0 w).map (fun x => x / w.sum)) p ex.length 0 ex.length = res
    at s1 s2 s3 s4
  obtain ⟨lo, hi⟩ := res
  simp only at s1 s2 s3 s4 ⊢
  have hlo : lo < ex.length := by omega
  rw [hget lo hlo]
  simp only
  by_cases hc : (w.take (lo + 1)).sum / w.sum > p
  · rw [if_pos hc]
    have hlo0 : lo = 0 := by
      rcases s3 with h | h
      · exact h
      · rw [hgetD lo hlo] at h
        exact absurd hc (not_lt.mpr (le_of_lt h))
    subst hlo0
    refine ⟨0, hn, rfl, ?_, le_of_lt hc⟩
    simpa using hp0
  · rw [if_neg hc]
    have hhi : hi < ex.length := by
      by_contra hge
      have e : lo + 1 = ex.length := by omega
      apply hc
      rw [e, ← hwl, List.take_length, div_self hW]
      exact hp1
    refine ⟨hi, hhi, rfl, ?_, ?_⟩
    · rw [← s1]
      exact not_lt.mp hc
    · rcases s4 with h | h
      · omega
      · rw [hgetD hi hhi] at h
        exact h

/-- C24. Let the executable list be non-empty and the counters of the summary be
non-negative. Without a summary (or in random mode) `NextExecutable` returns
the executable at the uniformly drawn index. With a summary the weight of an
executable is 1 when it has no mangled name or no entry and
1 + calls + controls + switch cases + conditional expressions + short circuits
of its entry otherwise, and for every draw `p` of `[0, 1)`, in exact
arithmetic, the index `i` selected is in range and satisfies
`(w_0 + ... + w_(i-1)) / W ≤ p ≤ (w_0 + ... + w_i) / W`, where `W` is the
total weight; `NextExecutable` returns the executable at the index selected
for its draw. -/
theorem C24_NextExecutable (ex : List Executable) (mode : FunctionSelectorMode)
    (k : List (String × StatementVisitorResult)) (r : Random) (hne : ex ≠ [])
    (hk : ∀ kv ∈ k, 0 ≤ kv.2.controls_ ∧ 0 ≤ kv.2.switch_cases_ ∧ 0 ≤ kv.2.cond_expr_ ∧
      0 ≤ kv.2.short_cirs_) :
    ((mode = .kRandom ∨ k.isEmpty = true) →
      r.raw % ex.length < ex.length ∧
      NextExecutable ex mode k r = (ex.get? (r.raw % ex.length)).map (fun e => (e, r.advance))) ∧
    (¬ (mode = .kRandom ∨ k.isEmpty = true) →
      (∀ e, e.mangled_name_.isEmpty = true → complexityScore k e = 1) ∧
      (∀ e, k.find? (fun kv => kv.1 == e.mangled_name_) = none → complexityScore k e = 1) ∧
      (∀ e kv, e.mangled_name_.isEmpty = false →
        k.find? (fun kv => kv.1 == e.mangled_name_) = some kv →
        complexityScore k e = (((1 + (kv.2.calls_.length : Int) + kv.2.controls_ +
          kv.2.switch_cases_ + kv.2.cond_expr_ + kv.2.short_cirs_ : Int) : ℚ))) ∧
      (∀ p : ℚ, 0 ≤ p → p < 1 →
        ∃ i, i < ex.length ∧ NextExecutableIndex ex k p = some i ∧
          ((ex.map (complexityScore k)).take i).sum / (ex.map (complexityScore k)).sum ≤ p ∧
          p ≤ ((ex.map (complexityScore k)).take (i + 1)).sum /
            (ex.map (complexityScore k)).sum) ∧
      ∃ i e, NextExecutableIndex ex k ((r.NextGaussian.1 : ℚ) / 1000) = some i ∧
        ex.get? i = some e ∧ NextExecutable ex mode k r = some (e, r.advance)) := by
  have hn : 0 < ex.length := List.length_pos.mpr hne
  have hW : (ex.map (complexityScore k)).sum ≠ 0 := by
    apply ne_of_gt
    apply sum_pos_of_one_le
    · intro x hx
      obtain ⟨e, _, rfl⟩ := List.mem_map.mp hx
      exact complexityScore_pos k hk e
    · simpa using hne
  refine ⟨?_, ?_⟩
  · intro hm
    have hlt : r.raw % ex.length < ex.length := Nat.mod_lt _ hn
    refine ⟨hlt, ?_⟩
    unfold NextExecutable
    rw [if_pos hm]
    have hb : ((ex.length : Nat) : Int) > 0 := by exact_mod_cast hn
    simp only [Random.NextInt, hb, if_true]
    have : ((r.raw : Int) % (ex.length : Int)).toNat = r.raw % ex.length := by
      rw [← Int.natCast_mod]; rfl
    rw [this]
  · intro hm
    have hspec := fun p hp0 hp1 => NextExecutableIndex_spec ex k p hne hW hp0 hp1
    refine ⟨?_, ?_, ?_, hspec, ?_⟩
    · intro e he
      unfold complexityScore
      rw [if_pos he]
    · intro e he
      unfold complexityScore
      split
      · rfl
      · rw [he]
    · intro e kv he hf
      unfold complexityScore
      rw [if_neg (by rw [he]; decide), hf]
    · have hg : r.raw % 1000 < 1000 := Nat.mod_lt _ (by decide)
      obtain ⟨i, hi, hidx, _, _⟩ := hspec ((r.NextGaussian.1 : ℚ) / 1000)
        (by positivity)
        (by
          rw [div_lt_one (by norm_num)]
          have : r.NextGaussian.1 < 1000 := hg
          exact_mod_cast this)
      obtain ⟨e, he⟩ : ∃ e, ex.get? i = some e := ⟨ex.get ⟨i, hi⟩, List.get?_eq_get hi⟩
      refine ⟨i, e, hidx, he, ?_⟩
      rw [NextExecutable_eq_index ex mode k r hm, hidx]
      simp only [Option.some_bind, he, Option.map_some']

theorem C24_NextExecutable_witness :
    ∃ i e, NextExecutableIndex [Examples.fExe, Examples.fMangled] Examples.summaryF
        ((Examples.zeroRandom.NextGaussian.1 : ℚ) / 1000) = some i ∧
      [Examples.fExe, Examples.fMangled].get? i = some e ∧
      NextExecutable [Examples.fExe, Examples.fMangled] .kComplexityBased Examples.summaryF
        Examples.zeroRandom = some (e, Examples.zeroRandom.advance) :=
  ((C24_NextExecutable [Examples.fExe, Examples.fMangled] .kComplexityBased Examples.summaryF
    Examples.zeroRandom (by simp)
    (by
      intro kv hkv
      simp only [Examples.summaryF, List.mem_singleton] at hkv
      subst hkv
      decide)).2 (by decide)).2.2.2.2

/-! ## The filtering loop of the analyzer -/

theorem foldl_grow {γ β : Type} (f : List γ × Bool → β → List γ × Bool) (new : β → List γ)
    (hmem : ∀ a b x, x ∈ (f a b).1 ↔ x ∈ a.1 ∨ x ∈ new b)
    (hff : ∀ a b, (f a b).2 = false → a.2 = false ∧ (f a b).1 = a.1)
    (hft : ∀ a b, (f a b).2 = true → a.2 = true ∨ ∃ x ∈ (f a b).1, x ∉ a.1) :
    ∀ (l : List β) (a : List γ × Bool),
      (∀ x, x ∈ (l.foldl f a).1 ↔ x ∈ a.1 ∨ ∃ b ∈ l, x ∈ new b) ∧
      ((l.foldl f a).2 = false → a.2 = false ∧ (l.foldl f a).1 = a.1) ∧
      ((l.foldl f a).2 = true → a.2 = true ∨ ∃ x ∈ (l.foldl f a).1, x ∉ a.1) := by
  intro l
  induction l with
  | nil =>
    intro a
    simp
  | cons b rest ih =>
    intro a
    obtain ⟨i1, i2, i3⟩ := ih (f a b)
    simp only [List.foldl_cons]
    refine ⟨?_, ?_, ?_⟩
    · intro x
      rw [i1 x, hmem a b x]
      simp only [List.mem_cons, exists_eq_or_imp]
      tauto
    · intro h
      obtain ⟨h1, h2⟩ := i2 h
      obtain ⟨h3, h4⟩ := hff a b h1
      exact ⟨h3, by rw [h2, h4]⟩
    · intro h
      rcases i3 h with h1 | ⟨x, hx, hxn⟩
      · rcases hft a b h1 with h2 | ⟨x, hx, hxn⟩
        · exact Or.inl h2
        · exact Or.inr ⟨x, (i1 x).mpr (Or.inl hx), hxn⟩
      · exact Or.inr ⟨x, hx, fun hxa => hxn ((hmem a b x).mpr (Or.inl hxa))⟩

theorem insertBases_spec (bases : List ClassTypeModel) (a : List ClassTypeModel × Bool) :
    (∀ x, x ∈ (insertBases bases a).1 ↔ x ∈ a.1 ∨ x ∈ bases) ∧
    ((insertBases bases a).2 = false → a.2 = false ∧ (insertBases bases a).1 = a.1) ∧
    ((insertBases bases a).2 = true → a.2 = true ∨ ∃ x ∈ (insertBases bases a).1, x ∉ a.1) := by
  have h := foldl_grow
    (fun (a : List ClassTypeModel × Bool) (item : ClassTypeModel) =>
      if a.1.count item > 0 then a else (a.1 ++ [item], true))
    (fun item => [item])
    (by
      intro a b x
      by_cases hc : a.1.count b > 0
      · simp only [hc, if_true, List.mem_singleton]
        constructor
        · exact Or.inl
        · rintro (h | h)
          · exact h
          · subst h; exact List.count_pos_iff.mp hc
      · simp only [hc, if_false, List.mem_append, List.mem_singleton])
    (by
      intro a b h
      by_cases hc : a.1.count b > 0
      · simp only [hc, if_true] at h ⊢
        exact ⟨h, trivial⟩
      · simp only [hc, if_false] at h
        cases h)
    (by
      intro a b h
      by_cases hc : a.1.count b > 0
      · simp only [hc, if_true] at h
        exact Or.inl h
      · refine Or.inr ⟨b, ?_, ?_⟩
        · simp only [hc, if_false, List.mem_append, List.mem_singleton, or_true]
        · intro hb
          exact hc (List.count_pos_iff.mpr hb))
    bases a
  obtain ⟨h1, h2, h3⟩ := h
  refine ⟨?_, h2, h3⟩
  intro x
  have := h1 x
  simp only [List.mem_singleton, exists_eq_right'] at this
  exact this

theorem hasCreatorsRound_spec (itm : InheritanceTreeModel) (s : List ClassTypeModel) :
    (∀ x, x ∈ (hasCreatorsRound itm s).1 ↔ x ∈ s ∨ ∃ c ∈ s, x ∈ itm.LookupBaseClasses c) ∧
    ((hasCreatorsRound itm s).2 = false → (hasCreatorsRound itm s).1 = s) ∧
    ((hasCreatorsRound itm s).2 = true → ∃ x ∈ (hasCreatorsRound itm s).1, x ∉ s) := by
  obtain ⟨h1, h2, h3⟩ := foldl_grow
    (fun (a : List ClassTypeModel × Bool) (class_model : ClassTypeModel) =>
      insertBases (itm.LookupBaseClasses class_model) a)
    (fun c => itm.LookupBaseClasses c)
    (fun a b x => (insertBases_spec _ a).1 x)
    (fun a b => (insertBases_spec _ a).2.1)
    (fun a b => (insertBases_spec _ a).2.2)
    s (s, false)
  refine ⟨h1, fun h => (h2 h).2, fun h => ?_⟩
  rcases h3 h with h | h
  · cases h
  · exact h

theorem LookupBaseClasses_sub (itm : InheritanceTreeModel) (c x : ClassTypeModel)
    (h : x ∈ itm.LookupBaseClasses c) :
    x ∈ itm.parent_classes_.flatMap (fun kv => kv.2) := by
  unfold InheritanceTreeModel.LookupBaseClasses at h
  split at h
  · cases h
  · rename_i kv hf
    exact List.mem_flatMap.mpr ⟨kv, List.mem_of_find?_eq_some hf, h⟩

theorem closed_derives (itm : InheritanceTreeModel) (s : List ClassTypeModel)
    (hcl : ∀ c ∈ s, ∀ x ∈ itm.LookupBaseClasses c, x ∈ s) (d x : ClassTypeModel)
    (hd : d ∈ s) (h : Derives itm d x) : x ∈ s := by
  unfold Derives at h
  induction h with
  | refl => exact hd
  | tail _ hstep ih => exact hcl _ ih _ hstep

theorem hasCreatorsLoop_spec (itm : InheritanceTreeModel) :
    ∀ (fuel : Nat) (s : List ClassTypeModel),
      ((itm.parent_classes_.flatMap (fun kv => kv.2)).toFinset \ s.toFinset).card < fuel →
      ∃ r, hasCreatorsLoop itm fuel s = some r ∧ ∀ x, x ∈ r ↔ ∃ d ∈ s, Derives itm d x := by
  intro fuel
  induction fuel with
  | zero => intro s h; exact absurd h (Nat.not_lt_zero _)
  | succ fuel ih =>
    intro s hμ
    obtain ⟨h1, h2, h3⟩ := hasCreatorsRound_spec itm s
    rw [hasCreatorsLoop]
    cases hb : (hasCreatorsRound itm s).2 with
    | false =>
      have hs := h2 hb
      have hcl : ∀ c ∈ s, ∀ x ∈ itm.LookupBaseClasses c, x ∈ s := by
        intro c hc x hx
        have := (h1 x).mpr (Or.inr ⟨c, hc, hx⟩)
        rw [hs] at this
        exact this
      refine ⟨(hasCreatorsRound itm s).1, ?_, ?_⟩
      · simp only [hb, Bool.false_eq_true, if_false]
      · intro x
        rw [hs]
        constructor
        · intro hx
          exact ⟨x, hx, Relation.ReflTransGen.refl⟩
        · rintro ⟨d, hd, hder⟩
          exact closed_derives itm s hcl d x hd hder
    | true =>
      obtain ⟨y, hy, hyn⟩ := h3 hb
      have hyU : y ∈ itm.parent_classes_.flatMap (fun kv => kv.2) := by
        rcases (h1 y).mp hy with h | ⟨c, _, hc⟩
        · exact absurd h hyn
        · exact LookupBaseClasses_sub itm c y hc
      have hlt : ((itm.parent_classes_.flatMap (fun kv => kv.2)).toFinset \
          (hasCreatorsRound itm s).1.toFinset).card <
          ((itm.parent_classes_.flatMap (fun kv => kv.2)).toFinset \ s.toFinset).card := by
        apply Finset.card_lt_card
        rw [Finset.ssubset_iff_of_subset]
        · refine ⟨y, ?_, ?_⟩
          · simp only [Finset.mem_sdiff, List.mem_toFinset]
            exact ⟨hyU, hyn⟩
          · simp only [Finset.mem_sdiff, List.mem_toFinset, not_and, not_not]
            intro _
            exact hy
        · intro z hz
          simp only [Finset.mem_sdiff, List.mem_toFinset] at hz ⊢
          exact ⟨hz.1, fun hzs => hz.2 ((h1 z).mpr (Or.inl hzs))⟩
      obtain ⟨r, hr, hmem⟩ := ih (hasCreatorsRound itm s).1 (by omega)
      refine ⟨r, ?_, ?_⟩
      · simp only [hb, if_true]
        exact hr
      · intro x
        rw [hmem x]
        constructor
        · rintro ⟨d, hd, hder⟩
          rcases (h1 d).mp hd with h | ⟨c, hc, hcd⟩
          · exact ⟨d, h, hder⟩
          · exact ⟨c, hc, Relation.ReflTransGen.head hcd hder⟩
        · rintro ⟨d, hd, hder⟩
          exact ⟨d, (h1 d).mpr (Or.inl hd), hder⟩

theorem hasCreatorsLoop_total (itm : InheritanceTreeModel) (s : List ClassTypeModel) :
    ∃ r, hasCreatorsLoop itm ((itm.parent_classes_.flatMap (fun kv => kv.2)).length + 1) s = some r ∧
      ∀ x, x ∈ r ↔ ∃ d ∈ s, Derives itm d x := by
  apply hasCreatorsLoop_spec
  have h1 : ((itm.parent_classes_.flatMap (fun kv => kv.2)).toFinset \ s.toFinset).card ≤
      (itm.parent_classes_.flatMap (fun kv => kv.2)).toFinset.card :=
    Finset.card_le_card Finset.sdiff_subset
  have h2 := List.toFinset_card_le (itm.parent_classes_.flatMap (fun kv => kv.2))
  omega

theorem mem_creatorTargets (cr : List Creator) (x : ClassTypeModel) :
    x ∈ creatorTargets cr ↔ ∃ c ∈ cr, c.target_class_ = x := by
  unfold creatorTargets
  have : ∀ (l : List Creator) (acc : List ClassTypeModel),
      x ∈ l.foldl (fun acc creator =>
        if acc.count creator.target_class_ > 0 then acc else acc ++ [creator.target_class_]) acc ↔
      x ∈ acc ∨ ∃ c ∈ l, c.target_class_ = x := by
    intro l
    induction l with
    | nil => intro acc; simp
    | cons c rest ih =>
      intro acc
      simp only [List.foldl_cons, List.mem_cons, exists_eq_or_imp]
      rw [ih]
      by_cases hc : acc.count c.target_class_ > 0
      · simp only [hc, if_true]
        constructor
        · rintro (h | h)
          · exact Or.inl h
          · exact Or.inr (Or.inr h)
        · rintro (h | h | h)
          · exact Or.inl h
          · exact Or.inl (h ▸ List.count_pos_iff.mp hc)
          · exact Or.inr h
      · simp only [hc, if_false, List.mem_append, List.mem_singleton]
        constructor
        · rintro ((h | h) | h)
          · exact Or.inl h
          · exact Or.inr (Or.inl h.symm)
          · exact Or.inr (Or.inr h)
        · rintro (h | h | h)
          · exact Or.inl (Or.inl h)
          · exact Or.inl (Or.inr h.symm)
          · exact Or.inr h
  rw [this cr []]
  simp

theorem executable_filter_total (hc : List ClassTypeModel) (ign : List String) (e : Executable)
    (hwf : e.is_not_require_invoking_obj_ = false → e.owner_.isSome = true) :
    ∃ b, executable_filter hc ign e = .ok b := by
  unfold executable_filter
  simp only
  split
  · exact ⟨_, rfl⟩
  · cases hr : e.is_not_require_invoking_obj_ with
    | true =>
      simp only [Bool.not_true, Bool.false_eq_true, if_false]
      repeat' split
      all_goals exact ⟨_, rfl⟩
    | false =>
      obtain ⟨o, ho⟩ := Option.isSome_iff_exists.mp (hwf hr)
      simp only [Bool.not_false, if_true, ho]
      repeat' split
      all_goals first | exact ⟨_, rfl⟩ | (rename_i h; cases h)

theorem removeUnsatisfiable_spec {α : Type} (hc : List ClassTypeModel) (ign : List String)
    (toE : α → Executable) :
    ∀ (l : List α),
      (∀ e ∈ l, (toE e).is_not_require_invoking_obj_ = false → (toE e).owner_.isSome = true) →
      ∃ kept, removeUnsatisfiable hc ign toE l = .ok kept ∧ kept.Sublist l ∧
        (∀ e ∈ kept, executable_filter hc ign (toE e) = .ok false) ∧
        ((∀ e ∈ l, executable_filter hc ign (toE e) = .ok false) → kept = l) := by
  intro l
  induction l with
  | nil =>
    intro _
    exact ⟨[], rfl, List.Sublist.refl _, by simp, fun _ => rfl⟩
  | cons e rest ih =>
    intro hwf
    obtain ⟨kept, hk, hsub, hall, hsame⟩ := ih (fun x hx => hwf x (List.mem_cons_of_mem _ hx))
    obtain ⟨b, hb⟩ := executable_filter_total hc ign (toE e) (hwf e (List.mem_cons_self _ _))
    rw [removeUnsatisfiable, hb, hk]
    simp only
    cases b with
    | true =>
      refine ⟨kept, rfl, List.Sublist.cons _ hsub, hall, ?_⟩
      intro h
      have := h e (List.mem_cons_self _ _)
      rw [hb] at this
      cases this
    | false =>
      refine ⟨e :: kept, rfl, List.Sublist.cons₂ _ hsub, ?_, ?_⟩
      · intro x hx
        rcases List.mem_cons.mp hx with rfl | hx
        · exact hb
        · exact hall x hx
      · intro h
        rw [hsame (fun x hx => h x (List.mem_cons_of_mem _ hx))]

theorem Filter_eq (ex : List Executable) (cr : List Creator) (itm : InheritanceTreeModel)
    (ign : List String) (hc : List ClassTypeModel) (kept1 : List Executable)
    (kept2 : List Creator)
    (h1 : hasCreatorsLoop itm ((itm.parent_classes_.flatMap (fun kv => kv.2)).length + 1)
      (creatorTargets cr) = some hc)
    (h2 : removeUnsatisfiable hc
      (if ign.count "_Z3_config" > 0 then ign else ign ++ ["_Z3_config"]) id ex = .ok kept1)
    (h3 : removeUnsatisfiable hc
      (if ign.count "_Z3_config" > 0 then ign else ign ++ ["_Z3_config"]) Creator.toExecutable cr =
        .ok kept2) :
    FilterOutUnsatisfiableExecutables ex cr itm ign =
      .ok ⟨((ex.length : Int) - (kept1.length : Int)) +
          (if decide (cr.length - kept2.length ≠ 0) = true then 1 else 0),
        kept1, kept2, if ign.count "_Z3_config" > 0 then ign else ign ++ ["_Z3_config"]⟩ := by
  unfold FilterOutUnsatisfiableExecutables
  simp only [h1, h2, h3]

theorem ignored_insert_idem (ign : List String) :
    (if (if ign.count "_Z3_config" > 0 then ign else ign ++ ["_Z3_config"]).count "_Z3_config" > 0
      then (if ign.count "_Z3_config" > 0 then ign else ign ++ ["_Z3_config"])
      else (if ign.count "_Z3_config" > 0 then ign else ign ++ ["_Z3_config"]) ++ ["_Z3_config"]) =
    (if ign.count "_Z3_config" > 0 then ign else ign ++ ["_Z3_config"]) := by
  by_cases h : ign.count "_Z3_config" > 0
  · simp only [h, if_true]
  · simp only [h, if_false]
    rw [if_pos]
    rw [List.count_append]
    simp

theorem Filter_pass (ex : List Executable) (cr : List Creator) (itm : InheritanceTreeModel)
    (ign : List String)
    (hwf1 : ∀ e ∈ ex, e.is_not_require_invoking_obj_ = false → e.owner_.isSome = true)
    (hwf2 : ∀ c ∈ cr, c.is_not_require_invoking_obj_ = false → c.owner_.isSome = true) :
    ∃ (hc : List ClassTypeModel) (res : FilterResult),
      hasCreatorsLoop itm ((itm.parent_classes_.flatMap (fun kv => kv.2)).length + 1)
        (creatorTargets cr) = some hc ∧
      (∀ x, x ∈ hc ↔ ∃ c ∈ cr, Derives itm c.target_class_ x) ∧
      FilterOutUnsatisfiableExecutables ex cr itm ign = .ok res ∧
      res.ignored_cls = (if ign.count "_Z3_config" > 0 then ign else ign ++ ["_Z3_config"]) ∧
      res.all_executables.Sublist ex ∧ res.all_creators.Sublist cr ∧
      (∀ e ∈ res.all_executables, executable_filter hc res.ignored_cls e = .ok false) ∧
      (∀ c ∈ res.all_creators, executable_filter hc res.ignored_cls c.toExecutable = .ok false) ∧
      0 ≤ res.returned ∧
      (res.returned = 0 ↔ (res.all_executables = ex ∧ res.all_creators = cr)) ∧
      (0 < res.returned →
        res.all_executables.length + res.all_creators.length < ex.length + cr.length) ∧
      ((∀ e ∈ ex, executable_filter hc res.ignored_cls e = .ok false) →
        (∀ c ∈ cr, executable_filter hc res.ignored_cls c.toExecutable = .ok false) →
        res.returned = 0) := by
  obtain ⟨hc, hloop, hmem⟩ := hasCreatorsLoop_total itm (creatorTargets cr)
  obtain ⟨kept1, hk1, hsub1, hall1, hsame1⟩ := removeUnsatisfiable_spec hc
    (if ign.count "_Z3_config" > 0 then ign else ign ++ ["_Z3_config"]) id ex hwf1
  obtain ⟨kept2, hk2, hsub2, hall2, hsame2⟩ := removeUnsatisfiable_spec hc
    (if ign.count "_Z3_config" > 0 then ign else ign ++ ["_Z3_config"]) Creator.toExecutable cr hwf2
  have hl1 := hsub1.length_le
  have hl2 := hsub2.length_le
  have hiff : ((ex.length : Int) - (kept1.length : Int)) +
      (if decide (cr.length - kept2.length ≠ 0) = true then 1 else 0) = 0 ↔
      (kept1 = ex ∧ kept2 = cr) := by
    constructor
    · intro h
      by_cases hd : cr.length - kept2.length ≠ 0
      · rw [if_pos (decide_eq_true hd)] at h
        omega
      · rw [if_neg (by simpa using hd)] at h
        have hd2 : cr.length - kept2.length = 0 := not_not.mp hd
        exact ⟨hsub1.eq_of_length (by omega), hsub2.eq_of_length (by omega)⟩
    · rintro ⟨h1, h2⟩
      rw [h1, h2]
      simp
  refine ⟨hc, _, hloop, ?_, Filter_eq ex cr itm ign hc kept1 kept2 hloop hk1 hk2, rfl, hsub1, hsub2,
    hall1, hall2, ?_, hiff, ?_, ?_⟩
  · intro x
    rw [hmem x]
    constructor
    · rintro ⟨d, hd, hder⟩
      obtain ⟨c, hcm, rfl⟩ := (mem_creatorTargets cr d).mp hd
      exact ⟨c, hcm, hder⟩
    · rintro ⟨c, hcm, hder⟩
      exact ⟨c.target_class_, (mem_creatorTargets cr _).mpr ⟨c, hcm, rfl⟩, hder⟩
  · simp only
    split <;> omega
  · simp only
    intro h
    by_cases hd : cr.length - kept2.length ≠ 0
    · omega
    · rw [if_neg (by simpa using hd)] at h
      omega
  · intro h1 h2
    exact hiff.mpr ⟨hsame1 h1, hsame2 h2⟩

theorem filterLoop_mono (itm : InheritanceTreeModel) :
    ∀ (fuel : Nat) (ex : List Executable) (cr : List Creator) (ign : List String) (total : Int)
      (r : List Executable × List Creator × List String × Int),
      filterLoop itm fuel ex cr ign total = .ok r →
      filterLoop itm (fuel + 1) ex cr ign total = .ok r := by
  intro fuel
  induction fuel with
  | zero => intro ex cr ign total r h; cases h
  | succ fuel ih =>
    intro ex cr ign total r h
    rw [filterLoop] at h ⊢
    cases hp : FilterOutUnsatisfiableExecutables ex cr itm ign with
    | error f => rw [hp] at h; cases h
    | ok res =>
      rw [hp] at h
      simp only at h ⊢
      by_cases hr : res.returned > 0
      · rw [if_pos hr] at h ⊢
        exact ih _ _ _ _ _ h
      · rw [if_neg hr] at h ⊢
        exact h

theorem filterLoop_mono_le (itm : InheritanceTreeModel) (fuel fuel1 : Nat) (ex : List Executable)
    (cr : List Creator) (ign : List String) (total : Int)
    (r : List Executable × List Creator × List String × Int)
    (h : filterLoop itm fuel ex cr ign total = .ok r) (hle : fuel ≤ fuel1) :
    filterLoop itm fuel1 ex cr ign total = .ok r := by
  induction hle with
  | refl => exact h
  | step _ ih => exact filterLoop_mono itm _ ex cr ign total r ih

theorem filterLoop_spec (itm : InheritanceTreeModel) :
    ∀ (fuel : Nat) (ex : List Executable) (cr : List Creator) (ign : List String) (total : Int),
      (∀ e ∈ ex, e.is_not_require_invoking_obj_ = false → e.owner_.isSome = true) →
      (∀ c ∈ cr, c.is_not_require_invoking_obj_ = false → c.owner_.isSome = true) →
      ex.length + cr.length < fuel →
      ∃ ex1 cr1 ign1 total1 hc,
        filterLoop itm fuel ex cr ign total = .ok (ex1, cr1, ign1, total1) ∧
        ex1.Sublist ex ∧ cr1.Sublist cr ∧ ign1.count "_Z3_config" > 0 ∧
        hasCreatorsLoop itm ((itm.parent_classes_.flatMap (fun kv => kv.2)).length + 1)
          (creatorTargets cr1) = some hc ∧
        (∀ x, x ∈ hc ↔ ∃ c ∈ cr1, Derives itm c.target_class_ x) ∧
        (∀ e ∈ ex1, executable_filter hc ign1 e = .ok false) ∧
        (∀ c ∈ cr1, executable_filter hc ign1 c.toExecutable = .ok false) := by
  intro fuel
  induction fuel with
  | zero => intro ex cr ign total _ _ h; exact absurd h (Nat.not_lt_zero _)
  | succ fuel ih =>
    intro ex cr ign total hwf1 hwf2 hlen
    obtain ⟨hc, res, hloop, hmem, hpass, hign, hsub1, hsub2, hall1, hall2, hnn, hiff, hlt, _⟩ :=
      Filter_pass ex cr itm ign hwf1 hwf2
    rw [filterLoop, hpass]
    simp only
    by_cases hr : res.returned > 0
    · rw [if_pos hr]
      obtain ⟨ex1, cr1, ign1, total1, hc1, h1, h2, h3, h4, h5, h6, h7, h8⟩ :=
        ih res.all_executables res.all_creators res.ignored_cls (total + res.returned)
          (fun e he => hwf1 e (hsub1.subset he)) (fun c hcm => hwf2 c (hsub2.subset hcm))
          (by have := hlt hr; omega)
      exact ⟨ex1, cr1, ign1, total1, hc1, h1, h2.trans hsub1, h3.trans hsub2, h4, h5, h6, h7, h8⟩
    · rw [if_neg hr]
      have h0 : res.returned = 0 := by omega
      obtain ⟨e1, e2⟩ := hiff.mp h0
      refine ⟨res.all_executables, res.all_creators, res.ignored_cls, total + res.returned, hc,
        rfl, hsub1, hsub2, ?_, ?_, ?_, hall1, hall2⟩
      · rw [hign]
        by_cases h : ign.count "_Z3_config" > 0
        · simp only [h, if_true]
        · simp only [h, if_false]
          rw [List.count_append]
          simp
      · rw [e2]; exact hloop
      · rw [e2]; exact hmem

theorem satisfiable_twm (hc : List ClassTypeModel) (ign : List String) (T : TypeWithModifier)
    (h : is_unsatisfiable_twm hc ign T = false) :
    T.type_ ≠ none ∧ T.type_ ≠ some (.primitive .kNullptrType) ∧
    T.type_ ≠ some (.primitive .kVoid) ∧
    T.modifiers_.count .kPointer + T.modifiers_.count .kArray ≤ 1 ∧
    ∀ m, T.type_ = some (.cls m) → m ∈ hc ∧ ign.count m.qualified_name_ = 0 := by
  unfold is_unsatisfiable_twm at h
  cases ht : T.type_ with
  | none => rw [ht] at h; cases h
  | some ty =>
    rw [ht] at h
    try simp only at h
    have key : (decide (ty = .primitive .kNullptrType) ||
        decide (T.modifiers_.count Modifier.kPointer + T.modifiers_.count Modifier.kArray > 1)) =
          false ∧ ty ≠ .primitive .kVoid ∧
        ∀ m, ty = .cls m → is_unsatisfiable_cls hc ign m = false := by
      cases ty with
      | primitive v =>
        simp only [is_unsatisfiable_type_mods] at h
        split at h
        · cases h
        · rename_i hg
          refine ⟨by simpa using hg, ?_, (fun m e => by cases e)⟩
          intro e
          cases e
          simp at h
      | cls m0 =>
        simp only [is_unsatisfiable_type_mods] at h
        split at h
        · cases h
        · rename_i hg
          refine ⟨by simpa using hg, (fun e => by cases e), ?_⟩
          intro m e
          cases e
          exact h
      | enum m0 =>
        simp only [is_unsatisfiable_type_mods] at h
        split at h
        · cases h
        · rename_i hg
          exact ⟨by simpa using hg, (fun e => by cases e), (fun m e => by cases e)⟩
      | templateTypename a n =>
        simp only [is_unsatisfiable_type_mods] at h
        split at h
        · cases h
        · rename_i hg
          exact ⟨by simpa using hg, (fun e => by cases e), (fun m e => by cases e)⟩
      | templateTypenameSpc t l =>
        simp only [is_unsatisfiable_type_mods] at h
        split at h
        · cases h
        · rename_i hg
          exact ⟨by simpa using hg, (fun e => by cases e), (fun m e => by cases e)⟩
      | stl t =>
        simp only [is_unsatisfiable_type_mods] at h
        split at h
        · cases h
        · rename_i hg
          exact ⟨by simpa using hg, (fun e => by cases e), (fun m e => by cases e)⟩
    obtain ⟨k1, k2, k3⟩ := key
    simp only [Bool.or_eq_false_iff, decide_eq_false_iff_not, not_lt] at k1
    refine ⟨by simp, ?_, ?_, by omega, ?_⟩
    · intro e
      exact k1.1 (Option.some.inj e)
    · intro e
      exact k2 (Option.some.inj e)
    · intro m e
      have hm := k3 m (Option.some.inj e)
      simp only [is_unsatisfiable_cls, Bool.or_eq_false_iff, decide_eq_false_iff_not,
        not_lt, Nat.le_zero_eq] at hm
      refine ⟨?_, hm.2⟩
      by_contra hmm
      exact hm.1 (List.count_eq_zero.mpr hmm)

theorem filter_false_args (hc : List ClassTypeModel) (ign : List String) (e : Executable)
    (h : executable_filter hc ign e = .ok false) :
    ∀ arg ∈ e.arguments_, is_unsatisfiable_twm hc ign arg.twm = false := by
  unfold executable_filter at h
  simp only at h
  by_cases ha : (e.arguments_.any (fun arg =>
      is_unsatisfiable_twm hc ign (TypeWithModifier.FromSpecByClangType arg))) = true
  · rw [if_pos ha] at h
    cases h
  · intro arg harg
    by_contra hu
    apply ha
    rw [List.any_eq_true]
    exact ⟨arg, harg, by simpa [TypeWithModifier.FromSpecByClangType] using hu⟩

/-- C23. Let every executable and creator that requires an invoking object have an
owner. Each pass of `FilterOutUnsatisfiableExecutables` returns, and it
returns 0 if and only if it removed nothing. The loop of `Analyze` ends
within one pass per executable and creator, and one more. When it has ended,
one more pass over the executables and creators that remain returns 0 and
removes nothing, and every argument of a remaining executable or creator has
a type that is not bottom, not `nullptr_t`, not `void`, carries at most one
pointer or array modifier and, when it is a class, is the target class of a
remaining creator or a base, through the inheritance model, of such a class. -/
theorem C23_filter_fixpoint (itm : InheritanceTreeModel) (ex : List Executable)
    (cr : List Creator) (ign : List String)
    (hwf1 : ∀ e ∈ ex, e.is_not_require_invoking_obj_ = false → e.owner_.isSome = true)
    (hwf2 : ∀ c ∈ cr, c.is_not_require_invoking_obj_ = false → c.owner_.isSome = true) :
    (∀ (ex0 : List Executable) (cr0 : List Creator) (ign0 : List String),
      ex0.Sublist ex → cr0.Sublist cr →
      ∃ res, FilterOutUnsatisfiableExecutables ex0 cr0 itm ign0 = .ok res ∧
        res.all_executables.Sublist ex0 ∧ res.all_creators.Sublist cr0 ∧
        (res.returned = 0 ↔ (res.all_executables = ex0 ∧ res.all_creators = cr0))) ∧
    ∃ ex1 cr1 ign1 total,
      (∀ fuel, ex.length + cr.length < fuel →
        filterLoop itm fuel ex cr ign 0 = .ok (ex1, cr1, ign1, total)) ∧
      ex1.Sublist ex ∧ cr1.Sublist cr ∧
      FilterOutUnsatisfiableExecutables ex1 cr1 itm ign1 = .ok ⟨0, ex1, cr1, ign1⟩ ∧
      ∀ args, (args ∈ ex1.map (fun e => e.arguments_) ∨ args ∈ cr1.map (fun c => c.arguments_)) →
        ∀ arg ∈ args,
          (TypeWithModifier.FromSpecByClangType arg).IsBottomType = false ∧
          (TypeWithModifier.FromSpecByClangType arg).type_ ≠ some (.primitive .kNullptrType) ∧
          (TypeWithModifier.FromSpecByClangType arg).type_ ≠ some (.primitive .kVoid) ∧
          (TypeWithModifier.FromSpecByClangType arg).modifiers_.count .kPointer +
            (TypeWithModifier.FromSpecByClangType arg).modifiers_.count .kArray ≤ 1 ∧
          ∀ m, (TypeWithModifier.FromSpecByClangType arg).type_ = some (.cls m) →
            ∃ c ∈ cr1, Derives itm c.target_class_ m := by
  refine ⟨?_, ?_⟩
  · intro ex0 cr0 ign0 hs1 hs2
    obtain ⟨hc, res, _, _, hpass, _, hsub1, hsub2, _, _, _, hiff, _, _⟩ :=
      Filter_pass ex0 cr0 itm ign0 (fun e he => hwf1 e (hs1.subset he))
        (fun c hcm => hwf2 c (hs2.subset hcm))
    exact ⟨res, hpass, hsub1, hsub2, hiff⟩
  · obtain ⟨ex1, cr1, ign1, total1, hc, hrun, hs1, hs2, hign, hloop, hmem, hall1, hall2⟩ :=
      filterLoop_spec itm (ex.length + cr.length + 1) ex cr ign 0 hwf1 hwf2 (Nat.lt_succ_self _)
    refine ⟨ex1, cr1, ign1, total1, ?_, hs1, hs2, ?_, ?_⟩
    · intro fuel hf
      exact filterLoop_mono_le itm _ fuel ex cr ign 0 _ hrun (by omega)
    · obtain ⟨hc2, res, hloop2, _, hpass, hign2, _, _, _, _, _, hiff, _, hzero⟩ :=
        Filter_pass ex1 cr1 itm ign1 (fun e he => hwf1 e (hs1.subset he))
          (fun c hcm => hwf2 c (hs2.subset hcm))
      have ehc : hc2 = hc := Option.some.inj (hloop2.symm.trans hloop)
      have eign : res.ignored_cls = ign1 := by
        rw [hign2, if_pos hign]
      rw [ehc, eign] at hzero
      have h0 := hzero hall1 hall2
      obtain ⟨e1, e2⟩ := hiff.mp h0
      rw [hpass]
      congr 1
      cases res
      simp only at h0 e1 e2 eign
      rw [h0, e1, e2, eign]
    · intro args hargs arg harg
      have hsat : is_unsatisfiable_twm hc ign1 arg.twm = false := by
        rcases hargs with h | h
        · obtain ⟨e, he, rfl⟩ := List.mem_map.mp h
          exact filter_false_args hc ign1 e (hall1 e he) arg harg
        · obtain ⟨c, hcm, rfl⟩ := List.mem_map.mp h
          exact filter_false_args hc ign1 c.toExecutable (hall2 c hcm) arg harg
      obtain ⟨s1, s2, s3, s4, s5⟩ := satisfiable_twm hc ign1 arg.twm hsat
      refine ⟨?_, s2, s3, s4, ?_⟩
      · unfold TypeWithModifier.IsBottomType TypeWithModifier.FromSpecByClangType
        cases ht : arg.twm.type_ with
        | none => exact absurd ht s1
        | some _ => rfl
      · intro m hm
        exact (hmem m).mp (s5 m hm).1

theorem C23_filter_fixpoint_witness :
    filterLoop Examples.itmNone 4 [Examples.ctorA.toExecutable, Examples.hOnA] [Examples.ctorA] [] 0 =
      .ok ([], [], ["_Z3_config"], 3) ∧
    ∃ ex1 cr1 ign1 total,
      (∀ fuel, [Examples.ctorA.toExecutable, Examples.hOnA].length + [Examples.ctorA].length < fuel →
        filterLoop Examples.itmNone fuel [Examples.ctorA.toExecutable, Examples.hOnA]
          [Examples.ctorA] [] 0 = .ok (ex1, cr1, ign1, total)) ∧
      ex1.Sublist [Examples.ctorA.toExecutable, Examples.hOnA] ∧ cr1.Sublist [Examples.ctorA] ∧
      FilterOutUnsatisfiableExecutables ex1 cr1 Examples.itmNone ign1 = .ok ⟨0, ex1, cr1, ign1⟩ ∧
      ∀ args, (args ∈ ex1.map (fun e => e.arguments_) ∨ args ∈ cr1.map (fun c => c.arguments_)) →
        ∀ arg ∈ args,
          (TypeWithModifier.FromSpecByClangType arg).IsBottomType = false ∧
          (TypeWithModifier.FromSpecByClangType arg).type_ ≠ some (.primitive .kNullptrType) ∧
          (TypeWithModifier.FromSpecByClangType arg).type_ ≠ some (.primitive .kVoid) ∧
          (TypeWithModifier.FromSpecByClangType arg).modifiers_.count .kPointer +
            (TypeWithModifier.FromSpecByClangType arg).modifiers_.count .kArray ≤ 1 ∧
          ∀ m, (TypeWithModifier.FromSpecByClangType arg).type_ = some (.cls m) →
            ∃ c ∈ cr1, Derives Examples.itmNone c.target_class_ m :=
  ⟨rfl,
    (C23_filter_fixpoint Examples.itmNone [Examples.ctorA.toExecutable, Examples.hOnA]
      [Examples.ctorA] [] (by decide) (by decide)).2⟩

/-! ## The edits of a primitive assignment -/

theorem unary_pick (n : Nat) :
    kUnaryOperators.getD (n % kUnaryOperators.length) .kNop = .kNop ∨
    kUnaryOperators.getD (n % kUnaryOperators.length) .kNop = .kMinus := by
  have hk : n % kUnaryOperators.length < 2 := Nat.mod_lt _ (by decide)
  generalize n % kUnaryOperators.length = k at hk
  interval_cases k <;> decide

theorem binary_pick (n : Nat) :
    kBinaryOperators.getD (n % kBinaryOperators.length) .kNop = .kAdd ∨
    kBinaryOperators.getD (n % kBinaryOperators.length) .kNop = .kSub ∨
    kBinaryOperators.getD (n % kBinaryOperators.length) .kNop = .kMul ∨
    kBinaryOperators.getD (n % kBinaryOperators.length) .kNop = .kMod := by
  have hk : n % kBinaryOperators.length < 4 := Nat.mod_lt _ (by decide)
  generalize n % kBinaryOperators.length = k at hk
  interval_cases k <;> decide

/-- C33. Whenever `MutatePrimitiveAssignment` returns for a PrimitiveAssignment
statement, the result is a PrimitiveAssignment with the same result type and
the same number of operands. When the operator branch is taken (the draw is 0
and the statement is not enum-typed) the operands are unchanged and the new
operator is `nop` or `neg` for a unary statement and `add`, `sub`, `mul` or
`mod` for a binary one, never `div`. Otherwise, and so for every enum-typed
statement, the operator is unchanged. -/
theorem C33_MutatePrimitiveAssignment (stmt : Statement) (tc : TestCase) (st : GenState)
    (m : Mutated Statement) (op : GeneralPrimitiveOp) (operands : List Operand)
    (hb : stmt.body = .PrimitiveAssignmentStatement op operands)
    (h : MutatePrimitiveAssignment stmt tc st = .ok m) :
    m.value.type_ = stmt.type_ ∧
    ∃ ty op1 ops1, stmt.type_.type_ = some ty ∧
      m.value.body = .PrimitiveAssignmentStatement op1 ops1 ∧
      ops1.length = operands.length ∧
      ((ty.GetVariant ≠ .kEnum ∧ st.random.raw % 2 = 0) →
        ops1 = operands ∧ op1 ≠ .kDiv ∧
        (GetPrimitiveOperatorArity op = .kUnary → op1 = .kNop ∨ op1 = .kMinus) ∧
        (GetPrimitiveOperatorArity op = .kBinary →
          op1 = .kAdd ∨ op1 = .kSub ∨ op1 = .kMul ∨ op1 = .kMod)) ∧
      ((ty.GetVariant = .kEnum ∨ st.random.raw % 2 ≠ 0) → op1 = op) := by
  unfold MutatePrimitiveAssignment at h
  rw [hb] at h
  cases hty : stmt.type_.type_ with
  | none => rw [hty] at h; cases h
  | some ty =>
    rw [hty] at h
    simp only at h
    by_cases hc : (if decide (ty.GetVariant = .kEnum) = true then 1 else st.random.raw % 2) = 0
    · rw [if_pos hc] at h
      have hne : ty.GetVariant ≠ .kEnum := by
        intro he
        simp [he] at hc
      have h0 : st.random.raw % 2 = 0 := by
        simpa [hne] using hc
      cases h
      refine ⟨rfl, ty, _, operands, rfl, rfl, rfl, ?_, ?_⟩
      · intro _
        refine ⟨rfl, ?_, ?_, ?_⟩
        · by_cases ha : GetPrimitiveOperatorArity op = .kUnary
          · simp only [ha, if_true]
            rcases unary_pick st.random.advance.raw with e | e <;> rw [e] <;> decide
          · simp only [ha, if_false]
            rcases binary_pick st.random.advance.raw with e | e | e | e <;> rw [e] <;> decide
        · intro ha
          simp only [ha, if_true]
          exact unary_pick _
        · intro ha
          have ha2 : ¬ GetPrimitiveOperatorArity op = .kUnary := by rw [ha]; decide
          simp only [ha2, if_false]
          exact binary_pick _
      · rintro (he | hn)
        · exact absurd he hne
        · exact absurd h0 hn
    · rw [if_neg hc] at h
      repeat' (first | (cases h; done) | split at h | simp only at h)
      cases h
      refine ⟨rfl, ty, op, _, rfl, rfl, by simp, ?_, fun _ => rfl⟩
      rintro ⟨hne, h0⟩
      exfalso
      apply hc
      simp [hne, h0]

theorem C33_MutatePrimitiveAssignment_witness :
    ∃ m, MutatePrimitiveAssignment (Examples.sInt 0 "1")
        ⟨[Examples.sInt 0 "1"], TemplateTypeContext.New⟩
        ⟨Examples.zeroRandom, some ⟨[], []⟩, 1⟩ = .ok m ∧
      m.value.type_ = (Examples.sInt 0 "1").type_ ∧
      m.value.body = .PrimitiveAssignmentStatement .kNop
        [Operand.MakeConstantOperand Examples.kInt "1"] :=
  ⟨_, rfl, (C33_MutatePrimitiveAssignment (Examples.sInt 0 "1")
    ⟨[Examples.sInt 0 "1"], TemplateTypeContext.New⟩ ⟨Examples.zeroRandom, some ⟨[], []⟩, 1⟩ _
    .kNop [Operand.MakeConstantOperand Examples.kInt "1"] rfl rfl).1, rfl⟩

/-! ## StringStrip -/

theorem endLoop_none_iff : ∀ (l : List Char), StringStrip.endLoop l = none ↔ l.all isspace = true := by
  intro l
  induction l with
  | nil => simp [StringStrip.endLoop]
  | cons c rest ih =>
    by_cases hc : isspace c = true
    · simp only [StringStrip.endLoop, hc, if_true, Option.map_eq_none', ih, List.all_cons,
        Bool.true_and]
    · simp only [StringStrip.endLoop, hc, if_false, List.all_cons]
      simp [hc]

theorem endLoop_some : ∀ (l : List Char) (n : Nat), StringStrip.endLoop l = some n →
    n = (l.takeWhile isspace).length := by
  intro l
  induction l with
  | nil => intro n h; cases h
  | cons c rest ih =>
    intro n h
    by_cases hc : isspace c = true
    · simp only [StringStrip.endLoop, hc, if_true] at h
      cases hr : StringStrip.endLoop rest with
      | none => rw [hr] at h; cases h
      | some k =>
        rw [hr] at h
        cases h
        rw [List.takeWhile_cons_of_pos hc, List.length_cons, ← ih k hr]
    · simp only [StringStrip.endLoop, hc, if_false] at h
      cases h
      rw [List.takeWhile_cons_of_neg hc]
      rfl

theorem startLoop_eq : ∀ (l : List Char),
    StringStrip.startLoop l = (l.takeWhile isspace).length := by
  intro l
  induction l with
  | nil => rfl
  | cons c rest ih =>
    by_cases hc : isspace c = true
    · simp only [StringStrip.startLoop, hc, if_true]
      rw [List.takeWhile_cons_of_pos hc, List.length_cons, ih]
    · simp only [StringStrip.startLoop, hc, if_false]
      rw [List.takeWhile_cons_of_neg hc]
      rfl

theorem strip_by_positions (l : List Char) (hall : ¬ l.all isspace = true) :
    (l.takeWhile isspace).length ≤ l.length - (l.reverse.takeWhile isspace).length ∧
    (l.take (l.length - (l.reverse.takeWhile isspace).length)).drop (l.takeWhile isspace).length =
      ((l.dropWhile isspace).reverse.dropWhile isspace).reverse := by
  have hsplit : l = l.takeWhile isspace ++ l.dropWhile isspace :=
    (List.takeWhile_append_dropWhile isspace l).symm
  have hrsplit : l = (l.reverse.dropWhile isspace).reverse ++ (l.reverse.takeWhile isspace).reverse := by
    have := List.takeWhile_append_dropWhile isspace l.reverse
    have h2 := congrArg List.reverse this
    rw [List.reverse_append, List.reverse_reverse] at h2
    exact h2.symm
  have hD : ¬ (l.dropWhile isspace).reverse.dropWhile isspace = [] := by
    intro h
    rw [List.dropWhile_eq_nil_iff] at h
    apply hall
    rw [List.all_eq_true]
    intro x hx
    by_contra hx2
    have hx3 : x ∈ l.dropWhile isspace := by
      rw [hsplit] at hx
      rcases List.mem_append.mp hx with h1 | h1
      · exact absurd (List.mem_takeWhile_imp h1) hx2
      · exact h1
    exact hx2 (h x (List.mem_reverse.mpr hx3))
  have hX : (l.reverse.dropWhile isspace).reverse =
      l.takeWhile isspace ++ ((l.dropWhile isspace).reverse.dropWhile isspace).reverse := by
    conv_lhs => rw [hsplit]
    rw [List.reverse_append, List.dropWhile_append]
    have : ((l.dropWhile isspace).reverse.dropWhile isspace).isEmpty = false := by
      cases h : (l.dropWhile isspace).reverse.dropWhile isspace with
      | nil => exact absurd h hD
      | cons _ _ => rfl
    rw [this]
    simp only [Bool.false_eq_true, if_false, List.reverse_append, List.reverse_reverse]
  have hlen : l.length - (l.reverse.takeWhile isspace).length =
      ((l.reverse.dropWhile isspace).reverse).length := by
    have := congrArg List.length hrsplit
    rw [List.length_append, List.length_reverse, List.length_reverse] at this
    rw [List.length_reverse]
    omega
  have htake : l.take (l.length - (l.reverse.takeWhile isspace).length) =
      (l.reverse.dropWhile isspace).reverse := by
    rw [hlen]
    have := @List.take_left' _ (l.reverse.dropWhile isspace).reverse
      (l.reverse.takeWhile isspace).reverse _ rfl
    rw [← hrsplit] at this
    exact this
  refine ⟨?_, ?_⟩
  · rw [hlen, hX, List.length_append]
    omega
  · rw [htake, hX, List.drop_left]

theorem byIterators_eq (s : String) : StringStrip.byIterators s = StringStrip s := by
  unfold StringStrip.byIterators StringStrip
  by_cases he : s.isEmpty = true
  · simp only [he, if_true]
  · simp only [he, if_false, Bool.false_eq_true]
    by_cases hall : s.toList.all isspace = true
    · have : s.toList.reverse.all isspace = true := by
        rw [List.all_eq_true] at hall ⊢
        intro x hx
        exact hall x (List.mem_reverse.mp hx)
      rw [(endLoop_none_iff _).mpr this]
      simp only [hall, if_true]
    · have hrev : ¬ s.toList.reverse.all isspace = true := by
        intro h
        apply hall
        rw [List.all_eq_true] at h ⊢
        intro x hx
        exact h x (List.mem_reverse.mpr hx)
      cases hb : StringStrip.endLoop s.toList.reverse with
      | none => exact absurd ((endLoop_none_iff _).mp hb) hrev
      | some back =>
        have eb := endLoop_some _ back hb
        obtain ⟨k1, k2⟩ := strip_by_positions s.toList hall
        simp only [hall, if_false, Bool.false_eq_true]
        rw [startLoop_eq, eb, if_pos k1, k2]

/-- C40. For a string that is not empty and holds white space only, such as `" "`,
the second loop of `StringStrip` moves its reverse iterator to `rend()` and
dereferences it: it reads the position before the first character, and no
string is returned. For every other string both loops stop inside the
string and the result is the string without its leading and trailing white
space. -/
theorem C40_StringStrip_reads_before_the_string :
    StringStrip.endLoop " ".toList.reverse = none ∧
    StringStrip.byIterators " " = none ∧
    (∀ s : String, StringStrip.byIterators s = none ↔
      (s.isEmpty = false ∧ s.toList.all isspace = true)) ∧
    (∀ s : String, StringStrip.byIterators s = StringStrip s) ∧
    (∀ s : String, s.toList.all isspace = false →
      StringStrip.byIterators s = some (String.mk
        ((s.toList.dropWhile isspace).reverse.dropWhile isspace).reverse)) ∧
    StringStrip.byIterators "" = some "" ∧
    StringStrip.byIterators " a b\n" = some "a b" := by
  refine ⟨by decide, by decide, ?_, byIterators_eq, ?_, by decide, by decide⟩
  · intro s
    rw [byIterators_eq]
    unfold StringStrip
    by_cases he : s.isEmpty = true
    · simp [he]
    · by_cases hall : s.toList.all isspace = true
      · simp [he, hall]
      · simp [he, hall]
  · intro s hall
    rw [byIterators_eq]
    unfold StringStrip
    have he : ¬ s.isEmpty = true := by
      intro h
      have e : s = "" := (String.isEmpty_iff s).mp h
      rw [e] at hall
      exact absurd hall (by decide)
    rw [if_neg he, if_neg (by rw [hall]; decide)]

/-! ## The fingerprint of a memo -/

/-- C37. Whenever `ExecuteInGDBEnv` returns a memo, the memo carries no fingerprint
exactly when `InvokingOnNullptrCheck` holds for the lines of the debugger
output: the memo of a null invocation is returned before `SetFingerprint` is
called, so the fingerprint that the feedback loop reads from it does not
exist. -/
theorem C37_null_invocation_memo_has_no_fingerprint (gdb_output src_dir : String)
    (lines : List String) (memo : TCMemo)
    (hsplit : SplitStringIntoVector gdb_output "\n" = some lines)
    (h : ExecuteInGDBEnv gdb_output src_dir = some memo) :
    (memo.fingerprint_ = none ↔ InvokingOnNullptrCheck lines = true) ∧
    (InvokingOnNullptrCheck lines = true →
      memo = { TCMemo.new with valid_crash_ := false, gdb_output_ := some gdb_output }) := by
  unfold ExecuteInGDBEnv at h
  rw [hsplit] at h
  simp only at h
  by_cases hn : InvokingOnNullptrCheck lines = true
  · rw [if_pos hn] at h
    cases h
    exact ⟨⟨fun _ => hn, fun _ => rfl⟩, fun _ => rfl⟩
  · rw [if_neg hn] at h
    refine ⟨⟨?_, fun h2 => absurd h2 hn⟩, fun h2 => absurd h2 hn⟩
    intro hf
    exfalso
    repeat' (first | (cases h; done) | split at h | simp only at h)
    all_goals (cases h; cases hf)

theorem C37_null_invocation_memo_has_no_fingerprint_witness :
    ExecuteInGDBEnv Examples.gdbNullThis "/src" =
      some ⟨false, none, some Examples.gdbNullThis, none, none, none⟩ ∧
    ((⟨false, none, some Examples.gdbNullThis, none, none, none⟩ : TCMemo).fingerprint_ = none ↔
      InvokingOnNullptrCheck ["#0  0x01 in A::foo (this=0x0) at /src/a.cpp:3",
        "#1  0x02 in main () at tmp.cpp:5", ""] = true) :=
  ⟨by rfl, (C37_null_invocation_memo_has_no_fingerprint Examples.gdbNullThis "/src"
    ["#0  0x01 in A::foo (this=0x0) at /src/a.cpp:3", "#1  0x02 in main () at tmp.cpp:5", ""]
    ⟨false, none, some Examples.gdbNullThis, none, none, none⟩ (by rfl) (by rfl)).1⟩

/-! ## Constructible classes without a candidate creator -/

theorem ResolveOperand_chain_A (fuel n : Nat) (r : Random) (stmts : List Statement)
    (c : TemplateTypeContext) :
    ResolveOperand Examples.pChain (fuel + 1) Examples.tA stmts c false
      ⟨r, some Examples.itmChain, n⟩ = .error .abort := by
  rw [ResolveOperand, ResolveOperandBody_cls _ _ _ Examples.clsA _ _ _ rfl rfl]
  unfold ResolveOperandClassType
  have hl : Examples.itmChain.LookupSubClasses Examples.clsA =
      ([Examples.clsB], ⟨Examples.itmChain.parent_classes_, [(Examples.clsA, [Examples.clsB])]⟩) := by
    decide
  have hcoll : ∀ (st : GenState), collectTypeCreators Examples.tA Examples.clsA [Examples.clsB]
      Examples.pChain.creators_ c st = .ok ([], c, st) := by
    intro st
    show collectTypeCreators Examples.tA Examples.clsA [Examples.clsB] [Examples.ctorC] c st = _
    rw [collectTypeCreators, if_neg (by decide)]
    rfl
  simp only [Examples.tA, hl, hcoll]
  rfl

/-- C35. In the model with the classes `A`, `B : A` and `C : B`, the single creator
`C::C()` and the function `int h(A)`, the filtering loop removes nothing: the
set `has_creators` of `FilterOutUnsatisfiableExecutables` holds `A`, an
indirect base of `C`. `LookupSubClasses(A)` is `{B}`, the direct subclasses
only, so `ResolveOperandClassType` finds no creator whose target is `A` or
`B`: the draw is `NextInt(0)`, and resolving an operand of type `A`, and with
it `GenForMethod` for `h`, aborts for every outcome of the random draws. -/
theorem C35_indirect_base_without_candidate :
    filterLoop Examples.itmChain 4 Examples.pChain.executables_ Examples.pChain.creators_ [] 0 =
      .ok (Examples.pChain.executables_, Examples.pChain.creators_, ["_Z3_config"], 0) ∧
    (∃ hc, hasCreatorsLoop Examples.itmChain 3 (creatorTargets Examples.pChain.creators_) = some hc ∧
      Examples.clsA ∈ hc) ∧
    Derives Examples.itmChain Examples.clsC Examples.clsA ∧
    (Examples.itmChain.LookupSubClasses Examples.clsA).1 = [Examples.clsB] ∧
    (∀ (c : TemplateTypeContext) (st : GenState),
      collectTypeCreators Examples.tA Examples.clsA [Examples.clsB] Examples.pChain.creators_ c st =
        .ok ([], c, st)) ∧
    (∀ r : Random, r.NextInt ((([] : List Creator).length : Nat) : Int) = none) ∧
    (∀ (fuel n : Nat) (r : Random) (stmts : List Statement) (c : TemplateTypeContext),
      ResolveOperand Examples.pChain (fuel + 1) Examples.tA stmts c false
        ⟨r, some Examples.itmChain, n⟩ = .error .abort) ∧
    (∀ (fuel n : Nat) (r : Random),
      GenForMethod Examples.pChain (fuel + 1) Examples.hOnA TemplateTypeContext.New [] 0 false
        ⟨r, some Examples.itmChain, n⟩ = .error .abort) := by
  refine ⟨rfl, ⟨_, rfl, by decide⟩, ?_, by decide, ?_, fun r => rfl, ResolveOperand_chain_A, ?_⟩
  · unfold Derives
    refine Relation.ReflTransGen.tail (b := Examples.clsB) (Relation.ReflTransGen.single ?_) ?_
    · show Examples.clsB ∈ Examples.itmChain.LookupBaseClasses Examples.clsC
      decide
    · show Examples.clsA ∈ Examples.itmChain.LookupBaseClasses Examples.clsB
      decide
  · intro c st
    show collectTypeCreators Examples.tA Examples.clsA [Examples.clsB] [Examples.ctorC] c st = _
    rw [collectTypeCreators, if_neg (by decide)]
    rfl
  · intro fuel n r
    unfold GenForMethod
    have hr := ResolveOperand_chain_A fuel n r [] TemplateTypeContext.New
    have he : resolveEach (ResolveOperand Examples.pChain (fuel + 1)) false
        (Examples.hOnA.arguments_.map TypeWithModifier.FromSpecByClangType) []
        TemplateTypeContext.New ⟨r, some Examples.itmChain, n⟩ = .error .abort := by
      show resolveEach _ false [Examples.tA] [] _ _ = _
      simp only [resolveEach, hr]
    simp only [List.length_nil, Nat.lt_irrefl, if_false, List.take_nil, he, gt_iff_lt]

/-! ## Drivers keep a call -/

theorem MutateCall_variant (p : ProgramContext) (k : List (String × StatementVisitorResult))
    (stmt : Statement) (tc : TestCase) (st : GenState) (m : Mutated Statement)
    (h : MutateCall p k stmt tc st = .ok m) : m.value.GetVariant = .kCall := by
  unfold MutateCall at h
  cases hb : stmt.body with
  | CallStatement target ops inv c =>
    rw [hb] at h
    simp only at h
    have h2 : st.random.raw % 2 < 2 := Nat.mod_lt _ (by decide)
    by_cases c0 : st.random.raw % 2 = 0
    · rw [if_pos c0] at h
      repeat' (first | (cases h; done) | split at h | simp only at h)
      all_goals (first | (cases h; rfl) |
        (cases h; simp only [Statement.GetVariant, Statement.Clone, hb]))
    · have c1 : st.random.raw % 2 = 1 := by omega
      rw [if_neg c0, if_pos c1] at h
      repeat' (first | (cases h; done) | split at h | simp only at h)
      all_goals (first | (cases h; rfl) |
        (cases h; simp only [Statement.GetVariant, Statement.Clone, hb]))
  | PrimitiveAssignmentStatement _ _ => rw [hb] at h; cases h
  | STLStatement _ _ => rw [hb] at h; cases h
  | ArrayInitStatement _ _ _ => rw [hb] at h; cases h

theorem ReplaceRefOperand_variant (s : Statement) (m : ReplMap) (a : Nat) :
    (s.ReplaceRefOperand m a).cloned.GetVariant = s.GetVariant ∧
    (s.ReplaceRefOperand m a).self_after.GetVariant = s.GetVariant := by
  unfold Statement.ReplaceRefOperand
  cases hb : s.body with
  | PrimitiveAssignmentStatement op ops =>
    simp only [Statement.GetVariant, Statement.Clone, hb, and_self]
  | CallStatement t ops inv c =>
    cases inv with
    | none => simp only [Statement.GetVariant, Statement.Clone, hb, and_self]
    | some o => simp only [Statement.GetVariant, Statement.Clone, hb, and_self]
  | STLStatement t e =>
    simp only [Statement.GetVariant, Statement.Clone, hb, and_self]
  | ArrayInitStatement cap lit el =>
    cases lit with
    | some l => simp only [Statement.GetVariant, Statement.Clone, hb, and_self]
    | none =>
      cases el with
      | none => simp only [Statement.GetVariant, Statement.Clone, hb, and_self]
      | some ops => simp only [Statement.GetVariant, Statement.Clone, hb, and_self]

theorem rewireLoop_variant : ∀ (l : List Statement) (m : ReplMap) (a : Nat),
    (rewireLoop l m a).1.map Statement.GetVariant = l.map Statement.GetVariant := by
  intro l
  induction l with
  | nil => intro m a; rfl
  | cons item rest ih =>
    intro m a
    obtain ⟨v1, v2⟩ := ReplaceRefOperand_variant item m a
    rw [rewireLoop]
    by_cases hr : (item.ReplaceRefOperand m a).replacement > 0
    · simp only [hr, if_true, List.map_cons, v1, ih]
    · simp only [hr, if_false, List.map_cons, v2, ih]

theorem HasCall_iff_variants (d : List Statement) :
    HasCall d ↔ StatementVariant.kCall ∈ d.map Statement.GetVariant := by
  unfold HasCall
  simp only [List.mem_map]

theorem GenForMethod_HasCall (p : ProgramContext) (fuel : Nat) (target : Executable)
    (tt_ctx : TemplateTypeContext) (ctx : List Statement) (idx : Nat) (force : Bool)
    (st st1 : GenState) (tc : TestCase)
    (h : GenForMethod p fuel target tt_ctx ctx idx force st = .ok (tc, st1)) :
    HasCall tc.statements_ := by
  obtain ⟨_, gen, calls, operands, inv, htc, h1, _, hcalls, _⟩ :=
    GenForMethod_ok p fuel target tt_ctx ctx idx force st st1 tc h
  cases calls with
  | nil => simp at h1
  | cons s rest =>
    obtain ⟨c1, hb⟩ := hcalls s (List.mem_cons_self _ _)
    refine ⟨s, ?_, ?_⟩
    · rw [htc]
      simp
    · simp only [Statement.GetVariant, hb]

theorem Insertion_HasCall (p : ProgramContext) (k : List (String × StatementVisitorResult))
    (fuel : Nat) (tc tc1 : TestCase) (st st1 : GenState)
    (h : InplaceMutationByInsertion p k fuel tc st = .ok (tc1, st1)) :
    HasCall tc1.statements_ := by
  unfold InplaceMutationByInsertion at h
  split at h
  · cases h
  · simp only at h
    split at h
    · cases h
    · rename_i res st2 hg
      split at h
      · cases h
        exact GenForMethod_HasCall _ _ _ _ _ _ _ _ _ _ hg
      · cases h

theorem Update_HasCall (p : ProgramContext) (k : List (String × StatementVisitorResult))
    (tc tc1 : TestCase) (st st1 : GenState) (hc : HasCall tc.statements_)
    (h : InplaceMutationByUpdate p k tc st = .ok (tc1, st1)) :
    HasCall tc1.statements_ := by
  unfold InplaceMutationByUpdate at h
  split at h
  · cases h
  · rename_i idx r1 hidx
    split at h
    · cases h
    · rename_i victim hv
      split at h
      · cases h
      · rename_i m hm
        split at h
        · cases h
        · unfold InplaceMutationByUpdateRewire at h
          rw [hv] at h
          simp only at h
          by_cases hne : victim.addr ≠ m.value.addr
          · rw [if_pos hne] at h
            simp only at h
            split at h
            · cases h
            · cases h
              simp only
              rw [HasCall_iff_variants] at hc ⊢
              rw [List.map_set, rewireLoop_variant]
              by_cases hvc : victim.GetVariant = .kCall
              · have hmv : m.value.GetVariant = .kCall := by
                  unfold MutateStatement at hm
                  rw [hvc] at hm
                  exact MutateCall_variant _ _ _ _ _ _ hm
                rw [hmv]
                have hlt : idx.toNat < (tc.statements_.map Statement.GetVariant).length := by
                  rw [List.length_map]
                  exact (List.get?_eq_some.mp hv).1
                exact List.mem_iff_get?.mpr ⟨idx.toNat, by
                  rw [List.get?_eq_getElem?, List.getElem?_set_self hlt]⟩
              · obtain ⟨j, hj⟩ := List.mem_iff_get?.mp hc
                have hji : j ≠ idx.toNat := by
                  intro e
                  subst e
                  rw [List.get?_eq_getElem?, List.getElem?_map, ← List.get?_eq_getElem?, hv] at hj
                  simp only [Option.map_some', Option.some.injEq] at hj
                  exact hvc hj
                refine List.mem_iff_get?.mpr ⟨j, ?_⟩
                rw [List.get?_eq_getElem?, List.getElem?_set_ne (Ne.symm hji),
                  ← List.get?_eq_getElem?]
                exact hj
          · rw [if_neg hne] at h
            simp only at h
            split at h
            · cases h
            · cases h
              exact hc

theorem Cleanup_HasCall (d : List Statement) (hc : HasCall d) :
    HasCall (InplaceMutationByCleanup d) := by
  obtain ⟨s, hs, hv⟩ := hc
  refine ⟨s, (mem_Cleanup d s).mpr ⟨hs, ?_⟩, hv⟩
  intro hp
  rw [hv] at hp
  cases hp

theorem havocLoop_HasCall (p : ProgramContext) (k : List (String × StatementVisitorResult))
    (fuel : Nat) :
    ∀ (n : Nat) (tc tc1 : TestCase) (st st1 : GenState), HasCall tc.statements_ →
      havocLoop p k fuel n tc st = .ok (tc1, st1) → HasCall tc1.statements_ := by
  intro n
  induction n with
  | zero =>
    intro tc tc1 st st1 hc h
    simp only [havocLoop] at h
    cases h
    exact hc
  | succ n ih =>
    intro tc tc1 st st1 hc h
    simp only [havocLoop] at h
    split at h
    · cases h
    · rename_i tc2 st2 hstep
      refine ih tc2 tc1 st2 st1 ?_ h
      by_cases c0 : st.random.raw % 3 = 0
      · rw [if_pos c0] at hstep
        exact Insertion_HasCall _ _ _ _ _ _ _ hstep
      · rw [if_neg c0] at hstep
        by_cases c1 : st.random.raw % 3 = 1
        · rw [if_pos c1] at hstep
          exact Update_HasCall _ _ _ _ _ _ hc hstep
        · rw [if_neg c1] at hstep
          split at hstep
          · cases hstep
            exact Cleanup_HasCall _ hc
          · cases hstep

theorem MutateTestCase_HasCall (p : ProgramContext) (k : List (String × StatementVisitorResult))
    (fuel : Nat) (tc tc1 : TestCase) (maxHavoc : Int) (st st1 : GenState)
    (hc : HasCall tc.statements_) (h : MutateTestCase p k fuel tc maxHavoc st = .ok (tc1, st1)) :
    HasCall tc1.statements_ := by
  unfold MutateTestCase at h
  split at h
  · cases h
  · split at h
    · cases h
    · exact havocLoop_HasCall _ _ _ _ _ _ _ _ hc h

theorem LoadTestCase_HasCall (p : ProgramContext) (k : List (String × StatementVisitorResult))
    (fuel : Nat) (cm : List Executable) (s s1 : FuzzerState) (tc : TestCase)
    (hq : ∀ ftc ∈ s.queue_.valid_, HasCall ftc.tc_.statements_)
    (h : LoadTestCase p k fuel cm s = .ok (tc, s1)) : HasCall tc.statements_ := by
  have hdet : ∀ (o : Option TestCase) (s2 : FuzzerState),
      (if s.deterministic_mode then LoadTestCaseDeterministically p fuel cm s
        else (.ok (none, s) : Except Fault (Option TestCase × FuzzerState))) = .ok (o, s2) →
      s2.queue_ = s.queue_ ∧ ∀ t, o = some t → HasCall t.statements_ := by
    intro o s2 h2
    split at h2
    · refine ⟨(LoadTestCaseDeterministically_frame p fuel cm s s2 o h2).1, ?_⟩
      intro t ht
      subst ht
      unfold LoadTestCaseDeterministically at h2
      simp only at h2
      split at h2
      · split at h2
        · cases h2
        · rename_i tc0 g hg
          cases h2
          exact GenForMethod_HasCall _ _ _ _ _ _ _ _ _ _ hg
      · cases h2
    · cases h2
      exact ⟨rfl, fun t ht => by cases ht⟩
  unfold LoadTestCase at h
  simp only at h
  split at h
  · cases h
  · rename_i tc1 s2 heq
    cases h
    exact (hdet _ _ heq).2 _ rfl
  · rename_i s2 heq
    obtain ⟨hf, _⟩ := hdet _ _ heq
    repeat' (first | (cases h; done) | split at h)
    all_goals
      cases h
      first
        | exact GenForMethod_HasCall _ _ _ _ _ _ _ _ _ _ (by assumption)
        | exact hq _ (by rw [← hf]; exact List.get?_mem (by assumption))

theorem MainLoop_HasCall (p : ProgramContext) (k : List (String × StatementVisitorResult))
    (fuel : Nat) (base : List Executable) :
    ∀ (xs : List Collaborators) (s0 s : FuzzerState),
      (∀ ftc ∈ s0.queue_.valid_ ++ s0.queue_.crashes_ ++ s0.queue_.incompilable_,
        HasCall ftc.tc_.statements_) →
      MainLoop p k fuel base xs s0 = .ok s →
      ∀ ftc ∈ s.queue_.valid_ ++ s.queue_.crashes_ ++ s.queue_.incompilable_,
        HasCall ftc.tc_.statements_ := by
  intro xs
  induction xs with
  | nil =>
    intro s0 s h0 h
    simp only [MainLoop] at h
    cases h
    exact h0
  | cons x xs ih =>
    intro s0 s h0 h
    simp only [MainLoop] at h
    cases hit : iteration p k fuel base x s0 with
    | error e => rw [hit] at h; cases h
    | ok s1 =>
      rw [hit] at h
      refine ih s1 s ?_ h
      unfold iteration at hit
      cases hl : LoadTestCase p k fuel base s0 with
      | error e => rw [hl] at hit; cases hit
      | ok v =>
        obtain ⟨tc, s2⟩ := v
        rw [hl] at hit
        simp only at hit
        obtain ⟨f1, _, _, _⟩ := LoadTestCase_frame p k fuel base s0 s2 tc hl
        have htc := LoadTestCase_HasCall p k fuel base s0 s2 tc
          (fun ftc hf => h0 ftc (by simp only [List.mem_append]; exact Or.inl (Or.inl hf))) hl
        cases hm : MutateTestCase p k fuel tc 20 s2.gen with
        | error e => rw [hm] at hit; cases hit
        | ok w =>
          obtain ⟨mutation, g⟩ := w
          rw [hm] at hit
          simp only at hit
          have hmut := MutateTestCase_HasCall p k fuel tc mutation 20 s2.gen g htc hm
          have hq2 : ∀ ftc ∈ s2.queue_.valid_ ++ s2.queue_.crashes_ ++ s2.queue_.incompilable_,
              HasCall ftc.tc_.statements_ := by rw [f1]; exact h0
          rcases classify_cases mutation x _ s1 hit with
            ⟨e, _⟩ | ⟨_, _, _, ⟨ftc, hftc, e⟩, _⟩ | ⟨_, _, ⟨_, _, _, _, _, _, ftc, hftc, _, e⟩, _⟩ |
            ⟨_, _, ⟨ftc, hftc, _, e⟩, _⟩
          · rw [e]; exact hq2
          · rw [e]
            intro f hf
            simp only [List.mem_append, List.mem_singleton] at hf
            rcases hf with ((hf | hf) | hf) | hf
            · exact hq2 f (by simp only [List.mem_append]; exact Or.inl (Or.inl hf))
            · rw [hf, hftc]; exact hmut
            · exact hq2 f (by simp only [List.mem_append]; exact Or.inl (Or.inr hf))
            · exact hq2 f (by simp only [List.mem_append]; exact Or.inr hf)
          · rw [e]
            intro f hf
            simp only [List.mem_append, List.mem_singleton] at hf
            rcases hf with (hf | (hf | hf)) | hf
            · exact hq2 f (by simp only [List.mem_append]; exact Or.inl (Or.inl hf))
            · exact hq2 f (by simp only [List.mem_append]; exact Or.inl (Or.inr hf))
            · rw [hf, hftc]; exact hmut
            · exact hq2 f (by simp only [List.mem_append]; exact Or.inr hf)
          · rw [e]
            intro f hf
            simp only [List.mem_append, List.mem_singleton] at hf
            rcases hf with (hf | hf) | (hf | hf)
            · exact hq2 f (by simp only [List.mem_append]; exact Or.inl (Or.inl hf))
            · exact hq2 f (by simp only [List.mem_append]; exact Or.inl (Or.inr hf))
            · exact hq2 f (by simp only [List.mem_append]; exact Or.inr hf)
            · rw [hf, hftc]; exact hmut

/-- C36. Every driver that `GenForMethod` returns holds a Call statement. The
Insert edit returns a driver with a Call statement, and the Update and the
Cleanup edit, and with them `MutateTestCase`, keep one when the driver they
are given has one. In a run of the loop from the initial state every driver in
the queue and every driver that `LoadTestCase` hands to the mutator has a
Call statement; on such a driver the victim index of
`InplaceMutationByUpdate` is drawn with a positive bound. -/
theorem C36_drivers_keep_a_call (p : ProgramContext)
    (k : List (String × StatementVisitorResult)) (fuel : Nat) (base : List Executable) :
    (∀ target tt_ctx ctx idx force st tc st1,
      GenForMethod p fuel target tt_ctx ctx idx force st = .ok (tc, st1) →
      HasCall tc.statements_) ∧
    (∀ tc st tc1 st1, InplaceMutationByInsertion p k fuel tc st = .ok (tc1, st1) →
      HasCall tc1.statements_) ∧
    (∀ tc st tc1 st1, HasCall tc.statements_ →
      InplaceMutationByUpdate p k tc st = .ok (tc1, st1) → HasCall tc1.statements_) ∧
    (∀ d, HasCall d → HasCall (InplaceMutationByCleanup d)) ∧
    (∀ tc maxHavoc st tc1 st1, HasCall tc.statements_ →
      MutateTestCase p k fuel tc maxHavoc st = .ok (tc1, st1) → HasCall tc1.statements_) ∧
    (∀ (d : List Statement) (r : Random), HasCall d →
      0 < d.length ∧
      r.NextInt (d.length : Int) = some (((r.raw : Int) % (d.length : Int)), r.advance)) ∧
    (∀ xs gen s, MainLoop p k fuel base xs (FuzzerState.init gen) = .ok s →
      (∀ ftc ∈ s.queue_.valid_ ++ s.queue_.crashes_ ++ s.queue_.incompilable_,
        HasCall ftc.tc_.statements_) ∧
      ∀ tc s1, LoadTestCase p k fuel base s = .ok (tc, s1) → HasCall tc.statements_) := by
  refine ⟨?_, ?_, ?_, Cleanup_HasCall, ?_, ?_, ?_⟩
  · intro target tt_ctx ctx idx force st tc st1 h
    exact GenForMethod_HasCall _ _ _ _ _ _ _ _ _ _ h
  · intro tc st tc1 st1 h
    exact Insertion_HasCall _ _ _ _ _ _ _ h
  · intro tc st tc1 st1 hc h
    exact Update_HasCall _ _ _ _ _ _ hc h
  · intro tc maxHavoc st tc1 st1 hc h
    exact MutateTestCase_HasCall _ _ _ _ _ _ _ _ hc h
  · intro d r hc
    obtain ⟨s, hs, _⟩ := hc
    have hpos : 0 < d.length := List.length_pos_of_mem hs
    refine ⟨hpos, ?_⟩
    unfold Random.NextInt
    rw [if_pos (by exact_mod_cast hpos)]
  · intro xs gen s h
    have hq := MainLoop_HasCall p k fuel base xs (FuzzerState.init gen) s
      (by intro ftc hf; simp [FuzzerState.init] at hf) h
    refine ⟨hq, ?_⟩
    intro tc s1 hl
    exact LoadTestCase_HasCall p k fuel base s s1 tc
      (fun ftc hf => hq ftc (by simp only [List.mem_append]; exact Or.inl (Or.inl hf))) hl

theorem C36_drivers_keep_a_call_witness : HasCall [Examples.sCallGMin 0] :=
  (C36_drivers_keep_a_call Examples.pG [] 1 []).1 Examples.gExe TemplateTypeContext.New [] 0 false
    Examples.gen0 ⟨[Examples.sCallGMin 0], TemplateTypeContext.New⟩ _ rfl

/-! ## Binding the parameters of a class template specialisation -/

/-- C31. `Bind` is `std::map::emplace`, which leaves a name that is already bound as
it is. For the class template `X<T>` with the constructor `X(T)`, the
required type `X<int>` and an incoming context that binds `T` to `double`,
the context used for the recursive resolution still maps `T` to `double`:
`ResolveOperand` returns a reference to the statement `X<double> v0 =
X(0.000000)`, whose type is `X<double>`. With an empty incoming context `T`
is mapped to `int` and the statement has the type `X<int>`. In both runs the
incoming context is returned unchanged. -/
theorem C31_bound_parameter_is_not_rebound :
    (∀ (c : TemplateTypeContext) (ttp : TemplateTypeParam) (t0 t : BoundType),
      c.find ttp.name_ = some t0 → c.Bind ttp t = c) ∧
    bindInstantiations Examples.clsX.template_param_list_ Examples.instInt Examples.ctxTDouble =
      some Examples.ctxTDouble ∧
    Examples.ctxTDouble.find "T" = some ⟨.primitive .kDouble, []⟩ ∧
    (∃ g, ResolveOperand Examples.pX 10 Examples.tXInt [] Examples.ctxTDouble false Examples.gen0 =
      .ok ⟨Operand.MakeRefOperand ⟨0, Examples.tXDouble, none,
            .CallStatement Examples.ctorX.toExecutable
              [Operand.MakeConstantOperand Examples.kDoubleT "0.000000"] none Examples.ctxTDouble⟩,
          [⟨0, Examples.tXDouble, none,
            .CallStatement Examples.ctorX.toExecutable
              [Operand.MakeConstantOperand Examples.kDoubleT "0.000000"] none Examples.ctxTDouble⟩],
          Examples.ctxTDouble, g⟩) ∧
    Examples.tXDouble ≠ Examples.tXInt ∧
    bindInstantiations Examples.clsX.template_param_list_ Examples.instInt TemplateTypeContext.New =
      some ⟨[("T", ⟨.primitive .kInteger, []⟩)]⟩ ∧
    (∃ g lit, ResolveOperand Examples.pX 10 Examples.tXInt [] TemplateTypeContext.New false
        Examples.gen0 =
      .ok ⟨Operand.MakeRefOperand ⟨0, Examples.tXInt, none,
            .CallStatement Examples.ctorX.toExecutable
              [Operand.MakeConstantOperand Examples.kInt lit] none
              ⟨[("T", ⟨.primitive .kInteger, []⟩)]⟩⟩,
          [⟨0, Examples.tXInt, none,
            .CallStatement Examples.ctorX.toExecutable
              [Operand.MakeConstantOperand Examples.kInt lit] none
              ⟨[("T", ⟨.primitive .kInteger, []⟩)]⟩⟩],
          TemplateTypeContext.New, g⟩) := by
  refine ⟨?_, rfl, rfl, ⟨_, rfl⟩, by decide, rfl, ⟨_, _, rfl⟩⟩
  intro c ttp t0 t h
  unfold TemplateTypeContext.Bind TemplateTypeContext.emplace
  rw [h]

/-! ## Operands after a mutation -/

theorem LookupOrResolve_keeps (c : TemplateTypeContext) (n : String) (r : Random)
    (m : String) (v : BoundType) (h : c.find m = some v) :
    (c.LookupOrResolve n r).2.1.find m = some v := by
  by_cases hmn : m = n
  · subst hmn
    unfold TemplateTypeContext.LookupOrResolve
    rw [h]
    exact h
  · rw [LookupOrResolve_other c n m r hmn]
    exact h

theorem ResolveTemplateType_keeps (T : TypeWithModifier) (c : TemplateTypeContext) (r : Random)
    (x : TypeWithModifier × TemplateTypeContext × Random)
    (h : T.ResolveTemplateType c r = some x) (m : String) (v : BoundType)
    (hm : c.find m = some v) : x.2.1.find m = some v := by
  unfold TypeWithModifier.ResolveTemplateType at h
  split at h
  · cases h
  · split at h
    · cases h
      exact LookupOrResolve_keeps c _ r m v hm
    · cases h
      exact hm

theorem LookupSubClasses_parents (i : InheritanceTreeModel) (a : ClassTypeModel) :
    (i.LookupSubClasses a).2.parent_classes_ = i.parent_classes_ := by
  unfold InheritanceTreeModel.LookupSubClasses
  split <;> rfl

theorem IsSubclassOf_parents (a b : ClassTypeModel) (itm : Option InheritanceTreeModel) :
    (IsSubclassOf a b itm).2.map (fun i => i.parent_classes_) =
      itm.map (fun i => i.parent_classes_) := by
  unfold IsSubclassOf
  by_cases hab : a = b
  · rw [if_pos hab]
  · rw [if_neg hab]
    cases itm with
    | none => rfl
    | some i =>
      simp only [Option.map_some', Option.some.injEq]
      split <;> exact congrArg some (LookupSubClasses_parents i a)

/-- The assignability test keeps the bindings of the context and the base
classes of the inheritance model. -/
theorem IsAssignableFrom_frame (self other : TypeWithModifier) (c : TemplateTypeContext)
    (r : Random) (itm : Option InheritanceTreeModel) (res : AssignResult)
    (h : self.IsAssignableFrom other c r itm = some res) :
    (∀ m v, c.find m = some v → res.tt_ctx.find m = some v) ∧
    res.itm.map (fun i => i.parent_classes_) = itm.map (fun i => i.parent_classes_) := by
  unfold TypeWithModifier.IsAssignableFrom at h
  cases h1 : self.ResolveTemplateType c r with
  | none => rw [h1] at h; cases h
  | some x1 =>
    obtain ⟨sink_twm, c1, r1⟩ := x1
    rw [h1] at h
    simp only at h
    cases h2 : other.ResolveTemplateType c1 r1 with
    | none => rw [h2] at h; cases h
    | some x2 =>
      obtain ⟨src_twm, c2, r2⟩ := x2
      rw [h2] at h
      simp only at h
      have hc : ∀ m v, c.find m = some v → c2.find m = some v := fun m v hm =>
        ResolveTemplateType_keeps other c1 r1 _ h2 m v
          (ResolveTemplateType_keeps self c r _ h1 m v hm)
      repeat' (first
        | (cases h; exact ⟨hc, rfl⟩)
        | (cases h; exact ⟨hc, IsSubclassOf_parents _ _ _⟩)
        | (cases h; done)
        | split at h)

theorem assignable_frame (sink src : TypeWithModifier) (c c1 : TemplateTypeContext)
    (st st1 : GenState) (b : Bool) (h : assignable sink src c st = .ok (b, c1, st1)) :
    (∀ m v, c.find m = some v → c1.find m = some v) ∧
    st1.inheritance_model_.map (fun i => i.parent_classes_) =
      st.inheritance_model_.map (fun i => i.parent_classes_) := by
  unfold assignable at h
  split at h
  · cases h
  · rename_i res hres
    cases h
    exact IsAssignableFrom_frame _ _ _ _ _ _ hres

/-- Each statement that `GetAssignableStatements` returns stands before the
stop address, and the test on it answered true in the context and state that
the scan had reached after the statements before it. -/
theorem GetAssignableStatements_before (target_type : TypeWithModifier) (stop : Option Nat) :
    ∀ (stmts : List Statement) (c c1 : TemplateTypeContext) (st st1 : GenState)
      (l : List Statement),
      GetAssignableStatements target_type stop stmts c st = .ok (l, c1, st1) →
      ∀ t ∈ l, ∃ i, stmts.get? i = some t ∧
        (∀ j u, j ≤ i → stmts.get? j = some u → stop ≠ some u.addr) ∧
        ∃ l0 c2 st2 c3 st3,
          GetAssignableStatements target_type none (stmts.take i) c st = .ok (l0, c2, st2) ∧
          assignable target_type t.type_ c2 st2 = .ok (true, c3, st3) ∧
          (∀ m v, c.find m = some v → c2.find m = some v) ∧
          st2.inheritance_model_.map (fun i => i.parent_classes_) =
            st.inheritance_model_.map (fun i => i.parent_classes_) := by
  intro stmts
  induction stmts with
  | nil =>
    intro c c1 st st1 l h t ht
    simp only [GetAssignableStatements] at h
    cases h
    cases ht
  | cons s rest ih =>
    intro c c1 st st1 l h t ht
    simp only [GetAssignableStatements] at h
    by_cases hstop : stop = some s.addr
    · rw [if_pos hstop] at h
      cases h
      cases ht
    · rw [if_neg hstop] at h
      cases ha : assignable target_type s.type_ c st with
      | error e => rw [ha] at h; cases h
      | ok v =>
        obtain ⟨b, c2, st2⟩ := v
        rw [ha] at h
        simp only at h
        obtain ⟨hf1, hf2⟩ := assignable_frame _ _ _ _ _ _ _ ha
        cases hr : GetAssignableStatements target_type stop rest c2 st2 with
        | error e => rw [hr] at h; cases h
        | ok w =>
          obtain ⟨more, c3, st3⟩ := w
          rw [hr] at h
          simp only at h
          cases h
          have hrest : ∀ t ∈ more, ∃ i, (s :: rest).get? i = some t ∧
              (∀ j u, j ≤ i → (s :: rest).get? j = some u → stop ≠ some u.addr) ∧
              ∃ l0 c4 st4 c5 st5,
                GetAssignableStatements target_type none ((s :: rest).take i) c st =
                  .ok (l0, c4, st4) ∧
                assignable target_type t.type_ c4 st4 = .ok (true, c5, st5) ∧
                (∀ m v, c.find m = some v → c4.find m = some v) ∧
                st4.inheritance_model_.map (fun i => i.parent_classes_) =
                  st.inheritance_model_.map (fun i => i.parent_classes_) := by
            intro t ht
            obtain ⟨i, hi, hb, l0, c4, st4, c5, st5, hg, hass, hk1, hk2⟩ := ih _ _ _ _ _ hr t ht
            refine ⟨i + 1, hi, ?_, (if b then s :: l0 else l0), c4, st4, c5, st5, ?_, hass,
              fun m v hm => hk1 m v (hf1 m v hm), hk2.trans hf2⟩
            · intro j u hj hu
              cases j with
              | zero =>
                simp only [List.get?_cons_zero, Option.some.injEq] at hu
                subst hu
                exact hstop
              | succ j => exact hb j u (by omega) hu
            · simp only [List.take_succ_cons, GetAssignableStatements]
              rw [if_neg (by simp), ha]
              simp only [hg]
          cases b with
          | false => exact hrest t ht
          | true =>
            simp only [if_true] at ht
            rcases List.mem_cons.mp ht with rfl | ht
            · refine ⟨0, rfl, ?_, [], c, st, c2, st2, rfl, ha, fun _ _ hm => hm, rfl⟩
              intro j u hj hu
              have : j = 0 := by omega
              subst this
              simp only [List.get?_cons_zero, Option.some.injEq] at hu
              subst hu
              exact hstop
            · exact hrest t ht

theorem stmtsBefore_spec (a : Nat) :
    ∀ (stmts earlier : List Statement), stmtsBefore a stmts = some earlier →
      earlier = stmts.take earlier.length ∧ earlier.length ≤ stmts.length ∧
      ∀ u ∈ earlier, u.addr ≠ a := by
  intro stmts
  induction stmts with
  | nil => intro earlier h; cases h
  | cons s rest ih =>
    intro earlier h
    simp only [stmtsBefore] at h
    by_cases hs : s.addr = a
    · rw [if_pos hs] at h
      cases h
      exact ⟨rfl, Nat.zero_le _, by intro u hu; cases hu⟩
    · rw [if_neg hs] at h
      cases hr : stmtsBefore a rest with
      | none => rw [hr] at h; cases h
      | some e =>
        rw [hr] at h
        cases h
        obtain ⟨h1, h2, h3⟩ := ih e hr
        refine ⟨?_, by simp only [List.length_cons]; omega, ?_⟩
        · simp only [List.length_cons, List.take_succ_cons]
          rw [← h1]
        · intro u hu
          rcases List.mem_cons.mp hu with rfl | hu
          · exact hs
          · exact h3 u hu

theorem get?_of_mem_take {α : Type} (l : List α) (k i : Nat) (t : α)
    (h : (l.take k).get? i = some t) : i < k ∧ l.get? i = some t := by
  rw [List.get?_eq_getElem?] at h
  rw [List.get?_eq_getElem?]
  by_cases hik : i < k
  · rw [List.getElem?_take_of_lt hik] at h
    exact ⟨hik, h⟩
  · rw [List.getElem?_take_eq_none (by omega)] at h
    cases h

/-- C32. For every operand `o` of a statement `s` of the driver, every optional
required type `T` and every outcome of the draws, the operand that
`MutateOperand` returns is a constant, or `o` itself, or a reference to a
statement `t` at a position strictly before `s` whose type is assignable to
`T` (to the type of `o` when `T` is absent or `o` was a constant):
`IsAssignableFrom` answered true for the type of `t` in the template context
and with the inheritance model that the scan of the driver had reached, from
the driver's context and the state of the call, after the statements before
`t`. That context keeps every binding of the driver's context, and that model
has the base classes of the model of the call (its memo of subclasses apart). -/
theorem C32_MutateOperand (o : Operand) (loc : OperandLoc) (s : Statement) (tc : TestCase)
    (T : Option TypeWithModifier) (st : GenState) (m : Mutated Operand)
    (hs : s ∈ tc.statements_)
    (h : MutateOperand o loc s tc T st = .ok m) :
    m.value.GetOperandType = .kConstantOperand ∨ m.value = o ∨
    ∃ t i j, i < j ∧ tc.statements_.get? i = some t ∧ tc.statements_.get? j = some s ∧
      m.value = Operand.MakeRefOperand t ∧
      ∃ l0 c2 st2 res,
        GetAssignableStatements
            (if o.GetOperandType = .kConstantOperand then o.type_ else T.getD o.type_) none
            (tc.statements_.take i) tc.template_type_context_
            { st with random := st.random.advance } = .ok (l0, c2, st2) ∧
        (if o.GetOperandType = .kConstantOperand then o.type_ else T.getD o.type_).IsAssignableFrom
            t.type_ c2 st2.random st2.inheritance_model_ = some res ∧
        res.value = true ∧
        (∀ n v, tc.template_type_context_.find n = some v → c2.find n = some v) ∧
        st2.inheritance_model_.map (fun i => i.parent_classes_) =
          st.inheritance_model_.map (fun i => i.parent_classes_) := by
  have hunfold : ∀ (Tt src : TypeWithModifier) (c2 c3 : TemplateTypeContext) (st2 st3 : GenState),
      assignable Tt src c2 st2 = .ok (true, c3, st3) →
      ∃ res, Tt.IsAssignableFrom src c2 st2.random st2.inheritance_model_ = some res ∧
        res.value = true := by
    intro Tt src c2 c3 st2 st3 ha
    unfold assignable at ha
    split at ha
    · cases ha
    · rename_i res hres
      simp only [Except.ok.injEq, Prod.mk.injEq] at ha
      exact ⟨res, hres, ha.1⟩
  obtain ⟨j, hj⟩ := List.mem_iff_get?.mp hs
  have hconst : ∀ (p : Operand) (r r1 : Random), MutateConstantOperand o r = some (p, r1) →
      p.GetOperandType = .kConstantOperand ∨ p = o := by
    intro p r r1 hp
    unfold MutateConstantOperand at hp
    split at hp
    · cases hp
    · split at hp
      · cases hp; exact Or.inr rfl
      · left
        have := MutateConstantOperandOfType_ref _ _ _ _ hp
        simp only [Operand.GetOperandType, this, if_true]
  unfold MutateOperand at h
  simp only at h
  split at h
  · split at h
    · split at h
      · cases h
      · cases h
        rename_i hp
        rcases hconst _ _ _ hp with h1 | h1
        · exact Or.inl h1
        · exact Or.inr (Or.inl h1)
    · rename_i hnc
      unfold MutateRefOperand at h
      split at h
      · cases h
      · simp only at h
        split at h
        · cases h
        · rename_i l c1 st1 hg
          rcases l with _ | ⟨first, _ | ⟨second, rest⟩⟩
          · cases h; exact Or.inr (Or.inl rfl)
          · cases h; exact Or.inr (Or.inl rfl)
          · simp only at h
            split at h
            · cases h
            · rename_i ok c2 st2 ha
              split at h
              · cases h
                rename_i hok
                subst hok
                right; right
                have hmem : (first :: second :: rest).getD
                    (st1.random.raw % (first :: second :: rest).length) first
                    ∈ first :: second :: rest :=
                  getD_mem_of_lt _ _ _ (Nat.mod_lt _ (by simp))
                obtain ⟨i, hi, hb, l0, c4, st4, c5, st5, hg0, hass, hk1, hk2⟩ :=
                  GetAssignableStatements_before _ _ _ _ _ _ _ _ hg _ hmem
                refine ⟨_, i, j, ?_, hi, hj, rfl, ?_⟩
                · by_contra hij
                  exact hb j s (by omega) hj rfl
                · rw [if_neg hnc]
                  obtain ⟨res, hres, hv⟩ := hunfold _ _ _ _ _ _ hass
                  exact ⟨l0, c4, st4, res, hg0, hres, hv, hk1, hk2⟩
              · cases h
  · unfold MutateOperandCrossVariant at h
    split at h
    · rename_i hc
      split at h
      · cases h
      · rename_i earlier hearlier
        obtain ⟨he1, he2, he3⟩ := stmtsBefore_spec _ _ _ hearlier
        split at h
        · cases h
        · rename_i l c1 st1 hg
          rcases l with _ | ⟨first, rest⟩
          · simp only at h
            split at h
            · cases h
            · cases h
              rename_i hp
              rcases hconst _ _ _ hp with h1 | h1
              · exact Or.inl h1
              · exact Or.inr (Or.inl h1)
          · simp only at h
            cases h
            right; right
            have hmem : (first :: rest).getD (st1.random.raw % (first :: rest).length) first
                ∈ first :: rest :=
              getD_mem_of_lt _ _ _ (Nat.mod_lt _ (by simp))
            obtain ⟨i, hi, _, l0, c4, st4, c5, st5, hg0, hass, hk1, hk2⟩ :=
              GetAssignableStatements_before _ _ _ _ _ _ _ _ hg _ hmem
            rw [he1] at hi
            obtain ⟨hik, hi2⟩ := get?_of_mem_take _ _ _ _ hi
            rw [he1, List.take_take, Nat.min_eq_left (Nat.le_of_lt hik)] at hg0
            refine ⟨_, i, j, ?_, hi2, hj, rfl, ?_⟩
            · by_contra hij
              have hjk : j < earlier.length := by omega
              have : s ∈ earlier := by
                rw [he1]
                apply List.mem_iff_get?.mpr
                refine ⟨j, ?_⟩
                rw [List.get?_eq_getElem?, List.getElem?_take_of_lt hjk, ← List.get?_eq_getElem?]
                exact hj
              exact he3 s this rfl
            · rw [if_pos hc]
              obtain ⟨res, hres, hv⟩ := hunfold _ _ _ _ _ _ hass
              exact ⟨l0, c4, st4, res, hg0, hres, hv, hk1, hk2⟩
    · simp only at h
      have hk : ∀ (p : Operand) (r r1 : Random), MutateConstantOperandOfType o.type_ r = some (p, r1) →
          p.GetOperandType = .kConstantOperand := by
        intro p r r1 hp
        simp only [Operand.GetOperandType, MutateConstantOperandOfType_ref _ _ _ _ hp, if_true]
      repeat' (first
        | (cases h; done)
        | (cases h; exact Or.inr (Or.inl rfl))
        | (cases h; exact Or.inl rfl)
        | (cases h; exact Or.inl (hk _ _ _ (by assumption)))
        | split at h)

theorem C32_MutateOperand_witness :
    Examples.sCopyConst ∈ Examples.tcCopyConst.statements_ ∧
    MutateOperand (Operand.MakeConstantOperand Examples.kInt "5") (.operandSlot 1 0)
      Examples.sCopyConst Examples.tcCopyConst none Examples.genNull =
      .ok ⟨Operand.MakeRefOperand (Examples.sInt 0 "1"), TemplateTypeContext.New,
        ⟨Examples.rndNull.advance.advance, some ⟨[], []⟩, 2⟩⟩ ∧
    ((Operand.MakeRefOperand (Examples.sInt 0 "1")).GetOperandType = .kConstantOperand ∨
      Operand.MakeRefOperand (Examples.sInt 0 "1") = Operand.MakeConstantOperand Examples.kInt "5" ∨
      ∃ t i j, i < j ∧ Examples.tcCopyConst.statements_.get? i = some t ∧
        Examples.tcCopyConst.statements_.get? j = some Examples.sCopyConst ∧
        Operand.MakeRefOperand (Examples.sInt 0 "1") = Operand.MakeRefOperand t ∧
        ∃ l0 c2 st2 res,
          GetAssignableStatements
              (if (Operand.MakeConstantOperand Examples.kInt "5").GetOperandType
                  = .kConstantOperand then (Operand.MakeConstantOperand Examples.kInt "5").type_
                else (none : Option TypeWithModifier).getD
                  (Operand.MakeConstantOperand Examples.kInt "5").type_) none
              (Examples.tcCopyConst.statements_.take i)
              Examples.tcCopyConst.template_type_context_
              { Examples.genNull with random := Examples.genNull.random.advance } =
            .ok (l0, c2, st2) ∧
          (if (Operand.MakeConstantOperand Examples.kInt "5").GetOperandType
                = .kConstantOperand then (Operand.MakeConstantOperand Examples.kInt "5").type_
              else (none : Option TypeWithModifier).getD
                (Operand.MakeConstantOperand Examples.kInt "5").type_).IsAssignableFrom
              t.type_ c2 st2.random st2.inheritance_model_ = some res ∧
          res.value = true ∧
          (∀ n v, Examples.tcCopyConst.template_type_context_.find n = some v →
            c2.find n = some v) ∧
          st2.inheritance_model_.map (fun i => i.parent_classes_) =
            Examples.genNull.inheritance_model_.map (fun i => i.parent_classes_)) :=
  ⟨by decide, rfl,
    C32_MutateOperand (Operand.MakeConstantOperand Examples.kInt "5") (.operandSlot 1 0)
      Examples.sCopyConst Examples.tcCopyConst none Examples.genNull _
      (by decide) rfl⟩

/-! ## Text inside a block comment -/

theorem replacePairs_of_find_none (a b : Char) :
    ∀ (l : List Char), findSub [a, b] l = none → replacePairs a b l = l := by
  intro l
  induction l with
  | nil => intro _; rfl
  | cons x tl ih =>
    intro h
    simp only [findSub] at h
    split at h
    · cases h
    · rename_i hp
      have htl : findSub [a, b] tl = none := by
        cases hf : findSub [a, b] tl with
        | none => rfl
        | some v => rw [hf] at h; cases h
      cases tl with
      | nil => rfl
      | cons y rest =>
        simp only [replacePairs]
        rw [if_neg, ih htl]
        rintro ⟨rfl, rfl⟩
        apply hp
        simp [List.isPrefixOf]

theorem replacePairs_of_find_some (a b : Char) :
    ∀ (l : List Char) (p : Nat), findSub [a, b] l = some p →
      replacePairs a b l = l.take p ++ a :: '-' :: b :: replacePairs a b (l.drop (p + 2)) := by
  intro l
  induction l with
  | nil =>
    intro p h
    simp [findSub] at h
  | cons x tl ih =>
    intro p h
    simp only [findSub] at h
    split at h
    · rename_i hp
      cases h
      cases tl with
      | nil => simp [List.isPrefixOf] at hp
      | cons y rest =>
        simp only [List.isPrefixOf, Bool.and_true, Bool.and_eq_true, beq_iff_eq] at hp
        obtain ⟨rfl, rfl⟩ := hp
        simp [replacePairs]
    · rename_i hp
      cases hf : findSub [a, b] tl with
      | none => rw [hf] at h; cases h
      | some v =>
        rw [hf] at h
        cases h
        cases tl with
        | nil => simp [findSub] at hf
        | cons y rest =>
          simp only [replacePairs]
          rw [if_neg, ih v hf]
          · rfl
          · rintro ⟨rfl, rfl⟩
            apply hp
            simp [List.isPrefixOf]

theorem ReplaceString_loop_eq (a b : Char) :
    ∀ (fuel : Nat) (subject : List Char) (pos : Nat), pos ≤ subject.length →
      subject.length - pos < fuel →
      ReplaceString.loop [a, b] [a, '-', b] fuel subject pos =
        some (subject.take pos ++ replacePairs a b (subject.drop pos)) := by
  intro fuel
  induction fuel with
  | zero => intro subject pos _ h; omega
  | succ fuel ih =>
    intro subject pos hpos hfuel
    simp only [ReplaceString.loop, findFrom]
    rw [if_neg (by omega)]
    cases hf : findSub [a, b] (subject.drop pos) with
    | none =>
      simp only [Option.map_none']
      rw [replacePairs_of_find_none a b _ hf, List.take_append_drop]
    | some q =>
      simp only [Option.map_some']
      have hq := findSub_lt _ _ _ hf
      simp only [List.length_cons, List.length_nil, List.length_drop] at hq
      have hlen : (subject.take (q + pos)).length = q + pos := by
        rw [List.length_take]; omega
      rw [ih]
      · rw [replacePairs_of_find_some a b _ _ hf]
        congr 1
        have e1 : List.take (q + pos + [a, '-', b].length)
            (List.take (q + pos) subject ++ [a, '-', b] ++ List.drop (q + pos + [a, b].length) subject)
            = List.take (q + pos) subject ++ [a, '-', b] := by
          apply List.take_left'
          simp only [List.length_append, hlen, List.length_cons, List.length_nil]
        have e2 : List.drop (q + pos + [a, '-', b].length)
            (List.take (q + pos) subject ++ [a, '-', b] ++ List.drop (q + pos + [a, b].length) subject)
            = List.drop (q + pos + [a, b].length) subject := by
          apply List.drop_left'
          simp only [List.length_append, hlen, List.length_cons, List.length_nil]
        rw [e1, e2]
        simp only [List.length_cons, List.length_nil, List.drop_drop, List.append_assoc,
          List.cons_append, List.nil_append]
        have e3 : List.take (q + pos) subject = List.take pos subject ++ List.take q (List.drop pos subject) := by
          rw [Nat.add_comm q pos, List.take_add]
        rw [e3, List.append_assoc]
        rw [show q + pos + (0 + 1 + 1) = pos + (q + 2) by omega]
      · simp only [List.length_append, hlen, List.length_cons, List.length_nil, List.length_drop]
        omega
      · simp only [List.length_append, hlen, List.length_cons, List.length_nil, List.length_drop]
        omega

theorem ReplaceString_pair (s : String) (a b : Char) :
    ReplaceString s (String.mk [a, b]) (String.mk [a, '-', b]) =
      some (String.mk (replacePairs a b s.toList)) := by
  unfold ReplaceString
  rw [show (String.mk [a, b]).toList = [a, b] from rfl,
    show (String.mk [a, '-', b]).toList = [a, '-', b] from rfl,
    ReplaceString_loop_eq a b _ _ 0 (Nat.zero_le _) (by show s.data.length - 0 < s.data.length + 1; omega)]
  rfl

theorem replacePairs_head (a b : Char) : ∀ (l : List Char),
    (replacePairs a b l).head? = l.head? := by
  intro l
  cases l with
  | nil => rfl
  | cons x tl =>
    cases tl with
    | nil => rfl
    | cons y rest =>
      simp only [replacePairs]
      split
      · rename_i h; rw [h.1]; rfl
      · rfl

theorem chain_cons_head {R : Char → Char → Prop} (x : Char) (l : List Char)
    (hl : List.Chain' R l) (hx : ∀ y, l.head? = some y → R x y) : List.Chain' R (x :: l) := by
  cases l with
  | nil => exact List.chain'_singleton x
  | cons y tl => exact List.Chain'.cons (hx y rfl) hl

/-- The pass leaves no pair `a b`. -/
theorem replacePairs_chain (a b : Char) (hb : b ≠ '-') (ha : a ≠ '-') (hab : b ≠ a) :
    ∀ (n : Nat) (l : List Char), l.length ≤ n →
      List.Chain' (fun x y => ¬ (x = a ∧ y = b)) (replacePairs a b l) := by
  intro n
  induction n with
  | zero =>
    intro l hl
    cases l with
    | nil => exact List.chain'_nil
    | cons x tl => simp at hl
  | succ n ih =>
    intro l hl
    cases l with
    | nil => exact List.chain'_nil
    | cons x tl =>
      cases tl with
      | nil => exact List.chain'_singleton x
      | cons y rest =>
        simp only [replacePairs]
        simp only [List.length_cons] at hl
        split
        · apply List.Chain'.cons (fun h => hb h.2.symm)
          apply List.Chain'.cons (fun h => ha h.1.symm)
          exact chain_cons_head _ _ (ih _ (by omega)) (fun z _ h => hab h.1)
        · rename_i hne
          apply chain_cons_head _ _ (ih _ (by simp only [List.length_cons]; omega))
          intro z hz
          rw [replacePairs_head] at hz
          cases hz
          exact hne

/-- The pass keeps a text free of the pairs that `R` rules out, when the dash
it puts in forms none with its two neighbours. -/
theorem replacePairs_preserves (R : Char → Char → Prop) (a b : Char) (h1 : R a '-')
    (h2 : R '-' b) :
    ∀ (n : Nat) (l : List Char), l.length ≤ n → List.Chain' R l →
      List.Chain' R (replacePairs a b l) := by
  intro n
  induction n with
  | zero =>
    intro l hl _
    cases l with
    | nil => exact List.chain'_nil
    | cons x tl => simp at hl
  | succ n ih =>
    intro l hl hc
    cases l with
    | nil => exact List.chain'_nil
    | cons x tl =>
      cases tl with
      | nil => exact List.chain'_singleton x
      | cons y rest =>
        simp only [replacePairs]
        simp only [List.length_cons] at hl
        have hxy : R x y := List.Chain'.rel_head hc
        have htl : List.Chain' R (y :: rest) := List.Chain'.tail hc
        split
        · rename_i heq
          apply List.Chain'.cons h1
          apply List.Chain'.cons h2
          apply chain_cons_head _ _ (ih rest (by omega) (List.Chain'.tail htl))
          intro z hz
          rw [replacePairs_head] at hz
          cases rest with
          | nil => cases hz
          | cons w rest2 =>
            cases hz
            rw [← heq.2]
            exact List.Chain'.rel_head htl
        · apply chain_cons_head _ _ (ih _ (by simp only [List.length_cons]; omega) htl)
          intro z hz
          rw [replacePairs_head] at hz
          cases hz
          exact hxy

theorem no_pair_of_chain (a b : Char) (l : List Char)
    (h : List.Chain' (fun x y => ¬ (x = a ∧ y = b)) l) : ¬ [a, b] <:+: l := by
  intro hi
  have := List.Chain'.infix h hi
  exact List.Chain'.rel_head this ⟨rfl, rfl⟩

theorem findSub_at_end (a b : Char) : ∀ (pre : List Char),
    List.Chain' (fun x y => ¬ (x = a ∧ y = b)) (pre ++ [a]) →
      findSub [a, b] (pre ++ [a, b]) = some pre.length := by
  intro pre
  induction pre with
  | nil =>
    intro _
    simp [findSub, List.isPrefixOf]
  | cons x tl ih =>
    intro hc
    simp only [List.cons_append, findSub, List.append_eq]
    have hnp : ¬ [a, b].isPrefixOf (x :: (tl ++ [a, b])) = true := by
      intro hp
      cases tl with
      | nil =>
        simp only [List.nil_append, List.isPrefixOf, Bool.and_true, Bool.and_eq_true,
          beq_iff_eq] at hp
        exact List.Chain'.rel_head hc ⟨hp.1.symm, hp.2.symm⟩
      | cons y rest =>
        simp only [List.cons_append, List.isPrefixOf, Bool.and_true, Bool.and_eq_true,
          beq_iff_eq] at hp
        exact List.Chain'.rel_head hc ⟨hp.1.symm, hp.2.symm⟩
    rw [if_neg hnp, ih (List.Chain'.tail hc)]
    rfl

/-- A text without the pair `*/` that is put behind a title ending in a line
break and closed by `*/` has its first `*/` at the very end. -/
theorem comment_ends_at_end (title r : List Char)
    (ht : List.Chain' (fun x y => ¬ (x = '*' ∧ y = '/')) (title ++ ['\n']))
    (hr : List.Chain' (fun x y => ¬ (x = '*' ∧ y = '/')) r) :
    findSub ['*', '/'] ((title ++ ['\n']) ++ r ++ ['*', '/']) =
      some ((title ++ ['\n']).length + r.length) := by
  rw [← List.length_append]
  apply findSub_at_end
  rw [List.chain'_append]
  refine ⟨?_, List.chain'_singleton _, ?_⟩
  · rw [List.chain'_append]
    refine ⟨ht, hr, ?_⟩
    intro x hx y _ h
    rw [List.getLast?_append, List.getLast?_singleton] at hx
    change some '\n' = some x at hx
    cases hx
    exact absurd h.1 (by decide)
  · intro x _ y hy h
    simp only [List.head?_cons, Option.mem_def, Option.some.injEq] at hy
    rw [← hy] at h
    exact absurd h.2 (by decide)

/-- C39. For every string `s`, `SanitizeCxxBlockComment s` returns (the two
loops of `ReplaceString` end within the rounds the model gives them), and the
text it returns contains neither the two-character sequence `*/` nor `/*`; so
in the block comments that `WriteToFile` builds around it the first `*/` is
the one that closes the comment. -/
theorem C39_SanitizeCxxBlockComment (s : String) :
    ∃ r, SanitizeCxxBlockComment s = some r ∧
      ¬ "*/".toList <:+: r.toList ∧ ¬ "/*".toList <:+: r.toList ∧
      findSub "*/".toList (gdbOutputComment r).toList =
        some ("/* gdb output:\n".length + r.length) ∧
      findSub "*/".toList (compilationOutputComment r).toList =
        some ("/* compilation output:\n".length + r.length) := by
  have e1 : ReplaceString s "/*" "/-*" = some (String.mk (replacePairs '/' '*' s.toList)) :=
    ReplaceString_pair s '/' '*'
  have e2 : ∀ t : String,
      ReplaceString t "*/" "*-/" = some (String.mk (replacePairs '*' '/' t.toList)) :=
    fun t => ReplaceString_pair t '*' '/'
  have hc : List.Chain' (fun x y => ¬ (x = '*' ∧ y = '/'))
      (replacePairs '*' '/' (replacePairs '/' '*' s.toList)) :=
    replacePairs_chain '*' '/' (by decide) (by decide) (by decide) _ _ (Nat.le_refl _)
  refine ⟨String.mk (replacePairs '*' '/' (replacePairs '/' '*' s.toList)), ?_, ?_, ?_, ?_, ?_⟩
  · unfold SanitizeCxxBlockComment
    rw [e1]
    exact e2 _
  · exact no_pair_of_chain '*' '/' _ hc
  · apply no_pair_of_chain '/' '*'
    apply replacePairs_preserves _ '*' '/' (by decide) (by decide) _ _ (Nat.le_refl _)
    exact replacePairs_chain '/' '*' (by decide) (by decide) (by decide) _ _ (Nat.le_refl _)
  · exact comment_ends_at_end "/* gdb output:".toList _
      (by simp [List.chain'_cons]) hc
  · exact comment_ends_at_end "/* compilation output:".toList _
      (by simp [List.chain'_cons]) hc

/-! ## The fingerprint of a crash -/

theorem SquashStackTrace_eq_intercalate (l : List String) :
    SquashStackTrace l = " ".intercalate l := by
  cases l with
  | nil => rfl
  | cons first rest =>
    simp only [SquashStackTrace, String.intercalate]
    induction rest generalizing first with
    | nil => rfl
    | cons t rest ih =>
      simp only [List.foldl_cons, String.intercalate.go]
      exact ih _

theorem IsStartOfStackTrace_not_empty (l : String) (h : IsStartOfStackTrace l = true) :
    l.isEmpty = false := by
  unfold IsStartOfStackTrace at h
  cases hl : l.isEmpty
  · rfl
  · rw [hl] at h; simp at h

/-- The scanning loop once it is inside the stack trace. -/
theorem scanTrace_inside (src_dir : String) :
    ∀ (lines : List String) (acc res : TraceScan), acc.is_stack_trace = true →
      scanTrace src_dir lines acc = some res →
      res.final_stack_trace = acc.final_stack_trace ++
        ((((lines.filterMap StringStrip).takeWhile (fun l => !l.isEmpty)).filterMap
          ParseLocation).filter (fun loc => src_dir.toList.isPrefixOf loc.toList)) ∧
      res.found_first_tgt_loc = (acc.found_first_tgt_loc ||
        !((((lines.filterMap StringStrip).takeWhile (fun l => !l.isEmpty)).filterMap
          ParseLocation).filter (fun loc => src_dir.toList.isPrefixOf loc.toList)).isEmpty) ∧
      res.first_location = (if acc.found_first_tgt_loc then acc.first_location else
        ((((lines.filterMap StringStrip).takeWhile (fun l => !l.isEmpty)).filterMap
          ParseLocation).filter (fun loc => src_dir.toList.isPrefixOf loc.toList)).head?.getD
          acc.first_location) := by
  intro lines
  induction lines with
  | nil =>
    intro acc res _ h
    simp only [scanTrace] at h
    cases h
    simp
  | cons l rest ih =>
    intro acc res hin h
    obtain ⟨fl, ml, fst, found, is_st⟩ := acc
    simp only at hin
    subst hin
    simp only [scanTrace] at h
    cases hs : StringStrip l with
    | none => rw [hs] at h; cases h
    | some s =>
      rw [hs] at h
      simp only [Bool.true_and, ite_self] at h
      simp only [List.filterMap_cons, hs]
      by_cases he : s.isEmpty = true
      · have hst : IsStartOfStackTrace s = false := by
          cases hx : IsStartOfStackTrace s
          · rfl
          · rw [IsStartOfStackTrace_not_empty s hx] at he; cases he
        simp only [hst, IsEndOfStackTrace, he, Bool.not_false, Bool.and_self, if_true] at h
        cases h
        simp [List.takeWhile, he]
      · have he2 : s.isEmpty = false := by
          cases hx : s.isEmpty
          · rfl
          · exact absurd hx he
        simp only [IsEndOfStackTrace, he2, Bool.and_false, Bool.false_eq_true, if_false,
          if_true] at h
        cases hp : ParseLocation s with
        | none => rw [hp] at h; cases h
        | some loc =>
          rw [hp] at h
          simp only at h
          simp only [List.takeWhile, he2, Bool.not_false, List.filterMap_cons, hp]
          by_cases hpre : src_dir.toList.isPrefixOf loc.toList = true
          · simp only [hpre, if_true] at h
            obtain ⟨h1, h2, h3⟩ := ih _ _ rfl h
            simp only [List.filter_cons, hpre, if_true]
            refine ⟨?_, ?_, ?_⟩
            · rw [h1]; simp
            · rw [h2]; simp
            · rw [h3]; cases found <;> simp
          · simp only [hpre, Bool.false_eq_true, if_false] at h
            obtain ⟨h1, h2, h3⟩ := ih _ _ rfl h
            simp only [List.filter_cons, hpre, Bool.false_eq_true, if_false]
            exact ⟨h1, h2, h3⟩

/-- The scanning loop before it has met the first line of the stack trace. -/
theorem scanTrace_outside (src_dir : String) :
    ∀ (lines : List String) (acc res : TraceScan), acc.is_stack_trace = false →
      scanTrace src_dir lines acc = some res →
      res.final_stack_trace = acc.final_stack_trace ++ spec_inSourceLocations src_dir lines ∧
      res.found_first_tgt_loc = (acc.found_first_tgt_loc ||
        !(spec_inSourceLocations src_dir lines).isEmpty) ∧
      res.first_location = (if acc.found_first_tgt_loc then acc.first_location else
        (spec_inSourceLocations src_dir lines).head?.getD acc.first_location) := by
  intro lines
  induction lines with
  | nil =>
    intro acc res _ h
    simp only [scanTrace] at h
    cases h
    simp [spec_inSourceLocations, spec_stackTraceLines]
  | cons l rest ih =>
    intro acc res hout h
    cases hs : StringStrip l with
    | none => simp only [scanTrace, hs] at h; cases h
    | some s =>
      by_cases hst : IsStartOfStackTrace s = true
      · have heq : scanTrace src_dir (l :: rest) acc =
            scanTrace src_dir (l :: rest) { acc with is_stack_trace := true } := by
          simp only [scanTrace, hs, hst, Bool.not_true, Bool.false_and, Bool.false_eq_true,
            if_false, if_true]
        rw [heq] at h
        have := scanTrace_inside src_dir _ _ _ rfl h
        simp only [spec_inSourceLocations, spec_stackTraceLines, List.filterMap_cons, hs]
        rw [List.dropWhile_cons_of_neg (by simp [hst])]
        simpa only [List.filterMap_cons, hs] using this
      · have hst2 : IsStartOfStackTrace s = false := by
          cases hx : IsStartOfStackTrace s
          · rfl
          · exact absurd hx hst
        simp only [scanTrace, hs, hst2, hout, Bool.and_false, Bool.false_and, Bool.false_eq_true,
          if_false, Bool.true_and] at h
        have := ih _ _ hout h
        simp only [spec_inSourceLocations, spec_stackTraceLines, List.filterMap_cons, hs]
        rw [List.dropWhile_cons_of_pos (by simp [hst2])]
        exact this

theorem locationAfterLastAt_after (t : String) (post : List String)
    (h : ∀ x ∈ t :: post, x ≠ "at") :
    ∀ (pre : List String), locationAfterLastAt (pre ++ "at" :: t :: post) = some t := by
  have hany : (t :: post).any (fun x => x == "at") = false := by
    rw [List.any_eq_false]
    intro x hx
    simpa using h x hx
  intro pre
  induction pre with
  | nil =>
    simp only [List.nil_append, locationAfterLastAt, hany, Bool.false_eq_true, if_false]
    simp
  | cons x pre ih =>
    simp only [List.cons_append, locationAfterLastAt]
    rw [if_pos (by simp)]
    exact ih

theorem locationAfterLastAt_none : ∀ (tokens : List String), (∀ x ∈ tokens, x ≠ "at") →
    locationAfterLastAt tokens = some "" := by
  intro tokens
  induction tokens with
  | nil => intro _; rfl
  | cons t rest ih =>
    intro h
    have hany : rest.any (fun x => x == "at") = false := by
      rw [List.any_eq_false]
      intro x hx
      simpa using h x (List.mem_cons_of_mem _ hx)
    have ht : (t == "at") = false := by simpa using h t (List.mem_cons_self _ _)
    simp only [locationAfterLastAt, hany, ht, Bool.false_eq_true, if_false]

/-- C34. For every debugger output that is not a null-invocation crash and on
which `ExecuteInGDBEnv` returns a memo, the fingerprint of the memo is the
single-space-joined list, in stack order, of the locations that start with the
source directory, taken over the lines from the first line starting with `#0`
up to the next empty line; the memo carries a location (the first of the
list), and the crash counts as in-source, exactly when the list is not empty.
The location of a line is the token that follows its last token `at`, and the
empty string when no token is `at`. -/
theorem C34_fingerprint (gdb_output src_dir : String) (lines : List String) (memo : TCMemo)
    (hsplit : SplitStringIntoVector gdb_output "\n" = some lines)
    (hnull : InvokingOnNullptrCheck lines = false)
    (h : ExecuteInGDBEnv gdb_output src_dir = some memo) :
    memo.fingerprint_ = some (" ".intercalate (spec_inSourceLocations src_dir lines)) ∧
    memo.location_ = (spec_inSourceLocations src_dir lines).head? ∧
    (memo.location_.isSome = true ↔ spec_inSourceLocations src_dir lines ≠ []) ∧
    (memo.valid_crash_ = true ↔ spec_inSourceLocations src_dir lines ≠ []) ∧
    (∀ (line t : String) (pre post : List String),
      SplitStringIntoVector line " " = some (pre ++ "at" :: t :: post) →
      (∀ x ∈ t :: post, x ≠ "at") → ParseLocation line = some t) ∧
    (∀ (line : String) (tokens : List String),
      SplitStringIntoVector line " " = some tokens →
      (∀ x ∈ tokens, x ≠ "at") → ParseLocation line = some "") := by
  have hparse1 : ∀ (line t : String) (pre post : List String),
      SplitStringIntoVector line " " = some (pre ++ "at" :: t :: post) →
      (∀ x ∈ t :: post, x ≠ "at") → ParseLocation line = some t := by
    intro line t pre post hl hx
    unfold ParseLocation
    rw [hl]
    exact locationAfterLastAt_after t post hx pre
  have hparse2 : ∀ (line : String) (tokens : List String),
      SplitStringIntoVector line " " = some tokens →
      (∀ x ∈ tokens, x ≠ "at") → ParseLocation line = some "" := by
    intro line tokens hl hx
    unfold ParseLocation
    rw [hl]
    exact locationAfterLastAt_none tokens hx
  unfold ExecuteInGDBEnv at h
  rw [hsplit] at h
  simp only [hnull, Bool.false_eq_true, if_false] at h
  cases hscan : scanTrace src_dir lines ⟨"", "", [], false, false⟩ with
  | none => rw [hscan] at h; cases h
  | some scan =>
    rw [hscan] at h
    obtain ⟨h1, h2, h3⟩ := scanTrace_outside src_dir lines _ _ rfl hscan
    simp only [List.nil_append, Bool.false_or, Bool.false_eq_true, if_false] at h1 h2 h3
    have key : ∀ m : TCMemo,
        m = (if scan.found_first_tgt_loc = true then
            ({ TCMemo.new with
                fingerprint_ := some (SquashStackTrace scan.final_stack_trace)
                gdb_output_ := some gdb_output
                location_ := some scan.first_location } : TCMemo)
          else
            { TCMemo.new with
                fingerprint_ := some (SquashStackTrace scan.final_stack_trace)
                gdb_output_ := some gdb_output
                valid_crash_ := false }) →
        m.fingerprint_ = some (" ".intercalate (spec_inSourceLocations src_dir lines)) ∧
        m.location_ = (spec_inSourceLocations src_dir lines).head? ∧
        (m.location_.isSome = true ↔ spec_inSourceLocations src_dir lines ≠ []) ∧
        (m.valid_crash_ = true ↔ spec_inSourceLocations src_dir lines ≠ []) := by
      intro m hm
      rw [h2] at hm
      rw [h1, SquashStackTrace_eq_intercalate, h3] at hm
      cases hl : spec_inSourceLocations src_dir lines with
      | nil =>
        rw [hl] at hm
        simp only [List.isEmpty_nil, Bool.not_true, Bool.false_eq_true, if_false] at hm
        subst hm
        simp [TCMemo.new]
      | cons a tl =>
        rw [hl] at hm
        simp only [List.isEmpty_cons, Bool.not_false, if_true, List.head?_cons,
          Option.getD_some] at hm
        subst hm
        simp [TCMemo.new]
    simp only at h
    split at h
    · split at h
      · cases h
      · split at h
        · cases h
        · cases h
          obtain ⟨k1, k2, k3, k4⟩ := key _ rfl
          exact ⟨k1, k2, k3, k4, hparse1, hparse2⟩
    · cases h
      obtain ⟨k1, k2, k3, k4⟩ := key _ rfl
      exact ⟨k1, k2, k3, k4, hparse1, hparse2⟩

set_option maxRecDepth 100000 in
theorem C34_fingerprint_witness :
    SplitStringIntoVector Examples.gdbTwoFrames "\n" = some Examples.gdbTwoFramesLines ∧
    InvokingOnNullptrCheck Examples.gdbTwoFramesLines = false ∧
    ExecuteInGDBEnv Examples.gdbTwoFrames "/src" =
      some ⟨true, some "/src/a.cpp:3 /src/b.cpp:7", some Examples.gdbTwoFrames,
        some "/src/a.cpp:3", some 5, none⟩ ∧
    spec_inSourceLocations "/src" Examples.gdbTwoFramesLines = ["/src/a.cpp:3", "/src/b.cpp:7"] ∧
    (some "/src/a.cpp:3 /src/b.cpp:7" : Option String) =
      some (" ".intercalate (spec_inSourceLocations "/src" Examples.gdbTwoFramesLines)) :=
  ⟨rfl, rfl, rfl, rfl,
    (C34_fingerprint Examples.gdbTwoFrames "/src" Examples.gdbTwoFramesLines
      ⟨true, some "/src/a.cpp:3 /src/b.cpp:7", some Examples.gdbTwoFrames,
        some "/src/a.cpp:3", some 5, none⟩ rfl rfl rfl).1⟩

/-! ## The names of the variables -/

theorem char_le_iff (a b : Char) : a ≤ b ↔ a.toNat ≤ b.toNat := by
  show a.val ≤ b.val ↔ a.val.toNat ≤ b.val.toNat
  exact UInt32.le_def

theorem is_alphabet_not_digit (c : Char) (h : c.isDigit = true) : is_alphabet c = false := by
  simp only [Char.isDigit, Bool.and_eq_true, decide_eq_true_eq] at h
  have h1 : 48 ≤ c.toNat := h.1
  have h2 : c.toNat ≤ 57 := h.2
  simp only [is_alphabet, Bool.or_eq_false_iff, Bool.and_eq_false_iff, decide_eq_false_iff_not,
    char_le_iff]
  have e1 : 'a'.toNat = 97 := rfl
  have e2 : 'A'.toNat = 65 := rfl
  have e3 : 'Z'.toNat = 90 := rfl
  rw [e1, e2, e3]
  constructor <;> left <;> omega

theorem digitChar_isDigit (k : Nat) (hk : k < 10) : (Nat.digitChar k).isDigit = true := by
  interval_cases k <;> decide

theorem digitChar_value (k : Nat) (hk : k < 10) : (Nat.digitChar k).toNat - 48 = k := by
  interval_cases k <;> decide

theorem toDigitsCore_spec : ∀ (fuel n : Nat) (ds : List Char), n < fuel →
    ∃ l, Nat.toDigitsCore 10 fuel n ds = l ++ ds ∧
      l.foldl (fun acc c => acc * 10 + (c.toNat - 48)) 0 = n ∧
      ∀ c ∈ l, c.isDigit = true := by
  intro fuel
  induction fuel with
  | zero => intro n ds h; omega
  | succ fuel ih =>
    intro n ds h
    simp only [Nat.toDigitsCore]
    split
    · rename_i h0
      refine ⟨[Nat.digitChar (n % 10)], rfl, ?_, ?_⟩
      · simp only [List.foldl_cons, List.foldl_nil, Nat.zero_mul, Nat.zero_add]
        rw [digitChar_value _ (Nat.mod_lt _ (by decide))]
        omega
      · intro c hc
        simp only [List.mem_singleton] at hc
        rw [hc]
        exact digitChar_isDigit _ (Nat.mod_lt _ (by decide))
    · rename_i h0
      obtain ⟨l, hl, hv, hd⟩ := ih (n / 10) (Nat.digitChar (n % 10) :: ds) (by omega)
      refine ⟨l ++ [Nat.digitChar (n % 10)], ?_, ?_, ?_⟩
      · rw [hl]; simp
      · rw [List.foldl_append, hv]
        simp only [List.foldl_cons, List.foldl_nil]
        rw [digitChar_value _ (Nat.mod_lt _ (by decide))]
        omega
      · intro c hc
        rcases List.mem_append.mp hc with hc | hc
        · exact hd c hc
        · simp only [List.mem_singleton] at hc
          rw [hc]
          exact digitChar_isDigit _ (Nat.mod_lt _ (by decide))

theorem repr_spec (n : Nat) :
    (toString n).toList.foldl (fun acc c => acc * 10 + (c.toNat - 48)) 0 = n ∧
    ∀ c ∈ (toString n).toList, c.isDigit = true := by
  obtain ⟨l, hl, hv, hd⟩ := toDigitsCore_spec (n + 1) n [] (Nat.lt_succ_self n)
  have : (toString n).toList = l := by
    show (Nat.repr n).toList = l
    simp only [Nat.repr, Nat.toDigits, hl, List.append_nil, List.asString]
    rfl
  rw [this]
  exact ⟨hv, hd⟩

theorem toString_injective (i j : Nat) (h : (toString i : String) = toString j) : i = j := by
  have hi := (repr_spec i).1
  have hj := (repr_spec j).1
  rw [h] at hi
  omega

theorem letters_digits_split (P : Char → Bool) :
    ∀ (l1 l2 d1 d2 : List Char), (∀ c ∈ l1, P c = true) → (∀ c ∈ l2, P c = true) →
      (∀ c ∈ d1, P c = false) → (∀ c ∈ d2, P c = false) →
      l1 ++ d1 = l2 ++ d2 → l1 = l2 ∧ d1 = d2 := by
  intro l1
  induction l1 with
  | nil =>
    intro l2 d1 d2 _ h2 h3 _ h
    cases l2 with
    | nil => exact ⟨rfl, h⟩
    | cons y l2 =>
      simp only [List.nil_append, List.cons_append] at h
      have := h3 y (by rw [h]; exact List.mem_cons_self _ _)
      rw [h2 y (List.mem_cons_self _ _)] at this
      cases this
  | cons x l1 ih =>
    intro l2 d1 d2 h1 h2 h3 h4 h
    cases l2 with
    | nil =>
      simp only [List.nil_append, List.cons_append] at h
      have := h4 x (by rw [← h]; exact List.mem_cons_self _ _)
      rw [h1 x (List.mem_cons_self _ _)] at this
      cases this
    | cons y l2 =>
      simp only [List.cons_append, List.cons.injEq] at h
      obtain ⟨e1, e2⟩ := ih l2 d1 d2 (fun c hc => h1 c (List.mem_cons_of_mem _ hc))
        (fun c hc => h2 c (List.mem_cons_of_mem _ hc)) h3 h4 h.2
      exact ⟨by rw [h.1, e1], e2⟩

theorem find_last_of_none (c : Char) : ∀ (l : List Char), c ∉ l → find_last_of c l = none := by
  intro l
  induction l with
  | nil => intro _; rfl
  | cons x rest ih =>
    intro h
    simp only [List.mem_cons, not_or] at h
    simp only [find_last_of, ih h.2]
    rw [if_neg (fun e => h.1 e.symm)]

theorem find_last_of_some (c : Char) (post : List Char) (hpost : c ∉ post) :
    ∀ (pre : List Char), find_last_of c (pre ++ c :: post) = some pre.length := by
  intro pre
  induction pre with
  | nil =>
    simp only [List.nil_append, find_last_of, find_last_of_none c post hpost, if_true,
      List.length_nil]
  | cons x pre ih =>
    simp only [List.cons_append, find_last_of, List.append_eq, ih, List.length_cons]

theorem GetDefaultVarName_letters (t : TypeWithModifier) (base : String)
    (h : t.GetDefaultVarName = some base) : ∀ c ∈ base.toList, is_alphabet c = true := by
  unfold TypeWithModifier.GetDefaultVarName at h
  split at h
  · cases h
  · cases h
    intro c hc
    exact (List.mem_filter.mp hc).2

theorem var_name_form (stmt : Statement) (stmt_id : Nat) (name : String)
    (h : StmtAsString.var_name stmt stmt_id = some (some name)) :
    ∃ base, stmt.type_.GetDefaultVarName = some base ∧ name = base ++ toString stmt_id := by
  have key : stmt.type_.GetDefaultVarName.map (fun n => some (n ++ toString stmt_id)) =
      some (some name) →
      ∃ base, stmt.type_.GetDefaultVarName = some base ∧ name = base ++ toString stmt_id := by
    intro hk
    cases hb : stmt.type_.GetDefaultVarName with
    | none => rw [hb] at hk; cases hk
    | some base =>
      rw [hb] at hk
      simp only [Option.map_some', Option.some.injEq] at hk
      exact ⟨base, rfl, hk.symm⟩
  unfold StmtAsString.var_name at h
  simp only at h
  repeat' (first | cases h | exact key h | split at h)

theorem PrintStatements_loop_get : ∀ (l : List Statement) (idx : Nat)
    (names : List (Option String)), PrintStatements.loop l idx = some names →
    ∀ (i : Nat) (n : Option String), names.get? i = some n →
      ∃ s, l.get? i = some s ∧ StmtAsString.var_name s (idx + i) = some n := by
  intro l
  induction l with
  | nil =>
    intro idx names h i n hn
    simp only [PrintStatements.loop] at h
    cases h
    cases hn
  | cons s rest ih =>
    intro idx names h i n hn
    simp only [PrintStatements.loop] at h
    split at h
    · cases h
    · rename_i name hname
      split at h
      · cases h
      · cases hr : PrintStatements.loop rest (idx + 1) with
        | none => rw [hr] at h; cases h
        | some more =>
          rw [hr] at h
          cases h
          cases i with
          | zero =>
            simp only [List.get?_cons_zero, Option.some.injEq] at hn
            subst hn
            exact ⟨s, rfl, hname⟩
          | succ i =>
            obtain ⟨s2, h1, h2⟩ := ih _ _ hr i n hn
            refine ⟨s2, h1, ?_⟩
            rw [← h2]
            congr 1
            omega

/-- C38. In a driver for which `PrintStatements` emits names, the names of two
statements at different indices are different, and the name of the statement
at index `i` is `GetDefaultVarName` of its type followed by the decimal form of
`i`. For every type, `GetDefaultVarName` is the part of the type name after
its last `:` (the whole name when it has none), converted to lower case, with
every character that is not an ASCII letter removed. -/
theorem C38_default_variable_names (tc : TestCase) (names : List (Option String))
    (i j : Nat) (a b : String)
    (h : PrintStatements.var_names tc = some names) (hij : i ≠ j)
    (ha : names.get? i = some (some a)) (hb : names.get? j = some (some b)) :
    a ≠ b ∧
    (∃ s base, tc.statements_.get? i = some s ∧ s.type_.GetDefaultVarName = some base ∧
      a = base ++ toString i) ∧
    (∀ (t : TypeWithModifier) (ty : CxxType) (pre post : List Char), t.type_ = some ty →
      ty.GetName.toList = pre ++ ':' :: post → ':' ∉ post →
      t.GetDefaultVarName = some (String.mk ((post.map Char.toLower).filter is_alphabet))) ∧
    (∀ (t : TypeWithModifier) (ty : CxxType), t.type_ = some ty → ':' ∉ ty.GetName.toList →
      t.GetDefaultVarName =
        some (String.mk ((ty.GetName.toList.map Char.toLower).filter is_alphabet))) := by
  obtain ⟨s1, hs1, hv1⟩ := PrintStatements_loop_get _ _ _ h i _ ha
  obtain ⟨s2, hs2, hv2⟩ := PrintStatements_loop_get _ _ _ h j _ hb
  rw [Nat.zero_add] at hv1 hv2
  obtain ⟨b1, hb1, e1⟩ := var_name_form _ _ _ hv1
  obtain ⟨b2, hb2, e2⟩ := var_name_form _ _ _ hv2
  refine ⟨?_, ⟨s1, b1, hs1, hb1, e1⟩, ?_, ?_⟩
  · intro hab
    rw [e1, e2] at hab
    have hl : b1.toList ++ (toString i).toList = b2.toList ++ (toString j).toList := by
      have := congrArg String.toList hab
      simpa only [String.toList, String.data_append] using this
    obtain ⟨_, hd⟩ := letters_digits_split is_alphabet _ _ _ _
      (GetDefaultVarName_letters _ _ hb1) (GetDefaultVarName_letters _ _ hb2)
      (fun c hc => is_alphabet_not_digit c ((repr_spec i).2 c hc))
      (fun c hc => is_alphabet_not_digit c ((repr_spec j).2 c hc)) hl
    apply hij
    apply toString_injective
    exact String.ext hd
  · intro t ty pre post ht hn hpost
    unfold TypeWithModifier.GetDefaultVarName
    rw [ht]
    simp only [hn, find_last_of_some ':' post hpost pre]
    congr 1
    have hd : List.drop (pre.length + 1) (pre ++ ':' :: post) = post := by
      rw [show pre ++ ':' :: post = (pre ++ [':']) ++ post by simp]
      exact List.drop_left' (by simp)
    simp only [Sanitize, ToLower, hd]
    rfl
  · intro t ty ht hn
    unfold TypeWithModifier.GetDefaultVarName
    rw [ht]
    simp only [find_last_of_none ':' _ hn]
    rfl

theorem C38_default_variable_names_witness :
    PrintStatements.var_names Examples.tcM = some [some "a0", some "int1"] ∧
    (0 : Nat) ≠ 1 ∧
    [some "a0", some "int1"].get? 0 = some (some "a0") ∧
    [some "a0", some "int1"].get? 1 = some (some "int1") ∧
    "a0" ≠ "int1" :=
  ⟨rfl, by decide, rfl, rfl,
    (C38_default_variable_names Examples.tcM [some "a0", some "int1"] 0 1 "a0" "int1"
      rfl (by decide) rfl rfl).1⟩

/-! ## Reference rewiring of the update mutation -/

theorem ReplMap.find_emplace_of_ne (m : ReplMap) (a b : Nat) (s : Statement) (h : b ≠ a) :
    ReplMap.find (ReplMap.emplace m a s) b = ReplMap.find m b := by
  unfold ReplMap.emplace
  cases hf : ReplMap.find m a with
  | some _ => rfl
  | none =>
    simp only
    unfold ReplMap.find
    rw [List.find?_append]
    cases hg : List.find? (fun kv => kv.1 == b) m with
    | some kv => simp
    | none =>
      have : ¬ a = b := fun e => h e.symm
      simp [this]

theorem ReplMap.find_emplace_self (m : ReplMap) (a : Nat) (s : Statement)
    (h : ReplMap.find m a = none) : ReplMap.find (ReplMap.emplace m a s) a = some s := by
  unfold ReplMap.emplace
  rw [h]
  unfold ReplMap.find at h ⊢
  simp only [Option.map_eq_none'] at h
  simp [List.find?_append, h]

theorem rewireLoop_append : ∀ (l1 l2 : List Statement) (m : ReplMap) (n : Nat),
    rewireLoop (l1 ++ l2) m n =
      ((rewireLoop l1 m n).1 ++ (rewireLoop l2 (rewireLoop l1 m n).2.1 (rewireLoop l1 m n).2.2).1,
        (rewireLoop l2 (rewireLoop l1 m n).2.1 (rewireLoop l1 m n).2.2).2.1,
        (rewireLoop l2 (rewireLoop l1 m n).2.1 (rewireLoop l1 m n).2.2).2.2) := by
  intro l1
  induction l1 with
  | nil => intro l2 m n; rfl
  | cons s rest ih =>
    intro l2 m n
    simp only [List.cons_append, rewireLoop]
    split
    · simp only [List.append_eq, ih, List.cons_append]
    · simp only [List.append_eq, ih, List.cons_append]

/-- The loop leaves statements that hold no reference to a key of the map as they are. -/
theorem rewireLoop_noop : ∀ (l : List Statement) (m : ReplMap) (n : Nat),
    (∀ s ∈ l, ∀ o ∈ s.GetStatementOperands, spec_refersToKey m o = false) →
    rewireLoop l m n = (l, m, n + l.length) := by
  intro l
  induction l with
  | nil => intro m n _; rfl
  | cons s rest ih =>
    intro m n h
    have hs := h s (List.mem_cons_self _ _)
    obtain ⟨_, h2, h3⟩ := ReplaceRefOperand_spec s m n (fun _ => hs)
    rw [filter_of_no_key m _ hs] at h2
    simp only [rewireLoop, h2, List.length_nil, Nat.lt_irrefl, if_false, h3,
      ih m (n + 1) (fun x hx => h x (List.mem_cons_of_mem _ hx)), List.length_cons]
    simp only [Prod.mk.injEq, true_and]
    omega

theorem get?_append_lt {α : Type} (l1 l2 : List α) (i : Nat) (h : i < l1.length) :
    (l1 ++ l2).get? i = l1.get? i := by
  rw [List.get?_eq_getElem?, List.get?_eq_getElem?, List.getElem?_append_left h]

theorem get?_append_ge {α : Type} (l1 l2 : List α) (i : Nat) :
    (l1 ++ l2).get? (l1.length + i) = l2.get? i := by
  rw [List.get?_eq_getElem?, List.get?_eq_getElem?, List.getElem?_append_right (by omega)]
  congr 1
  omega

theorem get?_lt_length {α : Type} (l : List α) (i : Nat) (x : α) (h : l.get? i = some x) :
    i < l.length := by
  rw [List.get?_eq_getElem?] at h
  exact (List.getElem?_eq_some_iff.mp h).1

theorem retarget_rel (m : ReplMap) (P P' : List Statement)
    (hrel : ∀ i t t', P.get? i = some t → P'.get? i = some t' →
      (ReplMap.find m t.addr = some t' ∨ (ReplMap.find m t.addr = none ∧ t' = t)))
    (o : Operand) :
    (o.ref_ = none → spec_retarget m o = o) ∧
    (∀ i t t', o.ref_ = some t.addr → P.get? i = some t → P'.get? i = some t' →
      (spec_retarget m o).ref_ = some t'.addr) := by
  constructor
  · intro h
    unfold spec_retarget
    rw [h]
    rfl
  · intro i t t' ho ht ht'
    unfold spec_retarget
    rw [ho]
    simp only [Option.some_bind]
    rcases hrel i t t' ht ht' with h1 | ⟨h1, h2⟩
    · rw [h1]
      rfl
    · rw [h1, h2]
      exact ho


/-- The loop over the statements behind the victim: `P` are the statements
already passed and `P'` what stands in their places. -/
theorem rewireLoop_post :
    ∀ (post P P' : List Statement) (m : ReplMap) (n : Nat),
      P.length = P'.length →
      (∀ i t t', P.get? i = some t → P'.get? i = some t' →
        (ReplMap.find m t.addr = some t' ∨ (ReplMap.find m t.addr = none ∧ t' = t))) →
      (∀ a, ReplMap.find m a ≠ none → a ∈ P.map (fun s => s.addr)) →
      ((P ++ post).map (fun s => s.addr)).Nodup →
      (∀ j s, post.get? j = some s → ∀ o ∈ s.GetStatementOperands, ∀ a, o.ref_ = some a →
        ∃ i t, i < P.length + j ∧ (P ++ post).get? i = some t ∧ t.addr = a) →
      (∀ s ∈ post, s.GetVariant = .kArrayInitialization →
        ∀ o ∈ s.GetStatementOperands, o.ref_ = none) →
      ∃ post' M, rewireLoop post m n = (post', M, n + post.length) ∧
        post'.length = post.length ∧
        ∀ j s, post.get? j = some s → ∃ s', post'.get? j = some s' ∧
          s'.type_ = s.type_ ∧ s'.GetVariant = s.GetVariant ∧ (s' = s ∨ s'.addr = n + j) ∧
          s'.GetStatementOperands.length = s.GetStatementOperands.length ∧
          ∀ k o o', s.GetStatementOperands.get? k = some o →
            s'.GetStatementOperands.get? k = some o' →
            (o.ref_ = none → o' = o) ∧
            (∀ i t t', o.ref_ = some t.addr → (P ++ post).get? i = some t →
              (P' ++ post').get? i = some t' → o'.ref_ = some t'.addr) := by
  intro post
  induction post with
  | nil =>
    intro P P' m n _ _ _ _ _ _
    exact ⟨[], m, rfl, rfl, by intro j s hj; cases hj⟩
  | cons s rest ih =>
    intro P P' m n hlen hrel hkeys hnd hback harr
    -- the statement itself
    have hsarr : s.GetVariant = .kArrayInitialization →
        ∀ o ∈ s.GetStatementOperands, spec_refersToKey m o = false := by
      intro hv o ho
      have := harr s (List.mem_cons_self _ _) hv o ho
      unfold spec_refersToKey
      rw [this]
      rfl
    obtain ⟨hcl, hcnt, hself⟩ := ReplaceRefOperand_spec s m n hsarr
    have hsP : s.addr ∉ P.map (fun s => s.addr) := by
      intro hmem
      rw [List.map_append, List.nodup_append] at hnd
      exact hnd.2.2 hmem (by simp)
    have hfs : ReplMap.find m s.addr = none := by
      by_contra hne
      exact hsP (hkeys _ hne)
    -- what the loop puts in the place of `s`, and the map it goes on with
    obtain ⟨snew, m1, hstep, hnew⟩ : ∃ snew m1,
        rewireLoop (s :: rest) m n =
          (snew :: (rewireLoop rest m1 (n + 1)).1, (rewireLoop rest m1 (n + 1)).2.1,
            (rewireLoop rest m1 (n + 1)).2.2) ∧
        ((snew = ⟨n, s.type_, none, spec_mapOperands (spec_retarget m) s.body⟩ ∧
            m1 = ReplMap.emplace m s.addr snew) ∨
          (snew = s ∧ m1 = m ∧
            ∀ o ∈ s.GetStatementOperands, spec_refersToKey m o = false)) := by
      by_cases hr : (s.ReplaceRefOperand m n).replacement > 0
      · refine ⟨(s.ReplaceRefOperand m n).cloned,
          ReplMap.emplace m s.addr (s.ReplaceRefOperand m n).cloned, ?_, Or.inl ⟨hcl, rfl⟩⟩
        simp only [rewireLoop, hr, if_true]
      · refine ⟨s, m, ?_, Or.inr ⟨rfl, rfl, ?_⟩⟩
        · simp only [rewireLoop, hr, if_false, hself]
        · rw [hcnt] at hr
          have : (s.GetStatementOperands.filter (spec_refersToKey m)) = [] := by
            cases hl : s.GetStatementOperands.filter (spec_refersToKey m) with
            | nil => rfl
            | cons x xs => rw [hl] at hr; simp at hr
          intro o ho
          cases hk : spec_refersToKey m o with
          | false => rfl
          | true =>
            have : o ∈ s.GetStatementOperands.filter (spec_refersToKey m) :=
              List.mem_filter.mpr ⟨ho, hk⟩
            rw [‹s.GetStatementOperands.filter (spec_refersToKey m) = []›] at this
            cases this
    have hops : snew.GetStatementOperands = s.GetStatementOperands.map (spec_retarget m) := by
      rcases hnew with ⟨h1, _⟩ | ⟨h1, _, h3⟩
      · rw [h1]
        exact ops_mapOperands _ _ _ _ _ _ _ _
      · rw [h1, map_retarget_of_no_key m _ h3]
    have htype : snew.type_ = s.type_ := by
      rcases hnew with ⟨h1, _⟩ | ⟨h1, _, _⟩ <;> rw [h1]
    have hvar : snew.GetVariant = s.GetVariant := by
      rcases hnew with ⟨h1, _⟩ | ⟨h1, _, _⟩
      · rw [h1]
        exact variant_mapOperands _ _ _ _ _ _ _ _
      · rw [h1]
    have haddr : snew = s ∨ snew.addr = n := by
      rcases hnew with ⟨h1, _⟩ | ⟨h1, _, _⟩
      · right; rw [h1]
      · left; exact h1
    have hfind1 : ∀ a, a ≠ s.addr → ReplMap.find m1 a = ReplMap.find m a := by
      intro a ha
      rcases hnew with ⟨_, h2⟩ | ⟨_, h2, _⟩
      · rw [h2]
        exact ReplMap.find_emplace_of_ne m s.addr a snew ha
      · rw [h2]
    have hfinds : ReplMap.find m1 s.addr = some snew ∨
        (ReplMap.find m1 s.addr = none ∧ snew = s) := by
      rcases hnew with ⟨_, h2⟩ | ⟨h1, h2, _⟩
      · left
        rw [h2]
        exact ReplMap.find_emplace_self m s.addr snew hfs
      · right
        rw [h2]
        exact ⟨hfs, h1⟩
    -- the relation with the statement appended
    have hlen1 : (P ++ [s]).length = (P' ++ [snew]).length := by
      simp only [List.length_append, List.length_singleton, hlen]
    have hrel1 : ∀ i t t', (P ++ [s]).get? i = some t → (P' ++ [snew]).get? i = some t' →
        (ReplMap.find m1 t.addr = some t' ∨ (ReplMap.find m1 t.addr = none ∧ t' = t)) := by
      intro i t t' ht ht'
      by_cases hi : i < P.length
      · rw [get?_append_lt _ _ _ hi] at ht
        rw [get?_append_lt _ _ _ (by omega)] at ht'
        have hta : t.addr ≠ s.addr := by
          intro e
          apply hsP
          rw [← e]
          exact List.mem_map.mpr ⟨t, List.mem_iff_get?.mpr ⟨i, ht⟩, rfl⟩
        rw [hfind1 _ hta]
        exact hrel i t t' ht ht'
      · have hil := get?_lt_length _ _ _ ht
        simp only [List.length_append, List.length_singleton] at hil
        have hie : i = P.length + 0 := by omega
        have hie' : i = P'.length + 0 := by omega
        rw [hie, get?_append_ge] at ht
        rw [hie', get?_append_ge] at ht'
        simp only [List.get?_cons_zero, Option.some.injEq] at ht ht'
        subst ht
        subst ht'
        exact hfinds
    have hkeys1 : ∀ a, ReplMap.find m1 a ≠ none → a ∈ (P ++ [s]).map (fun s => s.addr) := by
      intro a ha
      simp only [List.map_append, List.map_cons, List.map_nil, List.mem_append,
        List.mem_singleton]
      by_cases hs : a = s.addr
      · exact Or.inr hs
      · rw [hfind1 a hs] at ha
        exact Or.inl (hkeys a ha)
    have hnd1 : (((P ++ [s]) ++ rest).map (fun s => s.addr)).Nodup := by
      rw [List.append_assoc]
      exact hnd
    have hback1 : ∀ j x, rest.get? j = some x → ∀ o ∈ x.GetStatementOperands, ∀ a,
        o.ref_ = some a →
        ∃ i t, i < (P ++ [s]).length + j ∧ ((P ++ [s]) ++ rest).get? i = some t ∧ t.addr = a := by
      intro j x hx o ho a ha
      obtain ⟨i, t, hi, ht, hta⟩ := hback (j + 1) x hx o ho a ha
      refine ⟨i, t, ?_, ?_, hta⟩
      · simp only [List.length_append, List.length_singleton]
        omega
      · rw [List.append_assoc]
        exact ht
    obtain ⟨post1, M, hloop, hl1, hprop⟩ := ih (P ++ [s]) (P' ++ [snew]) m1 (n + 1) hlen1 hrel1
      hkeys1 hnd1 hback1 (fun x hx => harr x (List.mem_cons_of_mem _ hx))
    refine ⟨snew :: post1, M, ?_, ?_, ?_⟩
    · rw [hstep, hloop]
      simp only [List.length_cons, Prod.mk.injEq, true_and]
      omega
    · simp only [List.length_cons, hl1]
    · intro j x hx
      cases j with
      | zero =>
        simp only [List.get?_cons_zero, Option.some.injEq] at hx
        subst hx
        refine ⟨snew, rfl, htype, hvar, ?_, ?_, ?_⟩
        · simpa using haddr
        · rw [hops, List.length_map]
        · intro k o o' hk hk'
          rw [hops, List.get?_eq_getElem?, List.getElem?_map, ← List.get?_eq_getElem?, hk] at hk'
          simp only [Option.map_some', Option.some.injEq] at hk'
          subst hk'
          obtain ⟨r1, r2⟩ := retarget_rel m P P' hrel o
          refine ⟨r1, ?_⟩
          intro i t t' hot ht ht'
          obtain ⟨i0, t0, hi0, ht0, hta0⟩ :=
            hback 0 s rfl o (List.mem_iff_get?.mpr ⟨k, hk⟩) t.addr hot
          have hii : i = i0 := nodup_addr_index _ hnd i i0 t t0 ht ht0 hta0.symm
          subst hii
          simp only [Nat.add_zero] at hi0
          rw [get?_append_lt _ _ _ hi0] at ht
          rw [get?_append_lt _ _ _ (by omega)] at ht'
          exact r2 i t t' hot ht ht'
      | succ j =>
        simp only [List.get?_cons_succ] at hx
        obtain ⟨x', hx', h1, h2, h3, h4, h5⟩ := hprop j x hx
        refine ⟨x', hx', h1, h2, ?_, h4, ?_⟩
        · rcases h3 with h3 | h3
          · exact Or.inl h3
          · right; rw [h3]; omega
        · intro k o o' hk hk'
          obtain ⟨q1, q2⟩ := h5 k o o' hk hk'
          refine ⟨q1, ?_⟩
          intro i t t' hot ht ht'
          refine q2 i t t' hot ?_ ?_
          · rw [List.append_assoc]
            exact ht
          · rw [List.append_assoc]
            exact ht'

theorem split_at_get? {α : Type} (l : List α) (i : Nat) (x : α) (h : l.get? i = some x) :
    l = l.take i ++ x :: l.drop (i + 1) ∧ (l.take i).length = i := by
  have hi := get?_lt_length l i x h
  rw [List.get?_eq_getElem?] at h
  have hx : l[i] = x := (List.getElem?_eq_some_iff.mp h).2
  constructor
  · conv_lhs => rw [← List.take_append_drop i l]
    rw [List.drop_eq_getElem_cons hi, hx]
  · rw [List.length_take]
    omega

theorem find_single (a b : Nat) (s : Statement) :
    ReplMap.find [(a, s)] b = if a = b then some s else none := by
  unfold ReplMap.find
  by_cases h : a = b
  · simp [h]
  · simp [h]

theorem set_append_middle {α : Type} (l1 l2 : List α) (x y : α) :
    ((l1 ++ [x]) ++ l2).set l1.length y = l1 ++ y :: l2 := by
  induction l1 with
  | nil => rfl
  | cons a rest ih =>
    simp only [List.cons_append, List.length_cons, List.set_cons_succ, List.cons.injEq,
      true_and]
    simp [ih]

theorem get?_middle {α : Type} (l1 l2 : List α) (x : α) :
    (l1 ++ x :: l2).get? l1.length = some x := by
  have := get?_append_ge l1 (x :: l2) 0
  simpa using this

/-- The vector that the update mutation leaves, in terms of the loop over the
statements behind the victim. -/
theorem InplaceMutationByUpdateRewire_eq (pre post : List Statement)
    (victim next_stmt : Statement) (n : Nat)
    (hssa : SingleAssignment (pre ++ victim :: post))
    (hne : victim.addr ≠ next_stmt.addr) :
    InplaceMutationByUpdateRewire (pre ++ victim :: post) pre.length next_stmt n =
      some (pre ++ next_stmt ::
          (rewireLoop post [(victim.addr, next_stmt)] (n + (pre.length + 1))).1,
        (rewireLoop post [(victim.addr, next_stmt)] (n + (pre.length + 1))).2.2) := by
  have hv : (pre ++ victim :: post).get? pre.length = some victim := get?_middle pre post victim
  have hassoc : pre ++ victim :: post = (pre ++ [victim]) ++ post := by simp
  have hnoop : rewireLoop (pre ++ [victim]) [(victim.addr, next_stmt)] n =
      (pre ++ [victim], [(victim.addr, next_stmt)], n + (pre.length + 1)) := by
    have := rewireLoop_noop (pre ++ [victim]) [(victim.addr, next_stmt)] n ?_
    · rw [this]
      simp only [List.length_append, List.length_singleton]
    · intro s hs o ho
      unfold spec_refersToKey
      cases hr : o.ref_ with
      | none => rfl
      | some a =>
        simp only [Option.some_bind, find_single]
        obtain ⟨j, hj⟩ := List.mem_iff_get?.mp hs
        have hjl := get?_lt_length _ _ _ hj
        have hj2 : (pre ++ victim :: post).get? j = some s := by
          rw [hassoc, get?_append_lt _ _ _ hjl]
          exact hj
        simp only [List.length_append, List.length_singleton] at hjl
        obtain ⟨i, t, hij, ht, hta⟩ := hssa.2 j s hj2 o ho a hr
        have hav : ¬ victim.addr = a := by
          intro e
          have := nodup_addr_index _ hssa.1 i pre.length t victim ht hv (by rw [hta, e])
          omega
        rw [if_neg hav]
        rfl
  unfold InplaceMutationByUpdateRewire
  rw [hv]
  simp only [ne_eq, hne, not_false_eq_true, if_true]
  rw [hassoc, rewireLoop_append, hnoop]
  simp only
  rw [set_append_middle]

theorem nodup_rewired (post post' : List Statement) (n0 : Nat)
    (hl : post'.length = post.length)
    (hnd : (post.map (fun s => s.addr)).Nodup)
    (hlt : ∀ s ∈ post, s.addr < n0)
    (hA : ∀ j s', post'.get? j = some s' →
      ∃ s, post.get? j = some s ∧ (s' = s ∨ s'.addr = n0 + j)) :
    (post'.map (fun s => s.addr)).Nodup ∧
    ∀ a ∈ post'.map (fun s => s.addr), a ∈ post.map (fun s => s.addr) ∨ n0 ≤ a := by
  constructor
  · rw [List.nodup_iff_getElem?_ne_getElem?]
    intro i j hij hj
    rw [List.length_map] at hj
    rw [List.getElem?_map, List.getElem?_map]
    have hi : i < post'.length := by omega
    obtain ⟨si, hsi, hci⟩ := hA i post'[i] (by rw [List.get?_eq_getElem?]; exact List.getElem?_eq_getElem hi)
    obtain ⟨sj, hsj, hcj⟩ := hA j post'[j] (by rw [List.get?_eq_getElem?]; exact List.getElem?_eq_getElem hj)
    rw [List.getElem?_eq_getElem hi, List.getElem?_eq_getElem hj]
    simp only [Option.map_some', ne_eq, Option.some.injEq]
    intro heq
    have hsi_lt := hlt si (List.mem_iff_get?.mpr ⟨i, hsi⟩)
    have hsj_lt := hlt sj (List.mem_iff_get?.mpr ⟨j, hsj⟩)
    rcases hci with hci | hci <;> rcases hcj with hcj | hcj
    · rw [hci, hcj] at heq
      have := nodup_addr_index post hnd i j si sj hsi hsj heq
      omega
    · rw [hci] at heq
      omega
    · rw [hcj] at heq
      omega
    · omega
  · intro a ha
    obtain ⟨s', hs', rfl⟩ := List.mem_map.mp ha
    obtain ⟨j, hj⟩ := List.mem_iff_get?.mp hs'
    obtain ⟨s, hs, hc⟩ := hA j s' hj
    rcases hc with hc | hc
    · left
      rw [hc]
      exact List.mem_map.mpr ⟨s, List.mem_iff_get?.mpr ⟨j, hs⟩, rfl⟩
    · right
      omega

/-- The rewiring of the update mutation on the driver `pre ++ victim :: post`. -/
theorem update_rewiring_split (pre post : List Statement) (victim next_stmt : Statement)
    (n : Nat)
    (hssa : SingleAssignment (pre ++ victim :: post))
    (hfresh : ∀ s ∈ pre ++ victim :: post, s.addr < n) (hn : next_stmt.addr < n)
    (hnew : ∀ s ∈ pre ++ victim :: post, s.addr ≠ next_stmt.addr)
    (hrefs : ∀ o ∈ next_stmt.GetStatementOperands, ∀ a, o.ref_ = some a →
      ∃ j t, j < pre.length ∧ (pre ++ victim :: post).get? j = some t ∧ t.addr = a)
    (harr : ∀ s ∈ pre ++ victim :: post, s.GetVariant = .kArrayInitialization →
      ∀ o ∈ s.GetStatementOperands, o.ref_ = none) :
    ∃ d' n', InplaceMutationByUpdateRewire (pre ++ victim :: post) pre.length next_stmt n =
        some (d', n') ∧
      d'.length = (pre ++ victim :: post).length ∧ d'.get? pre.length = some next_stmt ∧
      (∀ j s, j ≠ pre.length → (pre ++ victim :: post).get? j = some s →
        ∃ s', d'.get? j = some s' ∧ s'.type_ = s.type_ ∧ s'.GetVariant = s.GetVariant ∧
          s'.GetStatementOperands.length = s.GetStatementOperands.length ∧
          ∀ k o o', s.GetStatementOperands.get? k = some o →
            s'.GetStatementOperands.get? k = some o' →
            (o.ref_ = none → o' = o) ∧
            (∀ i t, o.ref_ = some t.addr → (pre ++ victim :: post).get? i = some t →
              ∃ t', d'.get? i = some t' ∧ o'.ref_ = some t'.addr)) ∧
      SingleAssignment d' := by
  have hvmem : victim ∈ pre ++ victim :: post := by simp
  have hne : victim.addr ≠ next_stmt.addr := hnew victim hvmem
  have hv : (pre ++ victim :: post).get? pre.length = some victim := get?_middle pre post victim
  have hassoc : pre ++ victim :: post = (pre ++ [victim]) ++ post := by simp
  have hPlen : (pre ++ [victim]).length = pre.length + 1 := by simp
  have hP'len : (pre ++ [next_stmt]).length = pre.length + 1 := by simp
  -- the loop over the statements behind the victim
  obtain ⟨post', M, hloop, hl, hprop⟩ := rewireLoop_post post (pre ++ [victim])
    (pre ++ [next_stmt]) [(victim.addr, next_stmt)] (n + (pre.length + 1))
    (by rw [hPlen, hP'len])
    (by
      intro i t t' ht ht'
      by_cases hi : i < pre.length
      · rw [get?_append_lt _ _ _ hi] at ht ht'
        rw [ht] at ht'
        cases ht'
        right
        refine ⟨?_, rfl⟩
        rw [find_single, if_neg]
        intro e
        have h2 : (pre ++ victim :: post).get? i = some t := by
          rw [get?_append_lt _ _ _ hi]; exact ht
        have := nodup_addr_index _ hssa.1 i pre.length t victim h2 hv e.symm
        omega
      · have hil := get?_lt_length _ _ _ ht
        rw [hPlen] at hil
        have hie : i = pre.length + 0 := by omega
        rw [hie, get?_append_ge] at ht ht'
        simp only [List.get?_cons_zero, Option.some.injEq] at ht ht'
        subst ht
        subst ht'
        left
        rw [find_single, if_pos rfl])
    (by
      intro a ha
      rw [find_single] at ha
      split at ha
      · rename_i e
        rw [← e]
        simp
      · exact absurd rfl ha)
    (by rw [← hassoc]; exact hssa.1)
    (by
      intro j s hs o ho a ha
      have hs2 : (pre ++ victim :: post).get? (pre.length + (j + 1)) = some s := by
        rw [get?_append_ge]
        exact hs
      obtain ⟨i, t, hi, ht, hta⟩ := hssa.2 _ s hs2 o ho a ha
      refine ⟨i, t, by rw [hPlen]; omega, ?_, hta⟩
      rw [← hassoc]
      exact ht)
    (fun s hs => harr s (by simp [hs]))
  have hd' := InplaceMutationByUpdateRewire_eq pre post victim next_stmt n hssa hne
  rw [hloop] at hd'
  simp only at hd'
  have hassoc' : pre ++ next_stmt :: post' = (pre ++ [next_stmt]) ++ post' := by simp
  have hlen' : (pre ++ next_stmt :: post').length = (pre ++ victim :: post).length := by
    simp only [List.length_append, List.length_cons, hl]
  -- the statements away from the victim
  have hother : ∀ j s, j ≠ pre.length → (pre ++ victim :: post).get? j = some s →
      ∃ s', (pre ++ next_stmt :: post').get? j = some s' ∧ s'.type_ = s.type_ ∧
        s'.GetVariant = s.GetVariant ∧ (s' = s ∨ n ≤ s'.addr ∧ s'.addr = n + j) ∧
        s'.GetStatementOperands.length = s.GetStatementOperands.length ∧
        ∀ k o o', s.GetStatementOperands.get? k = some o →
          s'.GetStatementOperands.get? k = some o' →
          (o.ref_ = none → o' = o) ∧
          (∀ i t, o.ref_ = some t.addr → (pre ++ victim :: post).get? i = some t →
            ∃ t', (pre ++ next_stmt :: post').get? i = some t' ∧ o'.ref_ = some t'.addr) := by
    intro j s hj hs
    by_cases hlt : j < pre.length
    · have hs1 : pre.get? j = some s := by
        rw [get?_append_lt _ _ _ hlt] at hs; exact hs
      refine ⟨s, by rw [get?_append_lt _ _ _ hlt]; exact hs1, rfl, rfl, Or.inl rfl, rfl, ?_⟩
      intro k o o' hk hk'
      rw [hk] at hk'
      cases hk'
      refine ⟨fun _ => rfl, ?_⟩
      intro i t hot ht
      obtain ⟨i0, t0, hi0, ht0, hta0⟩ :=
        hssa.2 j s hs o (List.mem_iff_get?.mpr ⟨k, hk⟩) t.addr hot
      have hii : i = i0 := nodup_addr_index _ hssa.1 i i0 t t0 ht ht0 hta0.symm
      subst hii
      have hil : i < pre.length := by omega
      refine ⟨t, ?_, hot⟩
      rw [get?_append_lt _ _ _ hil]
      rw [get?_append_lt _ _ _ hil] at ht
      exact ht
    · obtain ⟨j0, rfl⟩ : ∃ j0, j = pre.length + (j0 + 1) := ⟨j - pre.length - 1, by omega⟩
      have hs1 : post.get? j0 = some s := by
        rw [get?_append_ge] at hs
        exact hs
      obtain ⟨s', hs', h1, h2, h3, h4, h5⟩ := hprop j0 s hs1
      refine ⟨s', by rw [get?_append_ge]; exact hs', h1, h2, ?_, h4, ?_⟩
      · rcases h3 with h3 | h3
        · exact Or.inl h3
        · right
          rw [h3]
          omega
      · intro k o o' hk hk'
        obtain ⟨q1, q2⟩ := h5 k o o' hk hk'
        refine ⟨q1, ?_⟩
        intro i t hot ht
        have hil : i < (pre ++ next_stmt :: post').length := by
          rw [hlen']
          exact get?_lt_length _ _ _ ht
        obtain ⟨t', ht'⟩ : ∃ t', (pre ++ next_stmt :: post').get? i = some t' :=
          ⟨_, by rw [List.get?_eq_getElem?]; exact List.getElem?_eq_getElem hil⟩
        refine ⟨t', ht', ?_⟩
        refine q2 i t t' hot ?_ ?_
        · rw [← hassoc]; exact ht
        · rw [← hassoc']; exact ht'
  refine ⟨pre ++ next_stmt :: post', _, hd', hlen', get?_middle pre post' next_stmt, ?_, ?_⟩
  · intro j s hj hs
    obtain ⟨s', h1, h2, h3, _, h5, h6⟩ := hother j s hj hs
    exact ⟨s', h1, h2, h3, h5, h6⟩
  · -- the driver after the mutation is in single-assignment form again
    have hnd0 := hssa.1
    rw [List.map_append, List.map_cons, List.nodup_append] at hnd0
    obtain ⟨hndpre, hndvp, hdisj⟩ := hnd0
    rw [List.nodup_cons] at hndvp
    obtain ⟨hrw1, hrw2⟩ := nodup_rewired post post' (n + (pre.length + 1)) hl hndvp.2
      (fun s hs => by
        have := hfresh s (by simp [hs])
        omega)
      (by
        intro j s' hs'
        have hjl : j < post.length := by
          rw [← hl]
          exact get?_lt_length _ _ _ hs'
        obtain ⟨s, hs⟩ : ∃ s, post.get? j = some s :=
          ⟨_, by rw [List.get?_eq_getElem?]; exact List.getElem?_eq_getElem hjl⟩
        obtain ⟨s'', hs'', _, _, h3, _⟩ := hprop j s hs
        rw [hs'] at hs''
        cases hs''
        exact ⟨s, hs, h3⟩)
    refine ⟨?_, ?_⟩
    · rw [List.map_append, List.map_cons, List.nodup_append]
      refine ⟨hndpre, ?_, ?_⟩
      · rw [List.nodup_cons]
        refine ⟨?_, hrw1⟩
        intro hmem
        rcases hrw2 _ hmem with h | h
        · obtain ⟨s, hs, hsa⟩ := List.mem_map.mp h
          exact hnew s (by simp [hs]) hsa
        · omega
      · intro a ha hb
        obtain ⟨s, hs, hsa⟩ := List.mem_map.mp ha
        rcases List.mem_cons.mp hb with h | h
        · exact hnew s (by simp [hs]) (hsa.trans h)
        · rcases hrw2 _ h with h | h
          · exact hdisj ha (List.mem_cons_of_mem _ h)
          · have := hfresh s (by simp [hs])
            omega
    · intro i s' hs' o' ho' a ha
      by_cases hip : i = pre.length
      · subst hip
        rw [get?_middle] at hs'
        cases hs'
        obtain ⟨j, t, hj, ht, hta⟩ := hrefs o' ho' a ha
        refine ⟨j, t, hj, ?_, hta⟩
        rw [get?_append_lt _ _ _ hj]
        rw [get?_append_lt _ _ _ hj] at ht
        exact ht
      · have hil : i < (pre ++ victim :: post).length := by
          rw [← hlen']
          exact get?_lt_length _ _ _ hs'
        obtain ⟨s, hs⟩ : ∃ s, (pre ++ victim :: post).get? i = some s :=
          ⟨_, by rw [List.get?_eq_getElem?]; exact List.getElem?_eq_getElem hil⟩
        obtain ⟨s'', hs'', _, _, _, h5, h6⟩ := hother i s hip hs
        rw [hs'] at hs''
        cases hs''
        obtain ⟨k, hk'⟩ := List.mem_iff_get?.mp ho'
        have hkl : k < s.GetStatementOperands.length := by
          rw [← h5]
          exact get?_lt_length _ _ _ hk'
        obtain ⟨o, hk⟩ : ∃ o, s.GetStatementOperands.get? k = some o :=
          ⟨_, by rw [List.get?_eq_getElem?]; exact List.getElem?_eq_getElem hkl⟩
        obtain ⟨q1, q2⟩ := h6 k o o' hk hk'
        cases hor : o.ref_ with
        | none =>
          have := q1 hor
          subst this
          rw [hor] at ha
          cases ha
        | some a0 =>
          obtain ⟨i0, t, hi0, ht, hta⟩ :=
            hssa.2 i s hs o (List.mem_iff_get?.mpr ⟨k, hk⟩) a0 hor
          obtain ⟨t', ht', hot'⟩ := q2 i0 t (by rw [hor, hta]) ht
          refine ⟨i0, t', hi0, ht', ?_⟩
          rw [hot'] at ha
          cases ha
          rfl

/-! ## The array statements that the generator and the mutators build -/

theorem StepArr_refl (stmts : List Statement) : StepArr stmts stmts :=
  ⟨[], by simp, by intro s hs; cases hs⟩

theorem StepArr_trans (s0 s1 s2 : List Statement) (h1 : StepArr s0 s1) (h2 : StepArr s1 s2) :
    StepArr s0 s2 := by
  obtain ⟨n1, e1, g1⟩ := h1
  obtain ⟨n2, e2, g2⟩ := h2
  refine ⟨n1 ++ n2, by rw [e2, e1, List.append_assoc], ?_⟩
  intro s hs
  rcases List.mem_append.mp hs with h | h
  · exact g1 s h
  · exact g2 s h

theorem StepArr_push (stmts : List Statement) (stmt : Statement)
    (h : stmt.IsStringArrayOrOther) : StepArr stmts (stmts ++ [stmt]) :=
  ⟨[stmt], rfl, by intro s hs; simp only [List.mem_singleton] at hs; subst hs; exact h⟩

theorem StringArrays_of_step (stmts stmts1 : List Statement) (h : StepArr stmts stmts1)
    (h0 : StringArrays stmts) : StringArrays stmts1 := by
  obtain ⟨new, e, g⟩ := h
  intro s hs
  rw [e] at hs
  rcases List.mem_append.mp hs with h | h
  · exact h0 s h
  · exact g s h

theorem pushAndRef_arr (mk : Nat → Option Statement) (stmts : List Statement)
    (c : TemplateTypeContext) (st : GenState) (res : Resolved)
    (hmk : ∀ stmt, mk st.next_addr = some stmt → stmt.IsStringArrayOrOther)
    (h : pushAndRef mk stmts c st = .ok res) :
    StepArr stmts res.statements := by
  unfold pushAndRef at h
  split at h
  · cases h
  · rename_i stmt hs
    cases h
    exact StepArr_push stmts stmt (hmk stmt hs)

theorem make_arr (addr : Nat) (type : TypeWithModifier) (body : StatementBody)
    (stmt : Statement) (h : Statement.make addr type body = some stmt)
    (hb : ∀ capacity string_literal elements,
      body = .ArrayInitStatement capacity string_literal elements →
      elements = none ∧ ∃ lit, string_literal = some lit ∧ lit.ref_ = none) :
    stmt.IsStringArrayOrOther := by
  have := Statement_make_ok _ _ _ _ h
  subst this
  exact hb

theorem ResolveOperandPrimitiveType_arr (T : TypeWithModifier) (stmts : List Statement)
    (c : TemplateTypeContext) (st : GenState) (res : Resolved)
    (h : ResolveOperandPrimitiveType T stmts c st = .ok res) :
    StepArr stmts res.statements := by
  unfold ResolveOperandPrimitiveType at h
  split at h
  · cases h
    exact StepArr_refl _
  · simp only at h
    split at h
    · refine pushAndRef_arr _ _ _ _ _ ?_ h
      intro stmt hs
      unfold MakeCString at hs
      refine make_arr _ _ _ _ hs ?_
      intro capacity string_literal elements hb
      cases hb
      exact ⟨rfl, _, rfl, rfl⟩
    · split at h
      · cases h
      · split at h
        · refine pushAndRef_arr _ _ _ _ _ ?_ h
          intro stmt hs
          unfold MakeUnaryOpStatement at hs
          refine make_arr _ _ _ _ hs ?_
          intro capacity string_literal elements hb
          cases hb
        · cases h
          exact StepArr_refl _

theorem ResolveOperandEnumType_arr (T : TypeWithModifier) (stmts : List Statement)
    (c : TemplateTypeContext) (st : GenState) (res : Resolved)
    (h : ResolveOperandEnumType T stmts c st = .ok res) :
    StepArr stmts res.statements := by
  unfold ResolveOperandEnumType at h
  split at h
  · split at h
    · cases h
    · refine pushAndRef_arr _ _ _ _ _ ?_ h
      intro stmt hs
      unfold MakeUnaryOpStatement at hs
      refine make_arr _ _ _ _ hs ?_
      intro capacity string_literal elements hb
      cases hb
  · cases h

theorem resolveEach_arr (resolve : Resolver) (hr : ResolverArr resolve) (force : Bool) :
    ∀ (types : List TypeWithModifier) (stmts : List Statement) (c : TemplateTypeContext)
      (st : GenState) (ops : List Operand) (stmts1 : List Statement) (c1 : TemplateTypeContext)
      (st1 : GenState),
      resolveEach resolve force types stmts c st = .ok (ops, stmts1, c1, st1) →
      StepArr stmts stmts1 := by
  intro types
  induction types with
  | nil =>
    intro stmts c st ops stmts1 c1 st1 h
    simp only [resolveEach] at h
    cases h
    exact StepArr_refl _
  | cons t rest ih =>
    intro stmts c st ops stmts1 c1 st1 h
    simp only [resolveEach] at h
    split at h
    · cases h
    · rename_i res hres
      split at h
      · cases h
      · rename_i ops2 stmts2 c2 st2 hrest
        cases h
        exact StepArr_trans _ _ _ (hr _ _ _ _ _ _ hres) (ih _ _ _ _ _ _ _ hrest)

theorem resolvePairs_arr (resolve : Resolver) (hr : ResolverArr resolve) (force : Bool)
    (k v : TypeWithModifier) :
    ∀ (n : Nat) (stmts : List Statement) (c : TemplateTypeContext)
      (st : GenState) (kvs : List (Operand × Operand)) (stmts1 : List Statement)
      (c1 : TemplateTypeContext) (st1 : GenState),
      resolvePairs resolve force k v n stmts c st = .ok (kvs, stmts1, c1, st1) →
      StepArr stmts stmts1 := by
  intro n
  induction n with
  | zero =>
    intro stmts c st kvs stmts1 c1 st1 h
    simp only [resolvePairs] at h
    cases h
    exact StepArr_refl _
  | succ n ih =>
    intro stmts c st kvs stmts1 c1 st1 h
    simp only [resolvePairs] at h
    split at h
    · cases h
    · rename_i rk hk
      split at h
      · cases h
      · rename_i okk ck stk hak
        split at h
        · cases h
        · split at h
          · cases h
          · rename_i rv hv
            split at h
            · cases h
            · rename_i okv cv stv hav
              split at h
              · cases h
              · split at h
                · cases h
                · rename_i more stmts2 c2 st2 hrest
                  cases h
                  exact StepArr_trans _ _ _ (StepArr_trans _ _ _ (hr _ _ _ _ _ _ hk)
                    (hr _ _ _ _ _ _ hv)) (ih _ _ _ _ _ _ _ hrest)

theorem call_arr (stmt : Statement) (target : Executable) (ops : List Operand)
    (inv : Option Operand) (c : TemplateTypeContext)
    (hb : stmt.body = .CallStatement target ops inv c) : stmt.IsStringArrayOrOther := by
  intro capacity string_literal elements h
  rw [hb] at h
  cases h

theorem ResolveOperandClassType_arr (p : ProgramContext) (resolve : Resolver)
    (hr : ResolverArr resolve) (T : TypeWithModifier) (stmts : List Statement)
    (c : TemplateTypeContext) (force : Bool) (st : GenState) (res : Resolved)
    (h : ResolveOperandClassType p resolve T stmts c force st = .ok res) :
    StepArr stmts res.statements := by
  unfold ResolveOperandClassType at h
  split at h
  · simp only at h
    split at h
    · cases h
    · split at h
      · try simp only at h
        split at h
        · cases h
        · rename_i operands stmts2 c2 st2 heach
          have s1 := resolveEach_arr resolve hr force _ _ _ _ _ _ _ _ heach
          split at h
          · cases h
          · rename_i statement c3 r3 hcall
            obtain ⟨_, hb⟩ := MakeExecutableCall_ok _ _ _ _ _ _ _ _ _ _ hcall
            try simp only at h
            split at h
            · cases h
            · split at h
              · cases h
                exact StepArr_trans _ _ _ s1 (StepArr_push _ _ (call_arr _ _ _ _ _ hb))
              · cases h
      · cases h
  · cases h

theorem emitSTL_arr (twm : TypeWithModifier) (target : STLType) (elements : STLElement)
    (stmts : List Statement) (c : TemplateTypeContext) (st : GenState) (res : Resolved)
    (h : emitSTL twm target elements stmts c st = .ok res) :
    StepArr stmts res.statements := by
  unfold emitSTL at h
  refine pushAndRef_arr _ _ _ _ _ ?_ h
  intro stmt hs
  unfold MakeSTLStatement at hs
  refine make_arr _ _ _ _ hs ?_
  intro capacity string_literal elements hb
  cases hb

theorem Handle_arr (resolve : Resolver) (hr : ResolverArr resolve) (twm : TypeWithModifier)
    (stmts : List Statement) (c : TemplateTypeContext) (force : Bool) (st : GenState)
    (res : Resolved)
    (h : STLOperandResolver.Handle resolve twm stmts c force st = .ok res) :
    StepArr stmts res.statements := by
  unfold STLOperandResolver.Handle at h
  split at h
  · rename_i stl_type inst_list htype
    cases hv : stl_type.GetSTLTypeVariant <;> simp only [hv] at h
    · -- kRegContainer
      split at h
      · split at h
        · cases h
        · split at h
          · cases h
          · rename_i ops stmts1 c1 st1 hres
            exact StepArr_trans _ _ _ (resolveEach_arr resolve hr force _ _ _ _ _ _ _ _ hres)
              (emitSTL_arr _ _ _ _ _ _ _ h)
      · cases h
    · -- kRegContainerWithSize
      split at h
      · split at h
        · cases h
        · split at h
          · cases h
          · rename_i ops stmts1 c1 st1 hres
            exact StepArr_trans _ _ _ (resolveEach_arr resolve hr force _ _ _ _ _ _ _ _ hres)
              (emitSTL_arr _ _ _ _ _ _ _ h)
      · cases h
    · -- kKeyValueContainer
      split at h
      · split at h
        · split at h
          · cases h
          · rename_i kvs stmts1 c1 st1 hres
            exact StepArr_trans _ _ _
              (resolvePairs_arr resolve hr force _ _ _ _ _ _ _ _ _ _ hres)
              (emitSTL_arr _ _ _ _ _ _ _ h)
        · cases h
      · cases h
    · -- kPair
      split at h
      · split at h
        · split at h
          · cases h
          · rename_i r1 h1
            split at h
            · cases h
            · rename_i r2 h2
              exact StepArr_trans _ _ _
                (StepArr_trans _ _ _ (hr _ _ _ _ _ _ h1) (hr _ _ _ _ _ _ h2))
                (emitSTL_arr _ _ _ _ _ _ _ h)
        · cases h
      · cases h
    · -- kTuple
      split at h
      · split at h
        · cases h
        · rename_i ops stmts1 c1 st1 hres
          exact StepArr_trans _ _ _ (resolveEach_arr resolve hr force _ _ _ _ _ _ _ _ hres)
            (emitSTL_arr _ _ _ _ _ _ _ h)
      · cases h
    · -- kSmartPointer
      split at h
      · split at h
        · cases h
        · split at h
          · cases h
          · rename_i r1 h1
            exact StepArr_trans _ _ _ (hr _ _ _ _ _ _ h1) (emitSTL_arr _ _ _ _ _ _ _ h)
      · cases h
    · -- kString
      split at h
      · split at h
        · cases h
        · split at h
          · cases h
          · rename_i ops stmts1 c1 st1 hres
            exact StepArr_trans _ _ _ (resolveEach_arr resolve hr force _ _ _ _ _ _ _ _ hres)
              (emitSTL_arr _ _ _ _ _ _ _ h)
      · cases h
  · cases h

theorem dispatch_arr (p : ProgramContext) (resolve : Resolver) (hr : ResolverArr resolve)
    (T : TypeWithModifier) (ty : CxxType) (stmts : List Statement) (c1 : TemplateTypeContext)
    (force : Bool) (res : Resolved) (nd : Bool × GenState)
    (h : (if nd.1 = true then
        (.ok ⟨Operand.MakeConstantOperand T "nullptr", stmts, c1, nd.2⟩ : Except Fault Resolved)
      else
        match ty.GetVariant with
        | .kPrimitive => ResolveOperandPrimitiveType T stmts c1 nd.2
        | .kClass => ResolveOperandClassType p resolve T stmts c1 force nd.2
        | .kEnum => ResolveOperandEnumType T stmts c1 nd.2
        | .kTemplateTypename => ResolveOperandTemplateTypenameType resolve T stmts c1 force nd.2
        | .kTemplateTypenameSpc =>
          ResolveOperandTemplateTypenameSpcType resolve T stmts c1 force nd.2
        | .kSTL => .ok ⟨Operand.MakeBottom, stmts, c1, nd.2⟩) = .ok res) :
    StepArr stmts res.statements := by
  split at h
  · cases h
    exact StepArr_refl _
  · split at h
    · exact ResolveOperandPrimitiveType_arr _ _ _ _ _ h
    · exact ResolveOperandClassType_arr p resolve hr _ _ _ _ _ _ h
    · exact ResolveOperandEnumType_arr _ _ _ _ _ h
    · unfold ResolveOperandTemplateTypenameType at h
      split at h
      · cases h
      · exact hr _ _ _ _
          { nd.2 with random := (c1.LookupOrResolve _ nd.2.random).2.2 } _ h
    · unfold ResolveOperandTemplateTypenameSpcType at h
      split at h
      · exact Handle_arr resolve hr _ _ _ _ _ _ h
      · split at h
        · cases h
        · split at h
          · cases h
          · rename_i r1 h1
            cases h
            exact hr _ _ _ _ _ r1 h1
      · cases h
    · cases h
      exact StepArr_refl _

theorem ResolveOperandBody_arr (p : ProgramContext) (resolve : Resolver)
    (hr : ResolverArr resolve) : ResolverArr (ResolveOperandBody p resolve) := by
  intro T stmts c force st res h
  unfold ResolveOperandBody at h
  split at h
  · cases h
  · rename_i ty hty
    split at h
    · cases h
      exact StepArr_refl _
    · split at h
      · cases h
      · simp only at h
        split at h
        · cases h
        · cases h
          exact StepArr_refl _
        · rename_i c1 st1 hreuse
          exact dispatch_arr p resolve hr T ty stmts c1 force res
            (if T.IsPointer = true then
              (decide (st1.random.NextGaussian.1 < 100),
                ({ st1 with random := st1.random.NextGaussian.2 } : GenState))
              else (false, st1)) h

theorem ResolveOperand_arr (p : ProgramContext) : ∀ fuel, ResolverArr (ResolveOperand p fuel) := by
  intro fuel
  induction fuel with
  | zero => intro T stmts c force st res h; cases h
  | succ n ih => exact ResolveOperandBody_arr p _ ih

theorem appendCalls_arr (p : ProgramContext) (target : Executable) (operands : List Operand)
    (inv : Option Operand) :
    ∀ (k : Nat) (stmts : List Statement) (c : TemplateTypeContext) (st : GenState)
      (stmts3 : List Statement) (c3 : TemplateTypeContext) (st3 : GenState),
      appendCalls p target operands inv k stmts c st = .ok (stmts3, c3, st3) →
      StepArr stmts stmts3 := by
  intro k
  induction k with
  | zero =>
    intro stmts c st stmts3 c3 st3 h
    simp only [appendCalls] at h
    cases h
    exact StepArr_refl _
  | succ k ih =>
    intro stmts c st stmts3 c3 st3 h
    simp only [appendCalls] at h
    split at h
    · cases h
    · rename_i statement c1 r1 hcall
      obtain ⟨_, hb⟩ := MakeExecutableCall_ok _ _ _ _ _ _ _ _ _ _ hcall
      exact StepArr_trans _ _ _ (StepArr_push _ _ (call_arr _ _ _ _ _ hb))
        (ih _ _ _ _ _ _ h)

/-- When the array statements of the statement context hold a constant string
literal only, so do those of every driver that `GenForMethod` returns. -/
theorem GenForMethod_arr (p : ProgramContext) (fuel : Nat) (target : Executable)
    (tt_ctx : TemplateTypeContext) (ctx : List Statement) (idx : Nat) (force : Bool)
    (st st1 : GenState) (tc : TestCase) (h0 : StringArrays ctx)
    (h : GenForMethod p fuel target tt_ctx ctx idx force st = .ok (tc, st1)) :
    StringArrays tc.statements_ := by
  unfold GenForMethod at h
  split at h
  · cases h
  · simp only at h
    split at h
    · cases h
    · rename_i operands stmts1 c1 s1 heach
      have e1 := resolveEach_arr _ (ResolveOperand_arr p fuel) force _ _ _ _ _ _ _ _ heach
      split at h
      · cases h
      · rename_i opt_inv stmts2 c2 s2 hinv
        have e2 : StepArr stmts1 stmts2 := by
          by_cases hreq : (decide (target.executable_variant_ = ExecutableVariant.kMethod) &&
              target.owner_.isSome && !target.is_not_require_invoking_obj_) = true
          · rw [if_pos hreq] at hinv
            cases hown : (target.owner_.bind fun o => p.GetTypeByQualName o.qualified_name_) with
            | none => rw [hown] at hinv; cases hinv
            | some class_model =>
              rw [hown] at hinv
              simp only at hinv
              cases hres : ResolveOperand p fuel
                  (TypeWithModifier.FromSpecByType (CxxType.cls class_model)) stmts1 c1 force s1 with
              | error e => rw [hres] at hinv; cases hinv
              | ok res =>
                rw [hres] at hinv
                cases hinv
                exact ResolveOperand_arr p fuel _ _ _ _ _ _ hres
          · rw [if_neg hreq] at hinv
            cases hinv
            exact StepArr_refl _
        split at h
        · cases h
        · rename_i stmts3 c3 s3 hcalls
          cases h
          have e3 := appendCalls_arr p target operands opt_inv _ _ _ _ _ _ _ hcalls
          have hall := StringArrays_of_step _ _
            (StepArr_trans _ _ _ (StepArr_trans _ _ _ e1 e2) e3)
            (fun s hs => h0 s (List.mem_of_mem_take hs))
          intro s hs
          rcases List.mem_append.mp hs with h1 | h1
          · exact hall s h1
          · exact h0 s (List.mem_of_mem_drop h1)

theorem arr_of_body (s t : Statement) (h : t.body = s.body) (hs : s.IsStringArrayOrOther) :
    t.IsStringArrayOrOther := by
  intro capacity string_literal elements hb
  rw [h] at hb
  exact hs _ _ _ hb

theorem MutatePrimitiveAssignment_arr (stmt : Statement) (tc : TestCase) (st : GenState)
    (m : Mutated Statement) (h : MutatePrimitiveAssignment stmt tc st = .ok m) :
    m.value.IsStringArrayOrOther := by
  unfold MutatePrimitiveAssignment at h
  repeat' (first
    | (cases h; done)
    | split at h
    | simp only at h)
  all_goals
    cases h
    intro capacity string_literal elements hb
    cases hb

theorem MutateCall_arr (p : ProgramContext) (k : List (String × StatementVisitorResult))
    (stmt : Statement) (tc : TestCase) (st : GenState) (m : Mutated Statement)
    (h : MutateCall p k stmt tc st = .ok m) : m.value.IsStringArrayOrOther := by
  intro capacity string_literal elements hb
  have hv := MutateCall_variant p k stmt tc st m h
  simp only [Statement.GetVariant, hb] at hv
  cases hv

theorem MutateSTLConstruction_arr (stmt : Statement) (tc : TestCase) (st : GenState)
    (m : Mutated Statement) (h : MutateSTLConstruction stmt tc st = .ok m) :
    m.value.IsStringArrayOrOther := by
  unfold MutateSTLConstruction at h
  split at h
  · rename_i target elmts x inst_list hbody hty
    have hstmt : stmt.IsStringArrayOrOther := by
      intro capacity string_literal elements hb
      rw [hbody] at hb
      cases hb
    repeat' (first
      | (cases h; done)
      | split at h
      | simp only at h)
    all_goals
      cases h
      first
        | exact hstmt
        | (intro capacity string_literal elements hb; cases hb)
  · cases h

theorem MutateArrayInit_arr (stmt : Statement) (tc : TestCase) (st : GenState)
    (m : Mutated Statement) (hs : stmt.IsStringArrayOrOther)
    (h : MutateArrayInit stmt tc st = .ok m) : m.value.IsStringArrayOrOther := by
  unfold MutateArrayInit at h
  split at h
  · rename_i capacity string_literal elements hbody
    obtain ⟨he, lit, hl, _⟩ := hs _ _ _ hbody
    subst he
    subst hl
    simp only at h
    cases h
    intro capacity1 string_literal1 elements1 hb
    cases hb
    exact ⟨rfl, _, rfl, rfl⟩
  · cases h

/-- The statement that `MutateStatement` returns for a statement that is no
array statement or holds a constant string literal only is of that kind again. -/
theorem MutateStatement_arr (p : ProgramContext) (k : List (String × StatementVisitorResult))
    (stmt : Statement) (tc : TestCase) (st : GenState) (m : Mutated Statement)
    (hs : stmt.IsStringArrayOrOther) (h : MutateStatement p k stmt tc st = .ok m) :
    m.value.IsStringArrayOrOther := by
  unfold MutateStatement at h
  split at h
  · exact MutatePrimitiveAssignment_arr _ _ _ _ h
  · exact MutateCall_arr _ _ _ _ _ _ h
  · exact MutateSTLConstruction_arr _ _ _ _ h
  · exact MutateArrayInit_arr _ _ _ _ hs h

theorem ReplaceRefOperand_arr (s : Statement) (m : ReplMap) (a : Nat)
    (hs : s.IsStringArrayOrOther) :
    (s.ReplaceRefOperand m a).cloned.IsStringArrayOrOther ∧
    (s.ReplaceRefOperand m a).self_after.IsStringArrayOrOther := by
  unfold Statement.ReplaceRefOperand
  cases hb : s.body with
  | PrimitiveAssignmentStatement op ops =>
    refine ⟨?_, hs⟩
    intro capacity string_literal elements h
    cases h
  | CallStatement t ops inv c =>
    cases inv with
    | none =>
      refine ⟨?_, hs⟩
      intro capacity string_literal elements h
      cases h
    | some o =>
      refine ⟨?_, hs⟩
      intro capacity string_literal elements h
      cases h
  | STLStatement t e =>
    refine ⟨?_, hs⟩
    intro capacity string_literal elements h
    cases h
  | ArrayInitStatement cap lit el =>
    obtain ⟨he, l, hl, _⟩ := hs _ _ _ hb
    subst he
    subst hl
    exact ⟨arr_of_body s _ rfl hs, hs⟩

theorem rewireLoop_arr : ∀ (l : List Statement) (m : ReplMap) (a : Nat),
    StringArrays l → StringArrays (rewireLoop l m a).1 := by
  intro l
  induction l with
  | nil => intro m a _ s hs; cases hs
  | cons item rest ih =>
    intro m a h0
    obtain ⟨v1, v2⟩ := ReplaceRefOperand_arr item m a (h0 item (List.mem_cons_self _ _))
    have hrest : StringArrays rest := fun s hs => h0 s (List.mem_cons_of_mem _ hs)
    rw [rewireLoop]
    by_cases hr : (item.ReplaceRefOperand m a).replacement > 0
    · simp only [hr, if_true]
      intro s hs
      rcases List.mem_cons.mp hs with rfl | hs
      · exact v1
      · exact ih _ _ hrest s hs
    · simp only [hr, if_false]
      intro s hs
      rcases List.mem_cons.mp hs with rfl | hs
      · exact v2
      · exact ih _ _ hrest s hs

theorem Insertion_arr (p : ProgramContext) (k : List (String × StatementVisitorResult))
    (fuel : Nat) (tc tc1 : TestCase) (st st1 : GenState) (h0 : StringArrays tc.statements_)
    (h : InplaceMutationByInsertion p k fuel tc st = .ok (tc1, st1)) :
    StringArrays tc1.statements_ := by
  unfold InplaceMutationByInsertion at h
  split at h
  · cases h
  · simp only at h
    split at h
    · cases h
    · rename_i res st2 hg
      split at h
      · cases h
        exact GenForMethod_arr _ _ _ _ _ _ _ _ _ _ h0 hg
      · cases h

theorem Update_arr (p : ProgramContext) (k : List (String × StatementVisitorResult))
    (tc tc1 : TestCase) (st st1 : GenState) (h0 : StringArrays tc.statements_)
    (h : InplaceMutationByUpdate p k tc st = .ok (tc1, st1)) :
    StringArrays tc1.statements_ := by
  unfold InplaceMutationByUpdate at h
  split at h
  · cases h
  · rename_i idx r1 hidx
    split at h
    · cases h
    · rename_i victim hv
      split at h
      · cases h
      · rename_i m hm
        have hvict : victim.IsStringArrayOrOther :=
          h0 victim (List.mem_iff_get?.mpr ⟨_, hv⟩)
        have hnew := MutateStatement_arr _ _ _ _ _ _ hvict hm
        split at h
        · cases h
        · unfold InplaceMutationByUpdateRewire at h
          rw [hv] at h
          simp only at h
          by_cases hne : victim.addr ≠ m.value.addr
          · rw [if_pos hne] at h
            simp only at h
            split at h
            · cases h
            · cases h
              simp only
              intro s hs
              rcases List.mem_or_eq_of_mem_set hs with h1 | h1
              · exact rewireLoop_arr _ _ _ h0 s h1
              · rw [h1]
                exact hnew
          · rw [if_neg hne] at h
            simp only at h
            split at h
            · cases h
            · cases h
              exact h0

theorem Cleanup_arr (d : List Statement) (h0 : StringArrays d) :
    StringArrays (InplaceMutationByCleanup d) := by
  intro s hs
  exact h0 s ((mem_Cleanup d s).mp hs).1

theorem havocLoop_arr (p : ProgramContext) (k : List (String × StatementVisitorResult))
    (fuel : Nat) :
    ∀ (n : Nat) (tc tc1 : TestCase) (st st1 : GenState), StringArrays tc.statements_ →
      havocLoop p k fuel n tc st = .ok (tc1, st1) → StringArrays tc1.statements_ := by
  intro n
  induction n with
  | zero =>
    intro tc tc1 st st1 hc h
    simp only [havocLoop] at h
    cases h
    exact hc
  | succ n ih =>
    intro tc tc1 st st1 hc h
    simp only [havocLoop] at h
    split at h
    · cases h
    · rename_i tc2 st2 hstep
      refine ih tc2 tc1 st2 st1 ?_ h
      by_cases c0 : st.random.raw % 3 = 0
      · rw [if_pos c0] at hstep
        exact Insertion_arr _ _ _ _ _ _ _ hc hstep
      · rw [if_neg c0] at hstep
        by_cases c1 : st.random.raw % 3 = 1
        · rw [if_pos c1] at hstep
          exact Update_arr _ _ _ _ _ _ hc hstep
        · rw [if_neg c1] at hstep
          split at hstep
          · cases hstep
            exact Cleanup_arr _ hc
          · cases hstep

/-- The array statements of every driver that `MutateTestCase` returns hold a
constant string literal only, when those of the driver it was given do. -/
theorem MutateTestCase_arr (p : ProgramContext) (k : List (String × StatementVisitorResult))
    (fuel : Nat) (tc tc1 : TestCase) (maxHavoc : Int) (st st1 : GenState)
    (hc : StringArrays tc.statements_) (h : MutateTestCase p k fuel tc maxHavoc st = .ok (tc1, st1)) :
    StringArrays tc1.statements_ := by
  unfold MutateTestCase at h
  split at h
  · cases h
  · split at h
    · cases h
    · exact havocLoop_arr _ _ _ _ _ _ _ _ hc h

/-- In a driver whose array statements hold a constant string literal only, no
array statement holds a reference operand. -/
theorem StringArrays_no_ref (d : List Statement) (h0 : StringArrays d) :
    ∀ s ∈ d, s.GetVariant = .kArrayInitialization →
      ∀ o ∈ s.GetStatementOperands, o.ref_ = none := by
  intro s hs hv o ho
  cases hb : s.body with
  | PrimitiveAssignmentStatement op ops => simp only [Statement.GetVariant, hb] at hv; cases hv
  | CallStatement t ops inv c => simp only [Statement.GetVariant, hb] at hv; cases hv
  | STLStatement t e => simp only [Statement.GetVariant, hb] at hv; cases hv
  | ArrayInitStatement cap lit el =>
    obtain ⟨he, l, hl, hr⟩ := h0 s hs _ _ _ hb
    subst he
    subst hl
    simp only [Statement.GetStatementOperands, hb, List.append_nil, List.mem_singleton] at ho
    subst ho
    exact hr

/-- C3. For a single-assignment driver `d` with the victim at index `idx` and a
replacement statement `next_stmt` that is a fresh object (its address is below the
allocator's next address `n`, as are those of `d`, and differs from those of `d`),
whose reference operands all point to statements before `idx`, the rewiring of
`InplaceMutationByUpdate` returns a driver of the same length with `next_stmt` at
index `idx`. Every other statement keeps its index, type, variant and number of
operands; each of its constant operands is unchanged, and each operand that
referred to the statement at index `i` of `d` refers to the statement at index `i`
of the new driver, so a reference to the victim becomes a reference to `next_stmt`
and a reference to a rewired statement becomes a reference to its rewired version.
The new driver satisfies single assignment. The array statements of `d` hold no
reference operand, as in every driver that the generator and the mutators
build: their array statements come from `MakeCString` and `MutateArrayInit`
and hold a constant string literal only (`GenForMethod_arr`,
`MutateTestCase_arr`, `StringArrays_no_ref`). -/
theorem C3_update_rewiring (d : List Statement) (idx : Nat) (victim next_stmt : Statement)
    (n : Nat)
    (hssa : SingleAssignment d) (hv : d.get? idx = some victim)
    (hfresh : ∀ s ∈ d, s.addr < n) (hn : next_stmt.addr < n)
    (hnew : ∀ s ∈ d, s.addr ≠ next_stmt.addr)
    (hrefs : ∀ o ∈ next_stmt.GetStatementOperands, ∀ a, o.ref_ = some a →
      ∃ j t, j < idx ∧ d.get? j = some t ∧ t.addr = a)
    (harr : ∀ s ∈ d, s.GetVariant = .kArrayInitialization →
      ∀ o ∈ s.GetStatementOperands, o.ref_ = none) :
    ∃ d' n', InplaceMutationByUpdateRewire d idx next_stmt n = some (d', n') ∧
      d'.length = d.length ∧ d'.get? idx = some next_stmt ∧
      (∀ j s, j ≠ idx → d.get? j = some s →
        ∃ s', d'.get? j = some s' ∧ s'.type_ = s.type_ ∧ s'.GetVariant = s.GetVariant ∧
          s'.GetStatementOperands.length = s.GetStatementOperands.length ∧
          ∀ k o o', s.GetStatementOperands.get? k = some o →
            s'.GetStatementOperands.get? k = some o' →
            (o.ref_ = none → o' = o) ∧
            (∀ i t, o.ref_ = some t.addr → d.get? i = some t →
              ∃ t', d'.get? i = some t' ∧ o'.ref_ = some t'.addr)) ∧
      SingleAssignment d' := by
  obtain ⟨hsplit, hlen⟩ := split_at_get? d idx victim hv
  generalize d.take idx = pre at hsplit hlen
  generalize d.drop (idx + 1) = post at hsplit
  subst hsplit
  subst hlen
  exact update_rewiring_split pre post victim next_stmt n hssa hfresh hn hnew hrefs harr

theorem C3_update_rewiring_witness :
    SingleAssignment Examples.dUpdate ∧
    InplaceMutationByUpdateRewire Examples.dUpdate 0 (Examples.sInt 4 "2") 5 =
      some ([Examples.sInt 4 "2", Examples.sStr, Examples.sCallG 7 (Examples.sInt 4 "2"),
        Examples.sCallG 8 (Examples.sCallG 7 (Examples.sInt 4 "2"))], 9) ∧
    SingleAssignment [Examples.sInt 4 "2", Examples.sStr,
      Examples.sCallG 7 (Examples.sInt 4 "2"),
      Examples.sCallG 8 (Examples.sCallG 7 (Examples.sInt 4 "2"))] ∧
    ∃ g, InplaceMutationByUpdate Examples.pF []
        ⟨[Examples.sInt 0 "1", Examples.sCallG 1 (Examples.sInt 0 "1")], TemplateTypeContext.New⟩
        ⟨Examples.zeroRandom, some ⟨[], []⟩, 2⟩ =
      .ok (⟨[Examples.sInt 2 "1", Examples.sCallG 4 (Examples.sInt 2 "1")],
        TemplateTypeContext.New⟩, g) := by
  have hssa : SingleAssignment Examples.dUpdate := by
    rw [SingleAssignment_iff]
    simp [SSAFrom, Examples.dUpdate, Examples.sInt, Examples.sStr, Examples.sCallG,
      Statement.GetStatementOperands, Operand.MakeRefOperand, Operand.MakeConstantOperand]
  have h := C3_update_rewiring Examples.dUpdate 0 (Examples.sInt 0 "1") (Examples.sInt 4 "2") 5
    hssa rfl (by decide) (by decide) (by decide)
    (by
      intro o ho a ha
      simp [Examples.sInt, Statement.GetStatementOperands, Operand.MakeConstantOperand] at ho
      subst ho
      cases ha)
    (by decide)
  obtain ⟨d', n', h1, _, _, _, h5⟩ := h
  have e : InplaceMutationByUpdateRewire Examples.dUpdate 0 (Examples.sInt 4 "2") 5 =
      some ([Examples.sInt 4 "2", Examples.sStr, Examples.sCallG 7 (Examples.sInt 4 "2"),
        Examples.sCallG 8 (Examples.sCallG 7 (Examples.sInt 4 "2"))], 9) := by decide
  rw [e] at h1
  cases h1
  exact ⟨hssa, e, h5, _, rfl⟩

end cxxfoozz
